import Mathlib

set_option autoImplicit false

/-!
# go-mcp-example: the report tool, its models and its API client

A shallow embedding of `models/types.go`, `models/reports.go`, `tools/api_client.go`,
`tools/reports_tools.go`, `config/config.go`, `log/logger.go`, `resources/example_resource.go`,
the monthly prompt of `prompts/report_prompts.go` and the lines of `main.go` that build the
logger.

Conventions of the embedding.

* A Go `string` is a Lean `String`: the embedding covers text that is valid UTF-8. Tool
  arguments always are, they come out of a JSON decoder; a base URL or a response body
  with bytes that are not UTF-8 is outside the embedding.
* A Go `int` is an `Int`; the code only compares and prints integers, so no arithmetic can
  overflow, and what holds for every `Int` holds for every 64-bit `int`.
* A Go `error` is its message: `Option String` for a returned `error` (`none` is `nil`),
  and `Except String α` for a `(value, error)` pair of which exactly one is set.
  `fmt.Errorf("...: %w", err)` is the concatenation of the texts.
* A Go `map[string]V` is an association list read by its first binding for a key.
* Calls of the transport are recorded: the functions that can reach the transport take the
  list of requests handed to it so far and return the extended list.
* Logging and the cancellation context are not modelled: they have no effect on what the
  functions return for a given answer of the transport.
* The parts of the Go standard library whose text is computed here (`strconv.Itoa`, the
  verbs of package fmt, `strings.TrimSuffix`, `url.QueryEscape`, `url.Values`,
  `(*URL).String`, `http.Header`, the encoder of encoding/json) follow Go 1.23; the parsers
  that the code calls (`url.Parse`, `(*URL).Query`, `json.Unmarshal`) and the escaping of
  hosts, paths and fragments are parameters, gathered in `StdLib`.
* To read a built query back, `url.QueryUnescape` and `url.ParseQuery` are computed on
  bytes, since what they decode need not be UTF-8.
* `strings.ToLower` and `strconv.Quote` are computed on ASCII and Latin-1; what they do
  above rests on the tables of package unicode, which are parameters, gathered in `Unicode`.
* `flag.FlagSet.Parse` is computed for flags that hold strings; the usage text it prints on
  an error is not modelled.
* To read the texts of the JSON encoder back, the decoder of encoding/json is computed for
  the structs `Reports`, `Error` and `ReportResponse`: a text is read into the JSON value it
  stands for, and the value is stored into the struct after the documentation of
  `json.Unmarshal`; `strconv.ParseFloat` is a parameter of the decoder. The call of
  `json.Unmarshal` on the body of a response, in `fetchReports`, remains the parameter of
  `StdLib`.
-/

namespace GoMcp

/-! ## Formatting helpers of the Go standard library -/

/-- The decimal text of an integer: `strconv.Itoa`, and the verb `%d` of package fmt. -/
def itoa : Int → String
  | Int.ofNat n => Nat.repr n
  | Int.negSucc n => "-" ++ Nat.repr (n + 1)

/-- Substring test on the characters of two strings: `strings.Contains s sub`. -/
def Contains (s sub : String) : Prop := sub.data <:+: s.data

instance (s sub : String) : Decidable (Contains s sub) := by
  unfold Contains; infer_instance

/-- Prefix test: `strings.HasPrefix s pre`. -/
def HasPrefix (s pre : String) : Prop := pre.data <+: s.data

instance (s pre : String) : Decidable (HasPrefix s pre) := by
  unfold HasPrefix; infer_instance

/-! ## models/types.go -/

/-- Go: `type ReportType string`. -/
abbrev ReportType := String

def ReportTypeDevices : ReportType := "devices"

def ReportTypeBrowsers : ReportType := "browsers"

def ReportTypeOperatingSystems : ReportType := "operating-systems"

def ReportTypeLanguages : ReportType := "languages"

def ReportTypeCountries : ReportType := "countries"

def ReportTypeCities : ReportType := "cities"

def ReportTypeTraffic : ReportType := "traffic"

def ReportTypeTopPages : ReportType := "top-pages"

def ReportTypeDownloads : ReportType := "downloads"

def ReportTypeActiveUsers : ReportType := "realtime"

def ReportTypeSources : ReportType := "traffic-sources"

def ReportTypeDomains : ReportType := "domains"

def ReportTypeAgencies : ReportType := "agencies"

/-- The method `String` of `ReportType`: the underlying string. -/
def ReportType.String (rt : ReportType) : String := rt

/-- The method `IsValid`: a `switch` over the thirteen constants, `false` by default. -/
def ReportType.IsValid (rt : ReportType) : Bool :=
  if rt = ReportTypeDevices ∨ rt = ReportTypeBrowsers ∨ rt = ReportTypeOperatingSystems ∨
      rt = ReportTypeLanguages ∨ rt = ReportTypeCountries ∨ rt = ReportTypeCities ∨
      rt = ReportTypeTraffic ∨ rt = ReportTypeTopPages ∨ rt = ReportTypeDownloads ∨
      rt = ReportTypeActiveUsers ∨ rt = ReportTypeSources ∨ rt = ReportTypeDomains ∨
      rt = ReportTypeAgencies then
    true
  else
    false

/-- The function `GetAllReportTypes`: the slice literal of the source, in its order. -/
def GetAllReportTypes : List ReportType :=
  [ReportTypeDevices,
   ReportTypeBrowsers,
   ReportTypeOperatingSystems,
   ReportTypeLanguages,
   ReportTypeCountries,
   ReportTypeCities,
   ReportTypeTraffic,
   ReportTypeTopPages,
   ReportTypeDownloads,
   ReportTypeActiveUsers,
   ReportTypeSources,
   ReportTypeDomains,
   ReportTypeAgencies]

/-- The struct `ReportArgs`: the arguments of the tool call. -/
structure ReportArgs where
  ReportName : String
  Limit : Int := 0
  Page : Int := 0
  After : String := ""
  Before : String := ""
  deriving DecidableEq, Repr

/-! ## models/reports.go -/

/-- The struct `ReportParams`. -/
structure ReportParams where
  Limit : Int := 0
  Page : Int := 0
  After : String := ""
  Before : String := ""
  deriving DecidableEq, Repr

/-- The method `Validate` of `ReportParams`; `none` is the `nil` error. -/
def ReportParams.Validate (p : ReportParams) : Option String :=
  if p.Limit ≠ 0 ∧ (p.Limit < 1 ∨ p.Limit > 10000) then
    some ("limit must be between 1 and 10000, got " ++ itoa p.Limit)
  else if p.Page ≠ 0 ∧ p.Page < 1 then
    some ("page must be >= 1, got " ++ itoa p.Page)
  else
    none

/-- The struct `Error` of an API error response. -/
structure Error where
  Message : String := ""
  RequiredFields : String := ""
  Example : String := ""
  deriving DecidableEq, Repr

/-! ## Go maps -/

/-- A Go `map[string]V`: an association list read by the first binding of a key. -/
abbrev GoMap (V : Type) := List (String × V)

/-- The read `m[k]` with its presence flag. -/
def mapGet {V : Type} (m : GoMap V) (k : String) : Option V := List.lookup k m

/-- The assignment `m[k] = v`: any earlier binding of `k` is dropped. -/
def mapSet {V : Type} (m : GoMap V) (k : String) (v : V) : GoMap V :=
  (k, v) :: m.filter (fun e => e.1 != k)

/-- The distinct keys of the map. -/
def mapKeys {V : Type} (m : GoMap V) : List String := (m.map Prod.fst).dedup

/-! ## net/url: query values -/

/-- The sixteen upper-case hexadecimal digits, `"0123456789ABCDEF"[n]`. -/
def upperhex (n : Nat) : Char :=
  if n < 10 then Char.ofNat (48 + n) else Char.ofNat (55 + n)

/-- The bytes that `shouldEscape` leaves alone in mode `encodeQueryComponent`: the
unreserved characters; every reserved character and every other byte is escaped. -/
def unreservedByte (c : Char) : Bool :=
  c.isAlphanum || c = '-' || c = '_' || c = '.' || c = '~'

/-- The text `%XX` of one byte. -/
def percentByte (b : UInt8) : List Char :=
  ['%', upperhex (b.toNat / 16), upperhex (b.toNat % 16)]

/-- What `escape` writes for one character in mode `encodeQueryComponent`: an unreserved
byte as it is, a space as `+`, every other byte of its UTF-8 encoding as `%XX`. -/
def escapeQueryChar (c : Char) : List Char :=
  if unreservedByte c then [c]
  else if c = ' ' then ['+']
  else (String.utf8EncodeChar c).flatMap percentByte

/-- The function `url.QueryEscape`. -/
def QueryEscape (s : String) : String := ⟨s.data.flatMap escapeQueryChar⟩

/-- Go: `type Values map[string][]string`. -/
abbrev Values := GoMap (List String)

/-- The method `Values.Set`: `v[key] = []string{value}`. -/
def Values.Set (v : Values) (key value : String) : Values := mapSet v key [value]

/-- The method `Values.Get`: the first value of the key, or the empty string. -/
def Values.Get (v : Values) (key : String) : String :=
  match mapGet v key with
  | some (x :: _) => x
  | _ => ""

/-- The order of `slices.Sort` on strings (byte-wise, which on UTF-8 text is the order of
the code points). -/
def sortStrings (keys : List String) : List String :=
  List.insertionSort (fun a b : String => a.data ≤ b.data) keys

/-- The method `Values.Encode`: the keys in sorted order, for each key its values in order,
each written `key=value` with both sides escaped, an `&` before every pair but the first. -/
def Values.Encode (v : Values) : String :=
  (sortStrings (mapKeys v)).foldl
    (fun buf k =>
      let vs := (mapGet v k).getD []
      let keyEscaped := QueryEscape k
      vs.foldl
        (fun buf val =>
          (if buf.length > 0 then buf ++ "&" else buf) ++ keyEscaped ++ "=" ++ QueryEscape val)
        buf)
    ""

/-- The `key=value` pairs that `Values.Encode` writes, in its order. -/
def Values.pairs (v : Values) : List String :=
  (sortStrings (mapKeys v)).flatMap
    (fun k => ((mapGet v k).getD []).map (fun val => QueryEscape k ++ "=" ++ QueryEscape val))

/-! ## net/url: URLs -/

/-- The struct `url.Userinfo`. -/
structure Userinfo where
  username : String := ""
  password : String := ""
  passwordSet : Bool := false
  deriving DecidableEq, Repr

/-- The struct `url.URL`. -/
structure URL where
  Scheme : String := ""
  Opaque : String := ""
  User : Option Userinfo := none
  Host : String := ""
  Path : String := ""
  RawPath : String := ""
  OmitHost : Bool := false
  ForceQuery : Bool := false
  RawQuery : String := ""
  Fragment : String := ""
  RawFragment : String := ""
  deriving DecidableEq, Repr

/-! ## models/reports.go: report records

A Go `float64` is not computed with here. Of a float the code only asks two things, both
inside the JSON encoder, so a float is represented by these two observations. -/

/-- A Go `float64` as encoding/json sees it: whether `omitempty` drops it, and its JSON
text, which is an error for NaN and the infinities (`json: unsupported value`). -/
structure Float64 where
  isZero : Bool := true
  text : Except String String := .ok "0"

/-- The struct `Reports`: one record of an analytics report. -/
structure Reports where
  ID : Int := 0
  ReportName : String := ""
  ReportAgency : String := ""
  Date : String := ""
  ActiveVisitors : Int := 0
  AvgSessionDuration : Float64 := {}
  BounceRate : Float64 := {}
  Browser : String := ""
  City : String := ""
  Country : String := ""
  Device : String := ""
  Domain : String := ""
  EventLabel : String := ""
  FileName : String := ""
  Hour : String := ""
  LandingPage : String := ""
  Language : String := ""
  LanguageCode : String := ""
  MobileDevice : String := ""
  OS : String := ""
  OSVersion : String := ""
  Page : String := ""
  PageTitle : String := ""
  Pageviews : Int := 0
  PageviewsPerSession : Int := 0
  ScreenResolution : String := ""
  SessionDefaultChannelGroup : String := ""
  Source : String := ""
  TotalEvents : Int := 0
  Users : Int := 0
  Visits : Int := 0

/-- The struct `ReportResponse`; `Error` is a pointer, `none` is `nil`. -/
structure ReportResponse where
  Data : List Reports := []
  Error : Option Error := none

/-! ## encoding/json: `json.MarshalIndent (v, "", "  ")` at the type `ReportResponse`

The encoder writes the fields of a struct in declaration order under their `json` names,
leaves out a field tagged `omitempty` when it is zero, and `json.Indent` then puts every
member of an object and every element of an array on a line of its own, two spaces deeper
than the bracket that holds it. -/

/-- The sixteen lower-case hexadecimal digits of package json. -/
def lowerhex (n : Nat) : Char :=
  if n < 10 then Char.ofNat (48 + n) else Char.ofNat (87 + n)

/-- The text `\u00XX` or `\uXXXX` of a code point below 0x10000. -/
def jsonUnicodeEscape (n : Nat) : List Char :=
  ['\\', 'u', lowerhex (n / 4096 % 16), lowerhex (n / 256 % 16), lowerhex (n / 16 % 16),
    lowerhex (n % 16)]

/-- What the encoder writes for one character of a string, with HTML escaping on, as
`json.Marshal` has it. -/
def jsonEscapeChar (c : Char) : List Char :=
  if c = '\\' ∨ c = '"' then ['\\', c]
  else if c.toNat = 8 then ['\\', 'b']
  else if c.toNat = 12 then ['\\', 'f']
  else if c = '\n' then ['\\', 'n']
  else if c = '\r' then ['\\', 'r']
  else if c = '\t' then ['\\', 't']
  else if c.toNat < 32 ∨ c = '<' ∨ c = '>' ∨ c = '&' then jsonUnicodeEscape c.toNat
  else if c.toNat = 0x2028 ∨ c.toNat = 0x2029 then jsonUnicodeEscape c.toNat
  else [c]

/-- A JSON string literal. -/
def jsonString (s : String) : String := ⟨'"' :: s.data.flatMap jsonEscapeChar ++ ['"']⟩

/-- A member of an object that is always written. -/
def jsonField (key value : String) : List (String × String) := [(key, value)]

/-- A string member tagged `omitempty`. -/
def jsonOmitEmptyString (key value : String) : List (String × String) :=
  if value = "" then [] else [(key, jsonString value)]

/-- An integer member tagged `omitempty`. -/
def jsonOmitEmptyInt (key : String) (value : Int) : List (String × String) :=
  if value = 0 then [] else [(key, itoa value)]

/-- A float member tagged `omitempty`; a float that is not zero and has no JSON text makes
the whole encoding fail. -/
def jsonOmitEmptyFloat (key : String) (value : Float64) : Except String (List (String × String)) :=
  if value.isZero then .ok []
  else
    match value.text with
    | .ok t => .ok [(key, t)]
    | .error e => .error e

/-- The members of the JSON object of a record, in the order of the struct fields. -/
def Reports.members (r : Reports) : Except String (List (String × String)) :=
  match jsonOmitEmptyFloat "avg_session_duration" r.AvgSessionDuration with
  | .error e => .error e
  | .ok avg =>
    match jsonOmitEmptyFloat "bounce_rate" r.BounceRate with
    | .error e => .error e
    | .ok bounce =>
      .ok (jsonField "id" (itoa r.ID) ++
        jsonField "report_name" (jsonString r.ReportName) ++
        jsonField "report_agency" (jsonString r.ReportAgency) ++
        jsonField "date" (jsonString r.Date) ++
        jsonOmitEmptyInt "active_visitors" r.ActiveVisitors ++
        avg ++
        bounce ++
        jsonOmitEmptyString "browser" r.Browser ++
        jsonOmitEmptyString "city" r.City ++
        jsonOmitEmptyString "country" r.Country ++
        jsonOmitEmptyString "device" r.Device ++
        jsonOmitEmptyString "domain" r.Domain ++
        jsonOmitEmptyString "event_label" r.EventLabel ++
        jsonOmitEmptyString "file_name" r.FileName ++
        jsonOmitEmptyString "hour" r.Hour ++
        jsonOmitEmptyString "landing_page" r.LandingPage ++
        jsonOmitEmptyString "language" r.Language ++
        jsonOmitEmptyString "language_code" r.LanguageCode ++
        jsonOmitEmptyString "mobile_device" r.MobileDevice ++
        jsonOmitEmptyString "os" r.OS ++
        jsonOmitEmptyString "os_version" r.OSVersion ++
        jsonOmitEmptyString "page" r.Page ++
        jsonOmitEmptyString "page_title" r.PageTitle ++
        jsonOmitEmptyInt "pageviews" r.Pageviews ++
        jsonOmitEmptyInt "pageviews_per_session" r.PageviewsPerSession ++
        jsonOmitEmptyString "screen_resolution" r.ScreenResolution ++
        jsonOmitEmptyString "session_default_channel_group" r.SessionDefaultChannelGroup ++
        jsonOmitEmptyString "source" r.Source ++
        jsonOmitEmptyInt "total_events" r.TotalEvents ++
        jsonOmitEmptyInt "users" r.Users ++
        jsonOmitEmptyInt "visits" r.Visits)

/-- The members of the JSON object of an `Error`. -/
def Error.members (e : Error) : List (String × String) :=
  jsonField "message" (jsonString e.Message) ++
  jsonOmitEmptyString "required_fields" e.RequiredFields ++
  jsonOmitEmptyString "example" e.Example

/-- The indentation of a line at nesting depth `depth`: two spaces per level. -/
def jsonIndent (depth : Nat) : String := String.join (List.replicate depth "  ")

/-- An object whose bracket stands at depth `depth`, its member values already laid out for
depth `depth + 1`; an empty object stays `{}`. -/
def indentObject (depth : Nat) (members : List (String × String)) : String :=
  if members = [] then "\x7b\x7d"
  else
    "\x7b\n" ++
    ",\n".intercalate
      (members.map (fun m => jsonIndent (depth + 1) ++ "\"" ++ m.1 ++ "\": " ++ m.2)) ++
    "\n" ++ jsonIndent depth ++ "\x7d"

/-- An array whose bracket stands at depth `depth`, its elements already laid out for depth
`depth + 1`; an empty array stays `[]`. -/
def indentArray (depth : Nat) (elems : List String) : String :=
  if elems = [] then "[]"
  else
    "[\n" ++ ",\n".intercalate (elems.map (fun e => jsonIndent (depth + 1) ++ e)) ++
    "\n" ++ jsonIndent depth ++ "]"

/-- The records of the `data` array, each laid out as an object at depth 2; the first record
that cannot be encoded fails the whole encoding. -/
def marshalRecords : List Reports → Except String (List String)
  | [] => .ok []
  | r :: rest =>
    match r.members with
    | .error e => .error e
    | .ok ms =>
      match marshalRecords rest with
      | .error e => .error e
      | .ok out => .ok (indentObject 2 ms :: out)

/-- The call `json.MarshalIndent (response, "", "  ")` for a `ReportResponse`. A `nil` slice
of records, which Go writes as `null`, is not told apart from the empty slice; `GetReport`
only encodes slices that are not empty. -/
def MarshalIndent (response : ReportResponse) : Except String String :=
  match marshalRecords response.Data with
  | .error e => .error ("json: unsupported value: " ++ e)
  | .ok recs =>
    .ok (indentObject 0
      (jsonField "data" (indentArray 1 recs) ++
        (match response.Error with
         | none => []
         | some e => jsonField "error" (indentObject 1 e.members))))

/-! ## net/http and the standard library taken as given -/

/-- Go: `type Header map[string][]string`. -/
abbrev Header := GoMap (List String)

/-- The bytes of an HTTP token, `validHeaderFieldByte`. -/
def validHeaderFieldByte (c : Char) : Bool :=
  c.isAlphanum || "!#$%&'*+-.^_`|~".data.contains c

/-- The letter case of a canonical header key: upper case at the start and after each `-`,
lower case elsewhere. -/
def canonicalCase : Bool → List Char → List Char
  | _, [] => []
  | upper, c :: cs =>
    let c := if upper then c.toUpper else c.toLower
    c :: canonicalCase (c = '-') cs

/-- The function `textproto.CanonicalMIMEHeaderKey`: a key made of token bytes only is put in
canonical case, any other key is returned unchanged. -/
def CanonicalMIMEHeaderKey (s : String) : String :=
  if s.data.all validHeaderFieldByte then ⟨canonicalCase true s.data⟩ else s

/-- The method `Header.Set`: the canonical key is bound to the single value. -/
def Header.Set (h : Header) (key value : String) : Header :=
  mapSet h (CanonicalMIMEHeaderKey key) [value]

/-- An outgoing `http.Request`, as far as the code fills it in: the method, the URL string
it was created for and the headers. -/
structure Request where
  Method : String
  URL : String
  Header : Header := []
  deriving DecidableEq, Repr

/-- An `http.Response` as the code reads it: the status code and what `io.ReadAll` returns
for the body (its text, or the read error). -/
structure Response where
  StatusCode : Int
  Body : Except String String

/-- The interface `HTTPClientInterface`: the method `Do`. -/
abbrev HTTPClientInterface := Request → Except String Response

/-- Functions of the Go standard library that are taken as given. -/
structure StdLib where
  /-- The function `url.Parse`. -/
  urlParse : String → Except String URL
  /-- The function `url.ParseQuery` as `(*URL).Query` calls it, its error dropped. -/
  parseQuery : String → Values
  /-- The text of `(*Userinfo).String`. -/
  userinfoString : Userinfo → String
  /-- The text of `escape (host, encodeHost)`. -/
  escapeHost : String → String
  /-- The method `(*URL).EscapedPath`, which reads `Path` and `RawPath`. -/
  escapedPath : String → String → String
  /-- The method `(*URL).EscapedFragment`, which reads `Fragment` and `RawFragment`. -/
  escapedFragment : String → String → String
  /-- The call `json.Unmarshal (body, &reports)` for `reports` of type `[]models.Reports`:
  what the call leaves in `reports`, which may hold records decoded before a failure, and
  the error it returns. -/
  unmarshalReports : String → List Reports × Option String

/-- The method `(*URL).Query`. -/
def URL.Query (lib : StdLib) (u : URL) : Values := lib.parseQuery u.RawQuery

/-- The method `(*URL).String`. -/
def URL.String (lib : StdLib) (u : URL) : String :=
  let buf := if u.Scheme ≠ "" then u.Scheme ++ ":" else ""
  let buf :=
    if u.Opaque ≠ "" then buf ++ u.Opaque
    else
      let buf :=
        if u.Scheme ≠ "" ∨ u.Host ≠ "" ∨ u.User ≠ none then
          if u.OmitHost ∧ u.Host = "" ∧ u.User = none then buf
          else
            let buf := if u.Host ≠ "" ∨ u.Path ≠ "" ∨ u.User ≠ none then buf ++ "//" else buf
            let buf :=
              match u.User with
              | some ui => buf ++ lib.userinfoString ui ++ "@"
              | none => buf
            if u.Host ≠ "" then buf ++ lib.escapeHost u.Host else buf
        else buf
      let path := lib.escapedPath u.Path u.RawPath
      let buf :=
        if path ≠ "" ∧ path.data.head? ≠ some '/' ∧ u.Host ≠ "" then buf ++ "/" else buf
      let buf :=
        if buf = "" ∧ ':' ∈ path.data.takeWhile (fun c => c ≠ '/') then buf ++ "./" else buf
      buf ++ path
  let buf := if u.ForceQuery ∨ u.RawQuery ≠ "" then buf ++ "?" ++ u.RawQuery else buf
  if u.Fragment ≠ "" then buf ++ "#" ++ lib.escapedFragment u.Fragment u.RawFragment else buf

/-- The function `http.NewRequestWithContext` for a method that is valid and no body: it
fails exactly when the URL does not parse, with the error of `url.Parse`. -/
def NewRequestWithContext (lib : StdLib) (method url : String) : Except String Request :=
  match lib.urlParse url with
  | .error err => .error err
  | .ok _ => .ok { Method := method, URL := url, Header := [] }

/-! ## tools/api_client.go -/

/-- The struct `APIClient`. -/
structure APIClient where
  BaseURL : String
  APIKey : String
  HTTPClient : HTTPClientInterface

/-- The method `HTTPHeaders`. -/
def APIClient.HTTPHeaders (c : APIClient) : GoMap String :=
  let headers : GoMap String := []
  let headers := mapSet headers "Content-Type" "application/json"
  let headers := mapSet headers "Accept" "application/json"
  if c.APIKey ≠ "" then mapSet headers "X-API-KEY" c.APIKey else headers

/-- The method `DoRequest`: every entry of `HTTPHeaders` is set on the request, which is
then handed to the transport. `sent` lists the requests handed to the transport so far. -/
def APIClient.DoRequest (c : APIClient) (req : Request) (sent : List Request) :
    Except String Response × List Request :=
  let headers := c.HTTPHeaders
  let req := headers.foldl (fun r kv => { r with Header := Header.Set r.Header kv.1 kv.2 }) req
  (c.HTTPClient req, sent ++ [req])

/-! ## tools/reports_tools.go -/

/-- The struct `mcp.TextContent`. -/
structure TextContent where
  Text : String
  deriving DecidableEq, Repr

/-- The struct `mcp.CallToolResultFor`: its content items and the error flag. -/
structure CallToolResult where
  Content : List TextContent
  IsError : Bool := false
  deriving DecidableEq, Repr

/-- The struct `ReportsTool`; of its fields only the API client is read. -/
structure ReportsTool where
  apiClient : APIClient

/-- The verb `%v` of package fmt at a `[]ReportType`: the elements, each by its method
`String`, separated by spaces, in square brackets. -/
def fmtReportTypes (xs : List ReportType) : String :=
  "[" ++ " ".intercalate (xs.map ReportType.String) ++ "]"

/-- The method `buildReportsURL`. -/
def ReportsTool.buildReportsURL (lib : StdLib) (rt : ReportsTool) (reportName : String)
    (params : ReportParams) : Except String String :=
  let baseURL := rt.apiClient.BaseURL ++ "/reports/" ++ reportName ++ "/data"
  match lib.urlParse baseURL with
  | .error err => .error ("invalid base URL: " ++ err)
  | .ok u =>
    let q := u.Query lib
    let q := if params.Limit > 0 then Values.Set q "limit" (itoa params.Limit) else q
    let q := if params.Page > 0 then Values.Set q "page" (itoa params.Page) else q
    let q := if params.After ≠ "" then Values.Set q "after" params.After else q
    let q := if params.Before ≠ "" then Values.Set q "before" params.Before else q
    let u := { u with RawQuery := Values.Encode q }
    .ok (u.String lib)

/-- The method `fetchReports`; `sent` lists the requests handed to the transport so far. -/
def ReportsTool.fetchReports (lib : StdLib) (rt : ReportsTool) (apiURL : String)
    (sent : List Request) : Except String (List Reports) × List Request :=
  match NewRequestWithContext lib "GET" apiURL with
  | .error err => (.error ("failed to create request: " ++ err), sent)
  | .ok req =>
    match rt.apiClient.DoRequest req sent with
    | (.error err, sent) => (.error ("HTTP request failed: " ++ err), sent)
    | (.ok resp, sent) =>
      match resp.Body with
      | .error err => (.error ("failed to read response: " ++ err), sent)
      | .ok body =>
        if resp.StatusCode ≠ 200 then
          (.error ("API request failed with status " ++ itoa resp.StatusCode ++ ": " ++ body),
            sent)
        else
          match lib.unmarshalReports body with
          | (_, some parseErr) =>
            (.error ("failed to parse JSON response: " ++ parseErr), sent)
          | (reports, none) => (.ok reports, sent)

/-- What `GetReport` returns: the Go pair of a result pointer and an error, and the requests
handed to the transport. -/
structure GetReportReturn where
  result : Option CallToolResult
  err : Option String
  sent : List Request
  deriving DecidableEq, Repr

/-- The method `GetReport`, the handler of the tool `get_report`. -/
def ReportsTool.GetReport (lib : StdLib) (rt : ReportsTool) (args : ReportArgs)
    (sent : List Request) : GetReportReturn :=
  let reportType : ReportType := args.ReportName
  if ¬ ReportType.IsValid reportType then
    { result := none,
      err := some ("invalid report type '" ++ args.ReportName ++ "'. Valid types: " ++
        fmtReportTypes GetAllReportTypes),
      sent := sent }
  else
    let reportParams : ReportParams :=
      { Limit := args.Limit, Page := args.Page, After := args.After, Before := args.Before }
    let reportParams :=
      if reportParams.Limit = 0 then { reportParams with Limit := 1000 } else reportParams
    let reportParams :=
      if reportParams.Page = 0 then { reportParams with Page := 1 } else reportParams
    match reportParams.Validate with
    | some err => { result := none, err := some ("invalid parameters: " ++ err), sent := sent }
    | none =>
      match rt.buildReportsURL lib args.ReportName reportParams with
      | .error err =>
        { result := none, err := some ("failed to build API URL: " ++ err), sent := sent }
      | .ok apiURL =>
        match rt.fetchReports lib apiURL sent with
        | (.error fetchErr, sent) =>
          { result := some { Content := [⟨"Request failed: " ++ fetchErr⟩], IsError := true },
            err := none, sent := sent }
        | (.ok reports, sent) =>
          if reports.length = 0 then
            { result := some { Content := [⟨"No data found for report: " ++ args.ReportName⟩],
                               IsError := true },
              err := none, sent := sent }
          else
            let response : ReportResponse := { Data := reports }
            match MarshalIndent response with
            | .error err =>
              { result := none, err := some ("failed to marshal response: " ++ err),
                sent := sent }
            | .ok responseJSON =>
              { result := some { Content := [⟨"Analytics Report: " ++ args.ReportName ++
                  "\n\nFound " ++ itoa reports.length ++ " records:\n\n" ++ responseJSON⟩] },
                err := none, sent := sent }

/-! ## strings, and the rest of tools/api_client.go -/

/-- Suffix test: `strings.HasSuffix s suf`. -/
def HasSuffix (s suf : String) : Prop := suf.data <:+ s.data

instance (s suf : String) : Decidable (HasSuffix s suf) := by
  unfold HasSuffix; infer_instance

/-- The function `strings.TrimSuffix`: `s` without the suffix when it ends with it, `s`
otherwise. -/
def TrimSuffix (s suf : String) : String :=
  if suf.data <:+ s.data then ⟨s.data.take (s.data.length - suf.data.length)⟩ else s

/-- The function `NewAPIClient`; `defaultClient` stands for the `&http.Client` it creates. -/
def NewAPIClient (defaultClient : HTTPClientInterface) (baseURL apiKey : String) : APIClient :=
  { BaseURL := TrimSuffix baseURL "/", APIKey := apiKey, HTTPClient := defaultClient }

/-- The function `NewAPIClientWithHTTPClient`. -/
def NewAPIClientWithHTTPClient (baseURL apiKey : String) (httpClient : HTTPClientInterface) :
    APIClient :=
  { BaseURL := TrimSuffix baseURL "/", APIKey := apiKey, HTTPClient := httpClient }

/-- The method `Header.Values`: the values bound to the canonical form of the key. -/
def Header.Values (h : Header) (key : String) : List String :=
  (mapGet h (CanonicalMIMEHeaderKey key)).getD []

/-- The method `Header.Get`: the first value bound to the canonical form of the key, or
the empty string. -/
def Header.Get (h : Header) (key : String) : String :=
  match mapGet h (CanonicalMIMEHeaderKey key) with
  | some (v :: _) => v
  | _ => ""

/-! ## net/url: reading a query back

A decoded key or value is a Go string that need not be UTF-8, so it is kept as its bytes. -/

/-- The bytes of a Go string: the UTF-8 encoding of its characters. -/
def goBytes (s : String) : List UInt8 := s.data.flatMap String.utf8EncodeChar

/-- The functions `ishex` and `unhex`: the value of a hexadecimal digit. -/
def unhex (c : Char) : Option Nat :=
  if '0' ≤ c ∧ c ≤ '9' then some (c.toNat - 48)
  else if 'a' ≤ c ∧ c ≤ 'f' then some (c.toNat - 97 + 10)
  else if 'A' ≤ c ∧ c ≤ 'F' then some (c.toNat - 65 + 10)
  else none

/-- What `unescape` does in mode `encodeQueryComponent`, as `url.QueryUnescape` calls it:
`%XX` is the byte `XX`, `+` is a space, every other character stands for itself; a `%` that
is not followed by two hexadecimal digits is an `EscapeError`, which holds the first three
bytes from that `%` on. -/
def unescapeQuery : List Char → Except (List UInt8) (List UInt8)
  | [] => .ok []
  | c :: rest =>
    if c = '%' then
      match rest with
      | h1 :: h2 :: rest' =>
        match unhex h1, unhex h2 with
        | some a, some b =>
          match unescapeQuery rest' with
          | .ok out => .ok (UInt8.ofNat (a * 16 + b) :: out)
          | .error e => .error e
        | _, _ => .error ((goBytes ⟨c :: rest⟩).take 3)
      | _ => .error ((goBytes ⟨c :: rest⟩).take 3)
    else
      match unescapeQuery rest with
      | .ok out => .ok ((if c = '+' then [32] else String.utf8EncodeChar c) ++ out)
      | .error e => .error e

/-- The function `url.QueryUnescape`. -/
def QueryUnescape (s : String) : Except (List UInt8) (List UInt8) := unescapeQuery s.data

/-- The pieces of a text between the occurrences of a separator: what repeated
`strings.Cut` yields. -/
def splitOnChar (sep : Char) : List Char → List (List Char)
  | [] => [[]]
  | c :: cs =>
    if c = sep then [] :: splitOnChar sep cs
    else
      match splitOnChar sep cs with
      | [] => [[c]]
      | piece :: pieces => (c :: piece) :: pieces

/-- The call `strings.Cut (s, "=")` of `parseQuery`: the text before the first `=` and the
text after it, which is empty when there is none. -/
def cutEq (s : List Char) : List Char × List Char :=
  ((s.span (fun c => c ≠ '=')).1, (s.span (fun c => c ≠ '=')).2.drop 1)

/-- The errors of `url.ParseQuery`. -/
inductive QueryError where
  | semicolon
  | badEscape (text : List UInt8)
  deriving DecidableEq, Repr

/-- The values of a parsed query, keyed by the bytes of the decoded keys. -/
abbrev ByteValues := List (List UInt8 × List (List UInt8))

/-- The values bound to a key, none when the key is absent. -/
def byteValuesOf (m : ByteValues) (key : List UInt8) : List (List UInt8) :=
  (List.lookup key m).getD []

/-- The statement `m[key] = append (m[key], value)`. -/
def byteValuesAdd (m : ByteValues) (key value : List UInt8) : ByteValues :=
  (key, byteValuesOf m key ++ [value]) :: m.filter (fun e => e.1 != key)

/-- One turn of the loop of `parseQuery`, for the piece `piece` of the query. -/
def parseQueryPiece (st : ByteValues × Option QueryError) (piece : List Char) :
    ByteValues × Option QueryError :=
  if ';' ∈ piece then (st.1, some QueryError.semicolon)
  else if piece = [] then st
  else
    match unescapeQuery (cutEq piece).1 with
    | .error e => (st.1, st.2.orElse (fun _ => some (QueryError.badEscape e)))
    | .ok key =>
      match unescapeQuery (cutEq piece).2 with
      | .error e => (st.1, st.2.orElse (fun _ => some (QueryError.badEscape e)))
      | .ok value => (byteValuesAdd st.1 key value, st.2)

/-- The function `url.ParseQuery`: the query is cut at every `&` and the pieces are handled
in order; the values read and the error are both returned. -/
def ParseQuery (query : String) : ByteValues × Option QueryError :=
  (splitOnChar '&' query.data).foldl parseQueryPiece ([], none)


/-! ## encoding/json: `json.Marshal` at the types `Reports` and `ReportArgs` -/

/-- An object as `json.Marshal` writes it: no white space between the tokens. -/
def compactObject (members : List (String × String)) : String :=
  "\x7b" ++ ",".intercalate (members.map (fun m => "\"" ++ m.1 ++ "\":" ++ m.2)) ++ "\x7d"

/-- The call `json.Marshal (r)` for a record. -/
def Reports.Marshal (r : Reports) : Except String String :=
  match r.members with
  | .error e => .error ("json: unsupported value: " ++ e)
  | .ok ms => .ok (compactObject ms)

/-- The members of the JSON object of a `ReportArgs`, in the order of the struct fields. -/
def ReportArgs.members (a : ReportArgs) : List (String × String) :=
  jsonField "report_name" (jsonString a.ReportName) ++
  jsonOmitEmptyInt "limit" a.Limit ++
  jsonOmitEmptyInt "page" a.Page ++
  jsonOmitEmptyString "after" a.After ++
  jsonOmitEmptyString "before" a.Before

/-- The call `json.Marshal (args)` for a `ReportArgs`; it has no field that can fail. -/
def ReportArgs.Marshal (a : ReportArgs) : String := compactObject a.members

/-! ## unicode, strings and strconv -/

/-- The tables of package unicode, taken as given. -/
structure Unicode where
  /-- The lower case of a rune above `unicode.MaxASCII`: `unicode.To (unicode.LowerCase, r)`. -/
  toLower : Char → Char
  /-- Whether `strconv.IsPrint` holds of a rune above 0xFF. -/
  isPrint : Char → Bool

/-- The function `unicode.ToLower`: up to `unicode.MaxASCII` the letters `A` to `Z` are moved
to `a` to `z` and nothing else changes; above it the tables decide. -/
def unicodeToLower (uni : Unicode) (r : Char) : Char :=
  if r.val ≤ 0x7f then r.toLower else uni.toLower r

/-- The function `strings.ToLower`: every rune is mapped by `unicode.ToLower`. -/
def ToLower (uni : Unicode) (s : String) : String := ⟨s.data.map (unicodeToLower uni)⟩

/-- The function `strconv.IsPrint`. -/
def IsPrint (uni : Unicode) (r : Char) : Bool :=
  if r.val ≤ 0xFF then
    (0x20 ≤ r.val ∧ r.val ≤ 0x7E) ∨ (0xA1 ≤ r.val ∧ r.val ≠ 0xAD)
  else uni.isPrint r

/-- What `strconv.Quote` writes for one rune. -/
def quoteRune (uni : Unicode) (r : Char) : List Char :=
  if r = '"' ∨ r = '\\' then ['\\', r]
  else if IsPrint uni r then [r]
  else if r.toNat = 7 then ['\\', 'a']
  else if r.toNat = 8 then ['\\', 'b']
  else if r.toNat = 12 then ['\\', 'f']
  else if r = '\n' then ['\\', 'n']
  else if r = '\r' then ['\\', 'r']
  else if r = '\t' then ['\\', 't']
  else if r.toNat = 11 then ['\\', 'v']
  else if r.toNat < 32 ∨ r.toNat = 0x7f then
    ['\\', 'x', lowerhex (r.toNat / 16), lowerhex (r.toNat % 16)]
  else if r.toNat < 0x10000 then jsonUnicodeEscape r.toNat
  else
    ['\\', 'U', lowerhex (r.toNat / 0x10000000 % 16), lowerhex (r.toNat / 0x1000000 % 16),
      lowerhex (r.toNat / 0x100000 % 16), lowerhex (r.toNat / 0x10000 % 16),
      lowerhex (r.toNat / 0x1000 % 16), lowerhex (r.toNat / 0x100 % 16),
      lowerhex (r.toNat / 0x10 % 16), lowerhex (r.toNat % 16)]

/-- The function `strconv.Quote`, which is the verb `%q` of package fmt at a string. -/
def Quote (uni : Unicode) (s : String) : String :=
  ⟨'"' :: s.data.flatMap (quoteRune uni) ++ ['"']⟩

/-! ## log/logger.go -/

/-- The type `slog.Level`, an integer. -/
abbrev Level := Int

/-- The constant `slog.LevelDebug`. -/
def LevelDebug : Level := -4

/-- The constant `slog.LevelInfo`. -/
def LevelInfo : Level := 0

/-- The constant `slog.LevelWarn`. -/
def LevelWarn : Level := 4

/-- The constant `slog.LevelError`. -/
def LevelError : Level := 8

/-- The function `ParseLevel`. -/
def ParseLevel (uni : Unicode) (level : String) : Level :=
  if ToLower uni level = "debug" then LevelDebug
  else if ToLower uni level = "info" then LevelInfo
  else if ToLower uni level = "warn" then LevelWarn
  else if ToLower uni level = "error" then LevelError
  else LevelInfo

/-- The two handlers that `New` chooses between: `slog.NewTextHandler` and
`slog.NewJSONHandler`, both writing to the standard error stream. -/
inductive HandlerKind where
  | text
  | json
  deriving DecidableEq, Repr

/-- What is told of a `*slog.Logger`: the level and the kind of its handler. -/
structure Logger where
  Level : Level
  Handler : HandlerKind
  deriving DecidableEq, Repr

/-- The function `New` of package log. -/
def New (uni : Unicode) (level : String) (useTextFormat : Bool) : Logger :=
  { Level := ParseLevel uni level,
    Handler := if useTextFormat then HandlerKind.text else HandlerKind.json }

/-! ## config/config.go -/

/-- The struct `Config`. -/
structure Config where
  HTTPAddr : String := ""
  LogLevel : String := ""
  LogFormat : String := ""
  APIKey : String := ""
  APIBaseURL : String := ""
  deriving DecidableEq, Repr

/-- The environment of the process: the variables that are set, with their values. -/
abbrev Environ := GoMap String

/-- The function `os.Getenv`: the value of the variable, empty when it is not set. -/
def Getenv (env : Environ) (key : String) : String := (mapGet env key).getD ""

/-- The function `GetEnv`. -/
def GetEnv (env : Environ) (key defaultValue : String) : String :=
  if Getenv env key ≠ "" then Getenv env key else defaultValue

/-- The method `Validate` of `Config`; `none` is the `nil` error. -/
def Config.Validate (lib : StdLib) (uni : Unicode) (c : Config) : Option String :=
  let validLogLevels := ["debug", "info", "warn", "error"]
  if ¬ ToLower uni c.LogLevel ∈ validLogLevels then
    some ("invalid log level '" ++ c.LogLevel ++ "', must be one of: " ++
      ", ".intercalate validLogLevels)
  else
    let validLogFormats := ["json", "text"]
    if ¬ ToLower uni c.LogFormat ∈ validLogFormats then
      some ("invalid log format '" ++ c.LogFormat ++ "', must be one of: " ++
        ", ".intercalate validLogFormats)
    else
      match (if c.APIBaseURL ≠ "" then
          (match lib.urlParse c.APIBaseURL with
           | .error err => some ("invalid API base URL '" ++ c.APIBaseURL ++ "': " ++ err)
           | .ok _ => none)
        else none) with
      | some err => some err
      | none =>
        if c.HTTPAddr ≠ "" ∧ ¬ Contains c.HTTPAddr ":" then
          some ("invalid HTTP address '" ++ c.HTTPAddr ++
            "', expected format 'host:port' or ':port'")
        else none

/-- The name and the value, if it is written with `=`, of a flag argument whose minus signs
have been taken off: the argument is cut at the first `=` after its first character. -/
def flagNameValue (name : List Char) : List Char × Option (List Char) :=
  match name with
  | [] => ([], none)
  | c :: rest =>
    match (rest.span (fun x => x ≠ '=')).2 with
    | [] => (c :: rest, none)
    | _ :: value => (c :: (rest.span (fun x => x ≠ '=')).1, some value)

/-- The method `Parse` of a `flag.FlagSet` whose flags all hold strings and whose error
handling is `flag.ContinueOnError`: `formal` binds every defined flag to its value. The
arguments are read from the left; reading stops without an error at the first argument
that is not a flag and after `--`. -/
def flagParse (formal : GoMap String) : List String → Except String (GoMap String)
  | [] => .ok formal
  | s :: rest =>
    match s.data with
    | '-' :: c :: more =>
      if c = '-' ∧ more = [] then .ok formal
      else
        let name := if c = '-' then more else c :: more
        if name.head? = some '-' ∨ name.head? = some '=' ∨ name = [] then
          .error ("bad flag syntax: " ++ s)
        else
          let nv := flagNameValue name
          match mapGet formal ⟨nv.1⟩ with
          | none =>
            if nv.1 = "help".data ∨ nv.1 = "h".data then .error "flag: help requested"
            else .error ("flag provided but not defined: -" ++ ⟨nv.1⟩)
          | some _ =>
            match nv.2 with
            | some value => flagParse (mapSet formal ⟨nv.1⟩ ⟨value⟩) rest
            | none =>
              match rest with
              | value :: rest' => flagParse (mapSet formal ⟨nv.1⟩ value) rest'
              | [] => .error ("flag needs an argument: -" ++ ⟨nv.1⟩)
    | _ => .ok formal

/-- The function `Load`. `osArgs` is `os.Args[1:]`, the arguments of the command line, and
`args` the variadic parameter, of which the first element, if there is one, is parsed
instead. -/
def Load (lib : StdLib) (uni : Unicode) (env : Environ) (osArgs : List String)
    (args : List (List String)) : Except String Config :=
  let fs : GoMap String :=
    [("http", GetEnv env "HTTP_ADDR" ""),
     ("log-level", GetEnv env "LOG_LEVEL" "info"),
     ("log-format", GetEnv env "LOG_FORMAT" "json"),
     ("api-base-url", GetEnv env "API_BASE_URL" "https://api.gsa.gov/analytics/dap/v2")]
  let argsToUse :=
    match args with
    | first :: _ => first
    | [] => osArgs
  match flagParse fs argsToUse with
  | .error err => .error ("failed to parse flags: " ++ err)
  | .ok fs =>
    let cfg : Config :=
      { HTTPAddr := (mapGet fs "http").getD "",
        LogLevel := (mapGet fs "log-level").getD "",
        LogFormat := (mapGet fs "log-format").getD "",
        APIKey := Getenv env "API_KEY",
        APIBaseURL := (mapGet fs "api-base-url").getD "" }
    match cfg.Validate lib uni with
    | some err => .error err
    | none => .ok cfg

/-! ## main.go -/

/-- The logger that `main` builds from the loaded configuration. -/
def mainLogger (uni : Unicode) (cfg : Config) : Logger :=
  let useTextFormat : Bool := cfg.LogFormat = "text"
  New uni cfg.LogLevel useTextFormat

/-! ## resources/example_resource.go -/

/-- The table `EmbeddedResources`. -/
def EmbeddedResources : GoMap String := [("info", "This is the hello example server.")]

/-- The struct `mcp.ResourceContents`, of which the handler sets three fields. -/
structure ResourceContents where
  URI : String
  MIMEType : String
  Text : String
  deriving DecidableEq, Repr

/-- The struct `mcp.ReadResourceResult`. -/
structure ReadResourceResult where
  Contents : List ResourceContents
  deriving DecidableEq, Repr

/-- The method `HandleEmbeddedResource`, at the URI of the request: it returns a result
or an error, never both. -/
def HandleEmbeddedResource (lib : StdLib) (uni : Unicode) (uri : String) :
    Except String ReadResourceResult :=
  match lib.urlParse uri with
  | .error err => .error err
  | .ok u =>
    if u.Scheme ≠ "embedded" then .error ("wrong scheme: " ++ Quote uni u.Scheme)
    else
      let key := u.Opaque
      match mapGet EmbeddedResources key with
      | none => .error ("no embedded resource named " ++ Quote uni key)
      | some text =>
        .ok { Contents := [{ URI := uri, MIMEType := "text/plain", Text := text }] }

/-! ## prompts/report_prompts.go -/

/-- The struct `mcp.PromptMessage` with a text content. -/
structure PromptMessage where
  Role : String
  Text : String
  deriving DecidableEq, Repr

/-- The struct `mcp.GetPromptResult`. -/
structure GetPromptResult where
  Description : String
  Messages : List PromptMessage
  deriving DecidableEq, Repr

/-- The function `buildMonthlyReportText`. -/
def buildMonthlyReportText (month year : String) : String :=
  let dateRange :=
    "after=\"" ++ year ++ "-" ++ month ++ "-01\", before=\"" ++ year ++ "-" ++ month ++ "-31\""
  "Generate a comprehensive monthly analytics report for " ++ month ++ "/" ++ year ++
    ". Please:\n\n1. Use get_report(\"traffic\", " ++ dateRange ++
    ") for traffic data\n2. Use get_report(\"devices\", " ++ dateRange ++
    ") for device breakdown\n3. Use get_report(\"top-pages\", " ++ dateRange ++
    ") for content performance\n4. Use get_report(\"countries\", " ++ dateRange ++
    ") for geographic data\n\nCreate a comprehensive report with:\n" ++
    "- Executive summary of key metrics\n" ++
    "- Traffic trends and growth patterns\n" ++
    "- User demographics and behavior\n" ++
    "- Content performance analysis\n" ++
    "- Geographic distribution insights\n" ++
    "- Month-over-month comparisons (if available)\n" ++
    "- Recommendations for the next month"

/-- The method `MonthlyReportPrompt`, at the arguments of the request; it never returns an
error. An argument that is not given reads as the empty string. -/
def MonthlyReportPrompt (arguments : GoMap String) : GetPromptResult :=
  let month := (mapGet arguments "month").getD ""
  let year := (mapGet arguments "year").getD ""
  let my : String × String := if month = "" ∨ year = "" then ("01", "2024") else (month, year)
  { Description := "Generate comprehensive monthly analytics report",
    Messages := [{ Role := "user", Text := buildMonthlyReportText my.1 my.2 }] }

/-! ## encoding/json: reading JSON

The scanner of encoding/json accepts the texts of RFC 8259, and `json.Unmarshal` checks the
whole text with it before it stores anything. Here a text is first read into the value it
stands for and the value is then stored into the struct, which gives the same results
whenever the text is valid; `none` stands for every error of `json.Unmarshal`, and what
the call leaves in its target in that case is not told. -/

/-- A JSON value. A number keeps its text: what it is worth depends on the Go type it is
stored into. -/
inductive Json where
  | null
  | bool (b : Bool)
  | number (text : String)
  | string (s : String)
  | array (elems : List Json)
  | object (members : List (String × Json))

/-- The four characters that the scanner skips between tokens. -/
def isJsonSpace (c : Char) : Bool := c = ' ' || c = '\t' || c = '\r' || c = '\n'

/-- The input without its leading white space. -/
def skipSpace : List Char → List Char
  | [] => []
  | c :: rest => if isJsonSpace c then skipSpace rest else c :: rest

/-- The number that four hexadecimal digits stand for, in either case of the letters. -/
def hex4 (a b c d : Char) : Option Nat :=
  match unhex a, unhex b, unhex c, unhex d with
  | some x, some y, some z, some w => some (x * 4096 + y * 256 + z * 16 + w)
  | _, _, _, _ => none

/-- The character of a one-letter escape of a JSON string. -/
def simpleEscape (e : Char) : Option Char :=
  if e = '"' then some '"'
  else if e = '\\' then some '\\'
  else if e = '/' then some '/'
  else if e = 'b' then some (Char.ofNat 8)
  else if e = 'f' then some (Char.ofNat 12)
  else if e = 'n' then some '\n'
  else if e = 'r' then some '\r'
  else if e = 't' then some '\t'
  else none

/-- The escape `\uXXXX` of a low surrogate at the head of the input: its value and the input
that follows. -/
def lowSurrogate : List Char → Option (Nat × List Char)
  | b :: u :: l1 :: l2 :: l3 :: l4 :: rest =>
    if b = '\\' ∧ u = 'u' then
      match hex4 l1 l2 l3 l4 with
      | some m => if 0xDC00 ≤ m ∧ m < 0xE000 then some (m, rest) else none
      | none => none
    else none
  | _ => none

/-- An escape of a JSON string from behind its backslash: the character it stands for and
the input that follows. An escape `\uXXXX` of a high surrogate that is followed by the escape
of a low surrogate stands for the one character of the pair; any other surrogate stands for
U+FFFD. -/
def readEscape : List Char → Option (Char × List Char)
  | [] => none
  | e :: rest =>
    if e = 'u' then
      match rest with
      | h1 :: h2 :: h3 :: h4 :: rest2 =>
        match hex4 h1 h2 h3 h4 with
        | none => none
        | some n =>
          if 0xD800 ≤ n ∧ n < 0xDC00 then
            match lowSurrogate rest2 with
            | some (m, rest3) =>
              some (Char.ofNat (0x10000 + (n - 0xD800) * 0x400 + (m - 0xDC00)), rest3)
            | none => some (Char.ofNat 0xFFFD, rest2)
          else if 0xDC00 ≤ n ∧ n < 0xE000 then some (Char.ofNat 0xFFFD, rest2)
          else some (Char.ofNat n, rest2)
      | _ => none
    else
      match simpleEscape e with
      | none => none
      | some x => some (x, rest)

/-- A JSON string from behind its opening quote to its closing quote: the characters it
stands for and the input that follows. A control character is not allowed inside a string.
`fuel` bounds the number of characters and escapes that are read. -/
def parseStringBody : Nat → List Char → Option (List Char × List Char)
  | 0, _ => none
  | _ + 1, [] => none
  | fuel + 1, c :: rest =>
    if c = '"' then some ([], rest)
    else if c = '\\' then
      match readEscape rest with
      | none => none
      | some (x, rest1) => (parseStringBody fuel rest1).map (fun p => (x :: p.1, p.2))
    else if c.toNat < 0x20 then none
    else (parseStringBody fuel rest).map (fun p => (c :: p.1, p.2))

/-- A JSON string from behind its opening quote; the input itself is fuel enough. -/
def parseString (input : List Char) : Option (List Char × List Char) :=
  parseStringBody input.length input

/-- The characters that a JSON number is made of. -/
def isNumberChar (c : Char) : Bool :=
  c.isDigit || c = '-' || c = '+' || c = '.' || c = 'e' || c = 'E'

/-- Digits, at least one. -/
def isDigits (l : List Char) : Bool := l ≠ [] && l.all Char.isDigit

/-- The exponent of a JSON number, from behind its `e`: an optional sign and digits. -/
def validExponent (l : List Char) : Bool :=
  match l with
  | [] => false
  | c :: ds => if c = '+' ∨ c = '-' then isDigits ds else isDigits (c :: ds)

/-- What may follow the integer part of a JSON number: nothing, a fraction, an exponent, or
a fraction and an exponent. -/
def validFraction (l : List Char) : Bool :=
  match l with
  | [] => true
  | c :: rest =>
    if c = '.' then
      rest.takeWhile Char.isDigit ≠ [] &&
        (match rest.dropWhile Char.isDigit with
         | [] => true
         | e :: ex => (e = 'e' || e = 'E') && validExponent ex)
    else (c = 'e' || c = 'E') && validExponent rest

/-- A JSON number without its sign: `0` or digits that do not begin with `0`, then what
`validFraction` allows. -/
def validUnsigned (l : List Char) : Bool :=
  match l with
  | [] => false
  | c :: rest =>
    if c = '0' then validFraction rest
    else c.isDigit && validFraction ((c :: rest).dropWhile Char.isDigit)

/-- The grammar of a JSON number. -/
def validNumber (l : List Char) : Bool :=
  match l with
  | [] => false
  | c :: rest => if c = '-' then validUnsigned rest else validUnsigned (c :: rest)

/-- An object from behind a `\x7b` or a `,`: members `"key": value` separated by `,` up to the
closing `\x7d`, at least one. `pv` reads a value and `n` bounds the number of members. -/
def parseMembers (pv : List Char → Option (Json × List Char)) :
    Nat → List Char → Option (List (String × Json) × List Char)
  | 0, _ => none
  | n + 1, input =>
    match skipSpace input with
    | [] => none
    | quote :: rest =>
      if quote = '"' then
        match parseString rest with
        | none => none
        | some (key, rest1) =>
          match skipSpace rest1 with
          | [] => none
          | colon :: rest2 =>
            if colon = ':' then
              match pv rest2 with
              | none => none
              | some (v, rest3) =>
                match skipSpace rest3 with
                | [] => none
                | sep :: rest4 =>
                  if sep = ',' then
                    (parseMembers pv n rest4).map (fun p => ((⟨key⟩, v) :: p.1, p.2))
                  else if sep = '\x7d' then some ([(⟨key⟩, v)], rest4)
                  else none
            else none
      else none

/-- An array from behind a `[` or a `,`: values separated by `,` up to the closing `]`, at
least one. `pv` reads a value and `n` bounds the number of elements. -/
def parseElements (pv : List Char → Option (Json × List Char)) :
    Nat → List Char → Option (List Json × List Char)
  | 0, _ => none
  | n + 1, input =>
    match pv input with
    | none => none
    | some (v, rest) =>
      match skipSpace rest with
      | [] => none
      | sep :: rest1 =>
        if sep = ',' then (parseElements pv n rest1).map (fun p => (v :: p.1, p.2))
        else if sep = ']' then some ([v], rest1)
        else none

/-- The limit of the scanner on the nesting of arrays and objects: `maxNestingDepth`. -/
def maxNestingDepth : Nat := 10000

/-- A JSON value at the head of the input, after white space, and the input that follows
it. `depth` is the number of arrays and objects that are open around the value; an array or
object that would be nested deeper than `maxNestingDepth` is an error. `fuel` bounds the
nesting of the value and the number of its members and elements. -/
def parseValue : Nat → Nat → List Char → Option (Json × List Char)
  | 0, _, _ => none
  | fuel + 1, depth, input =>
    match skipSpace input with
    | [] => none
    | c :: rest =>
      if c = '"' then
        (parseString rest).map (fun p => (Json.string ⟨p.1⟩, p.2))
      else if c = '\x7b' then
        if maxNestingDepth ≤ depth then none
        else if (skipSpace rest).head? = some '\x7d' then
          some (Json.object [], (skipSpace rest).tail)
        else
          (parseMembers (parseValue fuel (depth + 1)) fuel rest).map
            (fun p => (Json.object p.1, p.2))
      else if c = '[' then
        if maxNestingDepth ≤ depth then none
        else if (skipSpace rest).head? = some ']' then
          some (Json.array [], (skipSpace rest).tail)
        else
          (parseElements (parseValue fuel (depth + 1)) fuel rest).map
            (fun p => (Json.array p.1, p.2))
      else if c = '-' ∨ c.isDigit then
        if validNumber ((c :: rest).takeWhile isNumberChar) then
          some (Json.number ⟨(c :: rest).takeWhile isNumberChar⟩,
            (c :: rest).dropWhile isNumberChar)
        else none
      else if "null".data.isPrefixOf (c :: rest) then some (Json.null, rest.drop 3)
      else if "true".data.isPrefixOf (c :: rest) then some (Json.bool true, rest.drop 3)
      else if "false".data.isPrefixOf (c :: rest) then some (Json.bool false, rest.drop 4)
      else none

/-- The value that a whole text stands for: one value, with white space at most around
it. The text itself is fuel enough. -/
def parseJson (text : String) : Option Json :=
  match parseValue (text.length + 1) 0 text.data with
  | none => none
  | some (v, rest) => if skipSpace rest = [] then some v else none

/-! ## encoding/json: `json.Unmarshal` at the types `Reports`, `Error` and `ReportResponse`,
and `json.Marshal` at the type `ReportResponse` -/

/-- How encoding/json compares the key of a member with the name of a field when the two
are not the same text: without regard to the case of letters, where the Kelvin sign counts
as `k` and the long s as `s`. The names of the fields here are ASCII in lower case, so a
key stands for a field exactly when its folded form is the name. -/
def foldKeyChar (c : Char) : Char :=
  if c.toNat = 0x212A then 'k' else if c.toNat = 0x17F then 's' else c.toLower

/-- The folded form of a key. -/
def foldKey (key : String) : String := ⟨key.data.map foldKeyChar⟩

/-- The number that decimal digits stand for. -/
def decimalValue (ds : List Char) : Nat := ds.foldl (fun acc c => 10 * acc + (c.toNat - 48)) 0

/-- The call `strconv.ParseInt (t, 10, 64)` at the text of a JSON number: the number has to
be an integer, written without fraction and exponent, that fits 64 bits. -/
def parseInt64 (t : String) : Option Int :=
  match t.data with
  | [] => none
  | c :: ds =>
    if c = '-' then
      if isDigits ds ∧ decimalValue ds ≤ 2 ^ 63 then some (-(decimalValue ds : Int)) else none
    else if isDigits (c :: ds) ∧ decimalValue (c :: ds) < 2 ^ 63 then
      some (decimalValue (c :: ds) : Int)
    else none

/-- Storing a JSON value into an `int`: `null` leaves it as it is, a number that is an
integer of 64 bits replaces it, anything else is an `UnmarshalTypeError`. -/
def storeInt (old : Int) : Json → Option Int
  | .null => some old
  | .number t => parseInt64 t
  | _ => none

/-- Storing a JSON value into a `string`. -/
def storeString (old : String) : Json → Option String
  | .null => some old
  | .string s => some s
  | _ => none

/-- Storing a JSON value into a `float64`; `pf` is `strconv.ParseFloat (t, 64)` at the text
of a JSON number, `none` when the number is out of range. -/
def storeFloat (pf : String → Option Float64) (old : Float64) : Json → Option Float64
  | .null => some old
  | .number t => pf t
  | _ => none

/-- One member of a JSON object stored into a record: the field that the key stands for
takes the value; a key that stands for no field is passed over. -/
def Reports.storeMember (pf : String → Option Float64) (r : Reports) (m : String × Json) :
    Option Reports :=
  let key := foldKey m.1
  if key = "id" then (storeInt r.ID m.2).map (fun v => { r with ID := v })
  else if key = "report_name" then (storeString r.ReportName m.2).map (fun v => { r with ReportName := v })
  else if key = "report_agency" then (storeString r.ReportAgency m.2).map (fun v => { r with ReportAgency := v })
  else if key = "date" then (storeString r.Date m.2).map (fun v => { r with Date := v })
  else if key = "active_visitors" then (storeInt r.ActiveVisitors m.2).map (fun v => { r with ActiveVisitors := v })
  else if key = "avg_session_duration" then (storeFloat pf r.AvgSessionDuration m.2).map (fun v => { r with AvgSessionDuration := v })
  else if key = "bounce_rate" then (storeFloat pf r.BounceRate m.2).map (fun v => { r with BounceRate := v })
  else if key = "browser" then (storeString r.Browser m.2).map (fun v => { r with Browser := v })
  else if key = "city" then (storeString r.City m.2).map (fun v => { r with City := v })
  else if key = "country" then (storeString r.Country m.2).map (fun v => { r with Country := v })
  else if key = "device" then (storeString r.Device m.2).map (fun v => { r with Device := v })
  else if key = "domain" then (storeString r.Domain m.2).map (fun v => { r with Domain := v })
  else if key = "event_label" then (storeString r.EventLabel m.2).map (fun v => { r with EventLabel := v })
  else if key = "file_name" then (storeString r.FileName m.2).map (fun v => { r with FileName := v })
  else if key = "hour" then (storeString r.Hour m.2).map (fun v => { r with Hour := v })
  else if key = "landing_page" then (storeString r.LandingPage m.2).map (fun v => { r with LandingPage := v })
  else if key = "language" then (storeString r.Language m.2).map (fun v => { r with Language := v })
  else if key = "language_code" then (storeString r.LanguageCode m.2).map (fun v => { r with LanguageCode := v })
  else if key = "mobile_device" then (storeString r.MobileDevice m.2).map (fun v => { r with MobileDevice := v })
  else if key = "os" then (storeString r.OS m.2).map (fun v => { r with OS := v })
  else if key = "os_version" then (storeString r.OSVersion m.2).map (fun v => { r with OSVersion := v })
  else if key = "page" then (storeString r.Page m.2).map (fun v => { r with Page := v })
  else if key = "page_title" then (storeString r.PageTitle m.2).map (fun v => { r with PageTitle := v })
  else if key = "pageviews" then (storeInt r.Pageviews m.2).map (fun v => { r with Pageviews := v })
  else if key = "pageviews_per_session" then (storeInt r.PageviewsPerSession m.2).map (fun v => { r with PageviewsPerSession := v })
  else if key = "screen_resolution" then (storeString r.ScreenResolution m.2).map (fun v => { r with ScreenResolution := v })
  else if key = "session_default_channel_group" then (storeString r.SessionDefaultChannelGroup m.2).map (fun v => { r with SessionDefaultChannelGroup := v })
  else if key = "source" then (storeString r.Source m.2).map (fun v => { r with Source := v })
  else if key = "total_events" then (storeInt r.TotalEvents m.2).map (fun v => { r with TotalEvents := v })
  else if key = "users" then (storeInt r.Users m.2).map (fun v => { r with Users := v })
  else if key = "visits" then (storeInt r.Visits m.2).map (fun v => { r with Visits := v })
  else some r

/-- Storing a JSON value into a record: the members of an object are stored one after the
other, in the order of the text, and `null` leaves the record as it is. -/
def Reports.decode (pf : String → Option Float64) (r : Reports) : Json → Option Reports
  | .null => some r
  | .object ms => ms.foldlM (Reports.storeMember pf) r
  | _ => none

/-- The elements of a JSON array stored into records, each into a record of its own that
starts from the zero value, in the order of the array. -/
def decodeElements (pf : String → Option Float64) : List Json → Option (List Reports)
  | [] => some []
  | e :: es =>
    match Reports.decode pf {} e with
    | none => none
    | some r => (decodeElements pf es).map (fun rs => r :: rs)

/-- Storing a JSON value into a `[]Reports`: the elements of an array are stored into
records, and `null` gives the `nil` slice, which is not told apart here from the slice
without records. -/
def decodeRecords (pf : String → Option Float64) : Json → Option (List Reports)
  | .null => some []
  | .array elems => decodeElements pf elems
  | _ => none

/-- One member of a JSON object stored into an `Error`. -/
def Error.storeMember (e : Error) (m : String × Json) : Option Error :=
  let key := foldKey m.1
  if key = "message" then (storeString e.Message m.2).map (fun v => { e with Message := v })
  else if key = "required_fields" then
    (storeString e.RequiredFields m.2).map (fun v => { e with RequiredFields := v })
  else if key = "example" then (storeString e.Example m.2).map (fun v => { e with Example := v })
  else some e

/-- Storing a JSON value into a `*Error`: `null` gives the `nil` pointer, an object is stored
into the `Error` pointed to, a new one if the pointer is `nil`. -/
def decodeErrorPointer (old : Option Error) : Json → Option (Option Error)
  | .null => some none
  | .object ms => (ms.foldlM Error.storeMember (old.getD {})).map some
  | _ => none

/-- One member of a JSON object stored into a `ReportResponse`. -/
def ReportResponse.storeMember (pf : String → Option Float64) (resp : ReportResponse)
    (m : String × Json) : Option ReportResponse :=
  let key := foldKey m.1
  if key = "data" then (decodeRecords pf m.2).map (fun v => { resp with Data := v })
  else if key = "error" then
    (decodeErrorPointer resp.Error m.2).map (fun v => { resp with Error := v })
  else some resp

/-- The call `json.Unmarshal (text, &response)` for a `response` of type `ReportResponse`
that holds the zero value: the response it leaves when it returns no error, `none` when it
returns one. -/
def ReportResponse.Unmarshal (pf : String → Option Float64) (text : String) :
    Option ReportResponse :=
  match parseJson text with
  | some .null => some { Data := [] }
  | some (.object ms) => ms.foldlM (ReportResponse.storeMember pf) { Data := [] }
  | _ => none

/-- The call `json.Unmarshal (text, &record)` for a `record` of type `Reports` that holds the
zero value. -/
def Reports.Unmarshal (pf : String → Option Float64) (text : String) : Option Reports :=
  match parseJson text with
  | some v => Reports.decode pf {} v
  | none => none

/-- The records of the `data` array as `json.Marshal` writes them. -/
def marshalRecordsCompact : List Reports → Except String (List String)
  | [] => .ok []
  | r :: rest =>
    match r.members with
    | .error e => .error e
    | .ok ms =>
      match marshalRecordsCompact rest with
      | .error e => .error e
      | .ok out => .ok (compactObject ms :: out)

/-- The call `json.Marshal (response)` for a `ReportResponse`. A `nil` slice of records,
which Go writes as `null`, is not told apart from the slice without records, written `[]`;
both read back as no records. -/
def ReportResponse.Marshal (response : ReportResponse) : Except String String :=
  match marshalRecordsCompact response.Data with
  | .error e => .error ("json: unsupported value: " ++ e)
  | .ok recs =>
    .ok (compactObject
      (jsonField "data" ("[" ++ ",".intercalate recs ++ "]") ++
        (match response.Error with
         | none => []
         | some e => jsonField "error" (compactObject e.members))))

/-! ## Auxiliary definitions for the statements -/

/-- The parameters that `GetReport` validates and passes on: the arguments with the defaults
filled in. -/
def defaultedParams (args : ReportArgs) : ReportParams :=
  { Limit := if args.Limit = 0 then 1000 else args.Limit,
    Page := if args.Page = 0 then 1 else args.Page,
    After := args.After, Before := args.Before }

/-- What `GetReport` makes of the outcome of the fetch: the last part of its body. -/
def shapeResult (name : String) : Except String (List Reports) × List Request → GetReportReturn
  | (.error fetchErr, sent) =>
    { result := some { Content := [⟨"Request failed: " ++ fetchErr⟩], IsError := true },
      err := none, sent := sent }
  | (.ok reports, sent) =>
    if reports.length = 0 then
      { result := some { Content := [⟨"No data found for report: " ++ name⟩], IsError := true },
        err := none, sent := sent }
    else
      match MarshalIndent { Data := reports } with
      | .error err =>
        { result := none, err := some ("failed to marshal response: " ++ err), sent := sent }
      | .ok responseJSON =>
        { result := some { Content := [⟨"Analytics Report: " ++ name ++
            "\n\nFound " ++ itoa reports.length ++ " records:\n\n" ++ responseJSON⟩] },
          err := none, sent := sent }

/-- The query values that `buildReportsURL` encodes, from the values `q0` already in the
parsed URL. -/
def reportQuery (q0 : Values) (params : ReportParams) : Values :=
  let q := q0
  let q := if params.Limit > 0 then Values.Set q "limit" (itoa params.Limit) else q
  let q := if params.Page > 0 then Values.Set q "page" (itoa params.Page) else q
  let q := if params.After ≠ "" then Values.Set q "after" params.After else q
  if params.Before ≠ "" then Values.Set q "before" params.Before else q

/-- The call `GetReport` hands to the transport only GET requests for the URL rendered from
`u` with the encoded query of some values `q` in which `key` is bound to `value` alone;
the encoded query is the `&`-joined list of pairs, `key=value` is one of them and no other
pair is written for `key`; and one such request is sent when that URL parses. -/
def SendsParam (lib : StdLib) (rt : ReportsTool) (args : ReportArgs) (sent : List Request)
    (u : URL) (key value : String) : Prop :=
  ∃ q : Values,
    mapGet q key = some [value] ∧
    Values.Encode q = "&".intercalate (Values.pairs q) ∧
    (key ++ "=" ++ value) ∈ Values.pairs q ∧
    (∀ p ∈ Values.pairs q, HasPrefix p (key ++ "=") → p = key ++ "=" ++ value) ∧
    ∃ new : List Request,
      (rt.GetReport lib args sent).sent = sent ++ new ∧
      (∀ req ∈ new, req.Method = "GET" ∧
        req.URL = URL.String lib { u with RawQuery := Values.Encode q }) ∧
      ((∃ u2, lib.urlParse (URL.String lib { u with RawQuery := Values.Encode q }) = .ok u2) →
        new.length = 1)

/-- Whether encoding/json can write the float: it is not NaN and not an infinity. -/
def Float64.encodable (f : Float64) : Bool :=
  match f.text with
  | .ok _ => true
  | .error _ => false

/-- The JSON object of one record inside the `data` array. -/
def recordJSON (r : Reports) : String :=
  match r.members with
  | .ok ms => indentObject 2 ms
  | .error _ => ""

/-- The loop of `DoRequest`: every entry of `hs`, in the order of the list, is set on the
request. -/
def withHeaders (hs : GoMap String) (req : Request) : Request :=
  hs.foldl (fun r kv => { r with Header := Header.Set r.Header kv.1 kv.2 }) req

/-- A character that `escape` writes in mode `encodeQueryComponent`. -/
def escapedChar (x : Char) : Bool := unreservedByte x || x = '+' || x = '%'

/-- The keys and values that `Values.Encode` writes, in its order. -/
def Values.keyValues (v : Values) : List (String × String) :=
  (sortStrings (mapKeys v)).flatMap
    (fun k => ((mapGet v k).getD []).map (fun val => (k, val)))

/-- The text of one pair of `Values.Encode`. -/
def pairText (kv : String × String) : List Char :=
  (QueryEscape kv.1).data ++ '=' :: (QueryEscape kv.2).data

/-- The value that `buildReportsURL` sets for a key of the query: the decimal text of a
positive limit or page, a non-empty after or before; none for a parameter that is not set
and for every other key. -/
def ReportParams.queryParam (p : ReportParams) (key : String) : Option String :=
  if key = "limit" then (if 0 < p.Limit then some (itoa p.Limit) else none)
  else if key = "page" then (if 0 < p.Page then some (itoa p.Page) else none)
  else if key = "after" then (if p.After ≠ "" then some p.After else none)
  else if key = "before" then (if p.Before ≠ "" then some p.Before else none)
  else none

/-- The query that `buildReportsURL` stores in the parsed URL `u`. -/
def builtQuery (lib : StdLib) (u : URL) (p : ReportParams) : String :=
  Values.Encode (reportQuery (u.Query lib) p)

/-- The values of a key in a query, as `url.ParseQuery` reads them. -/
def queryValues (raw key : String) : List (List UInt8) :=
  byteValuesOf (ParseQuery raw).1 (goBytes key)

/-- The optional fields of a record, in the order of the struct: the JSON name of each
field tagged `omitempty`, and whether the field is set, a number when it is not zero and a
string when it is not empty. -/
def Reports.optionalFields (r : Reports) : List (String × Bool) :=
  [("active_visitors", decide (r.ActiveVisitors ≠ 0)),
   ("avg_session_duration", !r.AvgSessionDuration.isZero),
   ("bounce_rate", !r.BounceRate.isZero),
   ("browser", decide (r.Browser ≠ "")),
   ("city", decide (r.City ≠ "")),
   ("country", decide (r.Country ≠ "")),
   ("device", decide (r.Device ≠ "")),
   ("domain", decide (r.Domain ≠ "")),
   ("event_label", decide (r.EventLabel ≠ "")),
   ("file_name", decide (r.FileName ≠ "")),
   ("hour", decide (r.Hour ≠ "")),
   ("landing_page", decide (r.LandingPage ≠ "")),
   ("language", decide (r.Language ≠ "")),
   ("language_code", decide (r.LanguageCode ≠ "")),
   ("mobile_device", decide (r.MobileDevice ≠ "")),
   ("os", decide (r.OS ≠ "")),
   ("os_version", decide (r.OSVersion ≠ "")),
   ("page", decide (r.Page ≠ "")),
   ("page_title", decide (r.PageTitle ≠ "")),
   ("pageviews", decide (r.Pageviews ≠ 0)),
   ("pageviews_per_session", decide (r.PageviewsPerSession ≠ 0)),
   ("screen_resolution", decide (r.ScreenResolution ≠ "")),
   ("session_default_channel_group", decide (r.SessionDefaultChannelGroup ≠ "")),
   ("source", decide (r.Source ≠ "")),
   ("total_events", decide (r.TotalEvents ≠ 0)),
   ("users", decide (r.Users ≠ 0)),
   ("visits", decide (r.Visits ≠ 0))]

/-- The optional fields of a `ReportArgs`: the JSON name of each field tagged `omitempty`,
and whether the field is set. -/
def ReportArgs.optionalFields (a : ReportArgs) : List (String × Bool) :=
  [("limit", decide (a.Limit ≠ 0)), ("page", decide (a.Page ≠ 0)),
   ("after", decide (a.After ≠ "")), ("before", decide (a.Before ≠ ""))]

/-- The date range that `buildMonthlyReportText` writes in each of its calls. -/
def monthlyDateRange (month year : String) : String :=
  "after=\"" ++ year ++ "-" ++ month ++ "-01\", before=\"" ++ year ++ "-" ++ month ++ "-31\""

/-- The call of `get_report` that `buildMonthlyReportText` writes for a report. -/
def monthlyCall (name month year : String) : String :=
  "get_report(\"" ++ name ++ "\", " ++ monthlyDateRange month year ++ ")"

/-- The tool with another transport in its client. -/
def withTransport (rt : ReportsTool) (transport : HTTPClientInterface) : ReportsTool :=
  { apiClient := { rt.apiClient with HTTPClient := transport } }

/-- The request that `fetchReports` hands to the transport for a URL: a GET request for the
URL with the headers of the client set on it. -/
def requestFor (rt : ReportsTool) (apiURL : String) : Request :=
  withHeaders rt.apiClient.HTTPHeaders { Method := "GET", URL := apiURL, Header := [] }

/-- The text reads as the JSON value, whatever follows it that cannot continue a number,
with any fuel from the length of the text on, wherever `nest` more levels of arrays and
objects may be opened. -/
def ReadsAs (nest : Nat) (text : String) (v : Json) : Prop :=
  ∀ fuel, text.length ≤ fuel → ∀ depth, depth + nest ≤ maxNestingDepth →
    ∀ rest : List Char, (∀ c ∈ rest.head?, isNumberChar c = false) →
      parseValue fuel depth (text.data ++ rest) = some (v, rest)

/-- A key that the encoder writes between quotes as it is: it has no quote, no backslash
and no control character. -/
def PlainKey (key : String) : Prop :=
  ∀ c ∈ key.data, c ≠ '"' ∧ c ≠ '\\' ∧ ¬ c.toNat < 32

/-- A member of an object in a layout: white space `w1`, the key between quotes, a colon,
white space `w2` and the text of the value. -/
def memberText (w1 w2 : List Char) (m : String × String) : List Char :=
  w1 ++ '"' :: m.1.data ++ '"' :: ':' :: w2 ++ m.2.data

/-- An object in a layout, from behind its opening brace: the members, a comma between
them, then white space `w3` and the closing brace. -/
def objectText (w1 w2 w3 : List Char) : List (String × String) → List Char
  | [] => w3 ++ ['\x7d']
  | m :: ms =>
    memberText w1 w2 m ++ ms.flatMap (fun q => ',' :: memberText w1 w2 q) ++ w3 ++ ['\x7d']

/-- An array in a layout, from behind its opening bracket: the elements, each after white
space `w1`, a comma between them, then white space `w3` and the closing bracket. -/
def arrayText (w1 w3 : List Char) : List String → List Char
  | [] => w3 ++ [']']
  | e :: es => w1 ++ e.data ++ es.flatMap (fun q => ',' :: (w1 ++ q.data)) ++ w3 ++ [']']

/-- A member of an encoded object and the member of a JSON value that it reads as. -/
def MemberReads (nest : Nat) (m : String × String) (j : String × Json) : Prop :=
  m.1 = j.1 ∧ PlainKey m.1 ∧ ReadsAs nest m.2 j.2

/-- The member of a JSON value for a field that is always written. -/
def valueField (key : String) (v : Json) : List (String × Json) := [(key, v)]

/-- The member of a JSON value for a string field tagged `omitempty`. -/
def valueOmitEmptyString (key value : String) : List (String × Json) :=
  if value = "" then [] else [(key, Json.string value)]

/-- The member of a JSON value for an integer field tagged `omitempty`. -/
def valueOmitEmptyInt (key : String) (value : Int) : List (String × Json) :=
  if value = 0 then [] else [(key, Json.number (itoa value))]

/-- The member of a JSON value for a float field tagged `omitempty`. -/
def valueOmitEmptyFloat (key : String) (value : Float64) : List (String × Json) :=
  if value.isZero then []
  else
    match value.text with
    | .ok t => [(key, Json.number t)]
    | .error _ => []

/-- The members of the JSON value that the text of a record stands for. -/
def Reports.values (r : Reports) : List (String × Json) :=
  valueField "id" (Json.number (itoa r.ID)) ++
    (valueField "report_name" (Json.string r.ReportName) ++
    (valueField "report_agency" (Json.string r.ReportAgency) ++
    (valueField "date" (Json.string r.Date) ++
    (valueOmitEmptyInt "active_visitors" r.ActiveVisitors ++
    (valueOmitEmptyFloat "avg_session_duration" r.AvgSessionDuration ++
    (valueOmitEmptyFloat "bounce_rate" r.BounceRate ++
    (valueOmitEmptyString "browser" r.Browser ++
    (valueOmitEmptyString "city" r.City ++
    (valueOmitEmptyString "country" r.Country ++
    (valueOmitEmptyString "device" r.Device ++
    (valueOmitEmptyString "domain" r.Domain ++
    (valueOmitEmptyString "event_label" r.EventLabel ++
    (valueOmitEmptyString "file_name" r.FileName ++
    (valueOmitEmptyString "hour" r.Hour ++
    (valueOmitEmptyString "landing_page" r.LandingPage ++
    (valueOmitEmptyString "language" r.Language ++
    (valueOmitEmptyString "language_code" r.LanguageCode ++
    (valueOmitEmptyString "mobile_device" r.MobileDevice ++
    (valueOmitEmptyString "os" r.OS ++
    (valueOmitEmptyString "os_version" r.OSVersion ++
    (valueOmitEmptyString "page" r.Page ++
    (valueOmitEmptyString "page_title" r.PageTitle ++
    (valueOmitEmptyInt "pageviews" r.Pageviews ++
    (valueOmitEmptyInt "pageviews_per_session" r.PageviewsPerSession ++
    (valueOmitEmptyString "screen_resolution" r.ScreenResolution ++
    (valueOmitEmptyString "session_default_channel_group" r.SessionDefaultChannelGroup ++
    (valueOmitEmptyString "source" r.Source ++
    (valueOmitEmptyInt "total_events" r.TotalEvents ++
    (valueOmitEmptyInt "users" r.Users ++
    valueOmitEmptyInt "visits" r.Visits)))))))))))))))))))))))))))))

/-- The integer is one that a Go `int` of 64 bits holds. -/
def fitsInt64 (n : Int) : Prop := -2 ^ 63 ≤ n ∧ n < 2 ^ 63

instance (n : Int) : Decidable (fitsInt64 n) := by
  unfold fitsInt64; infer_instance

/-- What package strconv guarantees for a float that encoding/json can write, with `pf` for
`strconv.ParseFloat (t, 64)`: the float that `omitempty` drops is 0, the zero value; any
other float is written as a JSON number, and `pf` reads that number back as the float. -/
def Float64.readsBack (pf : String → Option Float64) (f : Float64) : Prop :=
  (f.isZero = true → f = {}) ∧
    (f.isZero = false → ∃ t, f.text = .ok t ∧ validNumber t.data = true ∧ pf t = some f)

/-- The record is one that Go can hold and encoding/json can write: its integers fit 64
bits and its floats are read back from their texts. -/
def Reports.readsBack (pf : String → Option Float64) (r : Reports) : Prop :=
  fitsInt64 r.ID ∧ fitsInt64 r.ActiveVisitors ∧ fitsInt64 r.Pageviews ∧
    fitsInt64 r.PageviewsPerSession ∧ fitsInt64 r.TotalEvents ∧ fitsInt64 r.Users ∧ fitsInt64 r.Visits ∧
    r.AvgSessionDuration.readsBack pf ∧ r.BounceRate.readsBack pf

/-! ## A sample environment for the worked examples

A client for `https://api.example.com` with the key `k`, as in the tests of the repository,
and stand-ins for the library parsers that know the inputs of the examples. -/

/-- A stand-in for `url.Parse` that reads URLs of the one form `https://host/path?query`. -/
def sampleParse (s : String) : Except String URL :=
  match s.data with
  | 'h' :: 't' :: 't' :: 'p' :: 's' :: ':' :: '/' :: '/' :: rest =>
    let hp := rest.span (fun c => c ≠ '/')
    let pq := hp.2.span (fun c => c ≠ '?')
    .ok { Scheme := "https", Host := ⟨hp.1⟩, Path := ⟨pq.1⟩, RawQuery := ⟨pq.2.drop 1⟩ }
  | _ => .error ("parse \"" ++ s ++ "\": not read by the sample parser")

/-- The record of the first end-to-end scenario. -/
def sampleRecord : Reports :=
  { ID := 1, ReportName := "devices", Device := "desktop", Visits := 1000 }

/-- The body of the first end-to-end scenario. -/
def sampleBody : String :=
  "[\x7b\"id\":1,\"report_name\":\"devices\",\"device\":\"desktop\",\"visits\":1000\x7d]"

/-- The body of the second end-to-end scenario. -/
def notFoundBody : String := "\x7b\"error\":\"not found\"\x7d"

/-- Stand-ins for the library: hosts, paths and fragments are written as they are, the
query of a base URL is taken to be empty, and the decoder knows the bodies `[]`, `null`
(which encoding/json stores in a slice as `nil`, without an error) and `sampleBody`. -/
def sampleLib : StdLib :=
  { urlParse := sampleParse
    parseQuery := fun _ => []
    userinfoString := fun ui => ui.username
    escapeHost := fun h => h
    escapedPath := fun p _ => p
    escapedFragment := fun f _ => f
    unmarshalReports := fun body =>
      if body = "[]" ∨ body = "null" then ([], none)
      else if body = sampleBody then ([sampleRecord], none)
      else ([], some "invalid character") }

/-- The tool over a client for `https://api.example.com` with the given transport. -/
def sampleTool (transport : HTTPClientInterface) : ReportsTool :=
  { apiClient :=
      { BaseURL := "https://api.example.com", APIKey := "k", HTTPClient := transport } }

/-- A transport that answers every request with the given status and body. -/
def answering (status : Int) (body : String) : HTTPClientInterface :=
  fun _ => .ok { StatusCode := status, Body := .ok body }

/-- A transport that fails. -/
def refusing : HTTPClientInterface := fun _ => .error "connection refused"

/-- The URL of the `devices` report with the default parameters. -/
def sampleURL : String := "https://api.example.com/reports/devices/data?limit=1000&page=1"

/-- The request for `sampleURL` as the client of `sampleTool` hands it to the transport. -/
def sampleRequest : Request :=
  { Method := "GET", URL := sampleURL,
    Header := [("Content-Type", ["application/json"]), ("Accept", ["application/json"]),
      ("X-Api-Key", ["k"])] }

/-- A stand-in for reading decoded bytes as text: right when the bytes are ASCII. -/
def asciiText (b : List UInt8) : String := ⟨b.map (fun x => Char.ofNat x.toNat)⟩

/-- A stand-in for `url.ParseQuery` as `(*URL).Query` calls it: the values of `ParseQuery`,
read as text. -/
def plainQuery (raw : String) : Values :=
  (ParseQuery raw).1.map (fun e => (asciiText e.1, e.2.map asciiText))

/-- The characters that the stand-in `plainParse` accepts in a host. -/
def plainHostChar (c : Char) : Bool := c.isAlphanum || c = '.' || c = '-' || c = ':'

/-- The characters that the stand-in `plainParse` accepts in a path or a fragment. -/
def plainPathChar (c : Char) : Bool := unreservedByte c || c = '/'

/-- A stand-in for `url.Parse` that follows it on the URLs `scheme://host/path?query#fragment`
whose scheme is made of letters and whose host, path and fragment need no escaping: the
fragment is cut off at the first `#` and the query at the first `?`, the scheme is put in
lower case, the host ends at the first `/`. Other URLs are refused. -/
def plainParse (s : String) : Except String URL :=
  let body := (s.data.span (fun c => c ≠ '#')).1
  let fragment := (s.data.span (fun c => c ≠ '#')).2.drop 1
  let rest := (body.span (fun c => c ≠ '?')).1
  let query := (body.span (fun c => c ≠ '?')).2
  let scheme := (rest.span (fun c => c ≠ ':')).1
  match (rest.span (fun c => c ≠ ':')).2 with
  | ':' :: '/' :: '/' :: authority =>
    let host := (authority.span (fun c => c ≠ '/')).1
    let path := (authority.span (fun c => c ≠ '/')).2
    if scheme ≠ [] ∧ scheme.all Char.isAlpha ∧ host.all plainHostChar ∧
        path.all plainPathChar ∧ fragment.all plainPathChar then
      .ok { Scheme := ⟨scheme.map Char.toLower⟩, Host := ⟨host⟩, Path := ⟨path⟩,
            ForceQuery := query = ['?'], RawQuery := ⟨query.drop 1⟩,
            Fragment := ⟨fragment⟩ }
    else .error ("parse \"" ++ s ++ "\": not read by the stand-in")
  | _ => .error ("parse \"" ++ s ++ "\": not read by the stand-in")

/-- Stand-ins for the library on plain URLs: hosts, paths and fragments that need no
escaping are written as they are, and a body is decoded as by `sampleLib`. -/
def plainLib : StdLib :=
  { urlParse := plainParse
    parseQuery := plainQuery
    userinfoString := fun ui => ui.username
    escapeHost := fun h => h
    escapedPath := fun p _ => p
    escapedFragment := fun f _ => f
    unmarshalReports := sampleLib.unmarshalReports }

/-- The tool over a client built for the given base URL, with a transport that answers 200
and `sampleBody`. -/
def toolFor (baseURL : String) : ReportsTool :=
  { apiClient := NewAPIClientWithHTTPClient baseURL "k" (answering 200 sampleBody) }

/-- A client without an API key. -/
def keylessClient : APIClient :=
  { BaseURL := "https://api.example.com", APIKey := "", HTTPClient := answering 200 "[]" }

/-- The request of the header-override test: headers set beforehand through `Header.Set`. -/
def overrideRequest : Request :=
  { Method := "GET", URL := "https://api.example.com/test",
    Header := [("Custom-Header", ["should-remain"]), ("X-Api-Key", ["old-key"]),
      ("Accept", ["text/html"]), ("Content-Type", ["text/plain"])] }

/-- A body whose second record holds a text where a number is expected. -/
def wrongTypeBody : String :=
  "[\x7b\"id\":1,\"report_name\":\"devices\",\"device\":\"desktop\",\"visits\":1000\x7d," ++
    "\x7b\"id\":\"x\"\x7d]"

/-- The stand-ins of `sampleLib` with a decoder that also knows `wrongTypeBody`: encoding/json
goes on after a field of the wrong type, so the slice holds both records, the second with
its `id` left at zero, and the call returns the type error. -/
def wrongTypeLib : StdLib :=
  { sampleLib with
    unmarshalReports := fun body =>
      if body = wrongTypeBody then
        ([sampleRecord, {}],
          some "json: cannot unmarshal string into Go struct field Reports.id of type int")
      else sampleLib.unmarshalReports body }

/-- A sample of the tables of package unicode: no letter above ASCII has a lower case of
its own, and every rune above Latin-1 is printed as it is. -/
def plainUnicode : Unicode := { toLower := fun r => r, isPrint := fun _ => true }

/-- A stand-in for `url.Parse` that follows it on the texts `scheme:rest` whose scheme is
made of letters and whose rest does not begin with `/` and needs no escaping: the scheme is
put in lower case and the rest is the opaque part. Other texts are read by `plainParse`. -/
def opaqueParse (s : String) : Except String URL :=
  let scheme := (s.data.span (fun c => c ≠ ':')).1
  match (s.data.span (fun c => c ≠ ':')).2 with
  | ':' :: rest =>
    if scheme ≠ [] ∧ scheme.all Char.isAlpha ∧ rest.head? ≠ some '/' ∧
        rest.all unreservedByte then
      .ok { Scheme := ⟨scheme.map Char.toLower⟩, Opaque := ⟨rest⟩ }
    else plainParse s
  | _ => plainParse s

/-- The stand-ins of `plainLib` with a parser that also reads `scheme:rest`. -/
def resourceLib : StdLib := { plainLib with urlParse := opaqueParse }

/-- The response of `TestReportResponse_JSON`: two records of the `devices` report. -/
def devicesResponse : ReportResponse :=
  { Data :=
      [{ ID := 1, ReportName := "devices", ReportAgency := "GSA", Date := "2024-01-01",
         Device := "desktop", Visits := 1000 },
       { ID := 2, ReportName := "devices", ReportAgency := "GSA", Date := "2024-01-01",
         Device := "mobile", Visits := 800 }] }

/-- The float `0.35` as encoding/json sees it. -/
def bounceRate035 : Float64 := { isZero := false, text := .ok "0.35" }

/-- A stand-in for `strconv.ParseFloat` that knows the text `0.35`. -/
def sampleParseFloat (t : String) : Option Float64 :=
  if t = "0.35" then some bounceRate035 else none

/-- The record of `TestReports_JSON`. -/
def devicesReport : Reports :=
  { ID := 1, ReportName := "devices", ReportAgency := "GSA", Date := "2024-01-01",
    Device := "desktop", Visits := 1000, Users := 800, Pageviews := 1500,
    BounceRate := bounceRate035 }

/-- A record with a page title that the encoder has to escape. -/
def quotedRecord : Reports :=
  { ID := 7, ReportName := "devices", PageTitle := "Q&A: \"who\"\n<b>",
    BounceRate := bounceRate035, Visits := 3 }

/-- A body that holds `quotedRecord`. -/
def quotedBody : String :=
  "[\x7b\"id\":7,\"report_name\":\"devices\",\"bounce_rate\":0.35," ++
    "\"page_title\":\"Q&A: \\\"who\\\"\\n<b>\",\"visits\":3\x7d]"

/-- The stand-ins of `sampleLib` with a decoder that reads the body with `parseJson` and
stores it with `decodeRecords`. -/
def readingLib : StdLib :=
  { sampleLib with
    unmarshalReports := fun body =>
      match parseJson body with
      | none => ([], some "invalid character")
      | some v =>
        match decodeRecords sampleParseFloat v with
        | none => ([], some "json: cannot unmarshal")
        | some records => (records, none) }

/-! ## Shared facts -/

theorem contains_append_mid (a b c : String) : Contains (a ++ b ++ c) b := by
  unfold Contains
  refine ⟨a.data, c.data, ?_⟩
  simp [String.data_append]

theorem contains_append_left {s sub : String} (t : String) (h : Contains s sub) :
    Contains (s ++ t) sub := by
  unfold Contains at *
  obtain ⟨p, q, hpq⟩ := h
  refine ⟨p, q ++ t.data, ?_⟩
  simp [String.data_append, ← hpq]

theorem contains_append_right {s sub : String} (t : String) (h : Contains s sub) :
    Contains (t ++ s) sub := by
  unfold Contains at *
  obtain ⟨p, q, hpq⟩ := h
  refine ⟨t.data ++ p, q, ?_⟩
  simp [String.data_append, ← hpq]

theorem hasPrefix_append (a b : String) : HasPrefix (a ++ b) a := by
  unfold HasPrefix
  exact ⟨b.data, by simp [String.data_append]⟩

theorem isValid_iff (s : String) :
    ReportType.IsValid s = true ↔
      s = "devices" ∨ s = "browsers" ∨ s = "operating-systems" ∨ s = "languages" ∨
      s = "countries" ∨ s = "cities" ∨ s = "traffic" ∨ s = "top-pages" ∨
      s = "downloads" ∨ s = "realtime" ∨ s = "traffic-sources" ∨ s = "domains" ∨
      s = "agencies" := by
  unfold ReportType.IsValid
  simp only [ReportTypeDevices, ReportTypeBrowsers, ReportTypeOperatingSystems,
    ReportTypeLanguages, ReportTypeCountries, ReportTypeCities, ReportTypeTraffic,
    ReportTypeTopPages, ReportTypeDownloads, ReportTypeActiveUsers, ReportTypeSources,
    ReportTypeDomains, ReportTypeAgencies]
  split <;> simp_all

theorem isValid_iff_mem (s : String) :
    ReportType.IsValid s = true ↔ s ∈ GetAllReportTypes := by
  rw [isValid_iff]
  simp [GetAllReportTypes, ReportTypeDevices, ReportTypeBrowsers, ReportTypeOperatingSystems,
    ReportTypeLanguages, ReportTypeCountries, ReportTypeCities, ReportTypeTraffic,
    ReportTypeTopPages, ReportTypeDownloads, ReportTypeActiveUsers, ReportTypeSources,
    ReportTypeDomains, ReportTypeAgencies]

theorem validate_eq_none_iff (p : ReportParams) :
    p.Validate = none ↔ (0 ≤ p.Limit ∧ p.Limit ≤ 10000) ∧ 0 ≤ p.Page := by
  unfold ReportParams.Validate
  split_ifs with h1 h2
  · simp; omega
  · simp; omega
  · simp; omega

theorem validate_defaulted (args : ReportArgs) :
    (defaultedParams args).Validate = none ↔
      (0 ≤ args.Limit ∧ args.Limit ≤ 10000) ∧ 0 ≤ args.Page := by
  rw [validate_eq_none_iff]
  simp only [defaultedParams]
  split_ifs <;> omega

theorem getReport_invalid_name (lib : StdLib) (rt : ReportsTool) (args : ReportArgs)
    (sent : List Request) (h : ReportType.IsValid args.ReportName = false) :
    rt.GetReport lib args sent =
      { result := none,
        err := some ("invalid report type '" ++ args.ReportName ++ "'. Valid types: " ++
          fmtReportTypes GetAllReportTypes),
        sent := sent } := by
  unfold ReportsTool.GetReport
  simp [h]

theorem getReport_valid_name (lib : StdLib) (rt : ReportsTool) (args : ReportArgs)
    (sent : List Request) (h : ReportType.IsValid args.ReportName = true) :
    rt.GetReport lib args sent =
      match (defaultedParams args).Validate with
      | some err => { result := none, err := some ("invalid parameters: " ++ err), sent := sent }
      | none =>
        match rt.buildReportsURL lib args.ReportName (defaultedParams args) with
        | .error err =>
          { result := none, err := some ("failed to build API URL: " ++ err), sent := sent }
        | .ok apiURL => shapeResult args.ReportName (rt.fetchReports lib apiURL sent) := by
  unfold ReportsTool.GetReport
  have hd :
      (if (if args.Limit = 0 then
              ({ Limit := 1000, Page := args.Page, After := args.After,
                 Before := args.Before } : ReportParams)
            else
              { Limit := args.Limit, Page := args.Page, After := args.After,
                Before := args.Before }).Page = 0 then
          { (if args.Limit = 0 then
              ({ Limit := 1000, Page := args.Page, After := args.After,
                 Before := args.Before } : ReportParams)
            else
              { Limit := args.Limit, Page := args.Page, After := args.After,
                Before := args.Before }) with Page := 1 }
        else
          (if args.Limit = 0 then
            ({ Limit := 1000, Page := args.Page, After := args.After,
               Before := args.Before } : ReportParams)
          else
            { Limit := args.Limit, Page := args.Page, After := args.After,
              Before := args.Before })) = defaultedParams args := by
    unfold defaultedParams
    split_ifs <;> simp_all
  simp only [h, not_true_eq_false, ↓reduceIte]
  simp only [hd]
  cases hv : (defaultedParams args).Validate with
  | some e => rfl
  | none =>
    simp only
    cases hb : rt.buildReportsURL lib args.ReportName (defaultedParams args) with
    | error e => rfl
    | ok apiURL =>
      simp only
      rcases hf : rt.fetchReports lib apiURL sent with ⟨r, s⟩
      cases r with
      | error e => rfl
      | ok reports =>
        simp only [shapeResult]

theorem fetchReports_create_error (lib : StdLib) (rt : ReportsTool) (apiURL : String)
    (sent : List Request) (e : String) (h : lib.urlParse apiURL = .error e) :
    rt.fetchReports lib apiURL sent = (.error ("failed to create request: " ++ e), sent) := by
  simp [ReportsTool.fetchReports, NewRequestWithContext, h]

theorem newRequest_ok (lib : StdLib) (apiURL : String) (u : URL)
    (h : lib.urlParse apiURL = .ok u) :
    NewRequestWithContext lib "GET" apiURL =
      .ok { Method := "GET", URL := apiURL, Header := [] } := by
  simp [NewRequestWithContext, h]

theorem fetchReports_of_request (lib : StdLib) (rt : ReportsTool) (apiURL : String)
    (sent : List Request) (req : Request)
    (h : NewRequestWithContext lib "GET" apiURL = .ok req) :
    rt.fetchReports lib apiURL sent =
      match rt.apiClient.DoRequest req sent with
      | (.error err, sent) => (.error ("HTTP request failed: " ++ err), sent)
      | (.ok resp, sent) =>
        match resp.Body with
        | .error err => (.error ("failed to read response: " ++ err), sent)
        | .ok body =>
          if resp.StatusCode ≠ 200 then
            (.error ("API request failed with status " ++ itoa resp.StatusCode ++ ": " ++ body),
              sent)
          else
            match lib.unmarshalReports body with
            | (_, some parseErr) =>
              (.error ("failed to parse JSON response: " ++ parseErr), sent)
            | (reports, none) => (.ok reports, sent) := by
  simp [ReportsTool.fetchReports, h]

theorem getReport_of_fetch (lib : StdLib) (rt : ReportsTool) (args : ReportArgs)
    (sent : List Request) (apiURL : String)
    (hname : ReportType.IsValid args.ReportName = true)
    (hlimit : 0 ≤ args.Limit ∧ args.Limit ≤ 10000) (hpage : 0 ≤ args.Page)
    (hurl : rt.buildReportsURL lib args.ReportName (defaultedParams args) = .ok apiURL) :
    rt.GetReport lib args sent =
      shapeResult args.ReportName (rt.fetchReports lib apiURL sent) := by
  rw [getReport_valid_name lib rt args sent hname,
    (validate_defaulted args).2 ⟨hlimit, hpage⟩, hurl]

/-! ### Decimal text -/

theorem digitChar_isDigit : ∀ m, m < 10 → (Nat.digitChar m).isDigit = true := by
  decide

theorem toDigitsCore_isDigit (fuel : Nat) : ∀ (n : Nat) (acc : List Char),
    (∀ c ∈ acc, c.isDigit = true) → ∀ c ∈ Nat.toDigitsCore 10 fuel n acc, c.isDigit = true := by
  induction fuel with
  | zero => intro n acc hacc; simpa [Nat.toDigitsCore] using hacc
  | succ fuel ih =>
    intro n acc hacc
    have hacc' : ∀ c ∈ Nat.digitChar (n % 10) :: acc, c.isDigit = true := by
      intro c hc
      rcases List.mem_cons.1 hc with rfl | hc
      · exact digitChar_isDigit _ (Nat.mod_lt _ (by omega))
      · exact hacc c hc
    rw [Nat.toDigitsCore]
    split
    · exact hacc'
    · exact ih _ _ hacc'

theorem repr_isDigit (n : Nat) : ∀ c ∈ (Nat.repr n).data, c.isDigit = true := by
  intro c hc
  have : c ∈ Nat.toDigitsCore 10 (n + 1) n [] := by
    simpa [Nat.repr, Nat.toDigits, List.asString] using hc
  exact toDigitsCore_isDigit _ _ _ (by simp) c this

theorem itoa_isDigit (i : Int) (h : 0 ≤ i) : ∀ c ∈ (itoa i).data, c.isDigit = true := by
  cases i with
  | ofNat n => exact repr_isDigit n
  | negSucc n => exact absurd h (by simp [Int.negSucc_lt_zero])

/-! ### Query escaping -/

theorem unreserved_of_isDigit (c : Char) (h : c.isDigit = true) : unreservedByte c = true := by
  simp [unreservedByte, Char.isAlphanum, h]

theorem queryEscape_id (s : String) (h : ∀ c ∈ s.data, unreservedByte c = true) :
    QueryEscape s = s := by
  unfold QueryEscape
  have : ∀ l : List Char, (∀ c ∈ l, unreservedByte c = true) →
      l.flatMap escapeQueryChar = l := by
    intro l
    induction l with
    | nil => intro _; rfl
    | cons c cs ih =>
      intro hl
      have hc : unreservedByte c = true := hl c (List.mem_cons_self _ _)
      have hcs := ih (fun d hd => hl d (List.mem_cons_of_mem _ hd))
      simp [List.flatMap_cons, escapeQueryChar, hc, hcs]
  rw [this s.data h]

theorem queryEscape_itoa (i : Int) (h : 0 ≤ i) : QueryEscape (itoa i) = itoa i :=
  queryEscape_id _ (fun c hc => unreserved_of_isDigit c (itoa_isDigit i h c hc))

theorem utf8EncodeChar_ne_nil (c : Char) : String.utf8EncodeChar c ≠ [] := by
  unfold String.utf8EncodeChar
  simp only
  split_ifs <;> simp

/-- The first character of what `escape` writes for a character that is not unreserved is
`+` or `%`. -/
theorem escapeQueryChar_head (c : Char) (h : unreservedByte c = false) :
    ∃ rest, escapeQueryChar c = '+' :: rest ∨ escapeQueryChar c = '%' :: rest := by
  unfold escapeQueryChar
  simp only [h, Bool.false_eq_true, ↓reduceIte]
  split
  · exact ⟨[], Or.inl rfl⟩
  · rcases hb : String.utf8EncodeChar c with _ | ⟨b, bs⟩
    · exact absurd hb (utf8EncodeChar_ne_nil c)
    · exact ⟨upperhex (b.toNat / 16) :: upperhex (b.toNat % 16) :: bs.flatMap percentByte,
        Or.inr (by simp [List.flatMap_cons, percentByte])⟩

/-- A key whose escaped text holds neither `+` nor `%` is that text. -/
theorem queryEscape_plain (l : List Char) :
    ('+' ∉ l.flatMap escapeQueryChar) → ('%' ∉ l.flatMap escapeQueryChar) →
      l.flatMap escapeQueryChar = l := by
  induction l with
  | nil => intro _ _; rfl
  | cons c cs ih =>
    intro hp hq
    rw [List.flatMap_cons] at hp hq ⊢
    cases hu : unreservedByte c with
    | true =>
      have hc : escapeQueryChar c = [c] := by simp [escapeQueryChar, hu]
      rw [hc] at hp hq ⊢
      have := ih (fun h => hp (by simp [h])) (fun h => hq (by simp [h]))
      simp [this]
    | false =>
      obtain ⟨rest, h | h⟩ := escapeQueryChar_head c hu
      · exact absurd (by simp [h]) hp
      · exact absurd (by simp [h]) hq

/-- No `=` is written by `escape` in mode `encodeQueryComponent`. -/
theorem escapeQueryChar_no_eq (c : Char) : '=' ∉ escapeQueryChar c := by
  unfold escapeQueryChar
  split
  · rename_i h
    intro hm
    have : c = '=' := by
      have h2 : '=' = c := by simpa using hm
      exact h2.symm
    subst this
    exact absurd h (by decide)
  · split
    · decide
    · intro hm
      rw [List.mem_flatMap] at hm
      obtain ⟨b, _, hb⟩ := hm
      simp only [percentByte, List.mem_cons, List.mem_singleton, List.not_mem_nil, or_false] at hb
      have hx : ∀ n, n < 16 → upperhex n ≠ '=' := by decide
      rcases hb with hb | hb | hb
      · exact absurd hb (by decide)
      · exact hx _ (Nat.div_lt_of_lt_mul (by have := b.toNat_lt; omega)) hb.symm
      · exact hx _ (Nat.mod_lt _ (by omega)) hb.symm

theorem queryEscape_no_eq (s : String) : '=' ∉ (QueryEscape s).data := by
  unfold QueryEscape
  simp only [List.mem_flatMap, not_exists, not_and]
  intro c _
  exact escapeQueryChar_no_eq c

/-! ### Go maps -/

theorem mapGet_mapSet_self {V : Type} (m : GoMap V) (k : String) (v : V) :
    mapGet (mapSet m k v) k = some v := by
  simp [mapGet, mapSet]

theorem lookup_filter_ne {V : Type} (m : GoMap V) (k k' : String) (h : k' ≠ k) :
    List.lookup k' (m.filter (fun e => e.1 != k)) = List.lookup k' m := by
  induction m with
  | nil => rfl
  | cons e es ih =>
    obtain ⟨a, b⟩ := e
    by_cases hak : a = k
    · subst hak
      have hne : (k' == a) = false := by simpa using h
      simp [List.filter_cons, List.lookup_cons, hne, ih]
    · have hf : ((a, b).1 != k) = true := by simpa using hak
      rw [List.filter_cons, if_pos hf, List.lookup_cons, List.lookup_cons, ih]

theorem mapGet_mapSet_ne {V : Type} (m : GoMap V) (k k' : String) (v : V) (h : k' ≠ k) :
    mapGet (mapSet m k v) k' = mapGet m k' := by
  have hne : (k' == k) = false := by simpa using h
  simp only [mapGet, mapSet, List.lookup_cons, hne]
  exact lookup_filter_ne m k k' h

theorem mem_mapKeys_of_mapGet {V : Type} (m : GoMap V) (k : String) (v : V)
    (h : mapGet m k = some v) : k ∈ mapKeys m := by
  unfold mapKeys
  rw [List.mem_dedup]
  unfold mapGet at h
  induction m with
  | nil => simp at h
  | cons e es ih =>
    obtain ⟨a, b⟩ := e
    rw [List.lookup_cons] at h
    by_cases hak : k = a
    · subst hak; simp
    · have hne : (k == a) = false := by simpa using hak
      rw [hne] at h
      simp only [List.map_cons, List.mem_cons]
      exact Or.inr (ih h)

/-! ### The text of `Values.Encode` -/

/-- One pass of the inner loop of `Values.Encode`: an `&` unless the buffer is empty, then
the pair. -/
theorem foldl_pairs_nonempty (ps : List String) (hps : ∀ p ∈ ps, 0 < p.length) :
    ∀ buf : String, 0 < buf.length →
      ps.foldl (fun buf p => (if buf.length > 0 then buf ++ "&" else buf) ++ p) buf =
        String.intercalate.go buf "&" ps := by
  induction ps with
  | nil => intro buf _; rfl
  | cons p ps ih =>
    intro buf hbuf
    rw [List.foldl_cons, String.intercalate.go, if_pos hbuf]
    apply ih (fun q hq => hps q (List.mem_cons_of_mem _ hq))
    simp only [String.length_append]
    omega

theorem foldl_pairs (ps : List String) (hps : ∀ p ∈ ps, 0 < p.length) :
    ps.foldl (fun buf p => (if buf.length > 0 then buf ++ "&" else buf) ++ p) "" =
      "&".intercalate ps := by
  cases ps with
  | nil => rfl
  | cons p ps =>
    have hp : 0 < p.length := hps p (List.mem_cons_self _ _)
    rw [List.foldl_cons, String.intercalate]
    have h0 : ¬ ("".length > 0) := by decide
    rw [if_neg h0]
    have he : ("" : String) ++ p = p := by simp
    rw [he]
    exact foldl_pairs_nonempty ps (fun q hq => hps q (List.mem_cons_of_mem _ hq)) p hp

theorem foldl_nested {α β γ : Type} (g : γ → β → γ) (f : α → List β) (l : List α) (b : γ) :
    l.foldl (fun acc a => (f a).foldl g acc) b = (l.flatMap f).foldl g b := by
  induction l generalizing b with
  | nil => rfl
  | cons a as ih => simp [List.flatMap_cons, List.foldl_append, ih]

theorem encode_eq_intercalate (v : Values) :
    Values.Encode v = "&".intercalate (Values.pairs v) := by
  have hstep : ∀ (k : String) (vs : List String) (buf : String),
      vs.foldl (fun buf val =>
          (if buf.length > 0 then buf ++ "&" else buf) ++ QueryEscape k ++ "=" ++ QueryEscape val)
        buf =
      (vs.map (fun val => QueryEscape k ++ "=" ++ QueryEscape val)).foldl
        (fun buf p => (if buf.length > 0 then buf ++ "&" else buf) ++ p) buf := by
    intro k vs
    induction vs with
    | nil => intro buf; rfl
    | cons x xs ih =>
      intro buf
      simp only [List.foldl_cons, List.map_cons]
      rw [ih]
      simp [String.append_assoc]
  unfold Values.Encode Values.pairs
  simp only [hstep]
  rw [foldl_nested (fun buf p => (if buf.length > 0 then buf ++ "&" else buf) ++ p)
    (fun k => ((mapGet v k).getD []).map (fun val => QueryEscape k ++ "=" ++ QueryEscape val))]
  apply foldl_pairs
  intro p hp
  simp only [List.mem_flatMap, List.mem_map] at hp
  obtain ⟨k, _, val, _, rfl⟩ := hp
  have h1 : "=".length = 1 := by decide
  simp only [String.length_append, h1]
  omega

theorem mem_pairs_of_mapGet (v : Values) (k val : String) (vs : List String)
    (h : mapGet v k = some vs) (hval : val ∈ vs) :
    QueryEscape k ++ "=" ++ QueryEscape val ∈ Values.pairs v := by
  unfold Values.pairs
  rw [List.mem_flatMap]
  refine ⟨k, ?_, ?_⟩
  · unfold sortStrings
    rw [List.mem_insertionSort]
    exact mem_mapKeys_of_mapGet v k vs h
  · rw [h]
    exact List.mem_map.2 ⟨val, hval, rfl⟩

theorem append_sep_inj {α : Type} (c : α) :
    ∀ (a b x y : List α), c ∉ a → c ∉ b → a ++ c :: x = b ++ c :: y → a = b := by
  intro a
  induction a with
  | nil =>
    intro b x y _ hb h
    cases b with
    | nil => rfl
    | cons d ds =>
      simp only [List.nil_append, List.cons_append, List.cons.injEq] at h
      exact absurd (by simp [h.1]) hb
  | cons e es ih =>
    intro b x y ha hb h
    cases b with
    | nil =>
      simp only [List.nil_append, List.cons_append, List.cons.injEq] at h
      exact absurd (by simp [h.1]) ha
    | cons d ds =>
      simp only [List.cons_append, List.cons.injEq] at h
      have := ih ds x y (fun hm => ha (List.mem_cons_of_mem _ hm))
        (fun hm => hb (List.mem_cons_of_mem _ hm)) h.2
      rw [h.1, this]

/-- The only pairs that `Values.Encode` writes under a plain key are those of the values
bound to that key. -/
theorem pairs_unique (v : Values) (key value : String)
    (hplus : '+' ∉ key.data) (hpct : '%' ∉ key.data) (heq : '=' ∉ key.data)
    (hget : mapGet v key = some [value]) :
    ∀ p ∈ Values.pairs v, HasPrefix p (key ++ "=") → p = key ++ "=" ++ QueryEscape value := by
  intro p hp hpre
  unfold Values.pairs at hp
  rw [List.mem_flatMap] at hp
  obtain ⟨k, _, hp⟩ := hp
  rw [List.mem_map] at hp
  obtain ⟨val, hval, rfl⟩ := hp
  obtain ⟨t, ht⟩ := hpre
  have hdata : key.data ++ '=' :: t = (QueryEscape k).data ++ '=' :: (QueryEscape val).data := by
    have h1 : ("=" : String).data = ['='] := rfl
    simpa [String.data_append, h1] using ht
  have hk : key.data = (QueryEscape k).data :=
    append_sep_inj '=' _ _ _ _ heq (queryEscape_no_eq k) hdata
  have hk' : (QueryEscape k).data = k.data := by
    have h2 : (QueryEscape k).data = k.data.flatMap escapeQueryChar := rfl
    rw [h2] at hk ⊢
    exact queryEscape_plain k.data (hk ▸ hplus) (hk ▸ hpct)
  have hkk : k = key := by
    apply String.ext
    rw [← hk', ← hk]
  subst hkk
  rw [hget] at hval
  simp only [Option.getD_some, List.mem_singleton] at hval
  subst hval
  have : QueryEscape k = k := String.ext hk'
  rw [this]

theorem buildReportsURL_of_parse (lib : StdLib) (rt : ReportsTool) (name : String)
    (params : ReportParams) (u : URL)
    (h : lib.urlParse (rt.apiClient.BaseURL ++ "/reports/" ++ name ++ "/data") = .ok u) :
    rt.buildReportsURL lib name params =
      .ok (URL.String lib
        { u with RawQuery := Values.Encode (reportQuery (u.Query lib) params) }) := by
  simp [ReportsTool.buildReportsURL, h, reportQuery]

theorem buildReportsURL_of_parse_error (lib : StdLib) (rt : ReportsTool) (name : String)
    (params : ReportParams) (e : String)
    (h : lib.urlParse (rt.apiClient.BaseURL ++ "/reports/" ++ name ++ "/data") = .error e) :
    rt.buildReportsURL lib name params = .error ("invalid base URL: " ++ e) := by
  simp [ReportsTool.buildReportsURL, h]

theorem reportQuery_limit (q0 : Values) (params : ReportParams) (h : 0 < params.Limit) :
    mapGet (reportQuery q0 params) "limit" = some [itoa params.Limit] := by
  unfold reportQuery Values.Set
  simp only [gt_iff_lt, h, ↓reduceIte]
  split_ifs <;>
    simp [mapGet_mapSet_ne, mapGet_mapSet_self]

theorem reportQuery_page (q0 : Values) (params : ReportParams) (h : 0 < params.Page) :
    mapGet (reportQuery q0 params) "page" = some [itoa params.Page] := by
  unfold reportQuery Values.Set
  simp only [gt_iff_lt, h, ↓reduceIte]
  split_ifs <;>
    simp [mapGet_mapSet_ne, mapGet_mapSet_self]

/-! ### The requests handed to the transport -/

theorem setHeaders_method_url (hs : GoMap String) (req : Request) :
    (hs.foldl (fun r kv => { r with Header := Header.Set r.Header kv.1 kv.2 }) req).Method =
        req.Method ∧
    (hs.foldl (fun r kv => { r with Header := Header.Set r.Header kv.1 kv.2 }) req).URL =
        req.URL := by
  induction hs generalizing req with
  | nil => exact ⟨rfl, rfl⟩
  | cons h t ih =>
    rw [List.foldl_cons]
    exact ih _

theorem doRequest_sent (c : APIClient) (req : Request) (sent : List Request) :
    ∃ req', req'.Method = req.Method ∧ req'.URL = req.URL ∧
      c.DoRequest req sent = (c.HTTPClient req', sent ++ [req']) := by
  refine ⟨_, (setHeaders_method_url c.HTTPHeaders req).1,
    (setHeaders_method_url c.HTTPHeaders req).2, rfl⟩

theorem fetchReports_sent (lib : StdLib) (rt : ReportsTool) (apiURL : String)
    (sent : List Request) :
    ((∃ e, lib.urlParse apiURL = .error e) ∧ (rt.fetchReports lib apiURL sent).2 = sent) ∨
    ((∃ u, lib.urlParse apiURL = .ok u) ∧
      ∃ req, req.Method = "GET" ∧ req.URL = apiURL ∧
        (rt.fetchReports lib apiURL sent).2 = sent ++ [req]) := by
  cases hp : lib.urlParse apiURL with
  | error e =>
    exact Or.inl ⟨⟨e, rfl⟩, by rw [fetchReports_create_error lib rt apiURL sent e hp]⟩
  | ok u =>
    refine Or.inr ⟨⟨u, rfl⟩, ?_⟩
    obtain ⟨req', hm, hu, hdo⟩ :=
      doRequest_sent rt.apiClient { Method := "GET", URL := apiURL, Header := [] } sent
    refine ⟨req', hm, hu, ?_⟩
    rw [fetchReports_of_request lib rt apiURL sent _ (newRequest_ok lib apiURL u hp), hdo]
    cases rt.apiClient.HTTPClient req' with
    | error e => rfl
    | ok resp =>
      simp only
      cases resp.Body with
      | error e => rfl
      | ok body =>
        simp only
        split
        · rfl
        · rcases lib.unmarshalReports body with ⟨reports, _ | e⟩ <;> rfl

theorem shapeResult_sent (name : String) (x : Except String (List Reports) × List Request) :
    (shapeResult name x).sent = x.2 := by
  obtain ⟨r, s⟩ := x
  cases r with
  | error e => rfl
  | ok reports =>
    simp only [shapeResult]
    split
    · rfl
    · cases MarshalIndent { Data := reports } <;> rfl

theorem getReport_sendsParam (lib : StdLib) (rt : ReportsTool) (args : ReportArgs)
    (sent : List Request) (u : URL) (key value : String)
    (hname : ReportType.IsValid args.ReportName = true)
    (hlimit : 0 ≤ args.Limit ∧ args.Limit ≤ 10000) (hpage : 0 ≤ args.Page)
    (hparse : lib.urlParse
      (rt.apiClient.BaseURL ++ "/reports/" ++ args.ReportName ++ "/data") = .ok u)
    (hplus : '+' ∉ key.data) (hpct : '%' ∉ key.data) (heq : '=' ∉ key.data)
    (hkey : QueryEscape key = key) (hvalue : QueryEscape value = value)
    (hget : mapGet (reportQuery (u.Query lib) (defaultedParams args)) key = some [value]) :
    SendsParam lib rt args sent u key value := by
  refine ⟨reportQuery (u.Query lib) (defaultedParams args), hget, encode_eq_intercalate _,
    ?_, ?_, ?_⟩
  · have := mem_pairs_of_mapGet _ key value [value] hget (List.mem_singleton.2 rfl)
    rwa [hkey, hvalue] at this
  · intro p hp hpre
    have := pairs_unique _ key value hplus hpct heq hget p hp hpre
    rwa [hvalue] at this
  · have hurl := buildReportsURL_of_parse lib rt args.ReportName (defaultedParams args) u hparse
    have hsent : (rt.GetReport lib args sent).sent =
        (rt.fetchReports lib
          (URL.String lib { u with
            RawQuery := Values.Encode (reportQuery (u.Query lib) (defaultedParams args)) })
          sent).2 := by
      rw [getReport_of_fetch lib rt args sent _ hname hlimit hpage hurl, shapeResult_sent]
    rcases fetchReports_sent lib rt
      (URL.String lib
        { u with RawQuery := Values.Encode (reportQuery (u.Query lib) (defaultedParams args)) })
      sent with ⟨⟨e, he⟩, hs⟩ | ⟨_, req, hm, hu, hs⟩
    · refine ⟨[], by rw [hsent, hs]; simp, by simp, ?_⟩
      rintro ⟨u2, hu2⟩
      rw [he] at hu2
      cases hu2
    · exact ⟨[req], by rw [hsent, hs], by simp [hm, hu], fun _ => rfl⟩

theorem jsonOmitEmptyFloat_ok (key : String) (f : Float64) (h : f.encodable = true) :
    ∃ ms, jsonOmitEmptyFloat key f = .ok ms := by
  unfold jsonOmitEmptyFloat
  unfold Float64.encodable at h
  split
  · exact ⟨_, rfl⟩
  · cases ht : f.text with
    | ok t => exact ⟨_, rfl⟩
    | error e => rw [ht] at h; cases h

theorem members_ok (r : Reports)
    (h : r.AvgSessionDuration.encodable = true ∧ r.BounceRate.encodable = true) :
    ∃ ms, r.members = .ok ms := by
  obtain ⟨a, ha⟩ := jsonOmitEmptyFloat_ok "avg_session_duration" r.AvgSessionDuration h.1
  obtain ⟨b, hb⟩ := jsonOmitEmptyFloat_ok "bounce_rate" r.BounceRate h.2
  unfold Reports.members
  rw [ha, hb]
  exact ⟨_, rfl⟩

theorem marshalRecords_ok (R : List Reports)
    (h : ∀ r ∈ R, r.AvgSessionDuration.encodable = true ∧ r.BounceRate.encodable = true) :
    marshalRecords R = .ok (R.map recordJSON) := by
  induction R with
  | nil => rfl
  | cons r rs ih =>
    obtain ⟨ms, hms⟩ := members_ok r (h r (List.mem_cons_self _ _))
    have hrs := ih (fun x hx => h x (List.mem_cons_of_mem _ hx))
    simp only [marshalRecords, hms, hrs, List.map_cons, recordJSON]

theorem marshalIndent_ok (R : List Reports)
    (h : ∀ r ∈ R, r.AvgSessionDuration.encodable = true ∧ r.BounceRate.encodable = true) :
    MarshalIndent { Data := R } =
      .ok (indentObject 0 [("data", indentArray 1 (R.map recordJSON))]) := by
  simp [MarshalIndent, marshalRecords_ok R h, jsonField]

theorem contains_head (a b : String) : Contains (a ++ b) a := by
  have := contains_append_mid "" a b
  simpa using this

theorem contains_tail (a b : String) : Contains (a ++ b) b := by
  have := contains_append_mid a b ""
  simpa using this

theorem contains_intercalate_go (sep t : String) :
    ∀ (xs : List String) (acc : String), Contains acc t ∨ t ∈ xs →
      Contains (String.intercalate.go acc sep xs) t := by
  intro xs
  induction xs with
  | nil =>
    intro acc h
    rcases h with h | h
    · exact h
    · cases h
  | cons a as ih =>
    intro acc h
    rw [String.intercalate.go]
    apply ih
    rcases h with h | h
    · exact Or.inl (contains_append_left _ (contains_append_left _ h))
    · rcases List.mem_cons.1 h with rfl | h
      · exact Or.inl (contains_tail _ _)
      · exact Or.inr h

theorem contains_fmtReportTypes (xs : List ReportType) (t : String) (h : t ∈ xs) :
    Contains (fmtReportTypes xs) t := by
  unfold fmtReportTypes
  apply contains_append_left
  apply contains_append_right
  cases xs with
  | nil => cases h
  | cons a as =>
    simp only [List.map_cons, String.intercalate]
    apply contains_intercalate_go
    rcases List.mem_cons.1 h with rfl | h
    · exact Or.inl (contains_head _ "" |> fun h => by simpa using h)
    · exact Or.inr (by simpa [ReportType.String] using h)
/-! ### Trimming a suffix -/

theorem trimSuffix_slash_of_ends (b : String) (l : List Char) (h : b.data = l ++ ['/']) :
    TrimSuffix b "/" = ⟨l⟩ := by
  have hs : ("/" : String).data = ['/'] := rfl
  unfold TrimSuffix
  rw [hs, h, if_pos ⟨l, rfl⟩]
  simp

theorem trimSuffix_slash_of_not_ends (b : String) (h : ¬ HasSuffix b "/") :
    TrimSuffix b "/" = b := by
  unfold TrimSuffix
  unfold HasSuffix at h
  rw [if_neg h]

theorem hasSuffix_slash_iff (b : String) :
    HasSuffix b "/" ↔ ∃ l, b.data = l ++ ['/'] := by
  have hs : ("/" : String).data = ['/'] := rfl
  unfold HasSuffix
  rw [hs]
  constructor
  · rintro ⟨l, hl⟩
    exact ⟨l, hl.symm⟩
  · rintro ⟨l, hl⟩
    exact ⟨l, hl.symm⟩

theorem trimSuffix_slash_ends_iff (b : String) :
    HasSuffix (TrimSuffix b "/") "/" ↔ HasSuffix b "//" := by
  have hss : ("//" : String).data = ['/', '/'] := rfl
  by_cases h : HasSuffix b "/"
  · obtain ⟨l, hl⟩ := (hasSuffix_slash_iff b).1 h
    rw [trimSuffix_slash_of_ends b l hl, hasSuffix_slash_iff]
    unfold HasSuffix
    rw [hss, hl]
    constructor
    · rintro ⟨l', hl'⟩
      simp only at hl'
      exact ⟨l', by rw [hl']; simp⟩
    · rintro ⟨l', hl'⟩
      refine ⟨l', ?_⟩
      have : l' ++ ['/', '/'] = (l' ++ ['/']) ++ ['/'] := by simp
      rw [this] at hl'
      exact (List.append_inj_left' hl' rfl).symm
  · rw [trimSuffix_slash_of_not_ends b h]
    constructor
    · intro h'; exact absurd h' h
    · intro h'
      exfalso
      apply h
      unfold HasSuffix at h' ⊢
      rw [hss] at h'
      obtain ⟨l', hl'⟩ := h'
      exact ⟨l' ++ ['/'], by rw [← hl']; simp⟩

/-! ### Headers -/

theorem httpHeaders_of_key (c : APIClient) (h : c.APIKey ≠ "") :
    c.HTTPHeaders = [("X-API-KEY", c.APIKey), ("Accept", "application/json"),
      ("Content-Type", "application/json")] := by
  unfold APIClient.HTTPHeaders
  simp only [h, ne_eq, not_false_eq_true, ↓reduceIte]
  rfl

theorem httpHeaders_of_no_key (c : APIClient) (h : c.APIKey = "") :
    c.HTTPHeaders = [("Accept", "application/json"), ("Content-Type", "application/json")] := by
  unfold APIClient.HTTPHeaders
  simp only [h, ne_eq, not_true_eq_false, ↓reduceIte]
  rfl

theorem doRequest_eq (c : APIClient) (req : Request) (sent : List Request) :
    c.DoRequest req sent =
      (c.HTTPClient (withHeaders c.HTTPHeaders req), sent ++ [withHeaders c.HTTPHeaders req]) :=
  rfl

theorem withHeaders_method_url (hs : GoMap String) (req : Request) :
    (withHeaders hs req).Method = req.Method ∧ (withHeaders hs req).URL = req.URL :=
  setHeaders_method_url hs req

theorem withHeaders_append (hs : GoMap String) (kv : String × String) (req : Request) :
    withHeaders (hs ++ [kv]) req =
      { withHeaders hs req with
        Header := Header.Set (withHeaders hs req).Header kv.1 kv.2 } := by
  simp [withHeaders, List.foldl_append]

/-- A key that no entry sets keeps its values. -/
theorem withHeaders_other (hs : GoMap String) (req : Request) (k : String)
    (h : ∀ kv ∈ hs, CanonicalMIMEHeaderKey kv.1 ≠ k) :
    mapGet (withHeaders hs req).Header k = mapGet req.Header k := by
  induction hs generalizing req with
  | nil => rfl
  | cons kv rest ih =>
    have h1 : CanonicalMIMEHeaderKey kv.1 ≠ k := h kv (List.mem_cons_self _ _)
    have h2 := ih { req with Header := Header.Set req.Header kv.1 kv.2 }
      (fun x hx => h x (List.mem_cons_of_mem _ hx))
    have h3 : withHeaders (kv :: rest) req =
        withHeaders rest { req with Header := Header.Set req.Header kv.1 kv.2 } := rfl
    rw [h3, h2]
    exact mapGet_mapSet_ne _ _ _ _ (Ne.symm h1)

/-- When the canonical keys of the entries are pairwise distinct, the key of an entry ends
up bound to the value of that entry alone, whatever the order of the entries. -/
theorem withHeaders_entry (hs : GoMap String) (req : Request) (kv : String × String)
    (hmem : kv ∈ hs) (hnd : (hs.map (fun e => CanonicalMIMEHeaderKey e.1)).Nodup) :
    mapGet (withHeaders hs req).Header (CanonicalMIMEHeaderKey kv.1) = some [kv.2] := by
  induction hs generalizing req with
  | nil => cases hmem
  | cons e rest ih =>
    have h3 : withHeaders (e :: rest) req =
        withHeaders rest { req with Header := Header.Set req.Header e.1 e.2 } := rfl
    rw [h3]
    rw [List.map_cons, List.nodup_cons] at hnd
    rcases List.mem_cons.1 hmem with rfl | hm
    · rw [withHeaders_other]
      · exact mapGet_mapSet_self _ _ _
      · intro x hx hEq
        exact hnd.1 (List.mem_map.2 ⟨x, hx, hEq⟩)
    · exact ih _ hm hnd.2

theorem canonical_content_type : CanonicalMIMEHeaderKey "Content-Type" = "Content-Type" := by
  decide

theorem canonical_accept : CanonicalMIMEHeaderKey "Accept" = "Accept" := by decide

theorem canonical_api_key : CanonicalMIMEHeaderKey "X-API-KEY" = "X-Api-Key" := by decide

/-- The entries of `HTTPHeaders` have pairwise distinct canonical keys, in any order. -/
theorem httpHeaders_perm_facts (c : APIClient) (hs : GoMap String)
    (hp : hs.Perm c.HTTPHeaders) :
    (hs.map (fun e => CanonicalMIMEHeaderKey e.1)).Nodup ∧
    ("Content-Type", "application/json") ∈ hs ∧ ("Accept", "application/json") ∈ hs ∧
    (c.APIKey ≠ "" → ("X-API-KEY", c.APIKey) ∈ hs) ∧
    (∀ kv ∈ hs, CanonicalMIMEHeaderKey kv.1 = "Content-Type" ∨
      CanonicalMIMEHeaderKey kv.1 = "Accept" ∨
      (c.APIKey ≠ "" ∧ CanonicalMIMEHeaderKey kv.1 = "X-Api-Key")) := by
  have hnd : (c.HTTPHeaders.map (fun e => CanonicalMIMEHeaderKey e.1)).Nodup := by
    by_cases hk : c.APIKey = ""
    · rw [httpHeaders_of_no_key c hk]; decide
    · rw [httpHeaders_of_key c hk]
      simp only [List.map_cons, List.map_nil]
      decide
  refine ⟨(hp.map _).nodup_iff.2 hnd, ?_, ?_, ?_, ?_⟩
  · apply hp.mem_iff.2
    by_cases hk : c.APIKey = ""
    · rw [httpHeaders_of_no_key c hk]; simp
    · rw [httpHeaders_of_key c hk]; simp
  · apply hp.mem_iff.2
    by_cases hk : c.APIKey = ""
    · rw [httpHeaders_of_no_key c hk]; simp
    · rw [httpHeaders_of_key c hk]; simp
  · intro hk
    apply hp.mem_iff.2
    rw [httpHeaders_of_key c hk]; simp
  · intro kv hkv
    have hkv' := hp.mem_iff.1 hkv
    by_cases hk : c.APIKey = ""
    · rw [httpHeaders_of_no_key c hk] at hkv'
      simp only [List.mem_cons, List.mem_singleton, List.not_mem_nil, or_false] at hkv'
      rcases hkv' with rfl | rfl
      · exact Or.inr (Or.inl canonical_accept)
      · exact Or.inl canonical_content_type
    · rw [httpHeaders_of_key c hk] at hkv'
      simp only [List.mem_cons, List.mem_singleton, List.not_mem_nil, or_false] at hkv'
      rcases hkv' with rfl | rfl | rfl
      · exact Or.inr (Or.inr ⟨hk, canonical_api_key⟩)
      · exact Or.inr (Or.inl canonical_accept)
      · exact Or.inl canonical_content_type

/-! ### Reading an escaped text back -/

theorem unhex_upperhex : ∀ n, n < 16 → unhex (upperhex n) = some n := by decide

theorem byte_of_nibbles (b : UInt8) : UInt8.ofNat (b.toNat / 16 * 16 + b.toNat % 16) = b := by
  have h : b.toNat / 16 * 16 + b.toNat % 16 = b.toNat := by omega
  rw [h]
  rcases b with ⟨⟨n, hn⟩⟩
  apply UInt8.ext
  simp only [UInt8.ofNat, UInt8.toNat, Fin.ofNat]
  exact Nat.mod_eq_of_lt hn

theorem unescapeQuery_pct (h1 h2 : Char) (rest : List Char) (a b : Nat)
    (ha : unhex h1 = some a) (hb : unhex h2 = some b) :
    unescapeQuery ('%' :: h1 :: h2 :: rest) =
      (unescapeQuery rest).map (fun out => UInt8.ofNat (a * 16 + b) :: out) := by
  rw [unescapeQuery.eq_def]
  simp only [↓reduceIte, ha, hb]
  cases unescapeQuery rest <;> rfl

theorem unescapeQuery_plus (rest : List Char) :
    unescapeQuery ('+' :: rest) = (unescapeQuery rest).map (fun out => 32 :: out) := by
  rw [unescapeQuery.eq_def]
  have h : ¬ ('+' = '%') := by decide
  simp only [h, ↓reduceIte]
  cases unescapeQuery rest <;> rfl

theorem unescapeQuery_plain (c : Char) (rest : List Char) (h1 : c ≠ '%') (h2 : c ≠ '+') :
    unescapeQuery (c :: rest) =
      (unescapeQuery rest).map (fun out => String.utf8EncodeChar c ++ out) := by
  rw [unescapeQuery.eq_def]
  simp only [h1, h2, ↓reduceIte]
  cases unescapeQuery rest <;> rfl

theorem unescapeQuery_percent (bs : List UInt8) (tail : List Char) :
    unescapeQuery (bs.flatMap percentByte ++ tail) =
      (unescapeQuery tail).map (fun out => bs ++ out) := by
  induction bs with
  | nil =>
    simp only [List.flatMap_nil, List.nil_append]
    cases unescapeQuery tail <;> rfl
  | cons b bs ih =>
    have h1 := unhex_upperhex (b.toNat / 16) (by have := b.toNat_lt; omega)
    have h2 := unhex_upperhex (b.toNat % 16) (Nat.mod_lt _ (by omega))
    have hshape : (b :: bs).flatMap percentByte ++ tail =
        '%' :: upperhex (b.toNat / 16) :: upperhex (b.toNat % 16) ::
          (bs.flatMap percentByte ++ tail) := by
      simp [List.flatMap_cons, percentByte]
    rw [hshape, unescapeQuery_pct _ _ _ _ _ h1 h2, ih, byte_of_nibbles]
    cases unescapeQuery tail <;> rfl

theorem unescapeQuery_escapeChar (c : Char) (tail : List Char) :
    unescapeQuery (escapeQueryChar c ++ tail) =
      (unescapeQuery tail).map (fun out => String.utf8EncodeChar c ++ out) := by
  unfold escapeQueryChar
  split
  · rename_i hu
    have h1 : c ≠ '%' := by
      rintro rfl
      exact absurd hu (by decide)
    have h2 : c ≠ '+' := by
      rintro rfl
      exact absurd hu (by decide)
    exact unescapeQuery_plain c tail h1 h2
  · split
    · rename_i hs
      subst hs
      have : ['+'] ++ tail = '+' :: tail := rfl
      rw [this, unescapeQuery_plus]
      rfl
    · exact unescapeQuery_percent _ _

theorem unescapeQuery_escape (l tail : List Char) :
    unescapeQuery (l.flatMap escapeQueryChar ++ tail) =
      (unescapeQuery tail).map (fun out => l.flatMap String.utf8EncodeChar ++ out) := by
  induction l with
  | nil =>
    simp only [List.flatMap_nil, List.nil_append]
    cases unescapeQuery tail <;> rfl
  | cons c cs ih =>
    rw [List.flatMap_cons, List.append_assoc, unescapeQuery_escapeChar, ih, List.flatMap_cons]
    cases unescapeQuery tail with
    | error e => rfl
    | ok out => simp [Except.map]

/-- Unescaping what `QueryEscape` wrote gives back the bytes of the text. -/
theorem queryUnescape_queryEscape (s : String) :
    QueryUnescape (QueryEscape s) = .ok (goBytes s) := by
  have := unescapeQuery_escape s.data []
  simpa [QueryUnescape, QueryEscape, goBytes, unescapeQuery, Except.map] using this

/-! ### The characters of an escaped text -/

theorem upperhex_unreserved : ∀ n, n < 16 → unreservedByte (upperhex n) = true := by decide

theorem escapeQueryChar_alphabet (c : Char) : ∀ x ∈ escapeQueryChar c, escapedChar x = true := by
  unfold escapeQueryChar
  split
  · rename_i hu
    intro x hx
    rw [List.mem_singleton] at hx
    subst hx
    simp [escapedChar, hu]
  · split
    · intro x hx
      rw [List.mem_singleton] at hx
      subst hx
      decide
    · intro x hx
      rw [List.mem_flatMap] at hx
      obtain ⟨b, _, hb⟩ := hx
      simp only [percentByte, List.mem_cons, List.mem_singleton, List.not_mem_nil,
        or_false] at hb
      rcases hb with rfl | rfl | rfl
      · decide
      · simp [escapedChar, upperhex_unreserved _
          (show b.toNat / 16 < 16 by have := b.toNat_lt; omega)]
      · simp [escapedChar, upperhex_unreserved _ (Nat.mod_lt _ (by omega))]

theorem queryEscape_alphabet (s : String) : ∀ x ∈ (QueryEscape s).data, escapedChar x = true := by
  intro x hx
  unfold QueryEscape at hx
  rw [List.mem_flatMap] at hx
  obtain ⟨c, _, hc⟩ := hx
  exact escapeQueryChar_alphabet c x hc

theorem queryEscape_no_amp (s : String) : '&' ∉ (QueryEscape s).data := fun h =>
  absurd (queryEscape_alphabet s _ h) (by decide)

theorem queryEscape_no_semicolon (s : String) : ';' ∉ (QueryEscape s).data := fun h =>
  absurd (queryEscape_alphabet s _ h) (by decide)

/-! ### Cutting a text at a separator -/

theorem splitOnChar_ne_nil (sep : Char) (l : List Char) : splitOnChar sep l ≠ [] := by
  induction l with
  | nil => simp [splitOnChar]
  | cons c cs ih =>
    rw [splitOnChar]
    split
    · simp
    · split
      · simp
      · simp

theorem splitOnChar_no_sep (sep : Char) (l : List Char) (h : sep ∉ l) :
    splitOnChar sep l = [l] := by
  induction l with
  | nil => rfl
  | cons c cs ih =>
    have hc : c ≠ sep := fun e => h (by simp [e])
    have hcs := ih (fun hm => h (List.mem_cons_of_mem _ hm))
    rw [splitOnChar, if_neg hc, hcs]

theorem splitOnChar_append (sep : Char) (a rest : List Char) (h : sep ∉ a) :
    splitOnChar sep (a ++ sep :: rest) = a :: splitOnChar sep rest := by
  induction a with
  | nil => simp [splitOnChar]
  | cons c cs ih =>
    have hc : c ≠ sep := fun e => h (by simp [e])
    have hcs := ih (fun hm => h (List.mem_cons_of_mem _ hm))
    rw [List.cons_append, splitOnChar, if_neg hc, hcs]

theorem takeWhile_stop (p : Char → Bool) (a b : List Char) (x : Char)
    (ha : ∀ c ∈ a, p c = true) (hx : p x = false) :
    (a ++ x :: b).takeWhile p = a ∧ (a ++ x :: b).dropWhile p = x :: b := by
  induction a with
  | nil => simp [List.takeWhile, List.dropWhile, hx]
  | cons c cs ih =>
    have hc : p c = true := ha c (List.mem_cons_self _ _)
    have hcs := ih (fun d hd => ha d (List.mem_cons_of_mem _ hd))
    rw [List.cons_append, List.takeWhile_cons, List.dropWhile_cons, hc]
    simp only [↓reduceIte, hcs.1, hcs.2, and_self]

theorem takeWhile_all (p : Char → Bool) (a : List Char) (ha : ∀ c ∈ a, p c = true) :
    a.takeWhile p = a ∧ a.dropWhile p = [] := by
  induction a with
  | nil => simp
  | cons c cs ih =>
    have hc : p c = true := ha c (List.mem_cons_self _ _)
    have hcs := ih (fun d hd => ha d (List.mem_cons_of_mem _ hd))
    rw [List.takeWhile_cons, List.dropWhile_cons, hc]
    simp only [↓reduceIte, hcs.1, hcs.2, and_self]

theorem span_ne_sep (sep : Char) (a b : List Char) (h : sep ∉ a) :
    (a ++ sep :: b).span (fun c => c ≠ sep) = (a, sep :: b) := by
  have := takeWhile_stop (fun c => decide (c ≠ sep)) a b sep
    (fun c hc => decide_eq_true (fun e => h (e ▸ hc))) (by simp)
  rw [List.span_eq_take_drop, this.1, this.2]

theorem span_no_sep (sep : Char) (a : List Char) (h : sep ∉ a) :
    a.span (fun c => c ≠ sep) = (a, []) := by
  have := takeWhile_all (fun c => decide (c ≠ sep)) a
    (fun c hc => decide_eq_true (fun e => h (e ▸ hc)))
  rw [List.span_eq_take_drop, this.1, this.2]

theorem cutEq_pair (a b : List Char) (h : '=' ∉ a) : cutEq (a ++ '=' :: b) = (a, b) := by
  unfold cutEq
  rw [span_ne_sep '=' a b h]
  rfl

/-! ### Reading an encoded query back -/

theorem pairs_eq_keyValues (v : Values) :
    (Values.pairs v).map String.data = (Values.keyValues v).map pairText := by
  have h1 : ("=" : String).data = ['='] := rfl
  simp only [Values.pairs, Values.keyValues, List.map_flatMap, List.map_map]
  congr 1
  funext k
  apply List.map_congr_left
  intro val _
  simp [pairText, String.data_append, h1]

theorem intercalate_go_data (sep : String) (ps : List String) (acc : String) :
    (String.intercalate.go acc sep ps).data =
      acc.data ++ ps.flatMap (fun q => sep.data ++ q.data) := by
  induction ps generalizing acc with
  | nil => simp [String.intercalate.go]
  | cons p ps ih =>
    rw [String.intercalate.go, ih]
    simp [String.data_append, List.flatMap_cons]

theorem pairText_no_amp (kv : String × String) : '&' ∉ pairText kv := by
  unfold pairText
  intro h
  rcases List.mem_append.1 h with h | h
  · exact queryEscape_no_amp _ h
  · rcases List.mem_cons.1 h with h | h
    · exact absurd h (by decide)
    · exact queryEscape_no_amp _ h

theorem pairText_no_semicolon (kv : String × String) : ';' ∉ pairText kv := by
  unfold pairText
  intro h
  rcases List.mem_append.1 h with h | h
  · exact queryEscape_no_semicolon _ h
  · rcases List.mem_cons.1 h with h | h
    · exact absurd h (by decide)
    · exact queryEscape_no_semicolon _ h

theorem splitOnChar_joined (ps : List (List Char)) (a : List Char)
    (ha : '&' ∉ a) (hps : ∀ p ∈ ps, '&' ∉ p) :
    splitOnChar '&' (a ++ ps.flatMap (fun q => '&' :: q)) = a :: ps := by
  induction ps generalizing a with
  | nil => simpa using splitOnChar_no_sep '&' a ha
  | cons p ps ih =>
    rw [List.flatMap_cons, List.cons_append, splitOnChar_append '&' a _ ha,
      ih p (hps p (List.mem_cons_self _ _)) (fun q hq => hps q (List.mem_cons_of_mem _ hq))]

/-- The pieces of an encoded query are its pairs. -/
theorem splitOnChar_encode (v : Values) (h : Values.keyValues v ≠ []) :
    splitOnChar '&' (Values.Encode v).data = (Values.keyValues v).map pairText := by
  have hamp : ("&" : String).data = ['&'] := rfl
  rw [encode_eq_intercalate, ← pairs_eq_keyValues]
  cases hp : Values.pairs v with
  | nil =>
    have := pairs_eq_keyValues v
    rw [hp] at this
    exact absurd (List.map_eq_nil_iff.1 this.symm) h
  | cons p ps =>
    have hall : ∀ q ∈ (p :: ps).map String.data, '&' ∉ q := by
      rw [← hp, pairs_eq_keyValues]
      intro q hq
      obtain ⟨kv, _, rfl⟩ := List.mem_map.1 hq
      exact pairText_no_amp kv
    rw [String.intercalate, intercalate_go_data, hamp]
    have hflat : ps.flatMap (fun q => ['&'] ++ q.data) =
        (ps.map String.data).flatMap (fun q => '&' :: q) := by
      simp [List.flatMap_map]
    rw [hflat, splitOnChar_joined _ _ (hall _ (by simp))
      (fun q hq => hall q (by simp only [List.map_cons]; exact List.mem_cons_of_mem _ hq))]
    simp

theorem encode_of_no_keyValues (v : Values) (h : Values.keyValues v = []) :
    Values.Encode v = "" := by
  rw [encode_eq_intercalate]
  have := pairs_eq_keyValues v
  rw [h] at this
  rw [List.map_nil, List.map_eq_nil_iff] at this
  rw [this]
  rfl

/-- One turn of the loop on a pair that `Values.Encode` wrote: the decoded value is added
under the decoded key. -/
theorem parseQueryPiece_pair (st : ByteValues × Option QueryError) (kv : String × String) :
    parseQueryPiece st (pairText kv) =
      (byteValuesAdd st.1 (goBytes kv.1) (goBytes kv.2), st.2) := by
  have hne : pairText kv ≠ [] := by
    unfold pairText
    simp
  have hcut : cutEq (pairText kv) = ((QueryEscape kv.1).data, (QueryEscape kv.2).data) :=
    cutEq_pair _ _ (queryEscape_no_eq kv.1)
  have hk : unescapeQuery (QueryEscape kv.1).data = .ok (goBytes kv.1) :=
    queryUnescape_queryEscape kv.1
  have hv : unescapeQuery (QueryEscape kv.2).data = .ok (goBytes kv.2) :=
    queryUnescape_queryEscape kv.2
  unfold parseQueryPiece
  rw [if_neg (pairText_no_semicolon kv), if_neg hne, hcut]
  simp only [hk, hv]

theorem parseQuery_encode_fold (v : Values) :
    ParseQuery (Values.Encode v) =
      ((Values.keyValues v).foldl
        (fun m kv => byteValuesAdd m (goBytes kv.1) (goBytes kv.2)) [], none) := by
  have hfold : ∀ (kvs : List (String × String)) (st : ByteValues × Option QueryError),
      (kvs.map pairText).foldl parseQueryPiece st =
        (kvs.foldl (fun m kv => byteValuesAdd m (goBytes kv.1) (goBytes kv.2)) st.1,
          st.2) := by
    intro kvs
    induction kvs with
    | nil => intro st; rfl
    | cons kv kvs ih =>
      intro st
      rw [List.map_cons, List.foldl_cons, parseQueryPiece_pair, ih]
      rfl
  unfold ParseQuery
  by_cases h : Values.keyValues v = []
  · rw [encode_of_no_keyValues v h, h]
    rfl
  · rw [splitOnChar_encode v h, hfold]

/-! ### The values of a key after reading back -/

theorem lookup_filter_bne (m : ByteValues) (k k' : List UInt8) (h : k' ≠ k) :
    List.lookup k' (m.filter (fun e => e.1 != k)) = List.lookup k' m := by
  induction m with
  | nil => rfl
  | cons e es ih =>
    obtain ⟨a, b⟩ := e
    by_cases hak : a = k
    · subst hak
      have hne : (k' == a) = false := by simpa using h
      simp [List.filter_cons, List.lookup_cons, hne, ih]
    · have hf : ((a, b).1 != k) = true := by simpa using hak
      rw [List.filter_cons, if_pos hf, List.lookup_cons, List.lookup_cons, ih]

theorem byteValuesOf_add (m : ByteValues) (k v k' : List UInt8) :
    byteValuesOf (byteValuesAdd m k v) k' =
      if k' = k then byteValuesOf m k ++ [v] else byteValuesOf m k' := by
  unfold byteValuesAdd
  by_cases h : k' = k
  · subst h
    simp [byteValuesOf]
  · have hne : (k' == k) = false := by simpa using h
    rw [if_neg h]
    simp only [byteValuesOf, List.lookup_cons, hne]
    rw [lookup_filter_bne m k k' h]

theorem byteValuesOf_fold (kvs : List (String × String)) (m0 : ByteValues)
    (key : List UInt8) :
    byteValuesOf
        (kvs.foldl (fun m kv => byteValuesAdd m (goBytes kv.1) (goBytes kv.2)) m0) key =
      byteValuesOf m0 key ++
        (kvs.filter (fun kv => goBytes kv.1 = key)).map (fun kv => goBytes kv.2) := by
  induction kvs generalizing m0 with
  | nil => simp
  | cons kv kvs ih =>
    rw [List.foldl_cons, ih, byteValuesOf_add]
    by_cases h : goBytes kv.1 = key
    · subst h
      simp [List.filter_cons]
    · have h' : ¬ key = goBytes kv.1 := fun e => h e.symm
      simp [List.filter_cons, h, h']

theorem keys_of_fold (kvs : List (String × String)) (m0 : ByteValues) :
    ∀ e ∈ kvs.foldl (fun m kv => byteValuesAdd m (goBytes kv.1) (goBytes kv.2)) m0,
      (∃ e0 ∈ m0, e0.1 = e.1) ∨ ∃ kv ∈ kvs, e.1 = goBytes kv.1 := by
  induction kvs generalizing m0 with
  | nil =>
    intro e he
    exact Or.inl ⟨e, he, rfl⟩
  | cons kv kvs ih =>
    intro e he
    rw [List.foldl_cons] at he
    rcases ih _ e he with ⟨e0, he0, heq⟩ | ⟨kv', hkv', heq⟩
    · unfold byteValuesAdd at he0
      rcases List.mem_cons.1 he0 with rfl | hm
      · exact Or.inr ⟨kv, List.mem_cons_self _ _, heq.symm⟩
      · exact Or.inl ⟨e0, (List.mem_filter.1 hm).1, heq⟩
    · exact Or.inr ⟨kv', List.mem_cons_of_mem _ hkv', heq⟩

/-- The values read back for a key are never an empty list. -/
theorem lookup_of_byteValuesOf (m : ByteValues) (key : List UInt8) (x : List UInt8)
    (xs : List (List UInt8)) (h : byteValuesOf m key = x :: xs) :
    List.lookup key m = some (x :: xs) := by
  unfold byteValuesOf at h
  cases hl : List.lookup key m with
  | none => rw [hl] at h; cases h
  | some vs => rw [hl] at h; simpa using h

/-! ### The bytes of an ASCII key -/

theorem utf8EncodeChar_ascii (c : Char) (h : c.val ≤ 0x7f) :
    String.utf8EncodeChar c = [c.val.toUInt8] := by
  unfold String.utf8EncodeChar
  simp only [h, ↓reduceIte]

set_option maxRecDepth 100000 in
theorem lor_high_bits : ∀ n : Fin 256,
    128 ≤ n.val ||| 192 ∧ 128 ≤ n.val ||| 224 ∧ 128 ≤ n.val ||| 240 := by decide

theorem byte_or_toNat (x y : UInt8) : (x ||| y).toNat = x.toNat ||| y.toNat := by
  show (x.toBitVec ||| y.toBitVec).toNat = _
  rw [BitVec.toNat_or]
  rfl

theorem byte_or_high (x : UInt8) :
    128 ≤ (x ||| 0xc0).toNat ∧ 128 ≤ (x ||| 0xe0).toNat ∧ 128 ≤ (x ||| 0xf0).toNat := by
  have h1 : (x ||| 0xc0).toNat = x.toNat ||| 192 := by rw [byte_or_toNat]; rfl
  have h2 : (x ||| 0xe0).toNat = x.toNat ||| 224 := by rw [byte_or_toNat]; rfl
  have h3 : (x ||| 0xf0).toNat = x.toNat ||| 240 := by rw [byte_or_toNat]; rfl
  rw [h1, h2, h3]
  exact lor_high_bits ⟨x.toNat, x.toNat_lt⟩

theorem utf8EncodeChar_head_of_not_ascii (c : Char) (h : ¬ c.val ≤ 0x7f) :
    ∃ b rest, String.utf8EncodeChar c = b :: rest ∧ 128 ≤ b.toNat := by
  unfold String.utf8EncodeChar
  simp only [h, ↓reduceIte]
  split
  · exact ⟨_, _, rfl, (byte_or_high _).1⟩
  · split
    · exact ⟨_, _, rfl, (byte_or_high _).2.1⟩
    · exact ⟨_, _, rfl, (byte_or_high _).2.2⟩

theorem ascii_byte_lt (c : Char) (h : c.val ≤ 0x7f) : c.val.toUInt8.toNat < 128 := by
  have h1 : c.val.toNat ≤ 127 := h
  have h2 : c.val.toUInt8.toNat = c.val.toNat % 256 := rfl
  omega

theorem ascii_byte_inj (c d : Char) (hc : c.val ≤ 0x7f) (hd : d.val ≤ 0x7f)
    (h : c.val.toUInt8 = d.val.toUInt8) : c = d := by
  have h1 : c.val.toNat ≤ 127 := hc
  have h2 : d.val.toNat ≤ 127 := hd
  have h3 : c.val.toUInt8.toNat = c.val.toNat % 256 := rfl
  have h4 : d.val.toUInt8.toNat = d.val.toNat % 256 := rfl
  have h5 : c.val.toNat = d.val.toNat := by
    have := congrArg UInt8.toNat h
    omega
  apply Char.ext
  cases hcv : c.val with
  | mk bc =>
    cases hdv : d.val with
    | mk bd =>
      rw [hcv, hdv] at h5
      congr 1
      exact BitVec.eq_of_toNat_eq h5

/-- A text with the bytes of an ASCII text is that text. -/
theorem flatMap_utf8_ascii_inj (key : List Char) (hkey : ∀ c ∈ key, c.val ≤ 0x7f) :
    ∀ k : List Char, k.flatMap String.utf8EncodeChar = key.flatMap String.utf8EncodeChar →
      k = key := by
  induction key with
  | nil =>
    intro k hk
    cases k with
    | nil => rfl
    | cons c cs =>
      rw [List.flatMap_cons, List.flatMap_nil] at hk
      exact absurd (List.append_eq_nil.1 hk).1 (utf8EncodeChar_ne_nil c)
  | cons a as ih =>
    intro k hk
    have ha : a.val ≤ 0x7f := hkey a (List.mem_cons_self _ _)
    rw [List.flatMap_cons, utf8EncodeChar_ascii a ha] at hk
    cases k with
    | nil => simp at hk
    | cons c cs =>
      rw [List.flatMap_cons] at hk
      by_cases hc : c.val ≤ 0x7f
      · rw [utf8EncodeChar_ascii c hc] at hk
        simp only [List.singleton_append, List.cons.injEq] at hk
        rw [ascii_byte_inj c a hc ha hk.1,
          ih (fun x hx => hkey x (List.mem_cons_of_mem _ hx)) cs hk.2]
      · obtain ⟨b, rest, hb, hge⟩ := utf8EncodeChar_head_of_not_ascii c hc
        rw [hb] at hk
        simp only [List.cons_append, List.singleton_append, List.cons.injEq] at hk
        have := ascii_byte_lt a ha
        rw [← hk.1] at this
        omega

theorem goBytes_ascii_inj (key k : String) (hkey : ∀ c ∈ key.data, c.val ≤ 0x7f)
    (h : goBytes k = goBytes key) : k = key :=
  String.ext (flatMap_utf8_ascii_inj key.data hkey k.data h)

/-! ### What an encoded query reads back as -/

theorem sortStrings_nodup (v : Values) : (sortStrings (mapKeys v)).Nodup := by
  unfold sortStrings mapKeys
  exact (List.perm_insertionSort _ _).nodup_iff.2 (List.nodup_dedup _)

theorem mapGet_none_of_not_mem (v : Values) (key : String) (h : key ∉ mapKeys v) :
    mapGet v key = none := by
  cases hg : mapGet v key with
  | none => rfl
  | some vs => exact absurd (mem_mapKeys_of_mapGet v key vs hg) h

theorem flatMap_filter_key (ks : List String) (f : String → List String) (key : String)
    (hnd : ks.Nodup) :
    (ks.flatMap (fun k => (f k).map (fun val => (k, val)))).filter (fun kv => kv.1 = key) =
      if key ∈ ks then (f key).map (fun val => (key, val)) else [] := by
  induction ks with
  | nil => simp
  | cons k ks ih =>
    rw [List.nodup_cons] at hnd
    rw [List.flatMap_cons, List.filter_append, ih hnd.2]
    by_cases hk : k = key
    · subst hk
      have h1 : ((f k).map (fun val => (k, val))).filter (fun kv => kv.1 = k) =
          (f k).map (fun val => (k, val)) := by
        apply List.filter_eq_self.2
        intro kv hkv
        obtain ⟨val, _, rfl⟩ := List.mem_map.1 hkv
        simp
      rw [h1, if_neg hnd.1]
      simp
    · have h1 : ((f k).map (fun val => (k, val))).filter (fun kv => kv.1 = key) = [] := by
        apply List.filter_eq_nil_iff.2
        intro kv hkv
        obtain ⟨val, _, rfl⟩ := List.mem_map.1 hkv
        simpa using hk
      have h2 : (key ∈ k :: ks) ↔ key ∈ ks := by
        simp [List.mem_cons, Ne.symm hk]
      rw [h1, List.nil_append]
      simp only [h2]

theorem keyValues_filter (v : Values) (key : String) :
    (Values.keyValues v).filter (fun kv => kv.1 = key) =
      ((mapGet v key).getD []).map (fun val => (key, val)) := by
  unfold Values.keyValues
  rw [flatMap_filter_key _ (fun k => (mapGet v k).getD []) key (sortStrings_nodup v)]
  split
  · rfl
  · rename_i h
    have : key ∉ mapKeys v := fun hm => h (by
      unfold sortStrings
      exact (List.mem_insertionSort _).2 hm)
    rw [mapGet_none_of_not_mem v key this]
    rfl

/-- Reading an encoded query back: no error, and under an ASCII key the bytes of the
values that were encoded under it, in their order. -/
theorem parseQuery_encode (v : Values) (key : String) (hkey : ∀ c ∈ key.data, c.val ≤ 0x7f) :
    (ParseQuery (Values.Encode v)).2 = none ∧
    byteValuesOf (ParseQuery (Values.Encode v)).1 (goBytes key) =
      ((mapGet v key).getD []).map goBytes := by
  rw [parseQuery_encode_fold]
  refine ⟨rfl, ?_⟩
  simp only
  rw [byteValuesOf_fold]
  have hfilter : (Values.keyValues v).filter (fun kv => goBytes kv.1 = goBytes key) =
      (Values.keyValues v).filter (fun kv => kv.1 = key) := by
    apply List.filter_congr
    intro kv _
    by_cases h : kv.1 = key
    · simp [h]
    · have : goBytes kv.1 ≠ goBytes key := fun e => h (goBytes_ascii_inj key kv.1 hkey e)
      simp [h, this]
  rw [hfilter, keyValues_filter]
  simp [byteValuesOf, List.map_map, Function.comp_def]

/-- Every key read back from an encoded query is a key of the encoded values. -/
theorem parseQuery_encode_keys (v : Values) :
    ∀ e ∈ (ParseQuery (Values.Encode v)).1, ∃ k ∈ mapKeys v, e.1 = goBytes k := by
  rw [parseQuery_encode_fold]
  intro e he
  rcases keys_of_fold _ _ e he with ⟨e0, he0, _⟩ | ⟨kv, hkv, heq⟩
  · cases he0
  · refine ⟨kv.1, ?_, heq⟩
    unfold Values.keyValues at hkv
    rw [List.mem_flatMap] at hkv
    obtain ⟨k, hk, hkv⟩ := hkv
    obtain ⟨val, _, rfl⟩ := List.mem_map.1 hkv
    unfold sortStrings at hk
    exact (List.mem_insertionSort _).1 hk

/-! ### The values that `buildReportsURL` encodes -/

theorem reportQuery_get (q0 : Values) (p : ReportParams) (key : String) :
    mapGet (reportQuery q0 p) key =
      match p.queryParam key with
      | some v => some [v]
      | none => mapGet q0 key := by
  have e1 : ("limit" : String) ≠ "page" := by decide
  have e2 : ("limit" : String) ≠ "after" := by decide
  have e3 : ("limit" : String) ≠ "before" := by decide
  have e4 : ("page" : String) ≠ "after" := by decide
  have e5 : ("page" : String) ≠ "before" := by decide
  have e6 : ("after" : String) ≠ "before" := by decide
  unfold reportQuery ReportParams.queryParam Values.Set
  by_cases k1 : key = "limit"
  · subst k1
    simp only [gt_iff_lt, ne_eq, ↓reduceIte]
    split_ifs <;> simp [mapGet_mapSet_ne, mapGet_mapSet_self, e1, e2, e3]
  · by_cases k2 : key = "page"
    · subst k2
      simp only [gt_iff_lt, ne_eq, k1, ↓reduceIte]
      split_ifs <;> simp [mapGet_mapSet_ne, mapGet_mapSet_self, e4, e5, k1]
    · by_cases k3 : key = "after"
      · subst k3
        simp only [gt_iff_lt, ne_eq, k1, k2, ↓reduceIte]
        split_ifs <;> simp [mapGet_mapSet_ne, mapGet_mapSet_self, e6, k1, k2]
      · by_cases k4 : key = "before"
        · subst k4
          simp only [gt_iff_lt, ne_eq, k1, k2, k3, ↓reduceIte]
          split_ifs <;> simp [mapGet_mapSet_ne, mapGet_mapSet_self, k1, k2, k3]
        · simp only [gt_iff_lt, ne_eq, k1, k2, k3, k4, ↓reduceIte]
          split_ifs <;> simp [mapGet_mapSet_ne, k1, k2, k3, k4]

theorem mem_mapKeys_iff {V : Type} (m : GoMap V) (k : String) :
    k ∈ mapKeys m ↔ ∃ v, mapGet m k = some v := by
  constructor
  · intro h
    unfold mapKeys at h
    rw [List.mem_dedup, List.mem_map] at h
    obtain ⟨e, he, rfl⟩ := h
    unfold mapGet
    induction m with
    | nil => cases he
    | cons x xs ih =>
      obtain ⟨a, b⟩ := x
      rw [List.lookup_cons]
      by_cases hk : e.1 = a
      · simp [hk]
      · have hne : (e.1 == a) = false := by simpa using hk
        rw [hne]
        rcases List.mem_cons.1 he with rfl | hm
        · exact absurd rfl hk
        · exact ih hm
  · rintro ⟨v, hv⟩
    exact mem_mapKeys_of_mapGet m k v hv

theorem reportQuery_keys (q0 : Values) (p : ReportParams) (k : String)
    (h : k ∈ mapKeys (reportQuery q0 p)) :
    k = "limit" ∨ k = "page" ∨ k = "after" ∨ k = "before" ∨ k ∈ mapKeys q0 := by
  by_cases k1 : k = "limit"
  · exact Or.inl k1
  by_cases k2 : k = "page"
  · exact Or.inr (Or.inl k2)
  by_cases k3 : k = "after"
  · exact Or.inr (Or.inr (Or.inl k3))
  by_cases k4 : k = "before"
  · exact Or.inr (Or.inr (Or.inr (Or.inl k4)))
  right; right; right; right
  obtain ⟨v, hv⟩ := (mem_mapKeys_iff _ k).1 h
  rw [reportQuery_get] at hv
  have hnone : p.queryParam k = none := by
    simp [ReportParams.queryParam, k1, k2, k3, k4]
  rw [hnone] at hv
  exact (mem_mapKeys_iff _ k).2 ⟨v, hv⟩

/-! ### The text of the URL and the query read back -/

/-- The text of a URL is the text of the URL without query and fragment, then the query
after a `?` when there is one or when the `?` is forced, then the fragment after a `#`. -/
theorem urlString_with_query (lib : StdLib) (u : URL) (rq : String) :
    URL.String lib { u with RawQuery := rq } =
      URL.String lib { u with RawQuery := "", ForceQuery := false, Fragment := "" } ++
        (if u.ForceQuery = true ∨ rq ≠ "" then "?" ++ rq else "") ++
        (if u.Fragment ≠ "" then "#" ++ lib.escapedFragment u.Fragment u.RawFragment
          else "") := by
  obtain ⟨sch, opq, usr, host, path, rawp, om, fq, rqu, frag, rfrag⟩ := u
  unfold URL.String
  dsimp only
  have e1 : ¬ ((false : Bool) = true ∨ ("" : String) ≠ "") := by simp
  have e2 : ¬ (("" : String) ≠ "") := by simp
  rw [if_neg e1, if_neg e2]
  by_cases h1 : (fq = true ∨ rq ≠ "")
  · rw [if_pos h1, if_pos h1]
    by_cases h2 : frag ≠ ""
    · rw [if_pos h2, if_pos h2]
      simp only [String.append_assoc]
    · rw [if_neg h2, if_neg h2]
      simp only [String.append_assoc, String.append_empty]
  · rw [if_neg h1, if_neg h1]
    by_cases h2 : frag ≠ ""
    · rw [if_pos h2, if_pos h2]
      simp only [String.append_assoc, String.append_empty]
    · rw [if_neg h2, if_neg h2]
      simp only [String.append_assoc, String.append_empty]

theorem urlString_plain (lib : StdLib) (u : URL) (hq : u.RawQuery = "")
    (hf : u.ForceQuery = false) (hfrag : u.Fragment = "") :
    URL.String lib { u with RawQuery := "", ForceQuery := false, Fragment := "" } =
      URL.String lib u := by
  have : ({ u with RawQuery := "", ForceQuery := false, Fragment := "" } : URL) = u := by
    cases u
    simp_all
  rw [this]

/-- Values in which a key made of ASCII characters is bound to a value are not encoded as
the empty text. -/
theorem encode_ne_empty (v : Values) (key : String) (x : String) (xs : List String)
    (hkey : ∀ c ∈ key.data, c.val ≤ 0x7f) (h : mapGet v key = some (x :: xs)) :
    Values.Encode v ≠ "" := by
  intro he
  have h2 := (parseQuery_encode v key hkey).2
  rw [he, h] at h2
  have h0 : byteValuesOf (ParseQuery "").1 (goBytes key) = [] := rfl
  rw [h0] at h2
  simp at h2

theorem ascii_limit : ∀ c ∈ ("limit" : String).data, c.val ≤ 0x7f := by decide

theorem ascii_page : ∀ c ∈ ("page" : String).data, c.val ≤ 0x7f := by decide

theorem ascii_after : ∀ c ∈ ("after" : String).data, c.val ≤ 0x7f := by decide

theorem ascii_before : ∀ c ∈ ("before" : String).data, c.val ≤ 0x7f := by decide

theorem mem_of_byteLookup (m : ByteValues) (k : List UInt8) (vs : List (List UInt8))
    (h : List.lookup k m = some vs) : (k, vs) ∈ m := by
  induction m with
  | nil => cases h
  | cons e es ih =>
    obtain ⟨a, b⟩ := e
    rw [List.lookup_cons] at h
    by_cases hk : k = a
    · subst hk
      simp only [beq_self_eq_true, Option.some.injEq] at h
      subst h
      exact List.mem_cons_self _ _
    · have hne : (k == a) = false := by simpa using hk
      rw [hne] at h
      exact List.mem_cons_of_mem _ (ih h)

/-- What reading the built query back gives for a key that `buildReportsURL` sets. -/
theorem builtQuery_set (q0 : Values) (p : ReportParams) (key v : String)
    (hkey : ∀ c ∈ key.data, c.val ≤ 0x7f) (h : p.queryParam key = some v) :
    List.lookup (goBytes key) (ParseQuery (Values.Encode (reportQuery q0 p))).1 =
      some [goBytes v] := by
  apply lookup_of_byteValuesOf
  rw [(parseQuery_encode _ key hkey).2, reportQuery_get, h]
  rfl

/-- What reading the built query back gives for a key that `buildReportsURL` does not set. -/
theorem builtQuery_unset (q0 : Values) (p : ReportParams) (key : String)
    (hkey : ∀ c ∈ key.data, c.val ≤ 0x7f) (h : p.queryParam key = none) :
    byteValuesOf (ParseQuery (Values.Encode (reportQuery q0 p))).1 (goBytes key) =
      ((mapGet q0 key).getD []).map goBytes ∧
    (mapGet q0 key = none →
      List.lookup (goBytes key) (ParseQuery (Values.Encode (reportQuery q0 p))).1 = none) := by
  constructor
  · rw [(parseQuery_encode _ key hkey).2, reportQuery_get, h]
  · intro h0
    cases hl : List.lookup (goBytes key) (ParseQuery (Values.Encode (reportQuery q0 p))).1 with
    | none => rfl
    | some vs =>
      exfalso
      have hmem : (goBytes key, vs) ∈ (ParseQuery (Values.Encode (reportQuery q0 p))).1 :=
        mem_of_byteLookup _ _ _ hl
      obtain ⟨k, hk, hEq⟩ := parseQuery_encode_keys _ _ hmem
      have hkk : k = key := goBytes_ascii_inj key k hkey hEq.symm
      subst hkk
      obtain ⟨w, hw⟩ := (mem_mapKeys_iff _ k).1 hk
      rw [reportQuery_get, h] at hw
      simp only at hw
      rw [h0] at hw
      cases hw

/-- Reading the built query back: a key that the values of the parsed URL do not hold is
read back exactly when `buildReportsURL` sets it. -/
theorem builtQuery_lookup (q0 : Values) (p : ReportParams) (key : String)
    (hkey : ∀ c ∈ key.data, c.val ≤ 0x7f) (h0 : mapGet q0 key = none) :
    List.lookup (goBytes key) (ParseQuery (Values.Encode (reportQuery q0 p))).1 =
      (p.queryParam key).map (fun v => [goBytes v]) := by
  cases h : p.queryParam key with
  | none => exact (builtQuery_unset q0 p key hkey h).2 h0
  | some v => exact builtQuery_set q0 p key v hkey h

theorem queryParam_limit (p : ReportParams) :
    p.queryParam "limit" = if 0 < p.Limit then some (itoa p.Limit) else none := by
  simp [ReportParams.queryParam]

theorem queryParam_page (p : ReportParams) :
    p.queryParam "page" = if 0 < p.Page then some (itoa p.Page) else none := by
  simp [ReportParams.queryParam]

theorem queryParam_after (p : ReportParams) :
    p.queryParam "after" = if p.After ≠ "" then some p.After else none := by
  simp [ReportParams.queryParam]

theorem queryParam_before (p : ReportParams) :
    p.queryParam "before" = if p.Before ≠ "" then some p.Before else none := by
  simp [ReportParams.queryParam]

/-- With no values in the parsed URL, the built query is empty exactly when no parameter is
set. -/
theorem encode_reportQuery_empty_iff (p : ReportParams) :
    Values.Encode (reportQuery [] p) = "" ↔
      ¬ 0 < p.Limit ∧ ¬ 0 < p.Page ∧ p.After = "" ∧ p.Before = "" := by
  constructor
  · intro he
    have key : ∀ k : String, (∀ c ∈ k.data, c.val ≤ 0x7f) → p.queryParam k = none := by
      intro k hk
      cases h : p.queryParam k with
      | none => rfl
      | some v =>
        exfalso
        have hg := reportQuery_get [] p k
        rw [h] at hg
        exact encode_ne_empty _ k v [] hk hg he
    have h1 := key "limit" ascii_limit
    have h2 := key "page" ascii_page
    have h3 := key "after" ascii_after
    have h4 := key "before" ascii_before
    rw [queryParam_limit] at h1
    rw [queryParam_page] at h2
    rw [queryParam_after] at h3
    rw [queryParam_before] at h4
    refine ⟨?_, ?_, ?_, ?_⟩
    · intro h; rw [if_pos h] at h1; cases h1
    · intro h; rw [if_pos h] at h2; cases h2
    · by_contra h; rw [if_pos h] at h3; cases h3
    · by_contra h; rw [if_pos h] at h4; cases h4
  · rintro ⟨h1, h2, h3, h4⟩
    unfold reportQuery
    simp only [gt_iff_lt, h1, h2, h3, h4, ne_eq, not_true_eq_false, ↓reduceIte]
    rfl

/-! ### Lower case, configuration and flags -/

theorem char_toLower_ascii (c : Char) (h : c.toLower.val ≤ 0x7f) : c.val ≤ 0x7f := by
  by_cases hc : c.toNat ≥ 65 ∧ c.toNat ≤ 90
  · have h2 : c.val.toNat ≤ 90 := hc.2
    show c.val.toNat ≤ 127
    omega
  · have : c.toLower = c := by
      unfold Char.toLower
      simp only [hc, ↓reduceIte]
    rwa [this] at h

/-- A text that is equal to an ASCII text when the letters `A` to `Z` are read as `a` to `z`
has that text as its lower case, whatever the tables of package unicode hold. -/
theorem toLower_of_ascii_fold (uni : Unicode) (s t : String)
    (ht : ∀ c ∈ t.data, c.val ≤ 0x7f) (h : s.data.map Char.toLower = t.data) :
    ToLower uni s = t := by
  apply String.ext
  show s.data.map (unicodeToLower uni) = t.data
  rw [← h]
  apply List.map_congr_left
  intro c hc
  have hmem : c.toLower ∈ t.data := by
    rw [← h]
    exact List.mem_map_of_mem _ hc
  have hascii := char_toLower_ascii c (ht _ hmem)
  unfold unicodeToLower
  rw [if_pos hascii]

theorem plainUnicode_letters (t : String) (ht : ∀ c ∈ t.data, c.val ≤ 0x7f) :
    ∀ c : Char, ¬ c.val ≤ 0x7f → plainUnicode.toLower c ∉ t.data :=
  fun c hc hm => hc (ht c hm)

/-- A message that holds a value between single quotes. -/
theorem contains_quoted (a b v a0 b0 : String) (ha : a = a0 ++ "'") (hb : b = "'" ++ b0) :
    Contains (a ++ v ++ b) ("'" ++ v ++ "'") := by
  subst ha hb
  refine ⟨a0.data, b0.data, ?_⟩
  simp [String.data_append]

theorem validate_eq (lib : StdLib) (uni : Unicode) (c : Config) :
    c.Validate lib uni =
      if ToLower uni c.LogLevel ∉ ["debug", "info", "warn", "error"] then
        some ("invalid log level '" ++ c.LogLevel ++
          "', must be one of: debug, info, warn, error")
      else if ToLower uni c.LogFormat ∉ ["json", "text"] then
        some ("invalid log format '" ++ c.LogFormat ++ "', must be one of: json, text")
      else
        match (if c.APIBaseURL ≠ "" then
            (match lib.urlParse c.APIBaseURL with
             | .error err => some ("invalid API base URL '" ++ c.APIBaseURL ++ "': " ++ err)
             | .ok _ => none)
          else none) with
        | some err => some err
        | none =>
          if c.HTTPAddr ≠ "" ∧ ¬ Contains c.HTTPAddr ":" then
            some ("invalid HTTP address '" ++ c.HTTPAddr ++
              "', expected format 'host:port' or ':port'")
          else none := by
  have h1 : ", ".intercalate ["debug", "info", "warn", "error"] =
      "debug, info, warn, error" := by decide
  have h2 : ", ".intercalate ["json", "text"] = "json, text" := by decide
  have h3 : ∀ x : String, x ++ "', must be one of: " ++ "debug, info, warn, error" =
      x ++ "', must be one of: debug, info, warn, error" := fun x => by
    rw [String.append_assoc]; rfl
  have h4 : ∀ x : String, x ++ "', must be one of: " ++ "json, text" =
      x ++ "', must be one of: json, text" := fun x => by
    rw [String.append_assoc]; rfl
  unfold Config.Validate
  simp only [h1, h2, h3, h4]

theorem load_ok (lib : StdLib) (uni : Unicode) (env : Environ) (osArgs : List String)
    (args : List (List String)) (cfg : Config)
    (h : Load lib uni env osArgs args = .ok cfg) :
    cfg.APIKey = Getenv env "API_KEY" ∧ cfg.Validate lib uni = none := by
  unfold Load at h
  simp only at h
  split at h
  · cases h
  · split at h
    · cases h
    · rename_i hv
      injection h with h
      subst h
      exact ⟨rfl, hv⟩

theorem flagNameValue_plain (name : List Char) (h : '=' ∉ name) :
    flagNameValue name = (name, none) := by
  unfold flagNameValue
  cases name with
  | nil => rfl
  | cons x xs =>
    have hx : '=' ∉ xs := fun hm => h (List.mem_cons_of_mem _ hm)
    simp only [span_no_sep '=' xs hx]

theorem flagNameValue_inline (name value : List Char) (h : '=' ∉ name) (hne : name ≠ []) :
    flagNameValue (name ++ '=' :: value) = (name, some value) := by
  unfold flagNameValue
  cases name with
  | nil => exact absurd rfl hne
  | cons x xs =>
    have hx : '=' ∉ xs := fun hm => h (List.mem_cons_of_mem _ hm)
    simp only [List.cons_append, span_ne_sep '=' xs value hx]

/-- An argument that names a flag which is not defined, with or without a value after `=`,
stops the parsing with an error. -/
theorem flagParse_undefined (formal : GoMap String) (s : String) (rest : List String)
    (c : Char) (more tail : List Char) (name : String)
    (hs : s.data = '-' :: c :: more)
    (hname : (if c = '-' then more else c :: more) = name.data ++ tail)
    (htail : tail = [] ∨ ∃ v, tail = '=' :: v)
    (h1 : name.data.head? ≠ some '-') (h2 : name.data.head? ≠ some '=')
    (h3 : name.data ≠ []) (h4 : '=' ∉ name.data)
    (hdef : mapGet formal name = none) (hh : name ≠ "help") (hh2 : name ≠ "h") :
    flagParse formal (s :: rest) = .error ("flag provided but not defined: -" ++ name) := by
  have hnv : (flagNameValue (name.data ++ tail)).1 = name.data := by
    rcases htail with rfl | ⟨v, rfl⟩
    · rw [List.append_nil, flagNameValue_plain _ h4]
    · rw [flagNameValue_inline _ _ h4 h3]
  have hhead : (name.data ++ tail).head? = name.data.head? := by
    cases hd : name.data with
    | nil => exact absurd hd h3
    | cons x xs => rfl
  have hne : name.data ++ tail ≠ [] := by
    intro e
    exact h3 (List.append_eq_nil.1 e).1
  have hmore : ¬ (c = '-' ∧ more = []) := by
    rintro ⟨rfl, rfl⟩
    simp only [↓reduceIte] at hname
    exact hne hname.symm
  have e1 : name.data ≠ "help".data := fun e => hh (String.ext e)
  have e2 : name.data ≠ "h".data := fun e => hh2 (String.ext e)
  have hmk : (⟨name.data⟩ : String) = name := rfl
  rw [flagParse, hs]
  simp only [hmore, ↓reduceIte, hname, hhead, h1, h2, hne, or_self, hnv, hmk, hdef, e1, e2]

/-! ### The monthly prompt and the embedded resource -/

set_option maxRecDepth 100000 in
theorem monthlyText_eq (m y : String) :
    buildMonthlyReportText m y =
      "Generate a comprehensive monthly analytics report for " ++ (m ++ "/" ++ y) ++
        ". Please:\n\n1. Use " ++ monthlyCall "traffic" m y ++
        " for traffic data\n2. Use " ++ monthlyCall "devices" m y ++
        " for device breakdown\n3. Use " ++ monthlyCall "top-pages" m y ++
        " for content performance\n4. Use " ++ monthlyCall "countries" m y ++
        (" for geographic data\n\nCreate a comprehensive report with:\n" ++
        "- Executive summary of key metrics\n" ++
        "- Traffic trends and growth patterns\n" ++
        "- User demographics and behavior\n" ++
        "- Content performance analysis\n" ++
        "- Geographic distribution insights\n" ++
        "- Month-over-month comparisons (if available)\n" ++
        "- Recommendations for the next month") := by
  apply String.ext
  simp [buildMonthlyReportText, monthlyCall, monthlyDateRange, String.data_append]

theorem handle_of_parse (lib : StdLib) (uni : Unicode) (uri : String) (u : URL)
    (h : lib.urlParse uri = .ok u) :
    HandleEmbeddedResource lib uni uri =
      if u.Scheme ≠ "embedded" then .error ("wrong scheme: " ++ Quote uni u.Scheme)
      else
        match mapGet EmbeddedResources u.Opaque with
        | none => .error ("no embedded resource named " ++ Quote uni u.Opaque)
        | some text =>
          .ok { Contents := [{ URI := uri, MIMEType := "text/plain", Text := text }] } := by
  unfold HandleEmbeddedResource
  rw [h]

theorem embedded_get (key : String) :
    mapGet EmbeddedResources key =
      if key = "info" then some "This is the hello example server." else none := by
  by_cases h : key = "info"
  · subst h; rfl
  · have hne : (key == "info") = false := by simpa using h
    simp [mapGet, EmbeddedResources, List.lookup_cons, hne, h]

/-! ### The keys that the JSON encoder writes -/

theorem keys_jsonField (k v : String) : (jsonField k v).map Prod.fst = [k] := rfl

theorem keys_omitEmptyString (k v : String) :
    (jsonOmitEmptyString k v).map Prod.fst = if v = "" then [] else [k] := by
  unfold jsonOmitEmptyString
  split_ifs <;> rfl

theorem keys_omitEmptyInt (k : String) (v : Int) :
    (jsonOmitEmptyInt k v).map Prod.fst = if v = 0 then [] else [k] := by
  unfold jsonOmitEmptyInt
  split_ifs <;> rfl

theorem keys_omitEmptyFloat (k : String) (f : Float64) (l : List (String × String))
    (h : jsonOmitEmptyFloat k f = .ok l) :
    l.map Prod.fst = if f.isZero = true then [] else [k] := by
  unfold jsonOmitEmptyFloat at h
  by_cases hz : f.isZero = true
  · rw [if_pos hz] at h
    injection h with h
    subst h
    rw [if_pos hz]
    rfl
  · rw [if_neg hz] at h
    rw [if_neg hz]
    cases ht : f.text with
    | error e => rw [ht] at h; cases h
    | ok t =>
      rw [ht] at h
      injection h with h
      subst h
      rfl

theorem jsonOmitEmptyFloat_error_iff (k : String) (f : Float64) :
    (∃ e, jsonOmitEmptyFloat k f = .error e) ↔ f.isZero = false ∧ f.encodable = false := by
  unfold jsonOmitEmptyFloat Float64.encodable
  cases hz : f.isZero <;> cases ht : f.text <;> simp

theorem mem_optional_key (k key : String) (c : Prop) [Decidable c] :
    k ∈ (if c then [] else [key]) ↔ key = k ∧ ¬ c := by
  by_cases h : c <;> simp [h, eq_comm]

/-- The keys of the members of a record that can be encoded: the four required ones, and
those of the optional fields that are set. -/
theorem reports_member_keys (r : Reports) (ms : List (String × String))
    (h : r.members = .ok ms) (k : String) :
    k ∈ ms.map Prod.fst ↔
      k ∈ ["id", "report_name", "report_agency", "date"] ∨
        ∃ f ∈ r.optionalFields, f.1 = k ∧ f.2 = true := by
  unfold Reports.members at h
  cases havg : jsonOmitEmptyFloat "avg_session_duration" r.AvgSessionDuration with
  | error e => rw [havg] at h; cases h
  | ok avg =>
    cases hb : jsonOmitEmptyFloat "bounce_rate" r.BounceRate with
    | error e => rw [havg, hb] at h; cases h
    | ok bounce =>
      rw [havg, hb] at h
      injection h with h
      subst h
      simp only [List.map_append, keys_jsonField, keys_omitEmptyString, keys_omitEmptyInt,
        keys_omitEmptyFloat _ _ _ havg, keys_omitEmptyFloat _ _ _ hb,
        Reports.optionalFields, List.mem_append, mem_optional_key, List.mem_cons,
        List.mem_singleton, List.not_mem_nil, or_false, exists_eq_or_imp, List.exists_mem_cons,
        decide_eq_true_eq, Bool.not_eq_true', Bool.not_eq_true, ne_eq, or_assoc,
        eq_comm (a := k), exists_eq_left]

theorem args_member_keys (a : ReportArgs) (k : String) :
    k ∈ a.members.map Prod.fst ↔
      k = "report_name" ∨ ∃ f ∈ a.optionalFields, f.1 = k ∧ f.2 = true := by
  simp only [ReportArgs.members, List.map_append, keys_jsonField, keys_omitEmptyString,
    keys_omitEmptyInt, ReportArgs.optionalFields, List.mem_append, mem_optional_key,
    List.mem_cons, List.mem_singleton, List.not_mem_nil, or_false, exists_eq_or_imp,
    List.exists_mem_cons, decide_eq_true_eq, ne_eq, or_assoc, eq_comm (a := k),
    exists_eq_left]

theorem reports_optional_names (r : Reports) :
    r.optionalFields.map Prod.fst =
      ["active_visitors", "avg_session_duration", "bounce_rate", "browser", "city", "country",
        "device", "domain", "event_label", "file_name", "hour", "landing_page", "language",
        "language_code", "mobile_device", "os", "os_version", "page", "page_title",
        "pageviews", "pageviews_per_session", "screen_resolution",
        "session_default_channel_group", "source", "total_events", "users", "visits"] := rfl

theorem args_optional_names (a : ReportArgs) :
    a.optionalFields.map Prod.fst = ["limit", "page", "after", "before"] := rfl

/-- In a table of fields whose names are pairwise distinct and none of which is one of the
names `req`, a name of the table is among `req` or the names of the fields that are set
exactly when its own field is set. -/
theorem optional_key_iff (l : List (String × Bool)) (req : List String)
    (hnd : (l.map Prod.fst).Nodup) (hreq : ∀ k ∈ req, k ∉ l.map Prod.fst)
    (f : String × Bool) (hf : f ∈ l) :
    (f.1 ∈ req ∨ ∃ g ∈ l, g.1 = f.1 ∧ g.2 = true) ↔ f.2 = true := by
  constructor
  · rintro (h | ⟨g, hg, h1, h2⟩)
    · exact absurd (List.mem_map_of_mem Prod.fst hf) (hreq _ h)
    · have : g = f := List.inj_on_of_nodup_map hnd hg hf h1
      rw [← this]
      exact h2
  · intro h
    exact Or.inr ⟨f, hf, rfl, h⟩

/-! ### The one request of a call -/

/-- When the request can be created, `fetchReports` hands exactly `requestFor` to the
transport, once, whatever the transport answers. -/
theorem fetchReports_trace (lib : StdLib) (rt : ReportsTool) (apiURL : String)
    (sent : List Request) (u : URL) (hp : lib.urlParse apiURL = .ok u) :
    (rt.fetchReports lib apiURL sent).2 = sent ++ [requestFor rt apiURL] := by
  rw [fetchReports_of_request lib rt apiURL sent _ (newRequest_ok lib apiURL u hp),
    doRequest_eq]
  unfold requestFor
  cases rt.apiClient.HTTPClient
      (withHeaders rt.apiClient.HTTPHeaders { Method := "GET", URL := apiURL, Header := [] }) with
  | error e => rfl
  | ok resp =>
    simp only
    cases resp.Body with
    | error e => rfl
    | ok body =>
      simp only
      split
      · rfl
      · rcases lib.unmarshalReports body with ⟨reports, _ | e⟩ <;> rfl

theorem requestFor_method_url (rt : ReportsTool) (apiURL : String) :
    (requestFor rt apiURL).Method = "GET" ∧ (requestFor rt apiURL).URL = apiURL :=
  withHeaders_method_url _ _

theorem getReport_trace (lib : StdLib) (rt : ReportsTool) (args : ReportArgs)
    (sent : List Request) (apiURL : String)
    (hname : ReportType.IsValid args.ReportName = true)
    (hlimit : 0 ≤ args.Limit ∧ args.Limit ≤ 10000) (hpage : 0 ≤ args.Page)
    (hurl : rt.buildReportsURL lib args.ReportName (defaultedParams args) = .ok apiURL) :
    (∀ u, lib.urlParse apiURL = .ok u →
      (rt.GetReport lib args sent).sent = sent ++ [requestFor rt apiURL]) ∧
    (∀ e, lib.urlParse apiURL = .error e →
      rt.GetReport lib args sent =
        { result := some
            { Content := [⟨"Request failed: " ++ ("failed to create request: " ++ e)⟩],
              IsError := true },
          err := none, sent := sent }) := by
  have hg := getReport_of_fetch lib rt args sent apiURL hname hlimit hpage hurl
  constructor
  · intro u hp
    rw [hg, shapeResult_sent, fetchReports_trace lib rt apiURL sent u hp]
  · intro e hp
    rw [hg, fetchReports_create_error lib rt apiURL sent e hp]
    rfl

theorem defaulted_bounds (args : ReportArgs)
    (hlimit : 0 ≤ args.Limit ∧ args.Limit ≤ 10000) (hpage : 0 ≤ args.Page) :
    1 ≤ (defaultedParams args).Limit ∧ (defaultedParams args).Limit ≤ 10000 ∧
      1 ≤ (defaultedParams args).Page := by
  unfold defaultedParams
  simp only
  refine ⟨?_, ?_, ?_⟩
  · split_ifs <;> omega
  · split_ifs <;> omega
  · split_ifs <;> omega

/-! ### Reading a JSON string back -/

theorem skipSpace_of_not_space (c : Char) (rest : List Char) (h : isJsonSpace c = false) :
    skipSpace (c :: rest) = c :: rest := by
  simp [skipSpace, h]

theorem skipSpace_append (w rest : List Char) (hw : ∀ c ∈ w, isJsonSpace c = true) :
    skipSpace (w ++ rest) = skipSpace rest := by
  induction w with
  | nil => rfl
  | cons c w ih =>
    have hc := hw c (List.mem_cons_self _ _)
    simp only [List.cons_append, skipSpace, hc, if_true]
    exact ih (fun x hx => hw x (List.mem_cons_of_mem _ hx))

theorem hex4_lowerhex : ∀ n, n < 64 →
    hex4 (lowerhex (n / 4096 % 16)) (lowerhex (n / 256 % 16)) (lowerhex (n / 16 % 16))
      (lowerhex (n % 16)) = some n := by
  decide

theorem hex4_lowerhex_sep :
    hex4 (lowerhex (0x2028 / 4096 % 16)) (lowerhex (0x2028 / 256 % 16))
        (lowerhex (0x2028 / 16 % 16)) (lowerhex (0x2028 % 16)) = some 0x2028 ∧
      hex4 (lowerhex (0x2029 / 4096 % 16)) (lowerhex (0x2029 / 256 % 16))
        (lowerhex (0x2029 / 16 % 16)) (lowerhex (0x2029 % 16)) = some 0x2029 := by
  decide

theorem char_of_toNat (c : Char) (n : Nat) (h : c.toNat = n) : c = Char.ofNat n := by
  rw [← h, Char.ofNat_toNat]

theorem readEscape_simple (e x : Char) (he : e ≠ 'u') (hx : simpleEscape e = some x)
    (rest : List Char) : readEscape (e :: rest) = some (x, rest) := by
  simp only [readEscape, if_neg he, hx]

theorem readEscape_u (n : Nat) (hn : n < 0xD800) (a b c d : Char)
    (hhex : hex4 a b c d = some n) (rest : List Char) :
    readEscape ('u' :: a :: b :: c :: d :: rest) = some (Char.ofNat n, rest) := by
  have h1 : ¬ (0xD800 ≤ n ∧ n < 0xDC00) := by omega
  have h2 : ¬ (0xDC00 ≤ n ∧ n < 0xE000) := by omega
  simp only [readEscape, if_true, hhex, if_neg h1, if_neg h2]

theorem parseStringBody_quote (fuel : Nat) (rest : List Char) :
    parseStringBody (fuel + 1) ('"' :: rest) = some ([], rest) := by
  simp only [parseStringBody, if_true]

theorem parseStringBody_plain (fuel : Nat) (c : Char) (h1 : c ≠ '"') (h2 : c ≠ '\\')
    (h3 : ¬ c.toNat < 32) (rest : List Char) :
    parseStringBody (fuel + 1) (c :: rest) =
      (parseStringBody fuel rest).map (fun p => (c :: p.1, p.2)) := by
  simp only [parseStringBody, if_neg h1, if_neg h2, if_neg h3]

theorem parseStringBody_backslash (fuel : Nat) (x : Char) (rest rest1 : List Char)
    (h : readEscape rest = some (x, rest1)) :
    parseStringBody (fuel + 1) ('\\' :: rest) =
      (parseStringBody fuel rest1).map (fun p => (x :: p.1, p.2)) := by
  have h0 : ¬ ('\\' = '"') := by decide
  simp only [parseStringBody, if_neg h0, if_true, h]

theorem parseStringBody_jsonUnicodeEscape (fuel : Nat) (c : Char)
    (h : c.toNat < 64 ∨ c.toNat = 0x2028 ∨ c.toNat = 0x2029) (rest : List Char) :
    parseStringBody (fuel + 1) (jsonUnicodeEscape c.toNat ++ rest) =
      (parseStringBody fuel rest).map (fun p => (c :: p.1, p.2)) := by
  have hhex : hex4 (lowerhex (c.toNat / 4096 % 16)) (lowerhex (c.toNat / 256 % 16))
      (lowerhex (c.toNat / 16 % 16)) (lowerhex (c.toNat % 16)) = some c.toNat := by
    rcases h with h | h | h
    · exact hex4_lowerhex _ h
    · rw [h]; exact hex4_lowerhex_sep.1
    · rw [h]; exact hex4_lowerhex_sep.2
  have hn : c.toNat < 0xD800 := by omega
  have := readEscape_u c.toNat hn _ _ _ _ hhex rest
  rw [Char.ofNat_toNat] at this
  exact parseStringBody_backslash fuel c _ rest this

theorem parseStringBody_jsonEscapeChar (fuel : Nat) (c : Char) (rest : List Char) :
    parseStringBody (fuel + 1) (jsonEscapeChar c ++ rest) =
      (parseStringBody fuel rest).map (fun p => (c :: p.1, p.2)) := by
  unfold jsonEscapeChar
  by_cases h1 : c = '\\' ∨ c = '"'
  · rw [if_pos h1]
    rcases h1 with rfl | rfl
    · exact parseStringBody_backslash fuel _ _ rest
        (readEscape_simple _ _ (by decide) (by decide) rest)
    · exact parseStringBody_backslash fuel _ _ rest
        (readEscape_simple _ _ (by decide) (by decide) rest)
  rw [if_neg h1]
  by_cases h2 : c.toNat = 8
  · rw [if_pos h2]
    have := readEscape_simple 'b' (Char.ofNat 8) (by decide) (by decide) rest
    rw [← char_of_toNat c 8 h2] at this
    exact parseStringBody_backslash fuel c _ rest this
  rw [if_neg h2]
  by_cases h3 : c.toNat = 12
  · rw [if_pos h3]
    have := readEscape_simple 'f' (Char.ofNat 12) (by decide) (by decide) rest
    rw [← char_of_toNat c 12 h3] at this
    exact parseStringBody_backslash fuel c _ rest this
  rw [if_neg h3]
  by_cases h4 : c = '\n'
  · rw [if_pos h4, h4]
    exact parseStringBody_backslash fuel _ _ rest
      (readEscape_simple _ _ (by decide) (by decide) rest)
  rw [if_neg h4]
  by_cases h5 : c = '\r'
  · rw [if_pos h5, h5]
    exact parseStringBody_backslash fuel _ _ rest
      (readEscape_simple _ _ (by decide) (by decide) rest)
  rw [if_neg h5]
  by_cases h6 : c = '\t'
  · rw [if_pos h6, h6]
    exact parseStringBody_backslash fuel _ _ rest
      (readEscape_simple _ _ (by decide) (by decide) rest)
  rw [if_neg h6]
  by_cases h7 : c.toNat < 32 ∨ c = '<' ∨ c = '>' ∨ c = '&'
  · rw [if_pos h7]
    apply parseStringBody_jsonUnicodeEscape
    rcases h7 with h | rfl | rfl | rfl
    · left; omega
    · left; decide
    · left; decide
    · left; decide
  rw [if_neg h7]
  by_cases h8 : c.toNat = 0x2028 ∨ c.toNat = 0x2029
  · rw [if_pos h8]
    exact parseStringBody_jsonUnicodeEscape fuel c (Or.inr h8) rest
  rw [if_neg h8]
  exact parseStringBody_plain fuel c (fun h => h1 (Or.inr h)) (fun h => h1 (Or.inl h))
    (fun h => h7 (Or.inl h)) rest

theorem parseStringBody_escaped (s rest : List Char) :
    ∀ fuel, s.length + 1 ≤ fuel →
      parseStringBody fuel (s.flatMap jsonEscapeChar ++ '"' :: rest) = some (s, rest) := by
  induction s with
  | nil =>
    intro fuel hf
    obtain ⟨f, rfl⟩ := Nat.exists_eq_succ_of_ne_zero (by omega : fuel ≠ 0)
    exact parseStringBody_quote f rest
  | cons c s ih =>
    intro fuel hf
    obtain ⟨f, rfl⟩ := Nat.exists_eq_succ_of_ne_zero (by omega : fuel ≠ 0)
    rw [List.flatMap_cons, List.append_assoc, parseStringBody_jsonEscapeChar,
      ih f (by simpa using hf)]
    rfl

theorem jsonEscapeChar_length (c : Char) : 1 ≤ (jsonEscapeChar c).length := by
  unfold jsonEscapeChar jsonUnicodeEscape
  split_ifs <;> simp

theorem escaped_length (s : List Char) : s.length ≤ (s.flatMap jsonEscapeChar).length := by
  induction s with
  | nil => simp
  | cons c s ih =>
    have := jsonEscapeChar_length c
    simp only [List.flatMap_cons, List.length_append, List.length_cons]
    omega

theorem parseString_escaped (s rest : List Char) :
    parseString (s.flatMap jsonEscapeChar ++ '"' :: rest) = some (s, rest) := by
  unfold parseString
  apply parseStringBody_escaped
  have := escaped_length s
  simp only [List.length_append, List.length_cons]
  omega

theorem parseStringBody_key (k rest : List Char)
    (h : ∀ c ∈ k, c ≠ '"' ∧ c ≠ '\\' ∧ ¬ c.toNat < 32) :
    ∀ fuel, k.length + 1 ≤ fuel → parseStringBody fuel (k ++ '"' :: rest) = some (k, rest) := by
  induction k with
  | nil =>
    intro fuel hf
    obtain ⟨f, rfl⟩ := Nat.exists_eq_succ_of_ne_zero (by omega : fuel ≠ 0)
    exact parseStringBody_quote f rest
  | cons c k ih =>
    intro fuel hf
    obtain ⟨f, rfl⟩ := Nat.exists_eq_succ_of_ne_zero (by omega : fuel ≠ 0)
    obtain ⟨h1, h2, h3⟩ := h c (List.mem_cons_self _ _)
    rw [List.cons_append, parseStringBody_plain f c h1 h2 h3,
      ih (fun x hx => h x (List.mem_cons_of_mem _ hx)) f (by simpa using hf)]
    rfl

theorem parseString_key (k rest : List Char)
    (h : ∀ c ∈ k, c ≠ '"' ∧ c ≠ '\\' ∧ ¬ c.toNat < 32) :
    parseString (k ++ '"' :: rest) = some (k, rest) := by
  unfold parseString
  apply parseStringBody_key k rest h
  simp only [List.length_append, List.length_cons]
  omega

/-! ### Reading a JSON number back -/

theorem digitChar_value : ∀ m, m < 10 → (Nat.digitChar m).toNat - 48 = m := by
  decide

theorem digitChar_ne_zero : ∀ m, m < 10 → m ≠ 0 → Nat.digitChar m ≠ '0' := by
  decide

theorem toDigitsCore_value (fuel : Nat) : ∀ (n : Nat) (acc : List Char), n < fuel →
    (Nat.toDigitsCore 10 fuel n acc).foldl (fun a c => 10 * a + (c.toNat - 48)) 0 =
      acc.foldl (fun a c => 10 * a + (c.toNat - 48)) n := by
  induction fuel with
  | zero => intro n acc h; omega
  | succ fuel ih =>
    intro n acc h
    rw [Nat.toDigitsCore]
    have hd := digitChar_value (n % 10) (Nat.mod_lt _ (by omega))
    by_cases h0 : n / 10 = 0
    · simp only [h0, if_true, List.foldl_cons, hd]
      congr 1
      omega
    · simp only [if_neg h0]
      rw [ih (n / 10) _ (by omega)]
      simp only [List.foldl_cons, hd]
      congr 1
      omega

theorem decimalValue_repr (n : Nat) : decimalValue (Nat.repr n).data = n := by
  have := toDigitsCore_value (n + 1) n [] (by omega)
  simpa [decimalValue, Nat.repr, Nat.toDigits, List.asString] using this

theorem toDigitsCore_head (fuel : Nat) : ∀ (n : Nat) (acc : List Char), n < fuel → 0 < n →
    ∃ c tl, Nat.toDigitsCore 10 fuel n acc = c :: tl ∧ c ≠ '0' := by
  induction fuel with
  | zero => intro n acc h; omega
  | succ fuel ih =>
    intro n acc h hn
    rw [Nat.toDigitsCore]
    by_cases h0 : n / 10 = 0
    · simp only [h0, if_true]
      refine ⟨_, _, rfl, digitChar_ne_zero _ (Nat.mod_lt _ (by omega)) ?_⟩
      omega
    · simp only [if_neg h0]
      exact ih (n / 10) _ (by omega) (by omega)

theorem repr_head (n : Nat) (hn : 0 < n) :
    ∃ c tl, (Nat.repr n).data = c :: tl ∧ c ≠ '0' := by
  have := toDigitsCore_head (n + 1) n [] (by omega) hn
  simpa [Nat.repr, Nat.toDigits, List.asString] using this

theorem dropWhile_all (p : Char → Bool) (l : List Char) (h : ∀ c ∈ l, p c = true) :
    l.dropWhile p = [] := by
  induction l with
  | nil => rfl
  | cons c l ih =>
    rw [List.dropWhile_cons, if_pos (h c (List.mem_cons_self _ _))]
    exact ih (fun x hx => h x (List.mem_cons_of_mem _ hx))

theorem validUnsigned_repr (n : Nat) : validUnsigned (Nat.repr n).data = true := by
  rcases Nat.eq_zero_or_pos n with rfl | hn
  · decide
  · obtain ⟨c, tl, hdata, hc⟩ := repr_head n hn
    have hall := repr_isDigit n
    rw [hdata] at hall ⊢
    have hcd : c.isDigit = true := hall c (List.mem_cons_self _ _)
    simp only [validUnsigned, if_neg hc, hcd, Bool.true_and]
    rw [dropWhile_all _ _ hall]
    rfl

theorem isDigits_repr (n : Nat) : isDigits (Nat.repr n).data = true := by
  have hall := repr_isDigit n
  have hne : (Nat.repr n).data ≠ [] := by
    rcases Nat.eq_zero_or_pos n with rfl | hn
    · decide
    · obtain ⟨c, tl, hdata, _⟩ := repr_head n hn
      rw [hdata]; exact List.cons_ne_nil _ _
  simp only [isDigits, Bool.and_eq_true, List.all_eq_true, decide_eq_true_eq]
  exact ⟨hne, hall⟩

theorem digit_ne_minus (c : Char) (h : c.isDigit = true) : c ≠ '-' := by
  rintro rfl
  exact absurd h (by decide)

theorem repr_cons (n : Nat) :
    ∃ c tl, (Nat.repr n).data = c :: tl ∧ c.isDigit = true := by
  have h := isDigits_repr n
  have hall := repr_isDigit n
  cases hd : (Nat.repr n).data with
  | nil => rw [hd] at h; exact absurd h (by decide)
  | cons c tl =>
    rw [hd] at hall
    exact ⟨c, tl, rfl, hall c (List.mem_cons_self _ _)⟩

theorem itoa_neg_data (n : Nat) :
    (itoa (Int.negSucc n)).data = '-' :: (Nat.repr (n + 1)).data := by
  simp [itoa, String.data_append]

theorem validNumber_itoa (i : Int) : validNumber (itoa i).data = true := by
  cases i with
  | ofNat n =>
    obtain ⟨c, tl, hdata, hc⟩ := repr_cons n
    have := validUnsigned_repr n
    simp only [itoa]
    rw [hdata] at this ⊢
    simp only [validNumber, if_neg (digit_ne_minus c hc), this]
  | negSucc n =>
    rw [itoa_neg_data]
    simp only [validNumber, if_true]
    exact validUnsigned_repr _

theorem parseInt64_itoa (i : Int) (h : -2 ^ 63 ≤ i ∧ i < 2 ^ 63) :
    parseInt64 (itoa i) = some i := by
  cases i with
  | ofNat n =>
    obtain ⟨c, tl, hdata, hc⟩ := repr_cons n
    have hd := isDigits_repr n
    have hv := decimalValue_repr n
    have hn : n < 2 ^ 63 := by
      have := h.2
      rw [Int.ofNat_eq_coe] at this
      omega
    simp only [itoa, parseInt64]
    rw [hdata] at hd hv ⊢
    simp only [if_neg (digit_ne_minus c hc), hd, hv, hn, and_self, if_true]
    rfl
  | negSucc n =>
    have hd := isDigits_repr (n + 1)
    have hv := decimalValue_repr (n + 1)
    have hn : n + 1 ≤ 2 ^ 63 := by
      have := h.1
      rw [Int.negSucc_eq] at this
      omega
    simp only [parseInt64, itoa_neg_data, if_true, hd, hv, hn, and_self]
    rfl

/-! The characters of a number. -/

theorem isDigit_isNumberChar (c : Char) (h : c.isDigit = true) : isNumberChar c = true := by
  simp [isNumberChar, h]

theorem isDigits_chars (l : List Char) (h : isDigits l = true) :
    ∀ c ∈ l, isNumberChar c = true := by
  intro c hc
  simp only [isDigits, Bool.and_eq_true, List.all_eq_true] at h
  exact isDigit_isNumberChar c (h.2 c hc)

theorem validExponent_chars (l : List Char) (h : validExponent l = true) :
    ∀ c ∈ l, isNumberChar c = true := by
  cases l with
  | nil => intro c hc; cases hc
  | cons a ds =>
    simp only [validExponent] at h
    by_cases ha : a = '+' ∨ a = '-'
    · rw [if_pos ha] at h
      intro c hc
      rcases List.mem_cons.1 hc with rfl | hc
      · rcases ha with rfl | rfl <;> decide
      · exact isDigits_chars ds h c hc
    · rw [if_neg ha] at h
      exact isDigits_chars _ h

theorem exponent_chars (e : Char) (ex : List Char)
    (h : ((e = 'e' || e = 'E') && validExponent ex) = true) :
    ∀ c ∈ e :: ex, isNumberChar c = true := by
  simp only [Bool.and_eq_true, Bool.or_eq_true, decide_eq_true_eq] at h
  intro c hc
  rcases List.mem_cons.1 hc with rfl | hc
  · rcases h.1 with rfl | rfl <;> decide
  · exact validExponent_chars ex h.2 c hc

theorem validFraction_chars (l : List Char) (h : validFraction l = true) :
    ∀ c ∈ l, isNumberChar c = true := by
  cases l with
  | nil => intro c hc; cases hc
  | cons a rest =>
    simp only [validFraction] at h
    by_cases ha : a = '.'
    · rw [if_pos ha] at h
      simp only [Bool.and_eq_true] at h
      intro c hc
      rcases List.mem_cons.1 hc with rfl | hc
      · rw [ha]; decide
      · rw [← List.takeWhile_append_dropWhile Char.isDigit rest] at hc
        rcases List.mem_append.1 hc with hc | hc
        · exact isDigit_isNumberChar c (List.mem_takeWhile_imp hc)
        · cases hdw : rest.dropWhile Char.isDigit with
          | nil => rw [hdw] at hc; cases hc
          | cons e ex =>
            rw [hdw] at hc
            have h2 := h.2
            rw [hdw] at h2
            exact exponent_chars e ex h2 c hc
    · rw [if_neg ha] at h
      exact exponent_chars a rest h

theorem validUnsigned_chars (l : List Char) (h : validUnsigned l = true) :
    ∀ c ∈ l, isNumberChar c = true := by
  cases l with
  | nil => intro c hc; cases hc
  | cons a rest =>
    simp only [validUnsigned] at h
    by_cases ha : a = '0'
    · rw [if_pos ha] at h
      intro c hc
      rcases List.mem_cons.1 hc with rfl | hc
      · rw [ha]; decide
      · exact validFraction_chars rest h c hc
    · rw [if_neg ha] at h
      simp only [Bool.and_eq_true] at h
      intro c hc
      rw [← List.takeWhile_append_dropWhile Char.isDigit (a :: rest)] at hc
      rcases List.mem_append.1 hc with hc | hc
      · exact isDigit_isNumberChar c (List.mem_takeWhile_imp hc)
      · exact validFraction_chars _ h.2 c hc

theorem validUnsigned_head (l : List Char) (h : validUnsigned l = true) :
    ∃ c rest, l = c :: rest ∧ c.isDigit = true := by
  cases l with
  | nil => exact absurd h (by decide)
  | cons a rest =>
    refine ⟨a, rest, rfl, ?_⟩
    simp only [validUnsigned] at h
    by_cases ha : a = '0'
    · rw [ha]; decide
    · rw [if_neg ha] at h
      simp only [Bool.and_eq_true] at h
      exact h.1

theorem validNumber_chars (l : List Char) (h : validNumber l = true) :
    ∀ c ∈ l, isNumberChar c = true := by
  cases l with
  | nil => intro c hc; cases hc
  | cons a rest =>
    simp only [validNumber] at h
    by_cases ha : a = '-'
    · rw [if_pos ha] at h
      intro c hc
      rcases List.mem_cons.1 hc with rfl | hc
      · rw [ha]; decide
      · exact validUnsigned_chars rest h c hc
    · rw [if_neg ha] at h
      exact validUnsigned_chars _ h

theorem validNumber_head (l : List Char) (h : validNumber l = true) :
    ∃ c rest, l = c :: rest ∧ (c = '-' ∨ c.isDigit = true) := by
  cases l with
  | nil => exact absurd h (by decide)
  | cons a rest =>
    refine ⟨a, rest, rfl, ?_⟩
    simp only [validNumber] at h
    by_cases ha : a = '-'
    · exact Or.inl ha
    · rw [if_neg ha] at h
      obtain ⟨c, r, hcr, hc⟩ := validUnsigned_head _ h
      have : a = c := (List.cons.inj hcr).1
      exact Or.inr (this ▸ hc)

theorem takeWhile_delimited (p : Char → Bool) (t rest : List Char)
    (ht : ∀ c ∈ t, p c = true) (hr : ∀ c ∈ rest.head?, p c = false) :
    (t ++ rest).takeWhile p = t ∧ (t ++ rest).dropWhile p = rest := by
  induction t with
  | nil =>
    cases rest with
    | nil => exact ⟨rfl, rfl⟩
    | cons c rest =>
      have hc : p c = false := hr c (by simp)
      simp [List.takeWhile_cons, List.dropWhile_cons, hc]
  | cons a t ih =>
    have ha := ht a (List.mem_cons_self _ _)
    have := ih (fun x hx => ht x (List.mem_cons_of_mem _ hx))
    simp only [List.cons_append, List.takeWhile_cons, List.dropWhile_cons, ha, if_true,
      this.1, this.2, and_self]

/-! ### Reading a value back -/

theorem space_not_number (c : Char) (h : isJsonSpace c = true) : isNumberChar c = false := by
  simp only [isJsonSpace, Bool.or_eq_true, decide_eq_true_eq] at h
  rcases h with ((rfl | rfl) | rfl) | rfl <;> decide

theorem parseValue_skip (w x : List Char) (hw : ∀ c ∈ w, isJsonSpace c = true)
    (fuel depth : Nat) : parseValue fuel depth (w ++ x) = parseValue fuel depth x := by
  cases fuel with
  | zero => rfl
  | succ f => simp only [parseValue, skipSpace_append w x hw]

theorem parseValue_string (fuel depth : Nat) (body : List Char) :
    parseValue (fuel + 1) depth ('"' :: body) =
      (parseString body).map (fun p => (Json.string ⟨p.1⟩, p.2)) := by
  have h : skipSpace ('"' :: body) = '"' :: body := skipSpace_of_not_space _ _ (by decide)
  simp only [parseValue, h, if_true]

theorem readsAs_jsonString (nest : Nat) (s : String) :
    ReadsAs nest (jsonString s) (Json.string s) := by
  intro fuel hf depth _ rest _
  have hpos : 0 < (jsonString s).length := by
    simp [jsonString, String.length]
  obtain ⟨f, rfl⟩ := Nat.exists_eq_succ_of_ne_zero (by omega : fuel ≠ 0)
  have hdata : (jsonString s).data ++ rest =
      '"' :: (s.data.flatMap jsonEscapeChar ++ '"' :: rest) := by
    simp [jsonString]
  rw [hdata, parseValue_string, parseString_escaped]
  rfl

theorem parseValue_number (fuel depth : Nat) (t rest : List Char)
    (hv : validNumber t = true) (hr : ∀ c ∈ rest.head?, isNumberChar c = false) :
    parseValue (fuel + 1) depth (t ++ rest) = some (Json.number ⟨t⟩, rest) := by
  obtain ⟨c, tl, rfl, hc⟩ := validNumber_head t hv
  have hsp : isJsonSpace c = false := by
    rcases hc with rfl | hc
    · decide
    · cases hs : isJsonSpace c with
      | false => rfl
      | true =>
        have := isDigit_isNumberChar c hc
        rw [space_not_number c hs] at this
        cases this
  have hnot : c ≠ '"' ∧ c ≠ '\x7b' ∧ c ≠ '[' := by
    rcases hc with rfl | hc
    · decide
    · refine ⟨?_, ?_, ?_⟩ <;> (rintro rfl; exact absurd hc (by decide))
  have hcond : c = '-' ∨ c.isDigit = true := hc
  have htd := takeWhile_delimited isNumberChar (c :: tl) rest (validNumber_chars _ hv) hr
  rw [List.cons_append] at htd ⊢
  simp only [parseValue, skipSpace_of_not_space c _ hsp, if_neg hnot.1, if_neg hnot.2.1,
    if_neg hnot.2.2, if_pos hcond, htd.1, htd.2, hv, if_true]

theorem readsAs_number (nest : Nat) (t : String) (hv : validNumber t.data = true) :
    ReadsAs nest t (Json.number t) := by
  intro fuel hf depth _ rest hr
  obtain ⟨c, tl, hcons, _⟩ := validNumber_head t.data hv
  have hpos : 0 < t.length := by
    simp [String.length, hcons]
  obtain ⟨f, rfl⟩ := Nat.exists_eq_succ_of_ne_zero (by omega : fuel ≠ 0)
  exact parseValue_number f depth t.data rest hv hr

theorem readsAs_itoa (nest : Nat) (i : Int) :
    ReadsAs nest (itoa i) (Json.number (itoa i)) :=
  readsAs_number nest _ (validNumber_itoa i)

/-! ### Reading objects and arrays back -/

theorem parseMembers_step (pv : List Char → Option (Json × List Char)) (n : Nat)
    (w1 w2 : List Char) (hw1 : ∀ c ∈ w1, isJsonSpace c = true)
    (m : String × String) (j : String × Json) (hkey : m.1 = j.1) (hplain : PlainKey m.1)
    (tail : List Char) (hpv : pv (w2 ++ m.2.data ++ tail) = some (j.2, tail))
    (sep : Char) (rest4 : List Char) (hsep : skipSpace tail = sep :: rest4) :
    parseMembers pv (n + 1) (memberText w1 w2 m ++ tail) =
      if sep = ',' then (parseMembers pv n rest4).map (fun p => (j :: p.1, p.2))
      else if sep = '\x7d' then some ([j], rest4)
      else none := by
  have hshape : memberText w1 w2 m ++ tail =
      w1 ++ '"' :: (m.1.data ++ '"' :: ':' :: (w2 ++ m.2.data ++ tail)) := by
    simp [memberText, List.append_assoc]
  have h1 : skipSpace (w1 ++ '"' :: (m.1.data ++ '"' :: ':' :: (w2 ++ m.2.data ++ tail))) =
      '"' :: (m.1.data ++ '"' :: ':' :: (w2 ++ m.2.data ++ tail)) := by
    rw [skipSpace_append _ _ hw1]
    exact skipSpace_of_not_space _ _ (by decide)
  have h2 := parseString_key m.1.data (':' :: (w2 ++ m.2.data ++ tail)) hplain
  have h3 : skipSpace (':' :: (w2 ++ m.2.data ++ tail)) = ':' :: (w2 ++ m.2.data ++ tail) :=
    skipSpace_of_not_space _ _ (by decide)
  have hj : ((⟨m.1.data⟩ : String), j.2) = j := by
    have : (⟨m.1.data⟩ : String) = j.1 := hkey
    rw [this]
  rw [hshape]
  simp only [parseMembers, h1, if_true, h2, h3, hpv, hj, hsep]

theorem parseMembers_text (pv : List Char → Option (Json × List Char))
    (w1 w2 w3 : List Char) (hw1 : ∀ c ∈ w1, isJsonSpace c = true)
    (hw3 : ∀ c ∈ w3, isJsonSpace c = true) (rest : List Char) :
    ∀ (ms : List (String × String)) (js : List (String × Json)) (m : String × String)
      (j : String × Json),
      List.Forall₂ (fun (a : String × String) (b : String × Json) => a.1 = b.1 ∧ PlainKey a.1 ∧
        ∀ tail : List Char, (∀ c ∈ tail.head?, isNumberChar c = false) →
          pv (w2 ++ a.2.data ++ tail) = some (b.2, tail)) (m :: ms) (j :: js) →
      ∀ n, ms.length + 1 ≤ n →
        parseMembers pv n (memberText w1 w2 m ++
          (ms.flatMap (fun q => ',' :: memberText w1 w2 q) ++ (w3 ++ '\x7d' :: rest))) =
          some (j :: js, rest) := by
  have hclose : skipSpace (w3 ++ '\x7d' :: rest) = '\x7d' :: rest := by
    rw [skipSpace_append _ _ hw3]
    exact skipSpace_of_not_space _ _ (by decide)
  have hclose2 : ∀ c ∈ (w3 ++ '\x7d' :: rest).head?, isNumberChar c = false := by
    intro c hc
    cases w3 with
    | nil =>
      simp only [List.nil_append, List.head?_cons, Option.mem_def, Option.some.injEq] at hc
      rw [← hc]; decide
    | cons a w =>
      simp only [List.cons_append, List.head?_cons, Option.mem_def, Option.some.injEq] at hc
      rw [← hc]
      exact space_not_number a (hw3 a (List.mem_cons_self _ _))
  intro ms
  induction ms with
  | nil =>
    intro js m j hrel n hn
    cases hrel with
    | cons hmj htl =>
      cases htl
      obtain ⟨f, rfl⟩ := Nat.exists_eq_succ_of_ne_zero (by omega : n ≠ 0)
      simp only [List.flatMap_nil, List.nil_append]
      rw [parseMembers_step pv f w1 w2 hw1 m j hmj.1 hmj.2.1 _ (hmj.2.2 _ hclose2) _ _ hclose]
      simp
  | cons m2 ms ih =>
    intro js m j hrel n hn
    cases hrel with
    | cons hmj htl =>
      cases js with
      | nil => cases htl
      | cons j2 js =>
        obtain ⟨f, rfl⟩ := Nat.exists_eq_succ_of_ne_zero (by omega : n ≠ 0)
        have hshape : (m2 :: ms).flatMap (fun q => ',' :: memberText w1 w2 q) ++
            (w3 ++ '\x7d' :: rest) =
            ',' :: (memberText w1 w2 m2 ++
              (ms.flatMap (fun q => ',' :: memberText w1 w2 q) ++ (w3 ++ '\x7d' :: rest))) := by
          simp [List.flatMap_cons, List.append_assoc]
        have hcomma : ∀ c ∈ (',' :: (memberText w1 w2 m2 ++
              (ms.flatMap (fun q => ',' :: memberText w1 w2 q) ++
                (w3 ++ '\x7d' :: rest)))).head?, isNumberChar c = false := by
          intro c hc
          simp only [List.head?_cons, Option.mem_def, Option.some.injEq] at hc
          rw [← hc]; decide
        rw [hshape, parseMembers_step pv f w1 w2 hw1 m j hmj.1 hmj.2.1 _ (hmj.2.2 _ hcomma)
          _ _ (skipSpace_of_not_space _ _ (by decide))]
        simp only [if_true]
        rw [ih js m2 j2 htl f (by simp only [List.length_cons] at hn; omega)]
        rfl

theorem parseElements_text (pv : List Char → Option (Json × List Char))
    (w1 w3 : List Char) (hw3 : ∀ c ∈ w3, isJsonSpace c = true) (rest : List Char) :
    ∀ (es : List String) (js : List Json) (e : String) (j : Json),
      List.Forall₂ (fun (a : String) (b : Json) =>
        ∀ tail : List Char, (∀ c ∈ tail.head?, isNumberChar c = false) →
          pv (w1 ++ a.data ++ tail) = some (b, tail)) (e :: es) (j :: js) →
      ∀ n, es.length + 1 ≤ n →
        parseElements pv n (w1 ++ e.data ++
          (es.flatMap (fun q => ',' :: (w1 ++ q.data)) ++ (w3 ++ ']' :: rest))) =
          some (j :: js, rest) := by
  have hclose : skipSpace (w3 ++ ']' :: rest) = ']' :: rest := by
    rw [skipSpace_append _ _ hw3]
    exact skipSpace_of_not_space _ _ (by decide)
  have hclose2 : ∀ c ∈ (w3 ++ ']' :: rest).head?, isNumberChar c = false := by
    intro c hc
    cases w3 with
    | nil =>
      simp only [List.nil_append, List.head?_cons, Option.mem_def, Option.some.injEq] at hc
      rw [← hc]; decide
    | cons a w =>
      simp only [List.cons_append, List.head?_cons, Option.mem_def, Option.some.injEq] at hc
      rw [← hc]
      exact space_not_number a (hw3 a (List.mem_cons_self _ _))
  intro es
  induction es with
  | nil =>
    intro js e j hrel n hn
    cases hrel with
    | cons hej htl =>
      cases htl
      obtain ⟨f, rfl⟩ := Nat.exists_eq_succ_of_ne_zero (by omega : n ≠ 0)
      simp only [List.flatMap_nil, List.nil_append]
      simp only [parseElements, hej _ hclose2, hclose]
      simp
  | cons e2 es ih =>
    intro js e j hrel n hn
    cases hrel with
    | cons hej htl =>
      cases js with
      | nil => cases htl
      | cons j2 js =>
        obtain ⟨f, rfl⟩ := Nat.exists_eq_succ_of_ne_zero (by omega : n ≠ 0)
        have hshape : (e2 :: es).flatMap (fun q => ',' :: (w1 ++ q.data)) ++
            (w3 ++ ']' :: rest) =
            ',' :: (w1 ++ e2.data ++
              (es.flatMap (fun q => ',' :: (w1 ++ q.data)) ++ (w3 ++ ']' :: rest))) := by
          simp [List.flatMap_cons, List.append_assoc]
        have hcomma : ∀ c ∈ (',' :: (w1 ++ e2.data ++
              (es.flatMap (fun q => ',' :: (w1 ++ q.data)) ++
                (w3 ++ ']' :: rest)))).head?, isNumberChar c = false := by
          intro c hc
          simp only [List.head?_cons, Option.mem_def, Option.some.injEq] at hc
          rw [← hc]; decide
        rw [hshape]
        simp only [parseElements, hej _ hcomma, skipSpace_of_not_space ',' _ (by decide),
          if_true]
        rw [ih js e2 j2 htl f (by simp only [List.length_cons] at hn; omega)]
        rfl

/-! ### Objects and arrays in a layout -/

theorem forall2_with_mem {α β : Type} (R : α → β → Prop) (P : α → Prop) :
    ∀ (l1 : List α) (l2 : List β), List.Forall₂ R l1 l2 → (∀ a ∈ l1, P a) →
      List.Forall₂ (fun a b => R a b ∧ P a) l1 l2 := by
  intro l1 l2 h
  induction h with
  | nil => intro _; exact List.Forall₂.nil
  | cons hab _ ih =>
    intro hp
    exact List.Forall₂.cons ⟨hab, hp _ (List.mem_cons_self _ _)⟩
      (ih (fun a ha => hp a (List.mem_cons_of_mem _ ha)))

theorem forall2_append {α β : Type} (R : α → β → Prop) :
    ∀ (a : List α) (b : List β) (c : List α) (d : List β), List.Forall₂ R a b →
      List.Forall₂ R c d → List.Forall₂ R (a ++ c) (b ++ d) := by
  intro a b c d h1 h2
  induction h1 with
  | nil => exact h2
  | cons hab _ ih => exact List.Forall₂.cons hab ih

theorem memberText_length (w1 w2 : List Char) (m : String × String) :
    m.2.length + 1 ≤ (memberText w1 w2 m).length := by
  have h : m.2.length = m.2.data.length := rfl
  simp only [memberText, List.length_append, List.length_cons]
  omega

theorem members_flatMap_length (w1 w2 : List Char) (ms : List (String × String)) :
    ms.length ≤ (ms.flatMap (fun q => ',' :: memberText w1 w2 q)).length ∧
      ∀ a ∈ ms, a.2.length ≤ (ms.flatMap (fun q => ',' :: memberText w1 w2 q)).length := by
  induction ms with
  | nil => exact ⟨Nat.le_refl _, fun a ha => by cases ha⟩
  | cons m ms ih =>
    have hm := memberText_length w1 w2 m
    simp only [List.flatMap_cons, List.length_append, List.length_cons]
    refine ⟨by omega, ?_⟩
    intro a ha
    rcases List.mem_cons.1 ha with rfl | ha
    · omega
    · have := ih.2 a ha
      omega

theorem objectText_length (w1 w2 w3 : List Char) (ms : List (String × String)) :
    ms.length ≤ (objectText w1 w2 w3 ms).length ∧
      ∀ a ∈ ms, a.2.length ≤ (objectText w1 w2 w3 ms).length := by
  cases ms with
  | nil => exact ⟨Nat.zero_le _, fun a ha => by cases ha⟩
  | cons m ms =>
    have hm := memberText_length w1 w2 m
    have h := members_flatMap_length w1 w2 ms
    simp only [objectText, List.length_append, List.length_cons, List.length_nil]
    refine ⟨by omega, ?_⟩
    intro a ha
    rcases List.mem_cons.1 ha with rfl | ha
    · omega
    · have := h.2 a ha
      omega

theorem elements_flatMap_length (w1 : List Char) (es : List String) :
    es.length ≤ (es.flatMap (fun q => ',' :: (w1 ++ q.data))).length ∧
      ∀ a ∈ es, a.length ≤ (es.flatMap (fun q => ',' :: (w1 ++ q.data))).length := by
  induction es with
  | nil => exact ⟨Nat.le_refl _, fun a ha => by cases ha⟩
  | cons e es ih =>
    simp only [List.flatMap_cons, List.length_append, List.length_cons]
    refine ⟨by omega, ?_⟩
    intro a ha
    rcases List.mem_cons.1 ha with rfl | ha
    · have h : a.length = a.data.length := rfl
      omega
    · have := ih.2 a ha
      omega

theorem arrayText_length (w1 w3 : List Char) (es : List String) :
    es.length ≤ (arrayText w1 w3 es).length ∧
      ∀ a ∈ es, a.length ≤ (arrayText w1 w3 es).length := by
  cases es with
  | nil => exact ⟨Nat.zero_le _, fun a ha => by cases ha⟩
  | cons e es =>
    have h := elements_flatMap_length w1 es
    simp only [arrayText, List.length_append, List.length_cons, List.length_nil]
    refine ⟨by omega, ?_⟩
    intro a ha
    rcases List.mem_cons.1 ha with rfl | ha
    · have h0 : a.length = a.data.length := rfl
      omega
    · have := h.2 a ha
      omega

theorem head_of_spaces_then (w : List Char) (c : Char) (rest : List Char)
    (hw : ∀ x ∈ w, isJsonSpace x = true) (hc : isJsonSpace c = false) :
    skipSpace (w ++ c :: rest) = c :: rest := by
  rw [skipSpace_append _ _ hw]
  exact skipSpace_of_not_space _ _ hc

theorem readsAs_objectText (w1 w2 w3 : List Char) (hw1 : ∀ c ∈ w1, isJsonSpace c = true)
    (hw2 : ∀ c ∈ w2, isJsonSpace c = true) (hw3 : ∀ c ∈ w3, isJsonSpace c = true)
    (ms : List (String × String)) (js : List (String × Json))
    (nest : Nat) (hrel : List.Forall₂ (MemberReads nest) ms js) (text : String)
    (htext : text.data = '\x7b' :: objectText w1 w2 w3 ms) :
    ReadsAs (nest + 1) text (Json.object js) := by
  intro fuel hf depth hdepth rest _
  have hroom : ¬ (maxNestingDepth ≤ depth) := by omega
  have hlen : text.length = (objectText w1 w2 w3 ms).length + 1 := by
    simp [String.length, htext]
  obtain ⟨f, rfl⟩ := Nat.exists_eq_succ_of_ne_zero (by omega : fuel ≠ 0)
  have hopen : ∀ x : List Char, skipSpace ('\x7b' :: x) = '\x7b' :: x :=
    fun x => skipSpace_of_not_space _ _ (by decide)
  have h1 : ¬ ('\x7b' = '"') := by decide
  rw [htext, List.cons_append]
  cases ms with
  | nil =>
    cases hrel
    have hsk : skipSpace (objectText w1 w2 w3 [] ++ rest) = '\x7d' :: rest := by
      simp only [objectText, List.append_assoc, List.singleton_append]
      exact head_of_spaces_then w3 _ rest hw3 (by decide)
    simp only [parseValue, hopen, if_neg h1, if_true, if_neg hroom, hsk, List.head?_cons,
      List.tail_cons]
  | cons m ms =>
    cases hrel with
    | cons hmj htl =>
      rename_i j js
      have hobj := objectText_length w1 w2 w3 (m :: ms)
      have hshape : objectText w1 w2 w3 (m :: ms) ++ rest =
          memberText w1 w2 m ++ (ms.flatMap (fun q => ',' :: memberText w1 w2 q) ++
            (w3 ++ '\x7d' :: rest)) := by
        simp [objectText, List.append_assoc]
      have hsk : skipSpace (memberText w1 w2 m ++
          (ms.flatMap (fun q => ',' :: memberText w1 w2 q) ++ (w3 ++ '\x7d' :: rest))) =
          '"' :: (m.1.data ++ '"' :: ':' :: (w2 ++ m.2.data ++
            (ms.flatMap (fun q => ',' :: memberText w1 w2 q) ++ (w3 ++ '\x7d' :: rest)))) := by
        have : memberText w1 w2 m ++
            (ms.flatMap (fun q => ',' :: memberText w1 w2 q) ++ (w3 ++ '\x7d' :: rest)) =
            w1 ++ '"' :: (m.1.data ++ '"' :: ':' :: (w2 ++ m.2.data ++
              (ms.flatMap (fun q => ',' :: memberText w1 w2 q) ++
                (w3 ++ '\x7d' :: rest)))) := by
          simp [memberText, List.append_assoc]
        rw [this]
        exact head_of_spaces_then w1 _ _ hw1 (by decide)
      have hhead : ¬ ((skipSpace (memberText w1 w2 m ++
          (ms.flatMap (fun q => ',' :: memberText w1 w2 q) ++
            (w3 ++ '\x7d' :: rest)))).head? = some '\x7d') := by
        rw [hsk]
        simp
      have hall : List.Forall₂ (fun (a : String × String) (b : String × Json) =>
          a.1 = b.1 ∧ PlainKey a.1 ∧
          ∀ tail : List Char, (∀ c ∈ tail.head?, isNumberChar c = false) →
            parseValue f (depth + 1) (w2 ++ a.2.data ++ tail) = some (b.2, tail))
          (m :: ms) (j :: js) := by
        have h0 := forall2_with_mem (MemberReads nest) (fun a => a.2.length ≤ f) _ _
          (List.Forall₂.cons hmj htl) (fun a ha => by have := hobj.2 a ha; omega)
        refine h0.imp ?_
        intro a b hab
        refine ⟨hab.1.1, hab.1.2.1, ?_⟩
        intro tail htail
        rw [List.append_assoc, parseValue_skip w2 _ hw2]
        exact hab.1.2.2 f hab.2 (depth + 1) (by omega) tail htail
      have hloop := parseMembers_text (parseValue f (depth + 1)) w1 w2 w3 hw1 hw3 rest ms js m j hall f
        (by have := hobj.1; simp only [List.length_cons] at this; omega)
      rw [hshape]
      simp only [parseValue, hopen, if_neg h1, if_true, if_neg hroom, if_neg hhead, hloop]
      rfl

theorem readsAs_arrayText (w1 w3 : List Char) (hw1 : ∀ c ∈ w1, isJsonSpace c = true)
    (hw3 : ∀ c ∈ w3, isJsonSpace c = true)
    (es : List String) (js : List Json)
    (nest : Nat) (hrel : List.Forall₂ (ReadsAs nest) es js)
    (hne : ∀ e ∈ es.head?, ∃ c tl, e.data = c :: tl ∧ isJsonSpace c = false ∧ c ≠ ']')
    (text : String) (htext : text.data = '[' :: arrayText w1 w3 es) :
    ReadsAs (nest + 1) text (Json.array js) := by
  intro fuel hf depth hdepth rest _
  have hroom : ¬ (maxNestingDepth ≤ depth) := by omega
  have hlen : text.length = (arrayText w1 w3 es).length + 1 := by
    simp [String.length, htext]
  obtain ⟨f, rfl⟩ := Nat.exists_eq_succ_of_ne_zero (by omega : fuel ≠ 0)
  have hopen : ∀ x : List Char, skipSpace ('[' :: x) = '[' :: x :=
    fun x => skipSpace_of_not_space _ _ (by decide)
  have h1 : ¬ ('[' = '"') := by decide
  have h2 : ¬ ('[' = '\x7b') := by decide
  rw [htext, List.cons_append]
  cases es with
  | nil =>
    cases hrel
    have hsk : skipSpace (arrayText w1 w3 [] ++ rest) = ']' :: rest := by
      simp only [arrayText, List.append_assoc, List.singleton_append]
      exact head_of_spaces_then w3 _ rest hw3 (by decide)
    simp only [parseValue, hopen, if_neg h1, if_neg h2, if_true, if_neg hroom, hsk,
      List.head?_cons, List.tail_cons]
  | cons e es =>
    cases hrel with
    | cons hej htl =>
      rename_i j js
      have harr := arrayText_length w1 w3 (e :: es)
      have hshape : arrayText w1 w3 (e :: es) ++ rest =
          w1 ++ e.data ++ (es.flatMap (fun q => ',' :: (w1 ++ q.data)) ++
            (w3 ++ ']' :: rest)) := by
        simp [arrayText, List.append_assoc]
      have hhead : ¬ ((skipSpace (w1 ++ e.data ++
          (es.flatMap (fun q => ',' :: (w1 ++ q.data)) ++
            (w3 ++ ']' :: rest)))).head? = some ']') := by
        obtain ⟨c, tl, hctl, hsp, hc⟩ := hne e (by simp)
        rw [hctl, List.append_assoc, skipSpace_append _ _ hw1, List.cons_append,
          skipSpace_of_not_space c _ hsp]
        simpa using hc
      have hall : List.Forall₂ (fun (a : String) (b : Json) =>
          ∀ tail : List Char, (∀ c ∈ tail.head?, isNumberChar c = false) →
            parseValue f (depth + 1) (w1 ++ a.data ++ tail) = some (b, tail))
          (e :: es) (j :: js) := by
        have h0 := forall2_with_mem (ReadsAs nest) (fun a => a.length ≤ f) _ _
          (List.Forall₂.cons hej htl) (fun a ha => by have := harr.2 a ha; omega)
        refine h0.imp ?_
        intro a b hab tail htail
        rw [List.append_assoc, parseValue_skip w1 _ hw1]
        exact hab.1 f hab.2 (depth + 1) (by omega) tail htail
      have hloop := parseElements_text (parseValue f (depth + 1)) w1 w3 hw3 rest es js e j hall f
        (by have := harr.1; simp only [List.length_cons] at this; omega)
      rw [hshape]
      simp only [parseValue, hopen, if_neg h1, if_neg h2, if_true, if_neg hroom, if_neg hhead,
        hloop]
      rfl

/-! ### The layouts of the encoder -/

theorem flatMap_map_data (sep : String) (g : String × String → String)
    (ms : List (String × String)) :
    (ms.map g).flatMap (fun q => sep.data ++ q.data) =
      ms.flatMap (fun m => sep.data ++ (g m).data) := by
  induction ms with
  | nil => rfl
  | cons m ms ih => simp only [List.map_cons, List.flatMap_cons, ih]

theorem compactObject_data (ms : List (String × String)) :
    (compactObject ms).data = '\x7b' :: objectText [] [] [] ms := by
  cases ms with
  | nil => rfl
  | cons m ms =>
    simp only [compactObject, String.data_append, List.map_cons, String.intercalate,
      intercalate_go_data, flatMap_map_data]
    simp [objectText, memberText, String.data_append]

theorem indentObject_data (d : Nat) (m : String × String) (ms : List (String × String)) :
    (indentObject d (m :: ms)).data =
      '\x7b' :: objectText ('\n' :: (jsonIndent (d + 1)).data) [' ']
        ('\n' :: (jsonIndent d).data) (m :: ms) := by
  have hne : ¬ (m :: ms = []) := List.cons_ne_nil _ _
  simp only [indentObject, if_neg hne, String.data_append, List.map_cons, String.intercalate,
    intercalate_go_data, flatMap_map_data]
  simp [objectText, memberText, String.data_append]

theorem compactArray_data (es : List String) :
    ("[" ++ ",".intercalate es ++ "]").data = '[' :: arrayText [] [] es := by
  cases es with
  | nil => rfl
  | cons e es =>
    simp only [String.data_append, String.intercalate, intercalate_go_data]
    simp [arrayText]

theorem flatMap_map_elems (sep : String) (g : String → String) (es : List String) :
    (es.map g).flatMap (fun q => sep.data ++ q.data) =
      es.flatMap (fun e => sep.data ++ (g e).data) := by
  induction es with
  | nil => rfl
  | cons e es ih => simp only [List.map_cons, List.flatMap_cons, ih]

theorem indentArray_data (d : Nat) (e : String) (es : List String) :
    (indentArray d (e :: es)).data =
      '[' :: arrayText ('\n' :: (jsonIndent (d + 1)).data) ('\n' :: (jsonIndent d).data)
        (e :: es) := by
  have hne : ¬ (e :: es = []) := List.cons_ne_nil _ _
  simp only [indentArray, if_neg hne, String.data_append, List.map_cons, String.intercalate,
    intercalate_go_data, flatMap_map_elems]
  simp [arrayText, String.data_append]

theorem jsonIndent_spaces : ∀ d, d < 4 → ∀ c ∈ (jsonIndent d).data, isJsonSpace c = true := by
  decide

theorem line_spaces (d : Nat) (hd : d < 4) :
    ∀ c ∈ '\n' :: (jsonIndent d).data, isJsonSpace c = true := by
  intro c hc
  rcases List.mem_cons.1 hc with rfl | hc
  · decide
  · exact jsonIndent_spaces d hd c hc

theorem readsAs_compactObject (ms : List (String × String)) (js : List (String × Json))
    (nest : Nat) (hrel : List.Forall₂ (MemberReads nest) ms js) :
    ReadsAs (nest + 1) (compactObject ms) (Json.object js) :=
  readsAs_objectText [] [] [] (fun _ h => by cases h) (fun _ h => by cases h)
    (fun _ h => by cases h) ms js nest hrel _ (compactObject_data ms)

theorem readsAs_indentObject (d : Nat) (hd : d < 3) (ms : List (String × String))
    (js : List (String × Json)) (nest : Nat) (hrel : List.Forall₂ (MemberReads nest) ms js) :
    ReadsAs (nest + 1) (indentObject d ms) (Json.object js) := by
  cases ms with
  | nil =>
    exact readsAs_objectText [] [] [] (fun _ h => by cases h) (fun _ h => by cases h)
      (fun _ h => by cases h) [] js nest hrel _ rfl
  | cons m ms =>
    refine readsAs_objectText _ [' '] _ (line_spaces (d + 1) (by omega)) ?_
      (line_spaces d (by omega)) _ js nest hrel _ (indentObject_data d m ms)
    intro c hc
    rcases List.mem_cons.1 hc with rfl | hc
    · decide
    · cases hc

/-! ### Storing the members of a record -/

theorem plainKey_of (k : String)
    (h : k.data.all (fun c => decide (c ≠ '"' ∧ c ≠ '\\' ∧ ¬ c.toNat < 32)) = true) :
    PlainKey k := by
  intro c hc
  have := List.all_eq_true.1 h c hc
  simpa using this

theorem foldKey_id : foldKey "id" = "id" := by decide

theorem storeMember_id (pf : String → Option Float64) (st : Reports) (v : Json) :
    Reports.storeMember pf st ("id", v) =
      (storeInt st.ID v).map (fun x => { st with ID := x }) := by
  simp [Reports.storeMember, foldKey_id]

theorem step_id (pf : String → Option Float64) (st : Reports) (n : Int)
    (rest : List (String × Json)) (hn : fitsInt64 n) :
    (valueField "id" (Json.number (itoa n)) ++ rest).foldlM (Reports.storeMember pf) st =
      rest.foldlM (Reports.storeMember pf) { st with ID := n } := by
  simp only [valueField, List.singleton_append, List.foldlM_cons, storeMember_id, storeInt,
    parseInt64_itoa n hn]
  rfl

theorem foldKey_report_name : foldKey "report_name" = "report_name" := by decide

theorem storeMember_report_name (pf : String → Option Float64) (st : Reports) (v : Json) :
    Reports.storeMember pf st ("report_name", v) =
      (storeString st.ReportName v).map (fun x => { st with ReportName := x }) := by
  simp [Reports.storeMember, foldKey_report_name]

theorem step_report_name (pf : String → Option Float64) (st : Reports) (s : String)
    (rest : List (String × Json)) :
    (valueField "report_name" (Json.string s) ++ rest).foldlM (Reports.storeMember pf) st =
      rest.foldlM (Reports.storeMember pf) { st with ReportName := s } := by
  simp only [valueField, List.singleton_append, List.foldlM_cons, storeMember_report_name, storeString]
  rfl

theorem foldKey_report_agency : foldKey "report_agency" = "report_agency" := by decide

theorem storeMember_report_agency (pf : String → Option Float64) (st : Reports) (v : Json) :
    Reports.storeMember pf st ("report_agency", v) =
      (storeString st.ReportAgency v).map (fun x => { st with ReportAgency := x }) := by
  simp [Reports.storeMember, foldKey_report_agency]

theorem step_report_agency (pf : String → Option Float64) (st : Reports) (s : String)
    (rest : List (String × Json)) :
    (valueField "report_agency" (Json.string s) ++ rest).foldlM (Reports.storeMember pf) st =
      rest.foldlM (Reports.storeMember pf) { st with ReportAgency := s } := by
  simp only [valueField, List.singleton_append, List.foldlM_cons, storeMember_report_agency, storeString]
  rfl

theorem foldKey_date : foldKey "date" = "date" := by decide

theorem storeMember_date (pf : String → Option Float64) (st : Reports) (v : Json) :
    Reports.storeMember pf st ("date", v) =
      (storeString st.Date v).map (fun x => { st with Date := x }) := by
  simp [Reports.storeMember, foldKey_date]

theorem step_date (pf : String → Option Float64) (st : Reports) (s : String)
    (rest : List (String × Json)) :
    (valueField "date" (Json.string s) ++ rest).foldlM (Reports.storeMember pf) st =
      rest.foldlM (Reports.storeMember pf) { st with Date := s } := by
  simp only [valueField, List.singleton_append, List.foldlM_cons, storeMember_date, storeString]
  rfl

theorem foldKey_active_visitors : foldKey "active_visitors" = "active_visitors" := by decide

theorem storeMember_active_visitors (pf : String → Option Float64) (st : Reports) (v : Json) :
    Reports.storeMember pf st ("active_visitors", v) =
      (storeInt st.ActiveVisitors v).map (fun x => { st with ActiveVisitors := x }) := by
  simp [Reports.storeMember, foldKey_active_visitors]

theorem step_active_visitors (pf : String → Option Float64) (st : Reports) (n : Int)
    (rest : List (String × Json)) (hst : st.ActiveVisitors = 0) (hn : fitsInt64 n) :
    (valueOmitEmptyInt "active_visitors" n ++ rest).foldlM (Reports.storeMember pf) st =
      rest.foldlM (Reports.storeMember pf) { st with ActiveVisitors := n } := by
  unfold valueOmitEmptyInt
  by_cases h : n = 0
  · rw [if_pos h, h, ← hst]
    rfl
  · rw [if_neg h]
    simp only [List.singleton_append, List.foldlM_cons, storeMember_active_visitors, storeInt,
      parseInt64_itoa n hn]
    rfl

theorem foldKey_avg_session_duration : foldKey "avg_session_duration" = "avg_session_duration" := by decide

theorem storeMember_avg_session_duration (pf : String → Option Float64) (st : Reports) (v : Json) :
    Reports.storeMember pf st ("avg_session_duration", v) =
      (storeFloat pf st.AvgSessionDuration v).map (fun x => { st with AvgSessionDuration := x }) := by
  simp [Reports.storeMember, foldKey_avg_session_duration]

theorem step_avg_session_duration (pf : String → Option Float64) (st : Reports) (f : Float64)
    (rest : List (String × Json)) (hst : st.AvgSessionDuration = {}) (hf : f.readsBack pf) :
    (valueOmitEmptyFloat "avg_session_duration" f ++ rest).foldlM (Reports.storeMember pf) st =
      rest.foldlM (Reports.storeMember pf) { st with AvgSessionDuration := f } := by
  unfold valueOmitEmptyFloat
  cases hz : f.isZero with
  | true =>
    rw [if_pos rfl, hf.1 hz, ← hst]
    rfl
  | false =>
    obtain ⟨t, ht, _, hp⟩ := hf.2 hz
    simp only [Bool.false_eq_true, if_false, ht, List.singleton_append, List.foldlM_cons,
      storeMember_avg_session_duration, storeFloat, hp]
    rfl

theorem foldKey_bounce_rate : foldKey "bounce_rate" = "bounce_rate" := by decide

theorem storeMember_bounce_rate (pf : String → Option Float64) (st : Reports) (v : Json) :
    Reports.storeMember pf st ("bounce_rate", v) =
      (storeFloat pf st.BounceRate v).map (fun x => { st with BounceRate := x }) := by
  simp [Reports.storeMember, foldKey_bounce_rate]

theorem step_bounce_rate (pf : String → Option Float64) (st : Reports) (f : Float64)
    (rest : List (String × Json)) (hst : st.BounceRate = {}) (hf : f.readsBack pf) :
    (valueOmitEmptyFloat "bounce_rate" f ++ rest).foldlM (Reports.storeMember pf) st =
      rest.foldlM (Reports.storeMember pf) { st with BounceRate := f } := by
  unfold valueOmitEmptyFloat
  cases hz : f.isZero with
  | true =>
    rw [if_pos rfl, hf.1 hz, ← hst]
    rfl
  | false =>
    obtain ⟨t, ht, _, hp⟩ := hf.2 hz
    simp only [Bool.false_eq_true, if_false, ht, List.singleton_append, List.foldlM_cons,
      storeMember_bounce_rate, storeFloat, hp]
    rfl

theorem foldKey_browser : foldKey "browser" = "browser" := by decide

theorem storeMember_browser (pf : String → Option Float64) (st : Reports) (v : Json) :
    Reports.storeMember pf st ("browser", v) =
      (storeString st.Browser v).map (fun x => { st with Browser := x }) := by
  simp [Reports.storeMember, foldKey_browser]

theorem step_browser (pf : String → Option Float64) (st : Reports) (s : String)
    (rest : List (String × Json)) (hst : st.Browser = "") :
    (valueOmitEmptyString "browser" s ++ rest).foldlM (Reports.storeMember pf) st =
      rest.foldlM (Reports.storeMember pf) { st with Browser := s } := by
  unfold valueOmitEmptyString
  by_cases h : s = ""
  · rw [if_pos h, h, ← hst]
    rfl
  · rw [if_neg h]
    simp only [List.singleton_append, List.foldlM_cons, storeMember_browser, storeString]
    rfl

theorem foldKey_city : foldKey "city" = "city" := by decide

theorem storeMember_city (pf : String → Option Float64) (st : Reports) (v : Json) :
    Reports.storeMember pf st ("city", v) =
      (storeString st.City v).map (fun x => { st with City := x }) := by
  simp [Reports.storeMember, foldKey_city]

theorem step_city (pf : String → Option Float64) (st : Reports) (s : String)
    (rest : List (String × Json)) (hst : st.City = "") :
    (valueOmitEmptyString "city" s ++ rest).foldlM (Reports.storeMember pf) st =
      rest.foldlM (Reports.storeMember pf) { st with City := s } := by
  unfold valueOmitEmptyString
  by_cases h : s = ""
  · rw [if_pos h, h, ← hst]
    rfl
  · rw [if_neg h]
    simp only [List.singleton_append, List.foldlM_cons, storeMember_city, storeString]
    rfl

theorem foldKey_country : foldKey "country" = "country" := by decide

theorem storeMember_country (pf : String → Option Float64) (st : Reports) (v : Json) :
    Reports.storeMember pf st ("country", v) =
      (storeString st.Country v).map (fun x => { st with Country := x }) := by
  simp [Reports.storeMember, foldKey_country]

theorem step_country (pf : String → Option Float64) (st : Reports) (s : String)
    (rest : List (String × Json)) (hst : st.Country = "") :
    (valueOmitEmptyString "country" s ++ rest).foldlM (Reports.storeMember pf) st =
      rest.foldlM (Reports.storeMember pf) { st with Country := s } := by
  unfold valueOmitEmptyString
  by_cases h : s = ""
  · rw [if_pos h, h, ← hst]
    rfl
  · rw [if_neg h]
    simp only [List.singleton_append, List.foldlM_cons, storeMember_country, storeString]
    rfl

theorem foldKey_device : foldKey "device" = "device" := by decide

theorem storeMember_device (pf : String → Option Float64) (st : Reports) (v : Json) :
    Reports.storeMember pf st ("device", v) =
      (storeString st.Device v).map (fun x => { st with Device := x }) := by
  simp [Reports.storeMember, foldKey_device]

theorem step_device (pf : String → Option Float64) (st : Reports) (s : String)
    (rest : List (String × Json)) (hst : st.Device = "") :
    (valueOmitEmptyString "device" s ++ rest).foldlM (Reports.storeMember pf) st =
      rest.foldlM (Reports.storeMember pf) { st with Device := s } := by
  unfold valueOmitEmptyString
  by_cases h : s = ""
  · rw [if_pos h, h, ← hst]
    rfl
  · rw [if_neg h]
    simp only [List.singleton_append, List.foldlM_cons, storeMember_device, storeString]
    rfl

theorem foldKey_domain : foldKey "domain" = "domain" := by decide

theorem storeMember_domain (pf : String → Option Float64) (st : Reports) (v : Json) :
    Reports.storeMember pf st ("domain", v) =
      (storeString st.Domain v).map (fun x => { st with Domain := x }) := by
  simp [Reports.storeMember, foldKey_domain]

theorem step_domain (pf : String → Option Float64) (st : Reports) (s : String)
    (rest : List (String × Json)) (hst : st.Domain = "") :
    (valueOmitEmptyString "domain" s ++ rest).foldlM (Reports.storeMember pf) st =
      rest.foldlM (Reports.storeMember pf) { st with Domain := s } := by
  unfold valueOmitEmptyString
  by_cases h : s = ""
  · rw [if_pos h, h, ← hst]
    rfl
  · rw [if_neg h]
    simp only [List.singleton_append, List.foldlM_cons, storeMember_domain, storeString]
    rfl

theorem foldKey_event_label : foldKey "event_label" = "event_label" := by decide

theorem storeMember_event_label (pf : String → Option Float64) (st : Reports) (v : Json) :
    Reports.storeMember pf st ("event_label", v) =
      (storeString st.EventLabel v).map (fun x => { st with EventLabel := x }) := by
  simp [Reports.storeMember, foldKey_event_label]

theorem step_event_label (pf : String → Option Float64) (st : Reports) (s : String)
    (rest : List (String × Json)) (hst : st.EventLabel = "") :
    (valueOmitEmptyString "event_label" s ++ rest).foldlM (Reports.storeMember pf) st =
      rest.foldlM (Reports.storeMember pf) { st with EventLabel := s } := by
  unfold valueOmitEmptyString
  by_cases h : s = ""
  · rw [if_pos h, h, ← hst]
    rfl
  · rw [if_neg h]
    simp only [List.singleton_append, List.foldlM_cons, storeMember_event_label, storeString]
    rfl

theorem foldKey_file_name : foldKey "file_name" = "file_name" := by decide

theorem storeMember_file_name (pf : String → Option Float64) (st : Reports) (v : Json) :
    Reports.storeMember pf st ("file_name", v) =
      (storeString st.FileName v).map (fun x => { st with FileName := x }) := by
  simp [Reports.storeMember, foldKey_file_name]

theorem step_file_name (pf : String → Option Float64) (st : Reports) (s : String)
    (rest : List (String × Json)) (hst : st.FileName = "") :
    (valueOmitEmptyString "file_name" s ++ rest).foldlM (Reports.storeMember pf) st =
      rest.foldlM (Reports.storeMember pf) { st with FileName := s } := by
  unfold valueOmitEmptyString
  by_cases h : s = ""
  · rw [if_pos h, h, ← hst]
    rfl
  · rw [if_neg h]
    simp only [List.singleton_append, List.foldlM_cons, storeMember_file_name, storeString]
    rfl

theorem foldKey_hour : foldKey "hour" = "hour" := by decide

theorem storeMember_hour (pf : String → Option Float64) (st : Reports) (v : Json) :
    Reports.storeMember pf st ("hour", v) =
      (storeString st.Hour v).map (fun x => { st with Hour := x }) := by
  simp [Reports.storeMember, foldKey_hour]

theorem step_hour (pf : String → Option Float64) (st : Reports) (s : String)
    (rest : List (String × Json)) (hst : st.Hour = "") :
    (valueOmitEmptyString "hour" s ++ rest).foldlM (Reports.storeMember pf) st =
      rest.foldlM (Reports.storeMember pf) { st with Hour := s } := by
  unfold valueOmitEmptyString
  by_cases h : s = ""
  · rw [if_pos h, h, ← hst]
    rfl
  · rw [if_neg h]
    simp only [List.singleton_append, List.foldlM_cons, storeMember_hour, storeString]
    rfl

theorem foldKey_landing_page : foldKey "landing_page" = "landing_page" := by decide

theorem storeMember_landing_page (pf : String → Option Float64) (st : Reports) (v : Json) :
    Reports.storeMember pf st ("landing_page", v) =
      (storeString st.LandingPage v).map (fun x => { st with LandingPage := x }) := by
  simp [Reports.storeMember, foldKey_landing_page]

theorem step_landing_page (pf : String → Option Float64) (st : Reports) (s : String)
    (rest : List (String × Json)) (hst : st.LandingPage = "") :
    (valueOmitEmptyString "landing_page" s ++ rest).foldlM (Reports.storeMember pf) st =
      rest.foldlM (Reports.storeMember pf) { st with LandingPage := s } := by
  unfold valueOmitEmptyString
  by_cases h : s = ""
  · rw [if_pos h, h, ← hst]
    rfl
  · rw [if_neg h]
    simp only [List.singleton_append, List.foldlM_cons, storeMember_landing_page, storeString]
    rfl

theorem foldKey_language : foldKey "language" = "language" := by decide

theorem storeMember_language (pf : String → Option Float64) (st : Reports) (v : Json) :
    Reports.storeMember pf st ("language", v) =
      (storeString st.Language v).map (fun x => { st with Language := x }) := by
  simp [Reports.storeMember, foldKey_language]

theorem step_language (pf : String → Option Float64) (st : Reports) (s : String)
    (rest : List (String × Json)) (hst : st.Language = "") :
    (valueOmitEmptyString "language" s ++ rest).foldlM (Reports.storeMember pf) st =
      rest.foldlM (Reports.storeMember pf) { st with Language := s } := by
  unfold valueOmitEmptyString
  by_cases h : s = ""
  · rw [if_pos h, h, ← hst]
    rfl
  · rw [if_neg h]
    simp only [List.singleton_append, List.foldlM_cons, storeMember_language, storeString]
    rfl

theorem foldKey_language_code : foldKey "language_code" = "language_code" := by decide

theorem storeMember_language_code (pf : String → Option Float64) (st : Reports) (v : Json) :
    Reports.storeMember pf st ("language_code", v) =
      (storeString st.LanguageCode v).map (fun x => { st with LanguageCode := x }) := by
  simp [Reports.storeMember, foldKey_language_code]

theorem step_language_code (pf : String → Option Float64) (st : Reports) (s : String)
    (rest : List (String × Json)) (hst : st.LanguageCode = "") :
    (valueOmitEmptyString "language_code" s ++ rest).foldlM (Reports.storeMember pf) st =
      rest.foldlM (Reports.storeMember pf) { st with LanguageCode := s } := by
  unfold valueOmitEmptyString
  by_cases h : s = ""
  · rw [if_pos h, h, ← hst]
    rfl
  · rw [if_neg h]
    simp only [List.singleton_append, List.foldlM_cons, storeMember_language_code, storeString]
    rfl

theorem foldKey_mobile_device : foldKey "mobile_device" = "mobile_device" := by decide

theorem storeMember_mobile_device (pf : String → Option Float64) (st : Reports) (v : Json) :
    Reports.storeMember pf st ("mobile_device", v) =
      (storeString st.MobileDevice v).map (fun x => { st with MobileDevice := x }) := by
  simp [Reports.storeMember, foldKey_mobile_device]

theorem step_mobile_device (pf : String → Option Float64) (st : Reports) (s : String)
    (rest : List (String × Json)) (hst : st.MobileDevice = "") :
    (valueOmitEmptyString "mobile_device" s ++ rest).foldlM (Reports.storeMember pf) st =
      rest.foldlM (Reports.storeMember pf) { st with MobileDevice := s } := by
  unfold valueOmitEmptyString
  by_cases h : s = ""
  · rw [if_pos h, h, ← hst]
    rfl
  · rw [if_neg h]
    simp only [List.singleton_append, List.foldlM_cons, storeMember_mobile_device, storeString]
    rfl

theorem foldKey_os : foldKey "os" = "os" := by decide

theorem storeMember_os (pf : String → Option Float64) (st : Reports) (v : Json) :
    Reports.storeMember pf st ("os", v) =
      (storeString st.OS v).map (fun x => { st with OS := x }) := by
  simp [Reports.storeMember, foldKey_os]

theorem step_os (pf : String → Option Float64) (st : Reports) (s : String)
    (rest : List (String × Json)) (hst : st.OS = "") :
    (valueOmitEmptyString "os" s ++ rest).foldlM (Reports.storeMember pf) st =
      rest.foldlM (Reports.storeMember pf) { st with OS := s } := by
  unfold valueOmitEmptyString
  by_cases h : s = ""
  · rw [if_pos h, h, ← hst]
    rfl
  · rw [if_neg h]
    simp only [List.singleton_append, List.foldlM_cons, storeMember_os, storeString]
    rfl

theorem foldKey_os_version : foldKey "os_version" = "os_version" := by decide

theorem storeMember_os_version (pf : String → Option Float64) (st : Reports) (v : Json) :
    Reports.storeMember pf st ("os_version", v) =
      (storeString st.OSVersion v).map (fun x => { st with OSVersion := x }) := by
  simp [Reports.storeMember, foldKey_os_version]

theorem step_os_version (pf : String → Option Float64) (st : Reports) (s : String)
    (rest : List (String × Json)) (hst : st.OSVersion = "") :
    (valueOmitEmptyString "os_version" s ++ rest).foldlM (Reports.storeMember pf) st =
      rest.foldlM (Reports.storeMember pf) { st with OSVersion := s } := by
  unfold valueOmitEmptyString
  by_cases h : s = ""
  · rw [if_pos h, h, ← hst]
    rfl
  · rw [if_neg h]
    simp only [List.singleton_append, List.foldlM_cons, storeMember_os_version, storeString]
    rfl

theorem foldKey_page : foldKey "page" = "page" := by decide

theorem storeMember_page (pf : String → Option Float64) (st : Reports) (v : Json) :
    Reports.storeMember pf st ("page", v) =
      (storeString st.Page v).map (fun x => { st with Page := x }) := by
  simp [Reports.storeMember, foldKey_page]

theorem step_page (pf : String → Option Float64) (st : Reports) (s : String)
    (rest : List (String × Json)) (hst : st.Page = "") :
    (valueOmitEmptyString "page" s ++ rest).foldlM (Reports.storeMember pf) st =
      rest.foldlM (Reports.storeMember pf) { st with Page := s } := by
  unfold valueOmitEmptyString
  by_cases h : s = ""
  · rw [if_pos h, h, ← hst]
    rfl
  · rw [if_neg h]
    simp only [List.singleton_append, List.foldlM_cons, storeMember_page, storeString]
    rfl

theorem foldKey_page_title : foldKey "page_title" = "page_title" := by decide

theorem storeMember_page_title (pf : String → Option Float64) (st : Reports) (v : Json) :
    Reports.storeMember pf st ("page_title", v) =
      (storeString st.PageTitle v).map (fun x => { st with PageTitle := x }) := by
  simp [Reports.storeMember, foldKey_page_title]

theorem step_page_title (pf : String → Option Float64) (st : Reports) (s : String)
    (rest : List (String × Json)) (hst : st.PageTitle = "") :
    (valueOmitEmptyString "page_title" s ++ rest).foldlM (Reports.storeMember pf) st =
      rest.foldlM (Reports.storeMember pf) { st with PageTitle := s } := by
  unfold valueOmitEmptyString
  by_cases h : s = ""
  · rw [if_pos h, h, ← hst]
    rfl
  · rw [if_neg h]
    simp only [List.singleton_append, List.foldlM_cons, storeMember_page_title, storeString]
    rfl

theorem foldKey_pageviews : foldKey "pageviews" = "pageviews" := by decide

theorem storeMember_pageviews (pf : String → Option Float64) (st : Reports) (v : Json) :
    Reports.storeMember pf st ("pageviews", v) =
      (storeInt st.Pageviews v).map (fun x => { st with Pageviews := x }) := by
  simp [Reports.storeMember, foldKey_pageviews]

theorem step_pageviews (pf : String → Option Float64) (st : Reports) (n : Int)
    (rest : List (String × Json)) (hst : st.Pageviews = 0) (hn : fitsInt64 n) :
    (valueOmitEmptyInt "pageviews" n ++ rest).foldlM (Reports.storeMember pf) st =
      rest.foldlM (Reports.storeMember pf) { st with Pageviews := n } := by
  unfold valueOmitEmptyInt
  by_cases h : n = 0
  · rw [if_pos h, h, ← hst]
    rfl
  · rw [if_neg h]
    simp only [List.singleton_append, List.foldlM_cons, storeMember_pageviews, storeInt,
      parseInt64_itoa n hn]
    rfl

theorem foldKey_pageviews_per_session : foldKey "pageviews_per_session" = "pageviews_per_session" := by decide

theorem storeMember_pageviews_per_session (pf : String → Option Float64) (st : Reports) (v : Json) :
    Reports.storeMember pf st ("pageviews_per_session", v) =
      (storeInt st.PageviewsPerSession v).map (fun x => { st with PageviewsPerSession := x }) := by
  simp [Reports.storeMember, foldKey_pageviews_per_session]

theorem step_pageviews_per_session (pf : String → Option Float64) (st : Reports) (n : Int)
    (rest : List (String × Json)) (hst : st.PageviewsPerSession = 0) (hn : fitsInt64 n) :
    (valueOmitEmptyInt "pageviews_per_session" n ++ rest).foldlM (Reports.storeMember pf) st =
      rest.foldlM (Reports.storeMember pf) { st with PageviewsPerSession := n } := by
  unfold valueOmitEmptyInt
  by_cases h : n = 0
  · rw [if_pos h, h, ← hst]
    rfl
  · rw [if_neg h]
    simp only [List.singleton_append, List.foldlM_cons, storeMember_pageviews_per_session, storeInt,
      parseInt64_itoa n hn]
    rfl

theorem foldKey_screen_resolution : foldKey "screen_resolution" = "screen_resolution" := by decide

theorem storeMember_screen_resolution (pf : String → Option Float64) (st : Reports) (v : Json) :
    Reports.storeMember pf st ("screen_resolution", v) =
      (storeString st.ScreenResolution v).map (fun x => { st with ScreenResolution := x }) := by
  simp [Reports.storeMember, foldKey_screen_resolution]

theorem step_screen_resolution (pf : String → Option Float64) (st : Reports) (s : String)
    (rest : List (String × Json)) (hst : st.ScreenResolution = "") :
    (valueOmitEmptyString "screen_resolution" s ++ rest).foldlM (Reports.storeMember pf) st =
      rest.foldlM (Reports.storeMember pf) { st with ScreenResolution := s } := by
  unfold valueOmitEmptyString
  by_cases h : s = ""
  · rw [if_pos h, h, ← hst]
    rfl
  · rw [if_neg h]
    simp only [List.singleton_append, List.foldlM_cons, storeMember_screen_resolution, storeString]
    rfl

theorem foldKey_session_default_channel_group : foldKey "session_default_channel_group" = "session_default_channel_group" := by decide

theorem storeMember_session_default_channel_group (pf : String → Option Float64) (st : Reports) (v : Json) :
    Reports.storeMember pf st ("session_default_channel_group", v) =
      (storeString st.SessionDefaultChannelGroup v).map (fun x => { st with SessionDefaultChannelGroup := x }) := by
  simp [Reports.storeMember, foldKey_session_default_channel_group]

theorem step_session_default_channel_group (pf : String → Option Float64) (st : Reports) (s : String)
    (rest : List (String × Json)) (hst : st.SessionDefaultChannelGroup = "") :
    (valueOmitEmptyString "session_default_channel_group" s ++ rest).foldlM (Reports.storeMember pf) st =
      rest.foldlM (Reports.storeMember pf) { st with SessionDefaultChannelGroup := s } := by
  unfold valueOmitEmptyString
  by_cases h : s = ""
  · rw [if_pos h, h, ← hst]
    rfl
  · rw [if_neg h]
    simp only [List.singleton_append, List.foldlM_cons, storeMember_session_default_channel_group, storeString]
    rfl

theorem foldKey_source : foldKey "source" = "source" := by decide

theorem storeMember_source (pf : String → Option Float64) (st : Reports) (v : Json) :
    Reports.storeMember pf st ("source", v) =
      (storeString st.Source v).map (fun x => { st with Source := x }) := by
  simp [Reports.storeMember, foldKey_source]

theorem step_source (pf : String → Option Float64) (st : Reports) (s : String)
    (rest : List (String × Json)) (hst : st.Source = "") :
    (valueOmitEmptyString "source" s ++ rest).foldlM (Reports.storeMember pf) st =
      rest.foldlM (Reports.storeMember pf) { st with Source := s } := by
  unfold valueOmitEmptyString
  by_cases h : s = ""
  · rw [if_pos h, h, ← hst]
    rfl
  · rw [if_neg h]
    simp only [List.singleton_append, List.foldlM_cons, storeMember_source, storeString]
    rfl

theorem foldKey_total_events : foldKey "total_events" = "total_events" := by decide

theorem storeMember_total_events (pf : String → Option Float64) (st : Reports) (v : Json) :
    Reports.storeMember pf st ("total_events", v) =
      (storeInt st.TotalEvents v).map (fun x => { st with TotalEvents := x }) := by
  simp [Reports.storeMember, foldKey_total_events]

theorem step_total_events (pf : String → Option Float64) (st : Reports) (n : Int)
    (rest : List (String × Json)) (hst : st.TotalEvents = 0) (hn : fitsInt64 n) :
    (valueOmitEmptyInt "total_events" n ++ rest).foldlM (Reports.storeMember pf) st =
      rest.foldlM (Reports.storeMember pf) { st with TotalEvents := n } := by
  unfold valueOmitEmptyInt
  by_cases h : n = 0
  · rw [if_pos h, h, ← hst]
    rfl
  · rw [if_neg h]
    simp only [List.singleton_append, List.foldlM_cons, storeMember_total_events, storeInt,
      parseInt64_itoa n hn]
    rfl

theorem foldKey_users : foldKey "users" = "users" := by decide

theorem storeMember_users (pf : String → Option Float64) (st : Reports) (v : Json) :
    Reports.storeMember pf st ("users", v) =
      (storeInt st.Users v).map (fun x => { st with Users := x }) := by
  simp [Reports.storeMember, foldKey_users]

theorem step_users (pf : String → Option Float64) (st : Reports) (n : Int)
    (rest : List (String × Json)) (hst : st.Users = 0) (hn : fitsInt64 n) :
    (valueOmitEmptyInt "users" n ++ rest).foldlM (Reports.storeMember pf) st =
      rest.foldlM (Reports.storeMember pf) { st with Users := n } := by
  unfold valueOmitEmptyInt
  by_cases h : n = 0
  · rw [if_pos h, h, ← hst]
    rfl
  · rw [if_neg h]
    simp only [List.singleton_append, List.foldlM_cons, storeMember_users, storeInt,
      parseInt64_itoa n hn]
    rfl

theorem foldKey_visits : foldKey "visits" = "visits" := by decide

theorem storeMember_visits (pf : String → Option Float64) (st : Reports) (v : Json) :
    Reports.storeMember pf st ("visits", v) =
      (storeInt st.Visits v).map (fun x => { st with Visits := x }) := by
  simp [Reports.storeMember, foldKey_visits]

theorem step_visits (pf : String → Option Float64) (st : Reports) (n : Int)
    (rest : List (String × Json)) (hst : st.Visits = 0) (hn : fitsInt64 n) :
    (valueOmitEmptyInt "visits" n ++ rest).foldlM (Reports.storeMember pf) st =
      rest.foldlM (Reports.storeMember pf) { st with Visits := n } := by
  unfold valueOmitEmptyInt
  by_cases h : n = 0
  · rw [if_pos h, h, ← hst]
    rfl
  · rw [if_neg h]
    simp only [List.singleton_append, List.foldlM_cons, storeMember_visits, storeInt,
      parseInt64_itoa n hn]
    rfl

theorem decode_values (pf : String → Option Float64) (r : Reports) (h : r.readsBack pf) :
    r.values.foldlM (Reports.storeMember pf) {} = some r := by
  obtain ⟨hID, hActiveVisitors, hPageviews, hPageviewsPerSession, hTotalEvents, hUsers, hVisits, hAvgSessionDuration, hBounceRate⟩ := h
  unfold Reports.values
  refine Eq.trans (step_id pf _ _ _ hID) ?_
  dsimp only
  refine Eq.trans (step_report_name pf _ _ _) ?_
  dsimp only
  refine Eq.trans (step_report_agency pf _ _ _) ?_
  dsimp only
  refine Eq.trans (step_date pf _ _ _) ?_
  dsimp only
  refine Eq.trans (step_active_visitors pf _ _ _ ?_ hActiveVisitors) ?_
  · rfl
  dsimp only
  refine Eq.trans (step_avg_session_duration pf _ _ _ ?_ hAvgSessionDuration) ?_
  · rfl
  dsimp only
  refine Eq.trans (step_bounce_rate pf _ _ _ ?_ hBounceRate) ?_
  · rfl
  dsimp only
  refine Eq.trans (step_browser pf _ _ _ ?_) ?_
  · rfl
  dsimp only
  refine Eq.trans (step_city pf _ _ _ ?_) ?_
  · rfl
  dsimp only
  refine Eq.trans (step_country pf _ _ _ ?_) ?_
  · rfl
  dsimp only
  refine Eq.trans (step_device pf _ _ _ ?_) ?_
  · rfl
  dsimp only
  refine Eq.trans (step_domain pf _ _ _ ?_) ?_
  · rfl
  dsimp only
  refine Eq.trans (step_event_label pf _ _ _ ?_) ?_
  · rfl
  dsimp only
  refine Eq.trans (step_file_name pf _ _ _ ?_) ?_
  · rfl
  dsimp only
  refine Eq.trans (step_hour pf _ _ _ ?_) ?_
  · rfl
  dsimp only
  refine Eq.trans (step_landing_page pf _ _ _ ?_) ?_
  · rfl
  dsimp only
  refine Eq.trans (step_language pf _ _ _ ?_) ?_
  · rfl
  dsimp only
  refine Eq.trans (step_language_code pf _ _ _ ?_) ?_
  · rfl
  dsimp only
  refine Eq.trans (step_mobile_device pf _ _ _ ?_) ?_
  · rfl
  dsimp only
  refine Eq.trans (step_os pf _ _ _ ?_) ?_
  · rfl
  dsimp only
  refine Eq.trans (step_os_version pf _ _ _ ?_) ?_
  · rfl
  dsimp only
  refine Eq.trans (step_page pf _ _ _ ?_) ?_
  · rfl
  dsimp only
  refine Eq.trans (step_page_title pf _ _ _ ?_) ?_
  · rfl
  dsimp only
  refine Eq.trans (step_pageviews pf _ _ _ ?_ hPageviews) ?_
  · rfl
  dsimp only
  refine Eq.trans (step_pageviews_per_session pf _ _ _ ?_ hPageviewsPerSession) ?_
  · rfl
  dsimp only
  refine Eq.trans (step_screen_resolution pf _ _ _ ?_) ?_
  · rfl
  dsimp only
  refine Eq.trans (step_session_default_channel_group pf _ _ _ ?_) ?_
  · rfl
  dsimp only
  refine Eq.trans (step_source pf _ _ _ ?_) ?_
  · rfl
  dsimp only
  refine Eq.trans (step_total_events pf _ _ _ ?_ hTotalEvents) ?_
  · rfl
  dsimp only
  refine Eq.trans (step_users pf _ _ _ ?_ hUsers) ?_
  · rfl
  dsimp only
  rw [← List.append_nil (valueOmitEmptyInt "visits" r.Visits)]
  refine Eq.trans (step_visits pf _ _ _ ?_ hVisits) ?_
  · rfl
  dsimp only
  rfl

/-! ### The text of a record and the value it stands for -/

theorem reads_field (k t : String) (j : Json) (hk : PlainKey k) (nest : Nat)
    (h : ReadsAs nest t j) :
    List.Forall₂ (MemberReads nest) (jsonField k t) (valueField k j) :=
  List.Forall₂.cons ⟨rfl, hk, h⟩ List.Forall₂.nil

theorem reads_omitEmptyString (k s : String) (hk : PlainKey k) :
    List.Forall₂ (MemberReads 0) (jsonOmitEmptyString k s) (valueOmitEmptyString k s) := by
  unfold jsonOmitEmptyString valueOmitEmptyString
  by_cases h : s = ""
  · rw [if_pos h, if_pos h]
    exact List.Forall₂.nil
  · rw [if_neg h, if_neg h]
    exact List.Forall₂.cons ⟨rfl, hk, readsAs_jsonString 0 s⟩ List.Forall₂.nil

theorem reads_omitEmptyInt (k : String) (n : Int) (hk : PlainKey k) :
    List.Forall₂ (MemberReads 0) (jsonOmitEmptyInt k n) (valueOmitEmptyInt k n) := by
  unfold jsonOmitEmptyInt valueOmitEmptyInt
  by_cases h : n = 0
  · rw [if_pos h, if_pos h]
    exact List.Forall₂.nil
  · rw [if_neg h, if_neg h]
    exact List.Forall₂.cons ⟨rfl, hk, readsAs_itoa 0 n⟩ List.Forall₂.nil

theorem reads_omitEmptyFloat (pf : String → Option Float64) (k : String) (f : Float64)
    (hk : PlainKey k) (hf : f.readsBack pf) :
    ∃ piece, jsonOmitEmptyFloat k f = .ok piece ∧
      List.Forall₂ (MemberReads 0) piece (valueOmitEmptyFloat k f) := by
  unfold jsonOmitEmptyFloat valueOmitEmptyFloat
  cases hz : f.isZero with
  | true => exact ⟨[], by simp, by simp⟩
  | false =>
    obtain ⟨t, ht, hv, _⟩ := hf.2 hz
    refine ⟨[(k, t)], by simp [ht], ?_⟩
    simp only [Bool.false_eq_true, if_false, ht]
    exact List.Forall₂.cons ⟨rfl, hk, readsAs_number 0 t hv⟩ List.Forall₂.nil

theorem members_read (pf : String → Option Float64) (r : Reports) (h : r.readsBack pf) :
    ∃ ms, r.members = .ok ms ∧ List.Forall₂ (MemberReads 0) ms r.values := by
  obtain ⟨a, ha, hAvgSessionDuration⟩ := reads_omitEmptyFloat pf "avg_session_duration"
    r.AvgSessionDuration (plainKey_of _ (by decide)) h.2.2.2.2.2.2.2.1
  obtain ⟨b, hb, hBounceRate⟩ := reads_omitEmptyFloat pf "bounce_rate"
    r.BounceRate (plainKey_of _ (by decide)) h.2.2.2.2.2.2.2.2
  refine ⟨_, by unfold Reports.members; rw [ha, hb], ?_⟩
  simp only [List.append_assoc]
  unfold Reports.values
  exact
    (forall2_append _ _ _ _ _ (reads_field "id" _ _ (plainKey_of "id" (by decide)) 0 (readsAs_itoa 0 r.ID))
    (forall2_append _ _ _ _ _ (reads_field "report_name" _ _ (plainKey_of "report_name" (by decide)) 0 (readsAs_jsonString 0 r.ReportName))
    (forall2_append _ _ _ _ _ (reads_field "report_agency" _ _ (plainKey_of "report_agency" (by decide)) 0 (readsAs_jsonString 0 r.ReportAgency))
    (forall2_append _ _ _ _ _ (reads_field "date" _ _ (plainKey_of "date" (by decide)) 0 (readsAs_jsonString 0 r.Date))
    (forall2_append _ _ _ _ _ (reads_omitEmptyInt "active_visitors" r.ActiveVisitors (plainKey_of "active_visitors" (by decide)))
    (forall2_append _ _ _ _ _ hAvgSessionDuration
    (forall2_append _ _ _ _ _ hBounceRate
    (forall2_append _ _ _ _ _ (reads_omitEmptyString "browser" r.Browser (plainKey_of "browser" (by decide)))
    (forall2_append _ _ _ _ _ (reads_omitEmptyString "city" r.City (plainKey_of "city" (by decide)))
    (forall2_append _ _ _ _ _ (reads_omitEmptyString "country" r.Country (plainKey_of "country" (by decide)))
    (forall2_append _ _ _ _ _ (reads_omitEmptyString "device" r.Device (plainKey_of "device" (by decide)))
    (forall2_append _ _ _ _ _ (reads_omitEmptyString "domain" r.Domain (plainKey_of "domain" (by decide)))
    (forall2_append _ _ _ _ _ (reads_omitEmptyString "event_label" r.EventLabel (plainKey_of "event_label" (by decide)))
    (forall2_append _ _ _ _ _ (reads_omitEmptyString "file_name" r.FileName (plainKey_of "file_name" (by decide)))
    (forall2_append _ _ _ _ _ (reads_omitEmptyString "hour" r.Hour (plainKey_of "hour" (by decide)))
    (forall2_append _ _ _ _ _ (reads_omitEmptyString "landing_page" r.LandingPage (plainKey_of "landing_page" (by decide)))
    (forall2_append _ _ _ _ _ (reads_omitEmptyString "language" r.Language (plainKey_of "language" (by decide)))
    (forall2_append _ _ _ _ _ (reads_omitEmptyString "language_code" r.LanguageCode (plainKey_of "language_code" (by decide)))
    (forall2_append _ _ _ _ _ (reads_omitEmptyString "mobile_device" r.MobileDevice (plainKey_of "mobile_device" (by decide)))
    (forall2_append _ _ _ _ _ (reads_omitEmptyString "os" r.OS (plainKey_of "os" (by decide)))
    (forall2_append _ _ _ _ _ (reads_omitEmptyString "os_version" r.OSVersion (plainKey_of "os_version" (by decide)))
    (forall2_append _ _ _ _ _ (reads_omitEmptyString "page" r.Page (plainKey_of "page" (by decide)))
    (forall2_append _ _ _ _ _ (reads_omitEmptyString "page_title" r.PageTitle (plainKey_of "page_title" (by decide)))
    (forall2_append _ _ _ _ _ (reads_omitEmptyInt "pageviews" r.Pageviews (plainKey_of "pageviews" (by decide)))
    (forall2_append _ _ _ _ _ (reads_omitEmptyInt "pageviews_per_session" r.PageviewsPerSession (plainKey_of "pageviews_per_session" (by decide)))
    (forall2_append _ _ _ _ _ (reads_omitEmptyString "screen_resolution" r.ScreenResolution (plainKey_of "screen_resolution" (by decide)))
    (forall2_append _ _ _ _ _ (reads_omitEmptyString "session_default_channel_group" r.SessionDefaultChannelGroup (plainKey_of "session_default_channel_group" (by decide)))
    (forall2_append _ _ _ _ _ (reads_omitEmptyString "source" r.Source (plainKey_of "source" (by decide)))
    (forall2_append _ _ _ _ _ (reads_omitEmptyInt "total_events" r.TotalEvents (plainKey_of "total_events" (by decide)))
    (forall2_append _ _ _ _ _ (reads_omitEmptyInt "users" r.Users (plainKey_of "users" (by decide)))
    (reads_omitEmptyInt "visits" r.Visits (plainKey_of "visits" (by decide)))))))))))))))))))))))))))))))))

/-! ### The text of a response and the response it is read back as -/

theorem decodeElements_values (pf : String → Option Float64) (R : List Reports)
    (h : ∀ r ∈ R, r.readsBack pf) :
    decodeElements pf (R.map (fun r => Json.object r.values)) = some R := by
  induction R with
  | nil => rfl
  | cons r rs ih =>
    have hr : Reports.decode pf {} (Json.object r.values) = some r :=
      decode_values pf r (h r (List.mem_cons_self _ _))
    simp only [List.map_cons, decodeElements, hr,
      ih (fun x hx => h x (List.mem_cons_of_mem _ hx))]
    rfl

theorem readsBack_encodable (pf : String → Option Float64) (f : Float64)
    (h : f.readsBack pf) : f.encodable = true := by
  unfold Float64.encodable
  cases hz : f.isZero with
  | true => rw [h.1 hz]
  | false =>
    obtain ⟨t, ht, _, _⟩ := h.2 hz
    rw [ht]

theorem compactObject_head (ms : List (String × String)) :
    ∃ c tl, (compactObject ms).data = c :: tl ∧ isJsonSpace c = false ∧ c ≠ ']' :=
  ⟨_, _, compactObject_data ms, by decide, by decide⟩

theorem indentObject_head (d : Nat) (ms : List (String × String)) :
    ∃ c tl, (indentObject d ms).data = c :: tl ∧ isJsonSpace c = false ∧ c ≠ ']' := by
  cases ms with
  | nil => exact ⟨'\x7b', ['\x7d'], rfl, by decide, by decide⟩
  | cons m ms => exact ⟨_, _, indentObject_data d m ms, by decide, by decide⟩

theorem marshalRecordsCompact_read (pf : String → Option Float64) (R : List Reports)
    (h : ∀ r ∈ R, r.readsBack pf) :
    ∃ recs, marshalRecordsCompact R = .ok recs ∧
      List.Forall₂ (ReadsAs 1) recs (R.map (fun r => Json.object r.values)) ∧
      ∀ e ∈ recs, ∃ c tl, e.data = c :: tl ∧ isJsonSpace c = false ∧ c ≠ ']' := by
  induction R with
  | nil => exact ⟨[], rfl, List.Forall₂.nil, fun e he => by cases he⟩
  | cons r rs ih =>
    obtain ⟨ms, hms, hrel⟩ := members_read pf r (h r (List.mem_cons_self _ _))
    obtain ⟨recs, hrecs, hall, hhead⟩ := ih (fun x hx => h x (List.mem_cons_of_mem _ hx))
    refine ⟨compactObject ms :: recs, by simp only [marshalRecordsCompact, hms, hrecs],
      List.Forall₂.cons (readsAs_compactObject ms _ 0 hrel) hall, ?_⟩
    intro e he
    rcases List.mem_cons.1 he with rfl | he
    · exact compactObject_head ms
    · exact hhead e he

theorem recordJSON_read (pf : String → Option Float64) (R : List Reports)
    (h : ∀ r ∈ R, r.readsBack pf) :
    List.Forall₂ (ReadsAs 1) (R.map recordJSON) (R.map (fun r => Json.object r.values)) ∧
      ∀ e ∈ R.map recordJSON, ∃ c tl, e.data = c :: tl ∧ isJsonSpace c = false ∧ c ≠ ']' := by
  induction R with
  | nil => exact ⟨List.Forall₂.nil, fun e he => by cases he⟩
  | cons r rs ih =>
    obtain ⟨ms, hms, hrel⟩ := members_read pf r (h r (List.mem_cons_self _ _))
    obtain ⟨hall, hhead⟩ := ih (fun x hx => h x (List.mem_cons_of_mem _ hx))
    have hrec : recordJSON r = indentObject 2 ms := by simp [recordJSON, hms]
    refine ⟨?_, ?_⟩
    · rw [List.map_cons, List.map_cons, hrec]
      exact List.Forall₂.cons (readsAs_indentObject 2 (by decide) ms _ 0 hrel) hall
    · intro e he
      rw [List.map_cons] at he
      rcases List.mem_cons.1 he with rfl | he
      · rw [hrec]; exact indentObject_head 2 ms
      · exact hhead e he

theorem readsAs_compactArray (es : List String) (js : List Json)
    (nest : Nat) (hrel : List.Forall₂ (ReadsAs nest) es js)
    (hhead : ∀ e ∈ es, ∃ c tl, e.data = c :: tl ∧ isJsonSpace c = false ∧ c ≠ ']') :
    ReadsAs (nest + 1) ("[" ++ ",".intercalate es ++ "]") (Json.array js) :=
  readsAs_arrayText [] [] (fun _ h => by cases h) (fun _ h => by cases h) es js nest hrel
    (fun e he => hhead e (List.mem_of_mem_head? he)) _ (compactArray_data es)

theorem readsAs_indentArray (d : Nat) (hd : d < 3) (es : List String) (js : List Json)
    (nest : Nat) (hrel : List.Forall₂ (ReadsAs nest) es js)
    (hhead : ∀ e ∈ es, ∃ c tl, e.data = c :: tl ∧ isJsonSpace c = false ∧ c ≠ ']') :
    ReadsAs (nest + 1) (indentArray d es) (Json.array js) := by
  cases es with
  | nil =>
    exact readsAs_arrayText [] [] (fun _ h => by cases h) (fun _ h => by cases h) [] js nest
      hrel (fun e he => by cases he) _ rfl
  | cons e es =>
    exact readsAs_arrayText _ _ (line_spaces (d + 1) (by omega)) (line_spaces d (by omega))
      _ js nest hrel (fun x hx => hhead x (List.mem_of_mem_head? hx)) _
      (indentArray_data d e es)

theorem foldKey_data : foldKey "data" = "data" := by decide

theorem unmarshal_of_reads (pf : String → Option Float64) (text : String) (R : List Reports)
    (h : ReadsAs 3 text
      (Json.object [("data", Json.array (R.map (fun r => Json.object r.values)))]))
    (hR : ∀ r ∈ R, r.readsBack pf) :
    ReportResponse.Unmarshal pf text = some { Data := R } := by
  have hp := h (text.length + 1) (Nat.le_succ _) 0 (by decide) [] (fun c hc => by cases hc)
  rw [List.append_nil] at hp
  have hdec := decodeElements_values pf R hR
  simp only [ReportResponse.Unmarshal, parseJson, hp, skipSpace, if_true, List.foldlM_cons,
    List.foldlM_nil, ReportResponse.storeMember, foldKey_data, decodeRecords, hdec]
  rfl

theorem marshal_unmarshal (pf : String → Option Float64) (R : List Reports)
    (hR : ∀ r ∈ R, r.readsBack pf) :
    ∃ text, ReportResponse.Marshal { Data := R } = .ok text ∧
      ReportResponse.Unmarshal pf text = some { Data := R } := by
  obtain ⟨recs, hrecs, hall, hhead⟩ := marshalRecordsCompact_read pf R hR
  have hm : ReportResponse.Marshal { Data := R } =
      .ok (compactObject (jsonField "data" ("[" ++ ",".intercalate recs ++ "]"))) := by
    simp only [ReportResponse.Marshal, hrecs, List.append_nil]
  refine ⟨_, hm, ?_⟩
  apply unmarshal_of_reads pf _ R _ hR
  apply readsAs_compactObject _ _ 2
  exact reads_field "data" _ _ (plainKey_of _ (by decide)) 2
    (readsAs_compactArray recs _ 1 hall hhead)

theorem marshalIndent_unmarshal (pf : String → Option Float64) (R : List Reports)
    (hR : ∀ r ∈ R, r.readsBack pf) :
    ReportResponse.Unmarshal pf (indentObject 0 [("data", indentArray 1 (R.map recordJSON))]) =
      some { Data := R } := by
  obtain ⟨hall, hhead⟩ := recordJSON_read pf R hR
  apply unmarshal_of_reads pf _ R _ hR
  apply readsAs_indentObject 0 (by decide) _ _ 2
  exact reads_field "data" _ _ (plainKey_of _ (by decide)) 2
    (readsAs_indentArray 1 (by decide) _ _ 1 hall hhead)

theorem record_marshal_unmarshal (pf : String → Option Float64) (r : Reports)
    (h : r.readsBack pf) :
    ∃ text, Reports.Marshal r = .ok text ∧ Reports.Unmarshal pf text = some r := by
  obtain ⟨ms, hms, hrel⟩ := members_read pf r h
  refine ⟨compactObject ms, by simp only [Reports.Marshal, hms], ?_⟩
  have hp := readsAs_compactObject ms _ 0 hrel ((compactObject ms).length + 1) (Nat.le_succ _)
    0 (by decide) [] (fun c hc => by cases hc)
  rw [List.append_nil] at hp
  simp only [Reports.Unmarshal, parseJson, hp, skipSpace, if_true]
  exact decode_values pf r h

/-! ### The sample floats -/

theorem readsBack_zero (pf : String → Option Float64) : ({} : Float64).readsBack pf :=
  ⟨fun _ => rfl, fun h => absurd h (by decide)⟩

theorem readsBack_bounceRate035 : bounceRate035.readsBack sampleParseFloat :=
  ⟨fun h => absurd h (by decide), fun _ => ⟨"0.35", rfl, by decide, rfl⟩⟩

/-! ## The claims -/

/-- C1: for every string `s`, `IsValid` holds exactly when `s` is one of the thirteen fixed
names, equivalently exactly when `s` occurs in the list of `GetAllReportTypes`, which has
thirteen pairwise distinct values. -/
theorem C1_isValid_iff_fixed_set (s : String) :
    (ReportType.IsValid s = true ↔
      s = "devices" ∨ s = "browsers" ∨ s = "operating-systems" ∨ s = "languages" ∨
      s = "countries" ∨ s = "cities" ∨ s = "traffic" ∨ s = "top-pages" ∨
      s = "downloads" ∨ s = "realtime" ∨ s = "traffic-sources" ∨ s = "domains" ∨
      s = "agencies") ∧
    (ReportType.IsValid s = true ↔ s ∈ GetAllReportTypes) ∧
    GetAllReportTypes.length = 13 ∧ GetAllReportTypes.Nodup := by
  refine ⟨isValid_iff s, isValid_iff_mem s, rfl, ?_⟩
  decide

/-- C2: for a report name that is not valid (the empty string included) and any limit,
page, after and before, `GetReport` returns no result and an error, hands nothing to the
transport, and the error message quotes the rejected name and holds every one of the
thirteen valid report types. -/
theorem C2_invalid_report_type (lib : StdLib) (rt : ReportsTool) (args : ReportArgs)
    (sent : List Request) (h : ReportType.IsValid args.ReportName = false) :
    ∃ msg : String,
      rt.GetReport lib args sent = { result := none, err := some msg, sent := sent } ∧
      msg = "invalid report type '" ++ args.ReportName ++ "'. Valid types: " ++
        "[devices browsers operating-systems languages countries cities traffic top-pages " ++
        "downloads realtime traffic-sources domains agencies]" ∧
      Contains msg args.ReportName ∧
      ∀ t ∈ GetAllReportTypes, Contains msg t := by
  refine ⟨_, getReport_invalid_name lib rt args sent h, ?_, ?_, ?_⟩
  · have : fmtReportTypes GetAllReportTypes =
        "[devices browsers operating-systems languages countries cities traffic top-pages " ++
        "downloads realtime traffic-sources domains agencies]" := by decide
    rw [this]
    simp only [String.append_assoc]
  · exact contains_append_left _ (contains_append_mid _ _ _)
  · intro t ht
    apply contains_append_right
    exact contains_fmtReportTypes _ t ht

/-- C2 at the report name `unknown-report` of the tests. -/
theorem C2_invalid_report_type_witness :
    ReportType.IsValid "unknown-report" = false ∧
    ∃ msg : String,
      (sampleTool refusing).GetReport sampleLib
          { ReportName := "unknown-report", Limit := 5 } [] =
        { result := none, err := some msg, sent := [] } ∧
      msg = "invalid report type '" ++ "unknown-report" ++ "'. Valid types: " ++
        "[devices browsers operating-systems languages countries cities traffic top-pages " ++
        "downloads realtime traffic-sources domains agencies]" ∧
      Contains msg "unknown-report" ∧
      ∀ t ∈ GetAllReportTypes, Contains msg t :=
  ⟨by decide,
    C2_invalid_report_type sampleLib (sampleTool refusing)
      { ReportName := "unknown-report", Limit := 5 } [] (by decide)⟩

/-- C3: for a valid report name and a valid page, a limit of 0 is sent upstream as
`limit=1000`, a limit from 1 to 10000 is sent as it is, and a limit below 0 or above 10000
makes `GetReport` fail with an `invalid parameters` error. `SendsParam` says what is sent:
whenever the base URL parses, every request of the call is a GET for the built URL, whose
query holds the pair `limit=v` and no other pair for `limit`. -/
theorem C3_limit_default_and_bounds (lib : StdLib) (rt : ReportsTool) (args : ReportArgs)
    (sent : List Request)
    (hname : ReportType.IsValid args.ReportName = true) (hpage : 0 ≤ args.Page) :
    (args.Limit = 0 →
      ∀ u, lib.urlParse
          (rt.apiClient.BaseURL ++ "/reports/" ++ args.ReportName ++ "/data") = .ok u →
        SendsParam lib rt args sent u "limit" "1000") ∧
    (1 ≤ args.Limit ∧ args.Limit ≤ 10000 →
      ∀ u, lib.urlParse
          (rt.apiClient.BaseURL ++ "/reports/" ++ args.ReportName ++ "/data") = .ok u →
        SendsParam lib rt args sent u "limit" (itoa args.Limit)) ∧
    (args.Limit < 0 ∨ 10000 < args.Limit →
      rt.GetReport lib args sent =
        { result := none,
          err := some ("invalid parameters: limit must be between 1 and 10000, got " ++
            itoa args.Limit),
          sent := sent }) := by
  refine ⟨?_, ?_, ?_⟩
  · intro h0 u hu
    refine getReport_sendsParam lib rt args sent u "limit" "1000" hname (by omega) hpage hu
      (by decide) (by decide) (by decide) (by decide) (by decide) ?_
    have := reportQuery_limit (u.Query lib) (defaultedParams args)
      (by simp [defaultedParams, h0])
    simpa [defaultedParams, h0] using this
  · intro hr u hu
    have hne : args.Limit ≠ 0 := by omega
    refine getReport_sendsParam lib rt args sent u "limit" (itoa args.Limit) hname
      (by omega) hpage hu (by decide) (by decide) (by decide) (by decide)
      (queryEscape_itoa _ (by omega)) ?_
    have := reportQuery_limit (u.Query lib) (defaultedParams args)
      (by simp [defaultedParams, hne]; omega)
    simpa [defaultedParams, hne] using this
  · intro hr
    rw [getReport_valid_name lib rt args sent hname]
    have hne : args.Limit ≠ 0 := by omega
    have hv : (defaultedParams args).Validate =
        some ("limit must be between 1 and 10000, got " ++ itoa args.Limit) := by
      unfold ReportParams.Validate defaultedParams
      simp only [hne, ↓reduceIte]
      rw [if_pos ⟨hne, by omega⟩]
    rw [hv]
    simp only [← String.append_assoc]
    rfl

/-- C3 at the `devices` report with no limit given: `limit=1000` is sent, in the one request
for `https://api.example.com/reports/devices/data?limit=1000&page=1`. -/
theorem C3_limit_default_and_bounds_witness :
    ReportType.IsValid "devices" = true ∧
    SendsParam sampleLib (sampleTool (answering 200 sampleBody)) { ReportName := "devices" } []
      { Scheme := "https", Host := "api.example.com", Path := "/reports/devices/data" }
      "limit" "1000" ∧
    ((sampleTool (answering 200 sampleBody)).GetReport sampleLib
      { ReportName := "devices" } []).sent = [sampleRequest] :=
  ⟨by decide,
    (C3_limit_default_and_bounds sampleLib (sampleTool (answering 200 sampleBody))
      { ReportName := "devices" } [] (by decide) (by decide)).1 rfl _ rfl,
    rfl⟩

/-- C4: for a valid report name and a valid limit, a page of 0 is sent upstream as
`page=1`, a page of 1 or more is sent as it is, and a page below 0 makes `GetReport` fail
with an `invalid parameters` error. -/
theorem C4_page_default_and_bounds (lib : StdLib) (rt : ReportsTool) (args : ReportArgs)
    (sent : List Request)
    (hname : ReportType.IsValid args.ReportName = true)
    (hlimit : 0 ≤ args.Limit ∧ args.Limit ≤ 10000) :
    (args.Page = 0 →
      ∀ u, lib.urlParse
          (rt.apiClient.BaseURL ++ "/reports/" ++ args.ReportName ++ "/data") = .ok u →
        SendsParam lib rt args sent u "page" "1") ∧
    (1 ≤ args.Page →
      ∀ u, lib.urlParse
          (rt.apiClient.BaseURL ++ "/reports/" ++ args.ReportName ++ "/data") = .ok u →
        SendsParam lib rt args sent u "page" (itoa args.Page)) ∧
    (args.Page < 0 →
      rt.GetReport lib args sent =
        { result := none,
          err := some ("invalid parameters: page must be >= 1, got " ++ itoa args.Page),
          sent := sent }) := by
  refine ⟨?_, ?_, ?_⟩
  · intro h0 u hu
    refine getReport_sendsParam lib rt args sent u "page" "1" hname hlimit (by omega) hu
      (by decide) (by decide) (by decide) (by decide) (by decide) ?_
    have := reportQuery_page (u.Query lib) (defaultedParams args)
      (by simp [defaultedParams, h0])
    simpa [defaultedParams, h0] using this
  · intro hr u hu
    have hne : args.Page ≠ 0 := by omega
    refine getReport_sendsParam lib rt args sent u "page" (itoa args.Page) hname
      hlimit (by omega) hu (by decide) (by decide) (by decide) (by decide)
      (queryEscape_itoa _ (by omega)) ?_
    have := reportQuery_page (u.Query lib) (defaultedParams args)
      (by simp [defaultedParams, hne]; omega)
    simpa [defaultedParams, hne] using this
  · intro hr
    rw [getReport_valid_name lib rt args sent hname]
    have hne : args.Page ≠ 0 := by omega
    have hv : (defaultedParams args).Validate =
        some ("page must be >= 1, got " ++ itoa args.Page) := by
      unfold ReportParams.Validate defaultedParams
      simp only [hne, ↓reduceIte]
      rw [if_neg (by split_ifs <;> omega), if_pos ⟨hne, by omega⟩]
    rw [hv]
    simp only [← String.append_assoc]
    rfl

/-- C4 at the `devices` report with page 3: `page=3` is sent, in the one request for
`https://api.example.com/reports/devices/data?limit=1000&page=3`. -/
theorem C4_page_default_and_bounds_witness :
    ReportType.IsValid "devices" = true ∧
    SendsParam sampleLib (sampleTool (answering 200 sampleBody))
      { ReportName := "devices", Page := 3 } []
      { Scheme := "https", Host := "api.example.com", Path := "/reports/devices/data" }
      "page" "3" ∧
    ((sampleTool (answering 200 sampleBody)).GetReport sampleLib
      { ReportName := "devices", Page := 3 } []).sent =
        [{ sampleRequest with
            URL := "https://api.example.com/reports/devices/data?limit=1000&page=3" }] :=
  ⟨by decide,
    (C4_page_default_and_bounds sampleLib (sampleTool (answering 200 sampleBody))
      { ReportName := "devices", Page := 3 } [] (by decide) (by decide)).2.1 (by decide) _ rfl,
    rfl⟩

/-- C5: `Validate` returns an error exactly when the limit is below 0 or above 10000 or
the page is below 0; for a limit out of range the message is
`limit must be between 1 and 10000, got` followed by the limit, whatever the page is, and
a bad page is reported only when the limit is in range. -/
theorem C5_validate_bounds (p : ReportParams) :
    (p.Validate ≠ none ↔ p.Limit < 0 ∨ p.Limit > 10000 ∨ p.Page < 0) ∧
    (p.Limit < 0 ∨ p.Limit > 10000 →
      p.Validate = some ("limit must be between 1 and 10000, got " ++ itoa p.Limit) ∧
      ∀ msg, p.Validate = some msg →
        HasPrefix msg "limit must be between 1 and 10000" ∧ Contains msg (itoa p.Limit)) ∧
    (0 ≤ p.Limit ∧ p.Limit ≤ 10000 ∧ p.Page < 0 →
      p.Validate = some ("page must be >= 1, got " ++ itoa p.Page)) := by
  refine ⟨?_, ?_, ?_⟩
  · rw [Ne, validate_eq_none_iff]
    omega
  · intro h
    have hv : p.Validate = some ("limit must be between 1 and 10000, got " ++ itoa p.Limit) := by
      unfold ReportParams.Validate
      rw [if_pos (by omega)]
    refine ⟨hv, ?_⟩
    intro msg hmsg
    rw [hv] at hmsg
    cases hmsg
    constructor
    · have : "limit must be between 1 and 10000, got " =
          "limit must be between 1 and 10000" ++ ", got " := by decide
      rw [this, String.append_assoc]
      exact hasPrefix_append _ _
    · have := contains_append_mid "limit must be between 1 and 10000, got " (itoa p.Limit) ""
      simpa using this
  · intro h
    unfold ReportParams.Validate
    rw [if_neg (by omega), if_pos (by omega)]

/-- C5 at a limit and a page that are both out of range: the limit is reported. -/
theorem C5_validate_bounds_witness :
    ReportParams.Validate { Limit := 10001, Page := -1 } =
      some ("limit must be between 1 and 10000, got " ++ itoa 10001) :=
  ((C5_validate_bounds { Limit := 10001, Page := -1 }).2.1 (by decide)).1

/-- C6: when the report name is not valid, or the limit or the page is out of bounds,
`GetReport` returns no result and an error, and the list of requests handed to the
transport is unchanged. -/
theorem C6_validation_failure_sends_nothing (lib : StdLib) (rt : ReportsTool)
    (args : ReportArgs) (sent : List Request)
    (h : ReportType.IsValid args.ReportName = false ∨
      args.Limit < 0 ∨ 10000 < args.Limit ∨ args.Page < 0) :
    (rt.GetReport lib args sent).result = none ∧
    (rt.GetReport lib args sent).err ≠ none ∧
    (rt.GetReport lib args sent).sent = sent := by
  cases hname : ReportType.IsValid args.ReportName with
  | false =>
    rw [getReport_invalid_name lib rt args sent hname]
    simp
  | true =>
    have hr : args.Limit < 0 ∨ 10000 < args.Limit ∨ args.Page < 0 := by
      rcases h with h | h
      · rw [hname] at h; cases h
      · exact h
    rw [getReport_valid_name lib rt args sent hname]
    cases hv : (defaultedParams args).Validate with
    | none =>
      have := (validate_defaulted args).1 hv
      omega
    | some e => simp

/-- C6 at a negative limit. -/
theorem C6_validation_failure_sends_nothing_witness :
    ((sampleTool (answering 200 sampleBody)).GetReport sampleLib
        { ReportName := "devices", Limit := -1 } []).result = none ∧
    ((sampleTool (answering 200 sampleBody)).GetReport sampleLib
        { ReportName := "devices", Limit := -1 } []).err ≠ none ∧
    ((sampleTool (answering 200 sampleBody)).GetReport sampleLib
        { ReportName := "devices", Limit := -1 } []).sent = [] :=
  C6_validation_failure_sends_nothing sampleLib (sampleTool (answering 200 sampleBody))
    { ReportName := "devices", Limit := -1 } [] (by decide)

/-- C7: once the name and the parameters are valid and the URL is built, every failure of
the fetch gives a `nil` error and a result flagged as an error whose single text is
`Request failed: ` followed by the message of the fetch error; the fetch fails in this way
when the request cannot be created, when the transport fails, when the body cannot be read,
when the status is not 200 and when the body does not decode. -/
theorem C7_fetch_failure_is_error_result (lib : StdLib) (rt : ReportsTool) (args : ReportArgs)
    (sent : List Request) (apiURL : String)
    (hname : ReportType.IsValid args.ReportName = true)
    (hlimit : 0 ≤ args.Limit ∧ args.Limit ≤ 10000) (hpage : 0 ≤ args.Page)
    (hurl : rt.buildReportsURL lib args.ReportName (defaultedParams args) = .ok apiURL) :
    (∀ fetchErr sent', rt.fetchReports lib apiURL sent = (.error fetchErr, sent') →
      rt.GetReport lib args sent =
        { result := some { Content := [⟨"Request failed: " ++ fetchErr⟩], IsError := true },
          err := none, sent := sent' }) ∧
    (∀ e, lib.urlParse apiURL = .error e →
      rt.fetchReports lib apiURL sent = (.error ("failed to create request: " ++ e), sent)) ∧
    (∀ req e sent', NewRequestWithContext lib "GET" apiURL = .ok req →
      rt.apiClient.DoRequest req sent = (.error e, sent') →
      rt.fetchReports lib apiURL sent = (.error ("HTTP request failed: " ++ e), sent')) ∧
    (∀ req resp e sent', NewRequestWithContext lib "GET" apiURL = .ok req →
      rt.apiClient.DoRequest req sent = (.ok resp, sent') → resp.Body = .error e →
      rt.fetchReports lib apiURL sent = (.error ("failed to read response: " ++ e), sent')) ∧
    (∀ req resp body sent', NewRequestWithContext lib "GET" apiURL = .ok req →
      rt.apiClient.DoRequest req sent = (.ok resp, sent') → resp.Body = .ok body →
      resp.StatusCode ≠ 200 →
      rt.fetchReports lib apiURL sent =
        (.error ("API request failed with status " ++ itoa resp.StatusCode ++ ": " ++ body),
          sent')) ∧
    (∀ req resp body e sent', NewRequestWithContext lib "GET" apiURL = .ok req →
      rt.apiClient.DoRequest req sent = (.ok resp, sent') → resp.Body = .ok body →
      resp.StatusCode = 200 → (lib.unmarshalReports body).2 = some e →
      rt.fetchReports lib apiURL sent =
        (.error ("failed to parse JSON response: " ++ e), sent')) := by
  refine ⟨?_, ?_, ?_, ?_, ?_, ?_⟩
  · intro fetchErr sent' hf
    rw [getReport_of_fetch lib rt args sent apiURL hname hlimit hpage hurl, hf]
    rfl
  · intro e he
    exact fetchReports_create_error lib rt apiURL sent e he
  · intro req e sent' hreq hdo
    rw [fetchReports_of_request lib rt apiURL sent req hreq, hdo]
  · intro req resp e sent' hreq hdo hbody
    rw [fetchReports_of_request lib rt apiURL sent req hreq, hdo]
    simp [hbody]
  · intro req resp body sent' hreq hdo hbody hstatus
    rw [fetchReports_of_request lib rt apiURL sent req hreq, hdo]
    simp [hbody, hstatus]
  · intro req resp body e sent' hreq hdo hbody hstatus hdec
    rw [fetchReports_of_request lib rt apiURL sent req hreq, hdo]
    rcases hu : lib.unmarshalReports body with ⟨reports, err⟩
    rw [hu] at hdec
    simp only at hdec
    subst hdec
    simp [hbody, hstatus, hu]

/-- C7 at a transport that refuses the connection. -/
theorem C7_fetch_failure_is_error_result_witness :
    (sampleTool refusing).GetReport sampleLib { ReportName := "devices" } [] =
      { result := some
          { Content := [⟨"Request failed: " ++ "HTTP request failed: connection refused"⟩],
            IsError := true },
        err := none, sent := [sampleRequest] } :=
  (C7_fetch_failure_is_error_result sampleLib (sampleTool refusing) { ReportName := "devices" }
    [] sampleURL (by decide) (by decide) (by decide) rfl).1
    "HTTP request failed: connection refused" [sampleRequest] rfl

/-- C8: for a response with a status other than 200 and body `b`, the fetch fails with
`API request failed with status <s>: <b>`, whatever `b` is, and the tool result is an
error result whose text holds `Request failed`, the decimal status and `b`. -/
theorem C8_non_200_status (lib : StdLib) (rt : ReportsTool) (apiURL : String)
    (sent sent' : List Request) (req : Request) (resp : Response) (body : String)
    (hreq : NewRequestWithContext lib "GET" apiURL = .ok req)
    (hdo : rt.apiClient.DoRequest req sent = (.ok resp, sent'))
    (hbody : resp.Body = .ok body) (hstatus : resp.StatusCode ≠ 200) :
    rt.fetchReports lib apiURL sent =
      (.error ("API request failed with status " ++ itoa resp.StatusCode ++ ": " ++ body),
        sent') ∧
    ∀ args : ReportArgs, ReportType.IsValid args.ReportName = true →
      0 ≤ args.Limit ∧ args.Limit ≤ 10000 → 0 ≤ args.Page →
      rt.buildReportsURL lib args.ReportName (defaultedParams args) = .ok apiURL →
      ∃ text : String,
        rt.GetReport lib args sent =
          { result := some { Content := [⟨text⟩], IsError := true }, err := none,
            sent := sent' } ∧
        text = "Request failed: API request failed with status " ++ itoa resp.StatusCode ++
          ": " ++ body ∧
        Contains text "Request failed" ∧ Contains text (itoa resp.StatusCode) ∧
        Contains text body := by
  have hf : rt.fetchReports lib apiURL sent =
      (.error ("API request failed with status " ++ itoa resp.StatusCode ++ ": " ++ body),
        sent') := by
    rw [fetchReports_of_request lib rt apiURL sent req hreq, hdo]
    simp [hbody, hstatus]
  refine ⟨hf, ?_⟩
  intro args hname hlimit hpage hurl
  refine ⟨_, ?_, rfl, ?_, ?_, ?_⟩
  · rw [getReport_of_fetch lib rt args sent apiURL hname hlimit hpage hurl, hf]
    simp only [shapeResult, ← String.append_assoc]
    rfl
  · have : "Request failed: API request failed with status " =
        "Request failed" ++ ": API request failed with status " := by decide
    rw [this]
    exact contains_append_left _ (contains_append_left _ (contains_append_left _
      (contains_head _ _)))
  · exact contains_append_left _ (contains_append_left _ (contains_tail _ _))
  · exact contains_tail _ _

/-- C8 at the second end-to-end scenario: status 404 with the body
`{"error":"not found"}`. -/
theorem C8_non_200_status_witness :
    (sampleTool (answering 404 notFoundBody)).fetchReports sampleLib sampleURL [] =
      (.error ("API request failed with status " ++ itoa 404 ++ ": " ++ notFoundBody),
        [sampleRequest]) ∧
    ∃ text : String,
      (sampleTool (answering 404 notFoundBody)).GetReport sampleLib
          { ReportName := "devices" } [] =
        { result := some { Content := [⟨text⟩], IsError := true }, err := none,
          sent := [sampleRequest] } ∧
      text = "Request failed: API request failed with status " ++ itoa 404 ++ ": " ++
        notFoundBody ∧
      Contains text "Request failed" ∧ Contains text (itoa 404) ∧
      Contains text notFoundBody :=
  ⟨(C8_non_200_status sampleLib (sampleTool (answering 404 notFoundBody)) sampleURL []
      [sampleRequest] { Method := "GET", URL := sampleURL }
      { StatusCode := 404, Body := .ok notFoundBody } notFoundBody rfl rfl rfl (by decide)).1,
    (C8_non_200_status sampleLib (sampleTool (answering 404 notFoundBody)) sampleURL []
      [sampleRequest] { Method := "GET", URL := sampleURL }
      { StatusCode := 404, Body := .ok notFoundBody } notFoundBody rfl rfl rfl (by decide)).2
      { ReportName := "devices" } (by decide) (by decide) (by decide) rfl⟩

/-- C9: for valid arguments, when the upstream answers 200 with a body that decodes to
no records, `GetReport` returns a `nil` error and an error result whose text is
`No data found for report: ` followed by the report name. -/
theorem C9_no_data (lib : StdLib) (rt : ReportsTool) (args : ReportArgs) (apiURL : String)
    (sent sent' : List Request) (req : Request) (resp : Response) (body : String)
    (hname : ReportType.IsValid args.ReportName = true)
    (hlimit : 0 ≤ args.Limit ∧ args.Limit ≤ 10000) (hpage : 0 ≤ args.Page)
    (hurl : rt.buildReportsURL lib args.ReportName (defaultedParams args) = .ok apiURL)
    (hreq : NewRequestWithContext lib "GET" apiURL = .ok req)
    (hdo : rt.apiClient.DoRequest req sent = (.ok resp, sent'))
    (hstatus : resp.StatusCode = 200) (hbody : resp.Body = .ok body)
    (hdec : lib.unmarshalReports body = ([], none)) :
    rt.GetReport lib args sent =
      { result := some { Content := [⟨"No data found for report: " ++ args.ReportName⟩],
                         IsError := true },
        err := none, sent := sent' } := by
  have hf : rt.fetchReports lib apiURL sent = (.ok [], sent') := by
    rw [fetchReports_of_request lib rt apiURL sent req hreq, hdo]
    simp [hbody, hstatus, hdec]
  rw [getReport_of_fetch lib rt args sent apiURL hname hlimit hpage hurl, hf]
  rfl

/-- C9 at the third end-to-end scenario: status 200 with the body `[]`. -/
theorem C9_no_data_witness :
    (sampleTool (answering 200 "[]")).GetReport sampleLib { ReportName := "devices" } [] =
      { result := some { Content := [⟨"No data found for report: " ++ "devices"⟩],
                         IsError := true },
        err := none, sent := [sampleRequest] } :=
  C9_no_data sampleLib (sampleTool (answering 200 "[]")) { ReportName := "devices" } sampleURL
    [] [sampleRequest] { Method := "GET", URL := sampleURL }
    { StatusCode := 200, Body := .ok "[]" } "[]"
    (by decide) (by decide) (by decide) rfl rfl rfl rfl rfl rfl

/-- C10: for valid arguments and a 200 response that decodes to the records `R`, at least
one, none of which holds a NaN or an infinity (the JSON decoder never produces one),
`GetReport` returns a result that is not flagged as an error and whose single text is
`Analytics Report: n`, a blank line, `Found N records:` with `N` the length of `R`, a blank
line, and the JSON object with the one member `data`, indented by two spaces, whose array
holds the object of every record of `R` in the order of `R`: read back by `json.Unmarshal`,
the JSON of the text is the response whose `Data` is `R`, record for record and field for
field, for records that Go can hold and whose floats package strconv reads back from the
text it writes for them. -/
theorem C10_success_payload (lib : StdLib) (rt : ReportsTool) (args : ReportArgs)
    (apiURL : String) (sent sent' : List Request) (req : Request) (resp : Response)
    (body : String) (R : List Reports)
    (hname : ReportType.IsValid args.ReportName = true)
    (hlimit : 0 ≤ args.Limit ∧ args.Limit ≤ 10000) (hpage : 0 ≤ args.Page)
    (hurl : rt.buildReportsURL lib args.ReportName (defaultedParams args) = .ok apiURL)
    (hreq : NewRequestWithContext lib "GET" apiURL = .ok req)
    (hdo : rt.apiClient.DoRequest req sent = (.ok resp, sent'))
    (hstatus : resp.StatusCode = 200) (hbody : resp.Body = .ok body)
    (hdec : lib.unmarshalReports body = (R, none)) (hne : 1 ≤ R.length)
    (hfin : ∀ r ∈ R, r.AvgSessionDuration.encodable = true ∧ r.BounceRate.encodable = true) :
    rt.GetReport lib args sent =
      { result := some
          { Content := [⟨"Analytics Report: " ++ args.ReportName ++ "\n\nFound " ++
              itoa R.length ++ " records:\n\n" ++
              ("\x7b\n  \"data\": [\n" ++
                ",\n".intercalate (R.map (fun r => "    " ++ recordJSON r)) ++
                "\n  ]\n\x7d")⟩],
            IsError := false },
        err := none, sent := sent' } ∧
    (R.map recordJSON).length = R.length ∧
    (∀ r ∈ R, ∃ ms, r.members = .ok ms ∧ recordJSON r = indentObject 2 ms) ∧
    ∀ pf : String → Option Float64, (∀ r ∈ R, r.readsBack pf) →
      ReportResponse.Unmarshal pf
          ("\x7b\n  \"data\": [\n" ++
            ",\n".intercalate (R.map (fun r => "    " ++ recordJSON r)) ++
            "\n  ]\n\x7d") =
        some { Data := R } := by
  have hf : rt.fetchReports lib apiURL sent = (.ok R, sent') := by
    rw [fetchReports_of_request lib rt apiURL sent req hreq, hdo]
    simp [hbody, hstatus, hdec]
  have hR : R.map recordJSON ≠ [] := by
    intro h0
    rw [List.map_eq_nil_iff] at h0
    rw [h0] at hne
    simp at hne
  have hj : indentObject 0 [("data", indentArray 1 (R.map recordJSON))] =
      "\x7b\n  \"data\": [\n" ++
        ",\n".intercalate (R.map (fun r => "    " ++ recordJSON r)) ++ "\n  ]\n\x7d" := by
    have h1 : jsonIndent 1 = "  " := by decide
    have h0 : jsonIndent 0 = "" := by decide
    have hmap : (R.map recordJSON).map (fun e => jsonIndent (1 + 1) ++ e) =
        R.map (fun r => "    " ++ recordJSON r) := by
      rw [List.map_map]
      rfl
    simp only [indentObject, indentArray, hR, List.map_cons, List.map_nil, hmap,
      h0, h1, ↓reduceIte, jsonField, List.cons_ne_nil]
    generalize ",\n".intercalate (R.map (fun r => "    " ++ recordJSON r)) = X
    apply String.ext
    simp only [String.data_append, List.append_assoc, String.intercalate,
      String.intercalate.go]
    rfl
  refine ⟨?_, by simp, ?_, ?_⟩
  · rw [getReport_of_fetch lib rt args sent apiURL hname hlimit hpage hurl, hf]
    have hlen : ¬ R.length = 0 := by omega
    simp only [shapeResult, hlen, ↓reduceIte, marshalIndent_ok R hfin]
    rw [hj]
  · intro r hr
    obtain ⟨ms, hms⟩ := members_ok r (hfin r hr)
    exact ⟨ms, hms, by simp [recordJSON, hms]⟩
  · intro pf hpf
    rw [← hj]
    exact marshalIndent_unmarshal pf R hpf

set_option maxRecDepth 100000 in
/-- C10 at the first end-to-end scenario: one record with 1000 visits gives
`Found 1 records` and `"visits": 1000`; and at a record whose page title has to be escaped:
the text holds the escaped title, and its JSON is read back as the record. -/
theorem C10_success_payload_witness :
    (∃ text : String,
      (sampleTool (answering 200 sampleBody)).GetReport sampleLib
          { ReportName := "devices" } [] =
        { result := some { Content := [⟨text⟩], IsError := false }, err := none,
          sent := [sampleRequest] } ∧
      Contains text "Found 1 records" ∧ Contains text "\"visits\": 1000" ∧
      text = "Analytics Report: devices\n\nFound 1 records:\n\n" ++
        "\x7b\n  \"data\": [\n    \x7b\n      \"id\": 1,\n      \"report_name\": \"devices\",\n" ++
        "      \"report_agency\": \"\",\n      \"date\": \"\",\n      \"device\": \"desktop\",\n" ++
        "      \"visits\": 1000\n    \x7d\n  ]\n\x7d") ∧
    (sampleTool (answering 200 quotedBody)).GetReport readingLib { ReportName := "devices" } [] =
      { result := some
          { Content := [⟨"Analytics Report: devices\n\nFound 1 records:\n\n" ++
              ("\x7b\n  \"data\": [\n    \x7b\n      \"id\": 7,\n" ++
               "      \"report_name\": \"devices\",\n      \"report_agency\": \"\",\n" ++
               "      \"date\": \"\",\n      \"bounce_rate\": 0.35,\n" ++
               "      \"page_title\": \"Q\\u0026A: \\\"who\\\"\\n\\u003cb\\u003e\",\n" ++
               "      \"visits\": 3\n    \x7d\n  ]\n\x7d")⟩],
            IsError := false },
        err := none, sent := [sampleRequest] } ∧
    ReportResponse.Unmarshal sampleParseFloat
        ("\x7b\n  \"data\": [\n    \x7b\n      \"id\": 7,\n" ++
         "      \"report_name\": \"devices\",\n      \"report_agency\": \"\",\n" ++
         "      \"date\": \"\",\n      \"bounce_rate\": 0.35,\n" ++
         "      \"page_title\": \"Q\\u0026A: \\\"who\\\"\\n\\u003cb\\u003e\",\n" ++
         "      \"visits\": 3\n    \x7d\n  ]\n\x7d") =
      some { Data := [quotedRecord] } := by
  have hq := C10_success_payload readingLib (sampleTool (answering 200 quotedBody))
      { ReportName := "devices" } sampleURL [] [sampleRequest]
      { Method := "GET", URL := sampleURL } { StatusCode := 200, Body := .ok quotedBody }
      quotedBody [quotedRecord]
      (by decide) (by decide) (by decide) rfl rfl rfl rfl rfl rfl (by decide)
      (by decide)
  have hrb : ∀ r ∈ [quotedRecord], r.readsBack sampleParseFloat := by
    intro r hr
    rw [List.mem_singleton] at hr
    rw [hr]
    exact ⟨by decide, by decide, by decide, by decide, by decide, by decide, by decide,
      readsBack_zero _, readsBack_bounceRate035⟩
  have htext : "\x7b\n  \"data\": [\n" ++
      ",\n".intercalate ([quotedRecord].map (fun r => "    " ++ recordJSON r)) ++
      "\n  ]\n\x7d" =
      "\x7b\n  \"data\": [\n    \x7b\n      \"id\": 7,\n" ++
         "      \"report_name\": \"devices\",\n      \"report_agency\": \"\",\n" ++
         "      \"date\": \"\",\n      \"bounce_rate\": 0.35,\n" ++
         "      \"page_title\": \"Q\\u0026A: \\\"who\\\"\\n\\u003cb\\u003e\",\n" ++
         "      \"visits\": 3\n    \x7d\n  ]\n\x7d" := by decide
  refine ⟨⟨_, (C10_success_payload sampleLib (sampleTool (answering 200 sampleBody))
      { ReportName := "devices" } sampleURL [] [sampleRequest]
      { Method := "GET", URL := sampleURL } { StatusCode := 200, Body := .ok sampleBody }
      sampleBody [sampleRecord]
      (by decide) (by decide) (by decide) rfl rfl rfl rfl rfl rfl (by decide)
      (by decide)).1,
    by decide, by decide, by decide⟩, ?_, ?_⟩
  · have h1 := hq.1
    rw [htext] at h1
    exact h1
  · have h4 := hq.2.2.2 sampleParseFloat hrb
    rw [htext] at h4
    exact h4

/-- C11, as stated, fails at the body `null`: it is a JSON value that is not an array, yet
encoding/json stores it in the slice as `nil` without an error, so the fetch succeeds with
no records and `GetReport` answers `No data found for report: devices`, a text that does
not begin with `Request failed: failed to parse JSON response`. -/
theorem C11_counterexample :
    ¬ HasPrefix "null" "[" ∧
    (sampleTool (answering 200 "null")).fetchReports sampleLib sampleURL [] =
      (.ok [], [sampleRequest]) ∧
    (sampleTool (answering 200 "null")).GetReport sampleLib { ReportName := "devices" } [] =
      { result := some { Content := [⟨"No data found for report: devices"⟩], IsError := true },
        err := none, sent := [sampleRequest] } ∧
    ¬ HasPrefix "No data found for report: devices"
      "Request failed: failed to parse JSON response" := by
  refine ⟨by decide, rfl, rfl, by decide⟩

/-- C11, amended: for valid arguments and a 200 response whose body the JSON decoder
rejects, the fetch fails with `failed to parse JSON response: ` followed by the decoder
error, and `GetReport` returns a `nil` error and a result flagged as an error whose single
text begins `Request failed: failed to parse JSON response`, whatever records the decoder
had stored before it failed; a body that the decoder accepts is no decode failure: the fetch
returns its records, and with no records, as for the body `null`, `GetReport` returns the
error result `No data found for report: ` followed by the report name. -/
theorem C11_decode_failure (lib : StdLib) (rt : ReportsTool) (args : ReportArgs)
    (apiURL : String) (sent sent' : List Request) (req : Request) (resp : Response)
    (body : String) (part : List Reports) (decodeErr : Option String)
    (hname : ReportType.IsValid args.ReportName = true)
    (hlimit : 0 ≤ args.Limit ∧ args.Limit ≤ 10000) (hpage : 0 ≤ args.Page)
    (hurl : rt.buildReportsURL lib args.ReportName (defaultedParams args) = .ok apiURL)
    (hreq : NewRequestWithContext lib "GET" apiURL = .ok req)
    (hdo : rt.apiClient.DoRequest req sent = (.ok resp, sent'))
    (hstatus : resp.StatusCode = 200) (hbody : resp.Body = .ok body)
    (hdec : lib.unmarshalReports body = (part, decodeErr)) :
    (∀ e, decodeErr = some e →
      rt.fetchReports lib apiURL sent =
        (.error ("failed to parse JSON response: " ++ e), sent') ∧
      rt.GetReport lib args sent =
        { result := some
            { Content := [⟨"Request failed: failed to parse JSON response" ++ (": " ++ e)⟩],
              IsError := true },
          err := none, sent := sent' } ∧
      HasPrefix ("Request failed: failed to parse JSON response" ++ (": " ++ e))
        "Request failed: failed to parse JSON response") ∧
    (decodeErr = none →
      rt.fetchReports lib apiURL sent = (.ok part, sent') ∧
      (part = [] →
        rt.GetReport lib args sent =
          { result := some { Content := [⟨"No data found for report: " ++ args.ReportName⟩],
                             IsError := true },
            err := none, sent := sent' })) := by
  constructor
  · intro e he
    subst he
    have hf : rt.fetchReports lib apiURL sent =
        (.error ("failed to parse JSON response: " ++ e), sent') := by
      rw [fetchReports_of_request lib rt apiURL sent req hreq, hdo]
      simp [hbody, hstatus, hdec]
    refine ⟨hf, ?_, hasPrefix_append _ _⟩
    rw [getReport_of_fetch lib rt args sent apiURL hname hlimit hpage hurl, hf]
    have ht : "Request failed: " ++ ("failed to parse JSON response: " ++ e) =
        "Request failed: failed to parse JSON response" ++ (": " ++ e) := by
      apply String.ext
      simp [String.data_append]
    simp only [shapeResult, ht]
  · intro he
    subst he
    have hf : rt.fetchReports lib apiURL sent = (.ok part, sent') := by
      rw [fetchReports_of_request lib rt apiURL sent req hreq, hdo]
      simp [hbody, hstatus, hdec]
    refine ⟨hf, ?_⟩
    intro hp
    subst hp
    rw [getReport_of_fetch lib rt args sent apiURL hname hlimit hpage hurl, hf]
    rfl

/-- C11 at a body whose second record has a field of the wrong type: the decoder had stored
two records when it failed, and the result is the error result, not a report of records. -/
theorem C11_decode_failure_witness :
    (sampleTool (answering 200 wrongTypeBody)).GetReport wrongTypeLib
        { ReportName := "devices" } [] =
      { result := some
          { Content := [⟨"Request failed: failed to parse JSON response" ++ (": " ++
              "json: cannot unmarshal string into Go struct field Reports.id of type int")⟩],
            IsError := true },
        err := none, sent := [sampleRequest] } :=
  ((C11_decode_failure wrongTypeLib (sampleTool (answering 200 wrongTypeBody))
    { ReportName := "devices" } sampleURL [] [sampleRequest]
    { Method := "GET", URL := sampleURL }
    { StatusCode := 200, Body := .ok wrongTypeBody } wrongTypeBody [sampleRecord, {}]
    (some "json: cannot unmarshal string into Go struct field Reports.id of type int")
    (by decide) (by decide) (by decide) rfl rfl rfl rfl rfl rfl).1 _ rfl).2.1

/-- C12, as stated, fails for a client whose base URL has a query of its own: with the base
URL `https://api.example.com/v1?limit=5` and no parameter set, `buildReportsURL` keeps what
`u.Query()` read from the base URL, and the query of the URL it returns holds the key
`limit` although `p.Limit` is 0. -/
theorem C12_counterexample :
    (toolFor "https://api.example.com/v1?limit=5").buildReportsURL plainLib "devices" {} =
      .ok "https://api.example.com/v1?limit=5%2Freports%2Fdevices%2Fdata" ∧
    ¬ 0 < ({} : ReportParams).Limit ∧
    List.lookup (goBytes "limit") (ParseQuery "limit=5%2Freports%2Fdevices%2Fdata").1 =
      some [goBytes "5/reports/devices/data"] := by
  refine ⟨rfl, by decide, by decide⟩

/-- C12, amended: when the base URL followed by `/reports/<name>/data` parses to `u`, the URL
that `buildReportsURL` returns is `u` with the query `builtQuery`, which reads back without
an error; in it each of the keys `limit`, `page`, `after`, `before` whose parameter is set
(limit > 0, page > 0, after or before non-empty) has exactly one value, the decimal text of
the number or the text itself; a key whose parameter is not set, and every other key, has
the values it has in the query of the base URL, and is absent when the base URL does not
hold it. So for a base URL without a query of its own, `limit` is in the query iff
`p.Limit > 0`, `page` iff `p.Page > 0`, `after` iff `p.After` is non-empty and `before` iff
`p.Before` is non-empty. -/
theorem C12_query_keys (lib : StdLib) (rt : ReportsTool) (name : String) (p : ReportParams)
    (u : URL)
    (hparse : lib.urlParse (rt.apiClient.BaseURL ++ "/reports/" ++ name ++ "/data") = .ok u) :
    rt.buildReportsURL lib name p =
      .ok (URL.String lib { u with RawQuery := builtQuery lib u p }) ∧
    (ParseQuery (builtQuery lib u p)).2 = none ∧
    (0 < p.Limit → List.lookup (goBytes "limit") (ParseQuery (builtQuery lib u p)).1 =
      some [goBytes (itoa p.Limit)]) ∧
    (0 < p.Page → List.lookup (goBytes "page") (ParseQuery (builtQuery lib u p)).1 =
      some [goBytes (itoa p.Page)]) ∧
    (p.After ≠ "" → List.lookup (goBytes "after") (ParseQuery (builtQuery lib u p)).1 =
      some [goBytes p.After]) ∧
    (p.Before ≠ "" → List.lookup (goBytes "before") (ParseQuery (builtQuery lib u p)).1 =
      some [goBytes p.Before]) ∧
    (∀ key : String, (∀ c ∈ key.data, c.val ≤ 0x7f) → p.queryParam key = none →
      queryValues (builtQuery lib u p) key =
        ((mapGet (u.Query lib) key).getD []).map goBytes ∧
      (mapGet (u.Query lib) key = none →
        List.lookup (goBytes key) (ParseQuery (builtQuery lib u p)).1 = none)) ∧
    (u.Query lib = [] →
      ((∃ vs, List.lookup (goBytes "limit") (ParseQuery (builtQuery lib u p)).1 = some vs) ↔
        0 < p.Limit) ∧
      ((∃ vs, List.lookup (goBytes "page") (ParseQuery (builtQuery lib u p)).1 = some vs) ↔
        0 < p.Page) ∧
      ((∃ vs, List.lookup (goBytes "after") (ParseQuery (builtQuery lib u p)).1 = some vs) ↔
        p.After ≠ "") ∧
      ((∃ vs, List.lookup (goBytes "before") (ParseQuery (builtQuery lib u p)).1 = some vs) ↔
        p.Before ≠ "")) := by
  refine ⟨buildReportsURL_of_parse lib rt name p u hparse,
    (parseQuery_encode _ "limit" ascii_limit).1, ?_, ?_, ?_, ?_, ?_, ?_⟩
  · intro h
    exact builtQuery_set _ p "limit" _ ascii_limit (by rw [queryParam_limit, if_pos h])
  · intro h
    exact builtQuery_set _ p "page" _ ascii_page (by rw [queryParam_page, if_pos h])
  · intro h
    exact builtQuery_set _ p "after" _ ascii_after (by rw [queryParam_after, if_pos h])
  · intro h
    exact builtQuery_set _ p "before" _ ascii_before (by rw [queryParam_before, if_pos h])
  · intro key hkey hnone
    exact builtQuery_unset _ p key hkey hnone
  · intro h0
    have hl := builtQuery_lookup (u.Query lib) p "limit" ascii_limit (by rw [h0]; rfl)
    have hp := builtQuery_lookup (u.Query lib) p "page" ascii_page (by rw [h0]; rfl)
    have ha := builtQuery_lookup (u.Query lib) p "after" ascii_after (by rw [h0]; rfl)
    have hb := builtQuery_lookup (u.Query lib) p "before" ascii_before (by rw [h0]; rfl)
    rw [queryParam_limit] at hl
    rw [queryParam_page] at hp
    rw [queryParam_after] at ha
    rw [queryParam_before] at hb
    unfold builtQuery
    rw [hl, hp, ha, hb]
    refine ⟨?_, ?_, ?_, ?_⟩
    · by_cases h : 0 < p.Limit <;> simp [h]
    · by_cases h : 0 < p.Page <;> simp [h]
    · by_cases h : p.After = "" <;> simp [h]
    · by_cases h : p.Before = "" <;> simp [h]

/-- C12 at the client for `https://api.example.com`, the report `devices` and a limit of 50
alone: the query is `limit=50`, and `page`, `after` and `before` are not in it. -/
theorem C12_query_keys_witness :
    (toolFor "https://api.example.com").buildReportsURL plainLib "devices" { Limit := 50 } =
      .ok "https://api.example.com/reports/devices/data?limit=50" ∧
    List.lookup (goBytes "limit") (ParseQuery "limit=50").1 = some [goBytes "50"] ∧
    List.lookup (goBytes "page") (ParseQuery "limit=50").1 = none ∧
    List.lookup (goBytes "after") (ParseQuery "limit=50").1 = none ∧
    List.lookup (goBytes "before") (ParseQuery "limit=50").1 = none :=
  ⟨(C12_query_keys plainLib (toolFor "https://api.example.com") "devices" { Limit := 50 }
      { Scheme := "https", Host := "api.example.com", Path := "/reports/devices/data" }
      rfl).1,
    (C12_query_keys plainLib (toolFor "https://api.example.com") "devices" { Limit := 50 }
      { Scheme := "https", Host := "api.example.com", Path := "/reports/devices/data" }
      rfl).2.2.1 (by decide),
    ((C12_query_keys plainLib (toolFor "https://api.example.com") "devices" { Limit := 50 }
      { Scheme := "https", Host := "api.example.com", Path := "/reports/devices/data" }
      rfl).2.2.2.2.2.2.1 "page" (by decide) rfl).2 rfl,
    ((C12_query_keys plainLib (toolFor "https://api.example.com") "devices" { Limit := 50 }
      { Scheme := "https", Host := "api.example.com", Path := "/reports/devices/data" }
      rfl).2.2.2.2.2.2.1 "after" (by decide) rfl).2 rfl,
    ((C12_query_keys plainLib (toolFor "https://api.example.com") "devices" { Limit := 50 }
      { Scheme := "https", Host := "api.example.com", Path := "/reports/devices/data" }
      rfl).2.2.2.2.2.2.1 "before" (by decide) rfl).2 rfl⟩

/-- C13, as stated, fails at the base URL `HTTPS://api.example.com`, a well-formed URL
without query or fragment: `url.Parse` puts the scheme in lower case and `u.String()` writes
the parsed URL, so the URL returned begins `https://`, not with the base URL as given. -/
theorem C13_counterexample :
    plainParse "HTTPS://api.example.com" =
      .ok { Scheme := "https", Host := "api.example.com" } ∧
    (toolFor "HTTPS://api.example.com").apiClient.BaseURL = "HTTPS://api.example.com" ∧
    ReportType.IsValid "devices" = true ∧
    (toolFor "HTTPS://api.example.com").buildReportsURL plainLib "devices" { Limit := 50 } =
      .ok "https://api.example.com/reports/devices/data?limit=50" ∧
    "https://api.example.com/reports/devices/data?limit=50" ≠
      "HTTPS://api.example.com" ++ "/reports/" ++ "devices" ++ "/data" ++ "?" ++ "limit=50" := by
  refine ⟨rfl, rfl, rfl, rfl, by decide⟩

/-- C13, amended: when the base URL `B` followed by `/reports/<n>/data` parses to a URL `u`
without query, without a forced `?` and without fragment (and the query parser reads the
empty query as no values), `buildReportsURL` returns the text that `u.String()` writes for
`u`, followed by `?` and the encoded query when at least one parameter is set, and by
nothing more when none is set; the query is empty exactly when no parameter is set. The
text is `B` followed by `/reports/<n>/data` whenever `u.String()` writes `u` as it was
given, which holds for `B` = `https://api.example.com` but not for every well-formed `B`. -/
theorem C13_url_text (lib : StdLib) (rt : ReportsTool) (n : String) (p : ReportParams)
    (u : URL)
    (hparse : lib.urlParse (rt.apiClient.BaseURL ++ "/reports/" ++ n ++ "/data") = .ok u)
    (hq : u.RawQuery = "") (hf : u.ForceQuery = false) (hfrag : u.Fragment = "")
    (hlib : lib.parseQuery "" = []) :
    builtQuery lib u p = Values.Encode (reportQuery [] p) ∧
    (builtQuery lib u p = "" ↔
      ¬ 0 < p.Limit ∧ ¬ 0 < p.Page ∧ p.After = "" ∧ p.Before = "") ∧
    rt.buildReportsURL lib n p =
      .ok (URL.String lib u ++
        (if builtQuery lib u p = "" then "" else "?" ++ builtQuery lib u p)) ∧
    (URL.String lib u = rt.apiClient.BaseURL ++ "/reports/" ++ n ++ "/data" →
      rt.buildReportsURL lib n p =
        .ok (rt.apiClient.BaseURL ++ "/reports/" ++ n ++ "/data" ++
          (if builtQuery lib u p = "" then "" else "?" ++ builtQuery lib u p))) := by
  have hb : builtQuery lib u p = Values.Encode (reportQuery [] p) := by
    unfold builtQuery URL.Query
    rw [hq, hlib]
  have hurl : rt.buildReportsURL lib n p =
      .ok (URL.String lib u ++
        (if builtQuery lib u p = "" then "" else "?" ++ builtQuery lib u p)) := by
    rw [buildReportsURL_of_parse lib rt n p u hparse, urlString_with_query,
      urlString_plain lib u hq hf hfrag]
    have hfr : ¬ u.Fragment ≠ "" := by simp [hfrag]
    rw [if_neg hfr, String.append_empty]
    by_cases he : builtQuery lib u p = ""
    · have he' : Values.Encode (reportQuery (u.Query lib) p) = "" := he
      rw [if_pos he, he']
      simp [hf]
    · have he' : Values.Encode (reportQuery (u.Query lib) p) ≠ "" := he
      rw [if_neg he, if_pos (Or.inr he')]
      rfl
  refine ⟨hb, ?_, hurl, ?_⟩
  · rw [hb]
    exact encode_reportQuery_empty_iff p
  · intro hs
    rw [hurl, hs]

/-- C13 at the base URL `https://api.example.com` and the report `devices`: with a limit of
50 the URL is the base URL, the path `/reports/devices/data` and `?limit=50`; with no
parameter set it ends with the path. -/
theorem C13_url_text_witness :
    (toolFor "https://api.example.com").buildReportsURL plainLib "devices" { Limit := 50 } =
      .ok ("https://api.example.com" ++ "/reports/" ++ "devices" ++ "/data" ++ "?limit=50") ∧
    (toolFor "https://api.example.com").buildReportsURL plainLib "devices" {} =
      .ok ("https://api.example.com" ++ "/reports/" ++ "devices" ++ "/data" ++ "") :=
  ⟨(C13_url_text plainLib (toolFor "https://api.example.com") "devices" { Limit := 50 }
      { Scheme := "https", Host := "api.example.com", Path := "/reports/devices/data" }
      rfl rfl rfl rfl rfl).2.2.2 rfl,
    (C13_url_text plainLib (toolFor "https://api.example.com") "devices" {}
      { Scheme := "https", Host := "api.example.com", Path := "/reports/devices/data" }
      rfl rfl rfl rfl rfl).2.2.2 rfl⟩

/-- C14: for non-empty `After` and `Before`, whatever characters they hold, when the base
URL followed by `/reports/<name>/data` parses to `u`, `buildReportsURL` returns the text of
`u` without query and fragment, then `?` and the built query, then the fragment of `u` if
any; percent-decoding the escaped `After` and `Before` gives back their bytes; the built
query reads back without an error, with `after` bound to the bytes of `After` alone and
`before` to the bytes of `Before` alone; and every key read back is one of `limit`, `page`,
`after`, `before` or a key of the query of the base URL. -/
theorem C14_after_before_round_trip (lib : StdLib) (rt : ReportsTool) (name : String)
    (p : ReportParams) (u : URL)
    (hparse : lib.urlParse (rt.apiClient.BaseURL ++ "/reports/" ++ name ++ "/data") = .ok u)
    (ha : p.After ≠ "") (hb : p.Before ≠ "") :
    rt.buildReportsURL lib name p =
      .ok (URL.String lib { u with RawQuery := "", ForceQuery := false, Fragment := "" } ++
        ("?" ++ builtQuery lib u p) ++
        (if u.Fragment ≠ "" then "#" ++ lib.escapedFragment u.Fragment u.RawFragment
          else "")) ∧
    QueryUnescape (QueryEscape p.After) = .ok (goBytes p.After) ∧
    QueryUnescape (QueryEscape p.Before) = .ok (goBytes p.Before) ∧
    (ParseQuery (builtQuery lib u p)).2 = none ∧
    List.lookup (goBytes "after") (ParseQuery (builtQuery lib u p)).1 =
      some [goBytes p.After] ∧
    List.lookup (goBytes "before") (ParseQuery (builtQuery lib u p)).1 =
      some [goBytes p.Before] ∧
    (∀ e ∈ (ParseQuery (builtQuery lib u p)).1,
      e.1 = goBytes "limit" ∨ e.1 = goBytes "page" ∨ e.1 = goBytes "after" ∨
        e.1 = goBytes "before" ∨ ∃ k ∈ mapKeys (u.Query lib), e.1 = goBytes k) := by
  have hafter : mapGet (reportQuery (u.Query lib) p) "after" = some [p.After] := by
    rw [reportQuery_get, queryParam_after, if_pos ha]
  refine ⟨?_, queryUnescape_queryEscape _, queryUnescape_queryEscape _,
    (parseQuery_encode _ "after" ascii_after).1, ?_, ?_, ?_⟩
  · rw [buildReportsURL_of_parse lib rt name p u hparse, urlString_with_query]
    have hne : Values.Encode (reportQuery (u.Query lib) p) ≠ "" :=
      encode_ne_empty _ "after" p.After [] ascii_after hafter
    rw [if_pos (Or.inr hne)]
    rfl
  · exact builtQuery_set _ p "after" _ ascii_after (by rw [queryParam_after, if_pos ha])
  · exact builtQuery_set _ p "before" _ ascii_before (by rw [queryParam_before, if_pos hb])
  · intro e he
    obtain ⟨k, hk, hEq⟩ := parseQuery_encode_keys _ e he
    rcases reportQuery_keys _ p k hk with h | h | h | h | h
    · exact Or.inl (h ▸ hEq)
    · exact Or.inr (Or.inl (h ▸ hEq))
    · exact Or.inr (Or.inr (Or.inl (h ▸ hEq)))
    · exact Or.inr (Or.inr (Or.inr (Or.inl (h ▸ hEq))))
    · exact Or.inr (Or.inr (Or.inr (Or.inr ⟨k, h, hEq⟩)))

/-- C14 at an `After` that holds `&`, `=`, `#`, `?`, a space and a letter outside ASCII. -/
theorem C14_after_before_round_trip_witness :
    (toolFor "https://api.example.com").buildReportsURL plainLib "devices"
        { After := "a&b=c#d?e é", Before := "2024-01-31" } =
      .ok ("https://api.example.com/reports/devices/data" ++
        ("?" ++ "after=a%26b%3Dc%23d%3Fe+%C3%A9&before=2024-01-31") ++ "") ∧
    List.lookup (goBytes "after")
        (ParseQuery "after=a%26b%3Dc%23d%3Fe+%C3%A9&before=2024-01-31").1 =
      some [goBytes "a&b=c#d?e é"] ∧
    List.lookup (goBytes "before")
        (ParseQuery "after=a%26b%3Dc%23d%3Fe+%C3%A9&before=2024-01-31").1 =
      some [goBytes "2024-01-31"] :=
  ⟨(C14_after_before_round_trip plainLib (toolFor "https://api.example.com") "devices"
      { After := "a&b=c#d?e é", Before := "2024-01-31" }
      { Scheme := "https", Host := "api.example.com", Path := "/reports/devices/data" }
      rfl (by decide) (by decide)).1,
    (C14_after_before_round_trip plainLib (toolFor "https://api.example.com") "devices"
      { After := "a&b=c#d?e é", Before := "2024-01-31" }
      { Scheme := "https", Host := "api.example.com", Path := "/reports/devices/data" }
      rfl (by decide) (by decide)).2.2.2.2.1,
    (C14_after_before_round_trip plainLib (toolFor "https://api.example.com") "devices"
      { After := "a&b=c#d?e é", Before := "2024-01-31" }
      { Scheme := "https", Host := "api.example.com", Path := "/reports/devices/data" }
      rfl (by decide) (by decide)).2.2.2.2.2.1⟩

/-- C15: for every client, `HTTPHeaders` binds `Content-Type` and `Accept` to
`application/json`; with a non-empty API key it also binds `X-API-KEY` to the key and has
these three entries; with an empty key `X-API-KEY` is not bound and the entries are two; no
other key is bound; and the map depends on the API key alone, so two calls on the same
client return equal maps. -/
theorem C15_http_headers (c : APIClient) :
    mapGet c.HTTPHeaders "Content-Type" = some "application/json" ∧
    mapGet c.HTTPHeaders "Accept" = some "application/json" ∧
    (c.APIKey ≠ "" →
      mapGet c.HTTPHeaders "X-API-KEY" = some c.APIKey ∧
      mapKeys c.HTTPHeaders = ["X-API-KEY", "Accept", "Content-Type"] ∧
      c.HTTPHeaders.length = 3) ∧
    (c.APIKey = "" →
      mapGet c.HTTPHeaders "X-API-KEY" = none ∧
      mapKeys c.HTTPHeaders = ["Accept", "Content-Type"] ∧
      c.HTTPHeaders.length = 2) ∧
    (∀ k, k ≠ "Content-Type" → k ≠ "Accept" → k ≠ "X-API-KEY" →
      mapGet c.HTTPHeaders k = none) ∧
    (∀ c' : APIClient, c'.APIKey = c.APIKey → c'.HTTPHeaders = c.HTTPHeaders) := by
  refine ⟨?_, ?_, ?_, ?_, ?_, ?_⟩
  · by_cases hk : c.APIKey = ""
    · rw [httpHeaders_of_no_key c hk]; rfl
    · rw [httpHeaders_of_key c hk]; rfl
  · by_cases hk : c.APIKey = ""
    · rw [httpHeaders_of_no_key c hk]; rfl
    · rw [httpHeaders_of_key c hk]; rfl
  · intro hk
    rw [httpHeaders_of_key c hk]
    exact ⟨rfl, by simp [mapKeys], rfl⟩
  · intro hk
    rw [httpHeaders_of_no_key c hk]
    exact ⟨rfl, by decide, rfl⟩
  · intro k h1 h2 h3
    have e1 : (k == "Content-Type") = false := by simpa using h1
    have e2 : (k == "Accept") = false := by simpa using h2
    have e3 : (k == "X-API-KEY") = false := by simpa using h3
    by_cases hk : c.APIKey = ""
    · rw [httpHeaders_of_no_key c hk]
      simp [mapGet, List.lookup_cons, e1, e2]
    · rw [httpHeaders_of_key c hk]
      simp [mapGet, List.lookup_cons, e1, e2, e3]
  · intro c' hc
    unfold APIClient.HTTPHeaders
    rw [hc]

/-- C15 at the client with the key `k` and at a client without a key: three entries with
`X-API-KEY` bound to `k`, two entries with `X-API-KEY` not bound. -/
theorem C15_http_headers_witness :
    (mapGet (sampleTool refusing).apiClient.HTTPHeaders "X-API-KEY" = some "k" ∧
      mapKeys (sampleTool refusing).apiClient.HTTPHeaders =
        ["X-API-KEY", "Accept", "Content-Type"] ∧
      (sampleTool refusing).apiClient.HTTPHeaders.length = 3) ∧
    (mapGet keylessClient.HTTPHeaders "X-API-KEY" = none ∧
      mapKeys keylessClient.HTTPHeaders = ["Accept", "Content-Type"] ∧
      keylessClient.HTTPHeaders.length = 2) :=
  ⟨(C15_http_headers (sampleTool refusing).apiClient).2.2.1 (by decide),
    (C15_http_headers keylessClient).2.2.2.1 rfl⟩

/-- C16: for a client with a non-empty API key, `DoRequest` hands to the transport the
request with every entry of `HTTPHeaders` set on it; in whatever order the entries are set
(Go ranges over the map in no fixed order), afterwards `Content-Type` and `Accept` each hold
the single value `application/json` and `X-API-KEY` holds the single value that is the key,
whatever values they held before; every other header has the values it had before the call,
and the method and the URL are unchanged. -/
theorem C16_doRequest_sets_headers (c : APIClient) (req : Request) (sent : List Request)
    (hk : c.APIKey ≠ "") :
    c.DoRequest req sent =
      (c.HTTPClient (withHeaders c.HTTPHeaders req), sent ++ [withHeaders c.HTTPHeaders req]) ∧
    ∀ hs : GoMap String, hs.Perm c.HTTPHeaders →
      Header.Values (withHeaders hs req).Header "Content-Type" = ["application/json"] ∧
      Header.Values (withHeaders hs req).Header "Accept" = ["application/json"] ∧
      Header.Values (withHeaders hs req).Header "X-API-KEY" = [c.APIKey] ∧
      Header.Get (withHeaders hs req).Header "Content-Type" = "application/json" ∧
      Header.Get (withHeaders hs req).Header "Accept" = "application/json" ∧
      Header.Get (withHeaders hs req).Header "X-API-KEY" = c.APIKey ∧
      (∀ key, key ≠ "Content-Type" → key ≠ "Accept" → key ≠ "X-Api-Key" →
        mapGet (withHeaders hs req).Header key = mapGet req.Header key) ∧
      (withHeaders hs req).Method = req.Method ∧ (withHeaders hs req).URL = req.URL := by
  refine ⟨doRequest_eq c req sent, ?_⟩
  intro hs hp
  obtain ⟨hnd, hct, hac, hkey, hall⟩ := httpHeaders_perm_facts c hs hp
  have h1 := withHeaders_entry hs req _ hct hnd
  have h2 := withHeaders_entry hs req _ hac hnd
  have h3 := withHeaders_entry hs req _ (hkey hk) hnd
  simp only [canonical_content_type, canonical_accept, canonical_api_key] at h1 h2 h3
  refine ⟨?_, ?_, ?_, ?_, ?_, ?_, ?_, (withHeaders_method_url hs req).1,
    (withHeaders_method_url hs req).2⟩
  · simp [Header.Values, canonical_content_type, h1]
  · simp [Header.Values, canonical_accept, h2]
  · simp [Header.Values, canonical_api_key, h3]
  · simp [Header.Get, canonical_content_type, h1]
  · simp [Header.Get, canonical_accept, h2]
  · simp [Header.Get, canonical_api_key, h3]
  · intro key k1 k2 k3
    apply withHeaders_other
    intro kv hkv hEq
    rcases hall kv hkv with h | h | ⟨_, h⟩
    · exact k1 (hEq ▸ h)
    · exact k2 (hEq ▸ h)
    · exact k3 (hEq ▸ h)

/-- C16 at the request of the header-override test, on the client with the key `k`: the
three headers are replaced and `Custom-Header` keeps `should-remain`. -/
theorem C16_doRequest_sets_headers_witness :
    Header.Get (withHeaders (sampleTool refusing).apiClient.HTTPHeaders overrideRequest).Header
      "Content-Type" = "application/json" ∧
    Header.Get (withHeaders (sampleTool refusing).apiClient.HTTPHeaders overrideRequest).Header
      "Accept" = "application/json" ∧
    Header.Get (withHeaders (sampleTool refusing).apiClient.HTTPHeaders overrideRequest).Header
      "X-API-KEY" = "k" ∧
    mapGet (withHeaders (sampleTool refusing).apiClient.HTTPHeaders overrideRequest).Header
      "Custom-Header" = some ["should-remain"] :=
  ⟨((C16_doRequest_sets_headers (sampleTool refusing).apiClient overrideRequest []
      (by decide)).2 _ (List.Perm.refl _)).2.2.2.1,
    ((C16_doRequest_sets_headers (sampleTool refusing).apiClient overrideRequest []
      (by decide)).2 _ (List.Perm.refl _)).2.2.2.2.1,
    ((C16_doRequest_sets_headers (sampleTool refusing).apiClient overrideRequest []
      (by decide)).2 _ (List.Perm.refl _)).2.2.2.2.2.1,
    ((C16_doRequest_sets_headers (sampleTool refusing).apiClient overrideRequest []
      (by decide)).2 _ (List.Perm.refl _)).2.2.2.2.2.2.1 "Custom-Header"
      (by decide) (by decide) (by decide)⟩

/-- C17, as stated, fails for a request that already carries the header: a client without
an API key sets only `Content-Type` and `Accept` and removes nothing, so the request handed
to the transport still carries `X-Api-Key: old-key`. -/
theorem C17_counterexample :
    keylessClient.APIKey = "" ∧
    (keylessClient.DoRequest
        { Method := "GET", URL := "https://api.example.com/test",
          Header := [("X-Api-Key", ["old-key"])] } []).2 =
      [{ Method := "GET", URL := "https://api.example.com/test",
         Header := [("Content-Type", ["application/json"]), ("Accept", ["application/json"]),
           ("X-Api-Key", ["old-key"])] }] ∧
    Header.Get [("Content-Type", ["application/json"]), ("Accept", ["application/json"]),
      ("X-Api-Key", ["old-key"])] "X-API-KEY" = "old-key" := by
  refine ⟨rfl, ?_, ?_⟩ <;> decide

/-- C17, amended: a client whose API key is empty does not touch the header `X-API-KEY`:
in whatever order the entries of `HTTPHeaders` are set, the request handed to the transport
has for `X-API-KEY` the values that the request of the caller had; so it carries no
`X-API-KEY` header when the request of the caller carried none. -/
theorem C17_no_key_leaves_api_key_header (c : APIClient) (req : Request) (sent : List Request)
    (hk : c.APIKey = "") :
    c.DoRequest req sent =
      (c.HTTPClient (withHeaders c.HTTPHeaders req), sent ++ [withHeaders c.HTTPHeaders req]) ∧
    ∀ hs : GoMap String, hs.Perm c.HTTPHeaders →
      Header.Values (withHeaders hs req).Header "X-API-KEY" =
        Header.Values req.Header "X-API-KEY" ∧
      Header.Get (withHeaders hs req).Header "X-API-KEY" = Header.Get req.Header "X-API-KEY" ∧
      (Header.Values req.Header "X-API-KEY" = [] →
        Header.Values (withHeaders hs req).Header "X-API-KEY" = [] ∧
        Header.Get (withHeaders hs req).Header "X-API-KEY" = "") := by
  refine ⟨doRequest_eq c req sent, ?_⟩
  intro hs hp
  obtain ⟨_, _, _, _, hall⟩ := httpHeaders_perm_facts c hs hp
  have hsame : mapGet (withHeaders hs req).Header "X-Api-Key" =
      mapGet req.Header "X-Api-Key" := by
    apply withHeaders_other
    intro kv hkv hEq
    rcases hall kv hkv with h | h | ⟨h, _⟩
    · rw [h] at hEq; exact absurd hEq (by decide)
    · rw [h] at hEq; exact absurd hEq (by decide)
    · exact h hk
  have hv : Header.Values (withHeaders hs req).Header "X-API-KEY" =
      Header.Values req.Header "X-API-KEY" := by
    simp only [Header.Values, canonical_api_key, hsame]
  have hg : Header.Get (withHeaders hs req).Header "X-API-KEY" =
      Header.Get req.Header "X-API-KEY" := by
    simp only [Header.Get, canonical_api_key, hsame]
  refine ⟨hv, hg, ?_⟩
  intro h0
  refine ⟨hv.trans h0, ?_⟩
  rw [hg]
  simp only [Header.Values, canonical_api_key] at h0
  simp only [Header.Get, canonical_api_key]
  cases hm : mapGet req.Header "X-Api-Key" with
  | none => rfl
  | some vs =>
    rw [hm] at h0
    simp only [Option.getD_some] at h0
    subst h0
    rfl

/-- C17, amended, at a request without headers on a client without an API key: the request
handed to the transport carries no `X-API-KEY` header. -/
theorem C17_no_key_leaves_api_key_header_witness :
    keylessClient.APIKey = "" ∧
    Header.Values
      (withHeaders keylessClient.HTTPHeaders
        { Method := "GET", URL := "https://api.example.com/test" }).Header "X-API-KEY" = [] ∧
    Header.Get
      (withHeaders keylessClient.HTTPHeaders
        { Method := "GET", URL := "https://api.example.com/test" }).Header "X-API-KEY" = "" :=
  ⟨rfl,
    ((C17_no_key_leaves_api_key_header keylessClient
      { Method := "GET", URL := "https://api.example.com/test" } [] rfl).2 _
      (List.Perm.refl _)).2.2 (by decide)⟩

/-- C18, as stated, fails at a base URL that ends in more than one slash:
`strings.TrimSuffix` removes one `/`, so `https://api.example.com///` is stored as
`https://api.example.com//`, which ends with `/`. -/
theorem C18_counterexample :
    (NewAPIClient refusing "https://api.example.com///" "test-key").BaseURL =
      "https://api.example.com//" ∧
    HasSuffix (NewAPIClient refusing "https://api.example.com///" "test-key").BaseURL "/" := by
  constructor <;> decide

/-- C18, amended: the client built by `NewAPIClient` holds the base URL with one trailing
`/` removed if there is one; what it holds ends with `/` exactly when the given base URL
ends with `//`, so it never ends with `/` when the given base URL does not end with `//`. -/
theorem C18_base_url_one_slash_trimmed (defaultClient : HTTPClientInterface)
    (b key : String) :
    (NewAPIClient defaultClient b key).BaseURL = TrimSuffix b "/" ∧
    (HasSuffix (NewAPIClient defaultClient b key).BaseURL "/" ↔ HasSuffix b "//") ∧
    (¬ HasSuffix b "//" → ¬ HasSuffix (NewAPIClient defaultClient b key).BaseURL "/") := by
  refine ⟨rfl, trimSuffix_slash_ends_iff b, ?_⟩
  intro h h'
  exact h ((trimSuffix_slash_ends_iff b).1 h')

/-- C18, amended, at `https://api.example.com/`: the stored base URL does not end with
`/`. -/
theorem C18_base_url_one_slash_trimmed_witness :
    ¬ HasSuffix (NewAPIClient refusing "https://api.example.com/" "test-key").BaseURL "/" :=
  (C18_base_url_one_slash_trimmed refusing "https://api.example.com/" "test-key").2.2
    (by decide)

/-- C19: `NewAPIClient` and `NewAPIClientWithHTTPClient` both store the API key unchanged
and the same base URL, which is the given one with exactly one trailing `/` removed when it
ends with `/` and the given one unchanged otherwise; `NewAPIClientWithHTTPClient` stores the
given transport. -/
theorem C19_constructors (defaultClient t : HTTPClientInterface) (b k : String) :
    (NewAPIClient defaultClient b k).APIKey = k ∧
    (NewAPIClientWithHTTPClient b k t).APIKey = k ∧
    (NewAPIClientWithHTTPClient b k t).HTTPClient = t ∧
    (NewAPIClient defaultClient b k).HTTPClient = defaultClient ∧
    (NewAPIClient defaultClient b k).BaseURL = (NewAPIClientWithHTTPClient b k t).BaseURL ∧
    (∀ l : String, b = l ++ "/" → (NewAPIClient defaultClient b k).BaseURL = l) ∧
    (¬ HasSuffix b "/" → (NewAPIClient defaultClient b k).BaseURL = b) := by
  refine ⟨rfl, rfl, rfl, rfl, rfl, ?_, ?_⟩
  · intro l hl
    have hs : ("/" : String).data = ['/'] := rfl
    exact trimSuffix_slash_of_ends b l.data (by rw [hl, String.data_append, hs])
  · intro h
    exact trimSuffix_slash_of_not_ends b h

/-- C19 at the base URLs of the tests: `https://api.example.com///` becomes
`https://api.example.com//`, `https://api.example.com/` becomes `https://api.example.com`,
and `https://api.example.com` stays as it is. -/
theorem C19_constructors_witness :
    (NewAPIClient refusing "https://api.example.com///" "test-key").BaseURL =
      "https://api.example.com//" ∧
    (NewAPIClientWithHTTPClient "https://api.example.com/" "test-key" refusing).BaseURL =
      "https://api.example.com" ∧
    (NewAPIClient refusing "https://api.example.com" "test-key").BaseURL =
      "https://api.example.com" :=
  ⟨(C19_constructors refusing refusing "https://api.example.com///" "test-key").2.2.2.2.2.1
      "https://api.example.com//" (by decide),
    ((C19_constructors refusing refusing "https://api.example.com/" "test-key").2.2.2.2.1).symm.trans
      ((C19_constructors refusing refusing "https://api.example.com/" "test-key").2.2.2.2.2.1
        "https://api.example.com" (by decide)),
    (C19_constructors refusing refusing "https://api.example.com" "test-key").2.2.2.2.2.2
      (by decide)⟩

/-- C20: for every `ReportResponse` whose `Error` is absent and whose records are records
that Go can hold and encoding/json can write, with any of the optional fields set,
`json.Marshal` returns a text, and `json.Unmarshal` of that text returns no error and
leaves a response with the same number of records, the same records in the same order,
every field of every record equal to the original, and no `Error`; the same holds for each
record that is marshalled alone. The premise on the records is that their integers fit 64
bits and that package strconv reads each float back from the text it writes for it, with
`pf` for `strconv.ParseFloat`. -/
theorem C20_response_round_trip (pf : String → Option Float64) (response : ReportResponse)
    (herr : response.Error = none) (hrec : ∀ r ∈ response.Data, r.readsBack pf) :
    (∃ text decoded, ReportResponse.Marshal response = .ok text ∧
      ReportResponse.Unmarshal pf text = some decoded ∧
      decoded.Data.length = response.Data.length ∧ decoded.Data = response.Data ∧
      decoded.Error = none ∧ decoded = response) ∧
    ∀ r ∈ response.Data, ∃ text, Reports.Marshal r = .ok text ∧
      Reports.Unmarshal pf text = some r := by
  obtain ⟨R, e⟩ := response
  simp only at herr hrec
  subst herr
  refine ⟨?_, fun r hr => record_marshal_unmarshal pf r (hrec r hr)⟩
  obtain ⟨text, hm, hu⟩ := marshal_unmarshal pf R hrec
  exact ⟨text, { Data := R }, hm, hu, rfl, rfl, rfl, rfl⟩

set_option maxRecDepth 100000 in
/-- C20 at the response of `TestReportResponse_JSON`, two records of the `devices` report,
and at the record of `TestReports_JSON`, which holds the float `0.35`: the texts that
`json.Marshal` writes, and what `json.Unmarshal` reads back from them. -/
theorem C20_response_round_trip_witness :
    ReportResponse.Marshal devicesResponse =
      .ok ("\x7b\"data\":[\x7b\"id\":1,\"report_name\":\"devices\",\"report_agency\":\"GSA\"," ++
        "\"date\":\"2024-01-01\",\"device\":\"desktop\",\"visits\":1000\x7d," ++
        "\x7b\"id\":2,\"report_name\":\"devices\",\"report_agency\":\"GSA\"," ++
        "\"date\":\"2024-01-01\",\"device\":\"mobile\",\"visits\":800\x7d]\x7d") ∧
    ReportResponse.Unmarshal sampleParseFloat
        ("\x7b\"data\":[\x7b\"id\":1,\"report_name\":\"devices\",\"report_agency\":\"GSA\"," ++
        "\"date\":\"2024-01-01\",\"device\":\"desktop\",\"visits\":1000\x7d," ++
        "\x7b\"id\":2,\"report_name\":\"devices\",\"report_agency\":\"GSA\"," ++
        "\"date\":\"2024-01-01\",\"device\":\"mobile\",\"visits\":800\x7d]\x7d") =
      some devicesResponse ∧
    Reports.Marshal devicesReport =
      .ok ("\x7b\"id\":1,\"report_name\":\"devices\",\"report_agency\":\"GSA\"," ++
        "\"date\":\"2024-01-01\",\"bounce_rate\":0.35,\"device\":\"desktop\"," ++
        "\"pageviews\":1500,\"users\":800,\"visits\":1000\x7d") ∧
    Reports.Unmarshal sampleParseFloat
        ("\x7b\"id\":1,\"report_name\":\"devices\",\"report_agency\":\"GSA\"," ++
        "\"date\":\"2024-01-01\",\"bounce_rate\":0.35,\"device\":\"desktop\"," ++
        "\"pageviews\":1500,\"users\":800,\"visits\":1000\x7d") =
      some devicesReport := by
  have hplain : ∀ r : Reports, r.AvgSessionDuration = {} → r.BounceRate = {} →
      (fitsInt64 r.ID ∧ fitsInt64 r.ActiveVisitors ∧ fitsInt64 r.Pageviews ∧
        fitsInt64 r.PageviewsPerSession ∧ fitsInt64 r.TotalEvents ∧ fitsInt64 r.Users ∧
        fitsInt64 r.Visits) → r.readsBack sampleParseFloat := by
    intro r ha hb hi
    obtain ⟨h1, h2, h3, h4, h5, h6, h7⟩ := hi
    exact ⟨h1, h2, h3, h4, h5, h6, h7, ha ▸ readsBack_zero _, hb ▸ readsBack_zero _⟩
  have h := C20_response_round_trip sampleParseFloat devicesResponse rfl (by
    intro r hr
    simp only [devicesResponse, List.mem_cons, List.mem_singleton, List.not_mem_nil,
      or_false] at hr
    rcases hr with rfl | rfl
    · exact hplain _ rfl rfl (by decide)
    · exact hplain _ rfl rfl (by decide))
  have h2 := (C20_response_round_trip sampleParseFloat { Data := [devicesReport] } rfl (by
    intro r hr
    rw [List.mem_singleton] at hr
    rw [hr]
    exact ⟨by decide, by decide, by decide, by decide, by decide, by decide, by decide,
      readsBack_zero _, readsBack_bounceRate035⟩)).2 devicesReport (List.mem_singleton.2 rfl)
  obtain ⟨⟨text, decoded, hm, hu, _, _, _, hd⟩, _⟩ := h
  obtain ⟨text2, hm2, hu2⟩ := h2
  have hlit : ReportResponse.Marshal devicesResponse =
      .ok ("\x7b\"data\":[\x7b\"id\":1,\"report_name\":\"devices\",\"report_agency\":\"GSA\"," ++
        "\"date\":\"2024-01-01\",\"device\":\"desktop\",\"visits\":1000\x7d," ++
        "\x7b\"id\":2,\"report_name\":\"devices\",\"report_agency\":\"GSA\"," ++
        "\"date\":\"2024-01-01\",\"device\":\"mobile\",\"visits\":800\x7d]\x7d") := rfl
  have hlit2 : Reports.Marshal devicesReport =
      .ok ("\x7b\"id\":1,\"report_name\":\"devices\",\"report_agency\":\"GSA\"," ++
        "\"date\":\"2024-01-01\",\"bounce_rate\":0.35,\"device\":\"desktop\"," ++
        "\"pageviews\":1500,\"users\":800,\"visits\":1000\x7d") := rfl
  have e1 := Except.ok.inj (hm.symm.trans hlit)
  have e2 := Except.ok.inj (hm2.symm.trans hlit2)
  rw [e1, hd] at hu
  rw [e2] at hu2
  exact ⟨hlit, hu, hlit2, hu2⟩

/-- C21: `json.Marshal` of a record fails exactly when one of its two floats is not zero and
is a NaN or an infinity; otherwise it writes an object that always holds the four keys
`id`, `report_name`, `report_agency` and `date`, holds the key of an optional field exactly
when the field is a number other than zero or a string that is not empty, and holds no
other key, so that a field that is not set is not written at all. `json.Marshal` of a
`ReportArgs` always holds `report_name` and holds `limit`, `page`, `after`, `before` under
the same rule. -/
theorem C21_omitempty (r : Reports) (a : ReportArgs) :
    ((∃ e, r.Marshal = .error e) ↔
      (r.AvgSessionDuration.isZero = false ∧ r.AvgSessionDuration.encodable = false) ∨
      (r.BounceRate.isZero = false ∧ r.BounceRate.encodable = false)) ∧
    (∀ text, r.Marshal = .ok text →
      ∃ ms, r.members = .ok ms ∧ text = compactObject ms ∧
        (∀ k ∈ ["id", "report_name", "report_agency", "date"], k ∈ ms.map Prod.fst) ∧
        (∀ f ∈ r.optionalFields, f.1 ∈ ms.map Prod.fst ↔ f.2 = true) ∧
        (∀ k ∈ ms.map Prod.fst, k ∈ ["id", "report_name", "report_agency", "date"] ∨
          k ∈ r.optionalFields.map Prod.fst)) ∧
    a.Marshal = compactObject a.members ∧
    "report_name" ∈ a.members.map Prod.fst ∧
    (∀ f ∈ a.optionalFields, f.1 ∈ a.members.map Prod.fst ↔ f.2 = true) ∧
    (∀ k ∈ a.members.map Prod.fst, k = "report_name" ∨ k ∈ a.optionalFields.map Prod.fst) := by
  refine ⟨?_, ?_, rfl, ?_, ?_, ?_⟩
  · rw [← jsonOmitEmptyFloat_error_iff "avg_session_duration",
      ← jsonOmitEmptyFloat_error_iff "bounce_rate"]
    unfold Reports.Marshal Reports.members
    cases jsonOmitEmptyFloat "avg_session_duration" r.AvgSessionDuration with
    | error e => simp
    | ok avg =>
      cases jsonOmitEmptyFloat "bounce_rate" r.BounceRate with
      | error e => simp
      | ok bounce => simp
  · intro text ht
    unfold Reports.Marshal at ht
    cases hms : r.members with
    | error e => rw [hms] at ht; cases ht
    | ok ms =>
      rw [hms] at ht
      injection ht with ht
      refine ⟨ms, rfl, ht.symm, ?_, ?_, ?_⟩
      · intro k hk
        exact (reports_member_keys r ms hms k).2 (Or.inl hk)
      · intro f hf
        rw [reports_member_keys r ms hms f.1]
        apply optional_key_iff _ _ _ _ f hf
        · rw [reports_optional_names]; decide
        · rw [reports_optional_names]; decide
      · intro k hk
        rcases (reports_member_keys r ms hms k).1 hk with h | ⟨f, hf, h1, _⟩
        · exact Or.inl h
        · exact Or.inr (h1 ▸ List.mem_map_of_mem Prod.fst hf)
  · exact (args_member_keys a _).2 (Or.inl rfl)
  · intro f hf
    rw [args_member_keys a f.1]
    have := optional_key_iff a.optionalFields ["report_name"] (by rw [args_optional_names]; decide)
      (by rw [args_optional_names]; decide) f hf
    simpa using this
  · intro k hk
    rcases (args_member_keys a k).1 hk with h | ⟨f, hf, h1, _⟩
    · exact Or.inl h
    · exact Or.inr (h1 ▸ List.mem_map_of_mem Prod.fst hf)

/-- C21 at the arguments `{ReportName: "browsers"}` and at the record of the first
end-to-end scenario. -/
theorem C21_omitempty_witness :
    ReportArgs.Marshal { ReportName := "browsers" } = "\x7b\"report_name\":\"browsers\"\x7d" ∧
    Reports.Marshal sampleRecord =
      .ok ("\x7b\"id\":1,\"report_name\":\"devices\",\"report_agency\":\"\",\"date\":\"\"," ++
        "\"device\":\"desktop\",\"visits\":1000\x7d") ∧
    "limit" ∉ (ReportArgs.members { ReportName := "browsers" }).map Prod.fst :=
  ⟨(C21_omitempty sampleRecord { ReportName := "browsers" }).2.2.1.trans rfl, rfl,
    fun h => absurd
      (((C21_omitempty sampleRecord { ReportName := "browsers" }).2.2.2.2.1
        ("limit", decide ((0 : Int) ≠ 0)) (List.mem_cons_self _ _)).1 h) (by decide)⟩

/-- C22: when `Load` succeeds, the API key of the configuration it returns is the value of
the environment variable `API_KEY`, whatever the arguments: two successful calls in the
same environment return the same key, and an argument list that starts with the flag
`api-key`, in any of its four spellings, is refused as naming a flag that is not defined. -/
theorem C22_api_key_from_environment (lib : StdLib) (uni : Unicode) (env : Environ)
    (osArgs : List String) (args : List (List String)) (cfg : Config)
    (h : Load lib uni env osArgs args = .ok cfg) :
    cfg.APIKey = Getenv env "API_KEY" ∧
    (∀ (osArgs2 : List String) (args2 : List (List String)) (cfg2 : Config),
      Load lib uni env osArgs2 args2 = .ok cfg2 → cfg2.APIKey = cfg.APIKey) ∧
    (∀ (first v : String) (rest osArgs2 : List String) (more : List (List String)),
      first ∈ ["-api-key", "--api-key", "-api-key=" ++ v, "--api-key=" ++ v] →
      Load lib uni env osArgs2 ((first :: rest) :: more) =
        .error "failed to parse flags: flag provided but not defined: -api-key") := by
  refine ⟨(load_ok lib uni env osArgs args cfg h).1, ?_, ?_⟩
  · intro osArgs2 args2 cfg2 h2
    rw [(load_ok lib uni env osArgs2 args2 cfg2 h2).1, (load_ok lib uni env osArgs args cfg h).1]
  · intro first v rest osArgs2 more hfirst
    have hp : ∀ formal : GoMap String, mapGet formal "api-key" = none →
        flagParse formal (first :: rest) =
          .error ("flag provided but not defined: -" ++ "api-key") := by
      intro formal hdef
      simp only [List.mem_cons, List.mem_singleton, List.not_mem_nil, or_false] at hfirst
      rcases hfirst with rfl | rfl | rfl | rfl
      · exact flagParse_undefined formal _ rest 'a' "pi-key".data [] "api-key" rfl rfl
          (Or.inl rfl) (by decide) (by decide) (by decide) (by decide) hdef (by decide)
          (by decide)
      · exact flagParse_undefined formal _ rest '-' "api-key".data [] "api-key" rfl rfl
          (Or.inl rfl) (by decide) (by decide) (by decide) (by decide) hdef (by decide)
          (by decide)
      · exact flagParse_undefined formal _ rest 'a' ("pi-key".data ++ '=' :: v.data)
          ('=' :: v.data) "api-key" rfl rfl
          (Or.inr ⟨_, rfl⟩) (by decide) (by decide) (by decide) (by decide) hdef (by decide)
          (by decide)
      · exact flagParse_undefined formal _ rest '-' ("api-key".data ++ '=' :: v.data)
          ('=' :: v.data) "api-key" rfl rfl
          (Or.inr ⟨_, rfl⟩) (by decide) (by decide) (by decide) (by decide) hdef (by decide)
          (by decide)
    have hdef : mapGet ([("http", GetEnv env "HTTP_ADDR" ""),
        ("log-level", GetEnv env "LOG_LEVEL" "info"),
        ("log-format", GetEnv env "LOG_FORMAT" "json"),
        ("api-base-url", GetEnv env "API_BASE_URL" "https://api.gsa.gov/analytics/dap/v2")] :
        GoMap String) "api-key" = none := rfl
    unfold Load
    simp only
    rw [hp _ hdef]
    rfl

/-- C22 at the case of the tests in which arguments override the environment: the flags set
the address and the log level, and the API key is the one of the environment. -/
theorem C22_api_key_from_environment_witness :
    Load plainLib plainUnicode
        [("HTTP_ADDR", "0.0.0.0:8080"), ("LOG_LEVEL", "debug"), ("API_KEY", "env-key")] []
        [["--http", "127.0.0.1:7070", "--log-level", "error"]] =
      .ok { HTTPAddr := "127.0.0.1:7070", LogLevel := "error", LogFormat := "json",
            APIKey := "env-key", APIBaseURL := "https://api.gsa.gov/analytics/dap/v2" } ∧
    ({ HTTPAddr := "127.0.0.1:7070", LogLevel := "error", LogFormat := "json",
       APIKey := "env-key", APIBaseURL := "https://api.gsa.gov/analytics/dap/v2" } :
      Config).APIKey =
      Getenv [("HTTP_ADDR", "0.0.0.0:8080"), ("LOG_LEVEL", "debug"), ("API_KEY", "env-key")]
        "API_KEY" :=
  ⟨rfl,
    (C22_api_key_from_environment plainLib plainUnicode
      [("HTTP_ADDR", "0.0.0.0:8080"), ("LOG_LEVEL", "debug"), ("API_KEY", "env-key")] []
      [["--http", "127.0.0.1:7070", "--log-level", "error"]]
      { HTTPAddr := "127.0.0.1:7070", LogLevel := "error", LogFormat := "json",
        APIKey := "env-key", APIBaseURL := "https://api.gsa.gov/analytics/dap/v2" } rfl).1⟩

/-- C23: `Validate` returns `nil` exactly when the lower case of the log level is one of
`debug`, `info`, `warn`, `error`, the lower case of the log format is one of `json`, `text`,
the API base URL is empty or is accepted by `url.Parse`, and the HTTP address is empty or
holds a `:`; otherwise it returns the error of the first of these four checks that fails,
in this order, and the message holds the offending value between single quotes. -/
theorem C23_validate (lib : StdLib) (uni : Unicode) (c : Config) :
    (c.Validate lib uni = none ↔
      ToLower uni c.LogLevel ∈ ["debug", "info", "warn", "error"] ∧
      ToLower uni c.LogFormat ∈ ["json", "text"] ∧
      (c.APIBaseURL = "" ∨ ∃ u, lib.urlParse c.APIBaseURL = .ok u) ∧
      (c.HTTPAddr = "" ∨ Contains c.HTTPAddr ":")) ∧
    (ToLower uni c.LogLevel ∉ ["debug", "info", "warn", "error"] →
      c.Validate lib uni =
        some ("invalid log level '" ++ c.LogLevel ++
          "', must be one of: debug, info, warn, error") ∧
      Contains ("invalid log level '" ++ c.LogLevel ++
          "', must be one of: debug, info, warn, error") ("'" ++ c.LogLevel ++ "'")) ∧
    (ToLower uni c.LogLevel ∈ ["debug", "info", "warn", "error"] →
      ToLower uni c.LogFormat ∉ ["json", "text"] →
      c.Validate lib uni =
        some ("invalid log format '" ++ c.LogFormat ++ "', must be one of: json, text") ∧
      Contains ("invalid log format '" ++ c.LogFormat ++ "', must be one of: json, text")
        ("'" ++ c.LogFormat ++ "'")) ∧
    (ToLower uni c.LogLevel ∈ ["debug", "info", "warn", "error"] →
      ToLower uni c.LogFormat ∈ ["json", "text"] →
      c.APIBaseURL ≠ "" → ∀ e, lib.urlParse c.APIBaseURL = .error e →
      c.Validate lib uni =
        some ("invalid API base URL '" ++ c.APIBaseURL ++ "': " ++ e) ∧
      Contains ("invalid API base URL '" ++ c.APIBaseURL ++ "': " ++ e)
        ("'" ++ c.APIBaseURL ++ "'")) ∧
    (ToLower uni c.LogLevel ∈ ["debug", "info", "warn", "error"] →
      ToLower uni c.LogFormat ∈ ["json", "text"] →
      (c.APIBaseURL = "" ∨ ∃ u, lib.urlParse c.APIBaseURL = .ok u) →
      c.HTTPAddr ≠ "" → ¬ Contains c.HTTPAddr ":" →
      c.Validate lib uni =
        some ("invalid HTTP address '" ++ c.HTTPAddr ++
          "', expected format 'host:port' or ':port'") ∧
      Contains ("invalid HTTP address '" ++ c.HTTPAddr ++
          "', expected format 'host:port' or ':port'") ("'" ++ c.HTTPAddr ++ "'")) := by
  rw [validate_eq]
  refine ⟨?_, ?_, ?_, ?_, ?_⟩
  · by_cases hl : ToLower uni c.LogLevel ∈ ["debug", "info", "warn", "error"]
    · by_cases hf : ToLower uni c.LogFormat ∈ ["json", "text"]
      · rw [if_neg (not_not.2 hl), if_neg (not_not.2 hf)]
        by_cases hu : c.APIBaseURL = ""
        · by_cases ha : c.HTTPAddr = ""
          · simp [hl, hf, hu, ha]
          · by_cases hc : Contains c.HTTPAddr ":" <;> simp [hl, hf, hu, ha, hc]
        · cases hp : lib.urlParse c.APIBaseURL with
          | error e => simp [hl, hf, hu, hp]
          | ok u =>
            by_cases ha : c.HTTPAddr = ""
            · simp [hl, hf, hu, hp, ha]
            · by_cases hc : Contains c.HTTPAddr ":" <;> simp [hl, hf, hu, hp, ha, hc]
      · rw [if_neg (not_not.2 hl), if_pos hf]
        simp [hf]
    · rw [if_pos hl]
      simp [hl]
  · intro hl
    rw [if_pos hl]
    exact ⟨rfl, contains_quoted _ _ _ "invalid log level "
      ", must be one of: debug, info, warn, error" (by decide) (by decide)⟩
  · intro hl hf
    rw [if_neg (not_not.2 hl), if_pos hf]
    exact ⟨rfl, contains_quoted _ _ _ "invalid log format " ", must be one of: json, text"
      (by decide) (by decide)⟩
  · intro hl hf hu e hp
    rw [if_neg (not_not.2 hl), if_neg (not_not.2 hf)]
    refine ⟨by simp [hu, hp], ?_⟩
    rw [String.append_assoc]
    exact contains_quoted _ _ _ "invalid API base URL " (": " ++ e) (by decide)
      (by rw [← String.append_assoc]; rfl)
  · intro hl hf hu ha hc
    rw [if_neg (not_not.2 hl), if_neg (not_not.2 hf)]
    refine ⟨?_, contains_quoted _ _ _ "invalid HTTP address "
      ", expected format 'host:port' or ':port'" (by decide) (by decide)⟩
    rcases hu with hu | ⟨u, hp⟩
    · simp [hu, ha, hc]
    · by_cases hu : c.APIBaseURL = ""
      · simp [hu, ha, hc]
      · simp [hu, hp, ha, hc]

/-- C23 at configurations of the tests: the log format `JSON` in upper case is accepted, and
the log level `invalid` is refused with a message that quotes it. -/
theorem C23_validate_witness :
    Config.Validate plainLib plainUnicode
      { LogLevel := "info", LogFormat := "JSON", APIBaseURL := "https://api.example.com" } =
        none ∧
    Config.Validate plainLib plainUnicode
      { LogLevel := "invalid", LogFormat := "json", APIBaseURL := "https://api.example.com" } =
        some "invalid log level 'invalid', must be one of: debug, info, warn, error" :=
  ⟨(C23_validate plainLib plainUnicode
      { LogLevel := "info", LogFormat := "JSON", APIBaseURL := "https://api.example.com" }).1.2
      ⟨by decide, by decide, Or.inr ⟨_, rfl⟩, Or.inl rfl⟩,
    ((C23_validate plainLib plainUnicode
      { LogLevel := "invalid", LogFormat := "json",
        APIBaseURL := "https://api.example.com" }).2.1 (by decide)).1⟩

/-- C24: for a URI that `url.Parse` reads with the scheme `embedded` and the opaque part
`info`, as it reads `embedded:info`, `HandleEmbeddedResource` returns one content item with
the URI of the request, the MIME type `text/plain` and the text
`This is the hello example server.`; for a URI that does not parse it returns the error of
the parser, for a scheme other than `embedded` the error `wrong scheme: ` with the quoted
scheme, and for a key that is not in the table, whose only key is `info`, the error
`no embedded resource named ` with the quoted key; it returns a result only in the first
case, and never a result together with an error. -/
theorem C24_embedded_resource (lib : StdLib) (uni : Unicode) (uri : String) :
    (∀ u, lib.urlParse uri = .ok u → u.Scheme = "embedded" → u.Opaque = "info" →
      HandleEmbeddedResource lib uni uri =
        .ok { Contents := [{ URI := uri, MIMEType := "text/plain",
                             Text := "This is the hello example server." }] }) ∧
    (∀ e, lib.urlParse uri = .error e → HandleEmbeddedResource lib uni uri = .error e) ∧
    (∀ u, lib.urlParse uri = .ok u → u.Scheme ≠ "embedded" →
      HandleEmbeddedResource lib uni uri =
        .error ("wrong scheme: " ++ Quote uni u.Scheme)) ∧
    (∀ u, lib.urlParse uri = .ok u → u.Scheme = "embedded" →
      u.Opaque ∉ mapKeys EmbeddedResources →
      HandleEmbeddedResource lib uni uri =
        .error ("no embedded resource named " ++ Quote uni u.Opaque)) ∧
    mapKeys EmbeddedResources = ["info"] ∧
    ((∃ r, HandleEmbeddedResource lib uni uri = .ok r) ↔
      ∃ u, lib.urlParse uri = .ok u ∧ u.Scheme = "embedded" ∧
        u.Opaque ∈ mapKeys EmbeddedResources) := by
  have hkeys : mapKeys EmbeddedResources = ["info"] := by decide
  refine ⟨?_, ?_, ?_, ?_, hkeys, ?_⟩
  · intro u hp hs ho
    rw [handle_of_parse lib uni uri u hp, embedded_get, ho]
    simp [hs]
  · intro e hp
    simp [HandleEmbeddedResource, hp]
  · intro u hp hs
    rw [handle_of_parse lib uni uri u hp, if_pos hs]
  · intro u hp hs ho
    rw [hkeys, List.mem_singleton] at ho
    rw [handle_of_parse lib uni uri u hp, embedded_get, if_neg ho]
    simp [hs]
  · rw [hkeys]
    constructor
    · rintro ⟨r, hr⟩
      cases hp : lib.urlParse uri with
      | error e =>
        simp [HandleEmbeddedResource, hp] at hr
      | ok u =>
        rw [handle_of_parse lib uni uri u hp, embedded_get] at hr
        by_cases hs : u.Scheme = "embedded"
        · by_cases ho : u.Opaque = "info"
          · exact ⟨u, rfl, hs, List.mem_singleton.2 ho⟩
          · simp [hs, ho] at hr
        · simp [hs] at hr
    · rintro ⟨u, hp, hs, ho⟩
      rw [List.mem_singleton] at ho
      have hr : HandleEmbeddedResource lib uni uri =
          .ok { Contents := [{ URI := uri, MIMEType := "text/plain",
                               Text := "This is the hello example server." }] } := by
        rw [handle_of_parse lib uni uri u hp, embedded_get, ho]
        simp [hs]
      exact ⟨_, hr⟩

/-- C24 at `embedded:info`, at a key that is not in the table and at another scheme. -/
theorem C24_embedded_resource_witness :
    HandleEmbeddedResource resourceLib plainUnicode "embedded:info" =
      .ok { Contents := [{ URI := "embedded:info", MIMEType := "text/plain",
                           Text := "This is the hello example server." }] } ∧
    HandleEmbeddedResource resourceLib plainUnicode "embedded:other" =
      .error ("no embedded resource named " ++ Quote plainUnicode "other") ∧
    HandleEmbeddedResource resourceLib plainUnicode "https://api.example.com/info" =
      .error ("wrong scheme: " ++ Quote plainUnicode "https") :=
  ⟨(C24_embedded_resource resourceLib plainUnicode "embedded:info").1
      { Scheme := "embedded", Opaque := "info" } rfl rfl rfl,
    (C24_embedded_resource resourceLib plainUnicode "embedded:other").2.2.2.1
      { Scheme := "embedded", Opaque := "other" } rfl rfl (by decide),
    (C24_embedded_resource resourceLib plainUnicode "https://api.example.com/info").2.2.1
      { Scheme := "https", Host := "api.example.com", Path := "/info" } rfl (by decide)⟩

/-- C25: `ParseLevel` returns the level named by the lower case of its argument, and
`slog.LevelInfo` when that is none of `debug`, `info`, `warn`, `error`; so a text equal to
one of the four names when the letters `A` to `Z` are read as `a` to `z` gives the level of
that name, whatever the tables of package unicode hold, and every other text, the empty
one among them, gives `slog.LevelInfo`, given that the tables send no rune above ASCII to
an ASCII letter of `debug`, `warn` or `error`. The four levels are pairwise distinct. -/
theorem C25_parse_level (uni : Unicode) (s : String) :
    (s.data.map Char.toLower = "debug".data → ParseLevel uni s = LevelDebug) ∧
    (s.data.map Char.toLower = "info".data → ParseLevel uni s = LevelInfo) ∧
    (s.data.map Char.toLower = "warn".data → ParseLevel uni s = LevelWarn) ∧
    (s.data.map Char.toLower = "error".data → ParseLevel uni s = LevelError) ∧
    (ToLower uni s ≠ "debug" → ToLower uni s ≠ "warn" → ToLower uni s ≠ "error" →
      ParseLevel uni s = LevelInfo) ∧
    ((∀ c : Char, ¬ c.val ≤ 0x7f → uni.toLower c ∉ "debugwarno".data) →
      s.data.map Char.toLower ≠ "debug".data → s.data.map Char.toLower ≠ "warn".data →
      s.data.map Char.toLower ≠ "error".data → ParseLevel uni s = LevelInfo) ∧
    ParseLevel uni "" = LevelInfo ∧
    [LevelDebug, LevelInfo, LevelWarn, LevelError].Nodup := by
  have hother : ToLower uni s ≠ "debug" → ToLower uni s ≠ "warn" →
      ToLower uni s ≠ "error" → ParseLevel uni s = LevelInfo := by
    intro h1 h2 h3
    unfold ParseLevel
    rw [if_neg h1]
    split_ifs <;> rfl
  refine ⟨?_, ?_, ?_, ?_, hother, ?_, rfl, by decide⟩
  · intro h
    have := toLower_of_ascii_fold uni s "debug" (by decide) h
    simp [ParseLevel, this]
  · intro h
    have := toLower_of_ascii_fold uni s "info" (by decide) h
    simp [ParseLevel, this]
  · intro h
    have := toLower_of_ascii_fold uni s "warn" (by decide) h
    simp [ParseLevel, this]
  · intro h
    have := toLower_of_ascii_fold uni s "error" (by decide) h
    simp [ParseLevel, this]
  · intro huni h1 h2 h3
    have key : ∀ t : String, (∀ c ∈ t.data, c ∈ "debugwarno".data) →
        ToLower uni s = t → s.data.map Char.toLower = t.data := by
      intro t ht he
      have hd : s.data.map (unicodeToLower uni) = t.data := congrArg String.data he
      rw [← hd]
      apply List.map_congr_left
      intro c hc
      have hmem : unicodeToLower uni c ∈ t.data := by
        rw [← hd]
        exact List.mem_map_of_mem _ hc
      by_cases hascii : c.val ≤ 0x7f
      · unfold unicodeToLower
        rw [if_pos hascii]
      · exfalso
        have hu : unicodeToLower uni c = uni.toLower c := by
          unfold unicodeToLower
          rw [if_neg hascii]
        rw [hu] at hmem
        exact huni c hascii (ht _ hmem)
    apply hother
    · intro he; exact h1 (key "debug" (by decide) he)
    · intro he; exact h2 (key "warn" (by decide) he)
    · intro he; exact h3 (key "error" (by decide) he)

/-- C25 at texts in mixed case, at an unknown name and at the empty text. -/
theorem C25_parse_level_witness :
    ParseLevel plainUnicode "DeBuG" = LevelDebug ∧
    ParseLevel plainUnicode "WARN" = LevelWarn ∧
    ParseLevel plainUnicode "Error" = LevelError ∧
    ParseLevel plainUnicode "verbose" = LevelInfo ∧
    ParseLevel plainUnicode "" = LevelInfo :=
  ⟨(C25_parse_level plainUnicode "DeBuG").1 (by decide),
    (C25_parse_level plainUnicode "WARN").2.2.1 (by decide),
    (C25_parse_level plainUnicode "Error").2.2.2.1 (by decide),
    (C25_parse_level plainUnicode "verbose").2.2.2.2.2.1
      (plainUnicode_letters "debugwarno" (by decide)) (by decide) (by decide) (by decide),
    (C25_parse_level plainUnicode "").2.2.2.2.2.2.1⟩

/-- C26: for a call of `GetReport` that passes validation and for which the URL is built and
accepted by `http.NewRequestWithContext`, the transport is handed exactly one request, a
GET request for exactly the built URL with the headers of the client, and this whatever
transport the client has and whatever it answers: a success, a transport error, a status
other than 200, a body that does not decode or no records; the result is shaped from the
outcome of that one fetch. -/
theorem C26_single_request (lib : StdLib) (rt : ReportsTool) (args : ReportArgs)
    (sent : List Request) (apiURL : String)
    (hname : ReportType.IsValid args.ReportName = true)
    (hlimit : 0 ≤ args.Limit ∧ args.Limit ≤ 10000) (hpage : 0 ≤ args.Page)
    (hurl : rt.buildReportsURL lib args.ReportName (defaultedParams args) = .ok apiURL)
    (hreq : ∃ u, lib.urlParse apiURL = .ok u) :
    (requestFor rt apiURL).Method = "GET" ∧ (requestFor rt apiURL).URL = apiURL ∧
    ∀ transport : HTTPClientInterface,
      ((withTransport rt transport).GetReport lib args sent).sent =
        sent ++ [requestFor rt apiURL] ∧
      (withTransport rt transport).GetReport lib args sent =
        shapeResult args.ReportName
          ((withTransport rt transport).fetchReports lib apiURL sent) ∧
      ((withTransport rt transport).fetchReports lib apiURL sent).2 =
        sent ++ [requestFor rt apiURL] := by
  obtain ⟨u, hp⟩ := hreq
  refine ⟨(requestFor_method_url rt apiURL).1, (requestFor_method_url rt apiURL).2, ?_⟩
  intro transport
  have hurl2 : (withTransport rt transport).buildReportsURL lib args.ReportName
      (defaultedParams args) = .ok apiURL := hurl
  have hsame : requestFor (withTransport rt transport) apiURL = requestFor rt apiURL := rfl
  refine ⟨?_, getReport_of_fetch lib _ args sent apiURL hname hlimit hpage hurl2, ?_⟩
  · rw [(getReport_trace lib _ args sent apiURL hname hlimit hpage hurl2).1 u hp, hsame]
  · rw [fetchReports_trace lib _ apiURL sent u hp, hsame]

/-- C26 at the client of the examples: a refused connection, a status 404, no records, one
record and a body that does not decode each leave exactly the one request sent. -/
theorem C26_single_request_witness :
    ((sampleTool refusing).GetReport sampleLib { ReportName := "devices" } []).sent =
      [sampleRequest] ∧
    ((sampleTool (answering 404 notFoundBody)).GetReport sampleLib
      { ReportName := "devices" } []).sent = [sampleRequest] ∧
    ((sampleTool (answering 200 "[]")).GetReport sampleLib
      { ReportName := "devices" } []).sent = [sampleRequest] ∧
    ((sampleTool (answering 200 sampleBody)).GetReport sampleLib
      { ReportName := "devices" } []).sent = [sampleRequest] ∧
    ((sampleTool (answering 200 "not json")).GetReport sampleLib
      { ReportName := "devices" } []).sent = [sampleRequest] :=
  ⟨((C26_single_request sampleLib (sampleTool refusing) { ReportName := "devices" } []
      sampleURL (by decide) (by decide) (by decide) rfl ⟨_, rfl⟩).2.2 refusing).1,
    ((C26_single_request sampleLib (sampleTool refusing) { ReportName := "devices" } []
      sampleURL (by decide) (by decide) (by decide) rfl ⟨_, rfl⟩).2.2
        (answering 404 notFoundBody)).1,
    ((C26_single_request sampleLib (sampleTool refusing) { ReportName := "devices" } []
      sampleURL (by decide) (by decide) (by decide) rfl ⟨_, rfl⟩).2.2
        (answering 200 "[]")).1,
    ((C26_single_request sampleLib (sampleTool refusing) { ReportName := "devices" } []
      sampleURL (by decide) (by decide) (by decide) rfl ⟨_, rfl⟩).2.2
        (answering 200 sampleBody)).1,
    ((C26_single_request sampleLib (sampleTool refusing) { ReportName := "devices" } []
      sampleURL (by decide) (by decide) (by decide) rfl ⟨_, rfl⟩).2.2
        (answering 200 "not json")).1⟩

/-- C27: `Validate` reads only the limit and the page, so it returns the same for all values
of `After` and `Before`; for a valid report name and a valid limit and page, `GetReport`
passes validation whatever `After` and `Before` are and goes on to build the URL and to
fetch; and when the base URL parses, a non-empty `After` or `Before`, whatever its format,
is in the query of the URL that is built and requested, bound to exactly that text. -/
theorem C27_after_before_not_validated (lib : StdLib) (rt : ReportsTool) (args : ReportArgs)
    (sent : List Request)
    (hname : ReportType.IsValid args.ReportName = true)
    (hlimit : 0 ≤ args.Limit ∧ args.Limit ≤ 10000) (hpage : 0 ≤ args.Page) :
    (∀ (l p : Int) (a b a2 b2 : String),
      ReportParams.Validate { Limit := l, Page := p, After := a, Before := b } =
        ReportParams.Validate { Limit := l, Page := p, After := a2, Before := b2 }) ∧
    (∀ a b : String,
      (defaultedParams { args with After := a, Before := b }).Validate = none) ∧
    rt.GetReport lib args sent =
      (match rt.buildReportsURL lib args.ReportName (defaultedParams args) with
       | .error err =>
         { result := none, err := some ("failed to build API URL: " ++ err), sent := sent }
       | .ok apiURL => shapeResult args.ReportName (rt.fetchReports lib apiURL sent)) ∧
    (∀ u, lib.urlParse (rt.apiClient.BaseURL ++ "/reports/" ++ args.ReportName ++ "/data") =
        .ok u →
      rt.buildReportsURL lib args.ReportName (defaultedParams args) =
        .ok (URL.String lib { u with RawQuery := builtQuery lib u (defaultedParams args) }) ∧
      (∀ u2, lib.urlParse
          (URL.String lib { u with RawQuery := builtQuery lib u (defaultedParams args) }) =
            .ok u2 →
        (rt.GetReport lib args sent).sent =
          sent ++ [requestFor rt
            (URL.String lib
              { u with RawQuery := builtQuery lib u (defaultedParams args) })]) ∧
      (args.After ≠ "" →
        List.lookup (goBytes "after")
          (ParseQuery (builtQuery lib u (defaultedParams args))).1 =
            some [goBytes args.After]) ∧
      (args.Before ≠ "" →
        List.lookup (goBytes "before")
          (ParseQuery (builtQuery lib u (defaultedParams args))).1 =
            some [goBytes args.Before])) := by
  have hv : ∀ a b : String,
      (defaultedParams { args with After := a, Before := b }).Validate = none := by
    intro a b
    exact (validate_defaulted _).2 ⟨hlimit, hpage⟩
  refine ⟨fun _ _ _ _ _ _ => rfl, hv, ?_, ?_⟩
  · rw [getReport_valid_name lib rt args sent hname, (validate_defaulted args).2 ⟨hlimit, hpage⟩]
  · intro u hparse
    have hurl := buildReportsURL_of_parse lib rt args.ReportName (defaultedParams args) u hparse
    refine ⟨hurl, ?_, ?_, ?_⟩
    · intro u2 hp2
      exact (getReport_trace lib rt args sent _ hname hlimit hpage hurl).1 u2 hp2
    · intro ha
      exact builtQuery_set _ (defaultedParams args) "after" _ ascii_after
        (by rw [queryParam_after]; exact if_pos ha)
    · intro hb
      exact builtQuery_set _ (defaultedParams args) "before" _ ascii_before
        (by rw [queryParam_before]; exact if_pos hb)

/-- C27 at an `After` and a `Before` that are no dates: the call passes validation and the
query of the URL requested binds `after` and `before` to the two texts. -/
theorem C27_after_before_not_validated_witness :
    (defaultedParams
      { ReportName := "devices", After := "not a date", Before := "31/01/2024" }).Validate =
        none ∧
    List.lookup (goBytes "after")
        (ParseQuery "after=not+a+date&before=31%2F01%2F2024&limit=1000&page=1").1 =
      some [goBytes "not a date"] ∧
    List.lookup (goBytes "before")
        (ParseQuery "after=not+a+date&before=31%2F01%2F2024&limit=1000&page=1").1 =
      some [goBytes "31/01/2024"] ∧
    ((toolFor "https://api.example.com").GetReport plainLib
        { ReportName := "devices", After := "not a date", Before := "31/01/2024" } []).sent =
      [] ++ [requestFor (toolFor "https://api.example.com")
        ("https://api.example.com/reports/devices/data" ++
          "?after=not+a+date&before=31%2F01%2F2024&limit=1000&page=1")] :=
  ⟨(C27_after_before_not_validated plainLib (toolFor "https://api.example.com")
      { ReportName := "devices", After := "not a date", Before := "31/01/2024" } []
      (by decide) (by decide) (by decide)).2.1 "not a date" "31/01/2024",
    ((C27_after_before_not_validated plainLib (toolFor "https://api.example.com")
      { ReportName := "devices", After := "not a date", Before := "31/01/2024" } []
      (by decide) (by decide) (by decide)).2.2.2
      { Scheme := "https", Host := "api.example.com", Path := "/reports/devices/data" }
      rfl).2.2.1 (by decide),
    ((C27_after_before_not_validated plainLib (toolFor "https://api.example.com")
      { ReportName := "devices", After := "not a date", Before := "31/01/2024" } []
      (by decide) (by decide) (by decide)).2.2.2
      { Scheme := "https", Host := "api.example.com", Path := "/reports/devices/data" }
      rfl).2.2.2 (by decide),
    ((C27_after_before_not_validated plainLib (toolFor "https://api.example.com")
      { ReportName := "devices", After := "not a date", Before := "31/01/2024" } []
      (by decide) (by decide) (by decide)).2.2.2
      { Scheme := "https", Host := "api.example.com", Path := "/reports/devices/data" }
      rfl).2.1
      { Scheme := "https", Host := "api.example.com", Path := "/reports/devices/data",
        RawQuery := "after=not+a+date&before=31%2F01%2F2024&limit=1000&page=1" } rfl⟩

/-- C28, as stated, fails for a month supplied alone that the default text holds: with the
month `01` and no year, both are replaced by the defaults, the text is the one for 01/2024,
and the month supplied alone, `01`, does appear in it. -/
theorem C28_counterexample :
    (mapGet ([("month", "01")] : GoMap String) "year").getD "" = "" ∧
    (MonthlyReportPrompt [("month", "01")]).Messages =
      [{ Role := "user", Text := buildMonthlyReportText "01" "2024" }] ∧
    Contains (buildMonthlyReportText "01" "2024") "01" := by
  refine ⟨rfl, rfl, ?_⟩
  rw [monthlyText_eq]
  have h : Contains ("01" ++ "/" ++ "2024") "01" := by decide
  iterate 9 apply contains_append_left
  exact contains_append_right _ h

/-- C28, amended: `MonthlyReportPrompt` returns one message, of the user, whose text is
that of `buildMonthlyReportText`: a fixed text that holds `m/y` and, in each of its four
calls of `get_report` (traffic, devices, top-pages, countries), the date range
`after="y-m-01", before="y-m-31"`. When the month and the year given are both non-empty
they are `m` and `y`; when either one is empty both are replaced by the defaults `01` and
`2024`, so the result is the one for no arguments and does not depend on what was supplied
alone. -/
theorem C28_monthly_prompt (arguments : GoMap String) (m y : String)
    (hm : (mapGet arguments "month").getD "" = m)
    (hy : (mapGet arguments "year").getD "" = y) :
    (m ≠ "" → y ≠ "" →
      MonthlyReportPrompt arguments =
        { Description := "Generate comprehensive monthly analytics report",
          Messages := [{ Role := "user", Text := buildMonthlyReportText m y }] }) ∧
    (m = "" ∨ y = "" →
      MonthlyReportPrompt arguments =
        { Description := "Generate comprehensive monthly analytics report",
          Messages := [{ Role := "user", Text := buildMonthlyReportText "01" "2024" }] } ∧
      MonthlyReportPrompt arguments = MonthlyReportPrompt []) ∧
    (∀ month year : String,
      buildMonthlyReportText month year =
        "Generate a comprehensive monthly analytics report for " ++ (month ++ "/" ++ year) ++
          ". Please:\n\n1. Use " ++ monthlyCall "traffic" month year ++
          " for traffic data\n2. Use " ++ monthlyCall "devices" month year ++
          " for device breakdown\n3. Use " ++ monthlyCall "top-pages" month year ++
          " for content performance\n4. Use " ++ monthlyCall "countries" month year ++
          (" for geographic data\n\nCreate a comprehensive report with:\n" ++
          "- Executive summary of key metrics\n" ++
          "- Traffic trends and growth patterns\n" ++
          "- User demographics and behavior\n" ++
          "- Content performance analysis\n" ++
          "- Geographic distribution insights\n" ++
          "- Month-over-month comparisons (if available)\n" ++
          "- Recommendations for the next month") ∧
      Contains (buildMonthlyReportText month year) (month ++ "/" ++ year) ∧
      (∀ name ∈ ["traffic", "devices", "top-pages", "countries"],
        Contains (buildMonthlyReportText month year)
          ("get_report(\"" ++ name ++ "\", after=\"" ++ year ++ "-" ++ month ++
            "-01\", before=\"" ++ year ++ "-" ++ month ++ "-31\")"))) := by
  refine ⟨?_, ?_, ?_⟩
  · intro h1 h2
    unfold MonthlyReportPrompt
    simp only [hm, hy, h1, h2, or_self, ↓reduceIte]
  · intro h
    have hd : MonthlyReportPrompt arguments =
        { Description := "Generate comprehensive monthly analytics report",
          Messages := [{ Role := "user", Text := buildMonthlyReportText "01" "2024" }] } := by
      unfold MonthlyReportPrompt
      simp only [hm, hy, h, ↓reduceIte]
    exact ⟨hd, hd.trans rfl⟩
  · intro month year
    have hcall : ∀ name : String,
        "get_report(\"" ++ name ++ "\", after=\"" ++ year ++ "-" ++ month ++
            "-01\", before=\"" ++ year ++ "-" ++ month ++ "-31\")" =
          monthlyCall name month year := by
      intro name
      apply String.ext
      simp [monthlyCall, monthlyDateRange, String.data_append]
    refine ⟨monthlyText_eq month year, ?_, ?_⟩
    · rw [monthlyText_eq]
      iterate 9 apply contains_append_left
      exact contains_tail _ _
    · intro name hname
      rw [hcall, monthlyText_eq]
      simp only [List.mem_cons, List.mem_singleton, List.not_mem_nil, or_false] at hname
      rcases hname with rfl | rfl | rfl | rfl
      · iterate 7 apply contains_append_left
        exact contains_tail _ _
      · iterate 5 apply contains_append_left
        exact contains_tail _ _
      · iterate 3 apply contains_append_left
        exact contains_tail _ _
      · apply contains_append_left
        exact contains_tail _ _

/-- C28, amended, at the month `03` of the year `2024`, and at the month `12` supplied alone,
for which the result is the one for no arguments. -/
theorem C28_monthly_prompt_witness :
    MonthlyReportPrompt [("month", "03"), ("year", "2024")] =
      { Description := "Generate comprehensive monthly analytics report",
        Messages := [{ Role := "user", Text := buildMonthlyReportText "03" "2024" }] } ∧
    Contains (buildMonthlyReportText "03" "2024") ("03" ++ "/" ++ "2024") ∧
    Contains (buildMonthlyReportText "03" "2024")
      ("get_report(\"" ++ "devices" ++ "\", after=\"" ++ "2024" ++ "-" ++ "03" ++
        "-01\", before=\"" ++ "2024" ++ "-" ++ "03" ++ "-31\")") ∧
    MonthlyReportPrompt [("month", "12")] = MonthlyReportPrompt [] :=
  ⟨(C28_monthly_prompt [("month", "03"), ("year", "2024")] "03" "2024" rfl rfl).1
      (by decide) (by decide),
    ((C28_monthly_prompt [("month", "03"), ("year", "2024")] "03" "2024" rfl rfl).2.2
      "03" "2024").2.1,
    ((C28_monthly_prompt [("month", "03"), ("year", "2024")] "03" "2024" rfl rfl).2.2
      "03" "2024").2.2 "devices" (by decide),
    ((C28_monthly_prompt [("month", "12")] "12" "" rfl rfl).2.1 (Or.inr rfl)).2⟩

/-- C29: for every input that `GetReport` accepts, the defaults are applied before the URL
is built, so the limit encoded is between 1 and 10000 and the page at least 1; when the base
URL parses, the URL built is the text of the parsed URL, a `?` and the built query (then
the fragment of the base URL, if any), the query reads back without an error with `limit`
bound to the decimal text of that limit alone and `page` to that of the page alone, and the
only request that `GetReport` can hand to the transport is the one for this URL; `after`
and `before`, unless the base URL brings them, are in the query exactly when the argument
is not empty. -/
theorem C29_limit_page_always_sent (lib : StdLib) (rt : ReportsTool) (args : ReportArgs)
    (sent : List Request) (u : URL)
    (hname : ReportType.IsValid args.ReportName = true)
    (hlimit : 0 ≤ args.Limit ∧ args.Limit ≤ 10000) (hpage : 0 ≤ args.Page)
    (hparse : lib.urlParse
      (rt.apiClient.BaseURL ++ "/reports/" ++ args.ReportName ++ "/data") = .ok u) :
    (1 ≤ (defaultedParams args).Limit ∧ (defaultedParams args).Limit ≤ 10000 ∧
      1 ≤ (defaultedParams args).Page) ∧
    rt.buildReportsURL lib args.ReportName (defaultedParams args) =
      .ok (URL.String lib { u with RawQuery := "", ForceQuery := false, Fragment := "" } ++
        ("?" ++ builtQuery lib u (defaultedParams args)) ++
        (if u.Fragment ≠ "" then "#" ++ lib.escapedFragment u.Fragment u.RawFragment
          else "")) ∧
    (ParseQuery (builtQuery lib u (defaultedParams args))).2 = none ∧
    List.lookup (goBytes "limit") (ParseQuery (builtQuery lib u (defaultedParams args))).1 =
      some [goBytes (itoa (defaultedParams args).Limit)] ∧
    List.lookup (goBytes "page") (ParseQuery (builtQuery lib u (defaultedParams args))).1 =
      some [goBytes (itoa (defaultedParams args).Page)] ∧
    (∀ apiURL, rt.buildReportsURL lib args.ReportName (defaultedParams args) = .ok apiURL →
      (rt.GetReport lib args sent).sent = sent ∨
      (rt.GetReport lib args sent).sent = sent ++ [requestFor rt apiURL]) ∧
    (mapGet (u.Query lib) "after" = none →
      (List.lookup (goBytes "after")
        (ParseQuery (builtQuery lib u (defaultedParams args))).1 = none ↔ args.After = "")) ∧
    (mapGet (u.Query lib) "before" = none →
      (List.lookup (goBytes "before")
        (ParseQuery (builtQuery lib u (defaultedParams args))).1 = none ↔
          args.Before = "")) := by
  obtain ⟨hl1, hl2, hp1⟩ := defaulted_bounds args hlimit hpage
  have hql : (defaultedParams args).queryParam "limit" =
      some (itoa (defaultedParams args).Limit) := by
    rw [queryParam_limit]
    exact if_pos (by omega)
  have hqp : (defaultedParams args).queryParam "page" =
      some (itoa (defaultedParams args).Page) := by
    rw [queryParam_page]
    exact if_pos (by omega)
  refine ⟨⟨hl1, hl2, hp1⟩, ?_, (parseQuery_encode _ "limit" ascii_limit).1,
    builtQuery_set _ _ "limit" _ ascii_limit hql, builtQuery_set _ _ "page" _ ascii_page hqp,
    ?_, ?_, ?_⟩
  · rw [buildReportsURL_of_parse lib rt args.ReportName (defaultedParams args) u hparse,
      urlString_with_query]
    have hget : mapGet (reportQuery (u.Query lib) (defaultedParams args)) "limit" =
        some [itoa (defaultedParams args).Limit] := by
      rw [reportQuery_get, hql]
    have hne : Values.Encode (reportQuery (u.Query lib) (defaultedParams args)) ≠ "" :=
      encode_ne_empty _ "limit" _ [] ascii_limit hget
    rw [if_pos (Or.inr hne)]
    rfl
  · intro apiURL hurl
    cases hp : lib.urlParse apiURL with
    | error e =>
      left
      rw [(getReport_trace lib rt args sent apiURL hname hlimit hpage hurl).2 e hp]
    | ok u2 =>
      right
      exact (getReport_trace lib rt args sent apiURL hname hlimit hpage hurl).1 u2 hp
  · intro h0
    have := builtQuery_lookup (u.Query lib) (defaultedParams args) "after" ascii_after h0
    unfold builtQuery
    rw [this, queryParam_after]
    show Option.map _ (if args.After ≠ "" then some args.After else none) = none ↔ _
    by_cases h : args.After = "" <;> simp [h]
  · intro h0
    have := builtQuery_lookup (u.Query lib) (defaultedParams args) "before" ascii_before h0
    unfold builtQuery
    rw [this, queryParam_before]
    show Option.map _ (if args.Before ≠ "" then some args.Before else none) = none ↔ _
    by_cases h : args.Before = "" <;> simp [h]

/-- C29 at the call with the report name alone: the URL requested holds `limit=1000` and
`page=1`, and neither `after` nor `before`. -/
theorem C29_limit_page_always_sent_witness :
    (toolFor "https://api.example.com").buildReportsURL plainLib "devices"
        (defaultedParams { ReportName := "devices" }) =
      .ok ("https://api.example.com/reports/devices/data" ++ ("?" ++ "limit=1000&page=1") ++
        "") ∧
    List.lookup (goBytes "limit") (ParseQuery "limit=1000&page=1").1 =
      some [goBytes "1000"] ∧
    List.lookup (goBytes "page") (ParseQuery "limit=1000&page=1").1 = some [goBytes "1"] ∧
    List.lookup (goBytes "after") (ParseQuery "limit=1000&page=1").1 = none :=
  ⟨(C29_limit_page_always_sent plainLib (toolFor "https://api.example.com")
      { ReportName := "devices" } []
      { Scheme := "https", Host := "api.example.com", Path := "/reports/devices/data" }
      (by decide) (by decide) (by decide) rfl).2.1,
    (C29_limit_page_always_sent plainLib (toolFor "https://api.example.com")
      { ReportName := "devices" } []
      { Scheme := "https", Host := "api.example.com", Path := "/reports/devices/data" }
      (by decide) (by decide) (by decide) rfl).2.2.2.1,
    (C29_limit_page_always_sent plainLib (toolFor "https://api.example.com")
      { ReportName := "devices" } []
      { Scheme := "https", Host := "api.example.com", Path := "/reports/devices/data" }
      (by decide) (by decide) (by decide) rfl).2.2.2.2.1,
    ((C29_limit_page_always_sent plainLib (toolFor "https://api.example.com")
      { ReportName := "devices" } []
      { Scheme := "https", Host := "api.example.com", Path := "/reports/devices/data" }
      (by decide) (by decide) (by decide) rfl).2.2.2.2.2.2.1 rfl).2 rfl⟩

/-- C30, at the failing input: a configuration with the log format `TEXT` passes `Validate`,
which reads the format in lower case, and the logger that `main` builds for it has the JSON
handler, because `main` compares the format with `text` as it is written; `main` chooses
the text handler exactly when the format is `text` in lower case. -/
theorem C30_upper_case_text_gets_json (lib : StdLib) (uni : Unicode) :
    Config.Validate lib uni { LogLevel := "info", LogFormat := "TEXT" } = none ∧
    ToLower uni "TEXT" = "text" ∧
    (mainLogger uni { LogLevel := "info", LogFormat := "TEXT" }).Handler = HandlerKind.json ∧
    (∀ cfg : Config, (mainLogger uni cfg).Handler = HandlerKind.text ↔
      cfg.LogFormat = "text") := by
  have ht : ToLower uni "TEXT" = "text" := toLower_of_ascii_fold uni "TEXT" "text"
    (by decide) (by decide)
  have hi : ToLower uni "info" = "info" := toLower_of_ascii_fold uni "info" "info"
    (by decide) (by decide)
  refine ⟨?_, ht, rfl, ?_⟩
  · simp [Config.Validate, ht, hi]
  · intro cfg
    by_cases h : cfg.LogFormat = "text" <;> simp [mainLogger, New, h]

end GoMcp
